import Mathlib

/-!
# Ikemen-GO animations: a shallow embedding of `src/anim.go`

Conventions of the embedding.

* A Go `string` is a `List Char` (the text is taken to be valid UTF-8, so every
  byte test of the source at an ASCII position is the same test on the
  character at that position; `strings.ToLower` is the ASCII lower-casing).
* Machine integers are `Int`; a conversion or an arithmetic operation that can
  leave its type is followed by the two's-complement reduction of that type
  (`int16`, `int32`, `goInt`).  Slice lengths are taken to fit their `int32`.
* `Atoi` and `IsNumeric` are defined outside `src/`; they are parameters of the
  functions that call them.  `decAtoi` is a plain decimal reader used only to
  evaluate concrete inputs.
* A `float32` field is kept symbolically (`F32`): either an integer constant of
  the source or the token handed to `Atof`.  A collision rectangle is kept as
  the four integers that the source converts to `float32`.
* A run-time panic of the source (index out of range, negative `make` length)
  is the result `Outcome.panic`.
* A slice is the list of its elements.  For the frame table of an animation the
  field `nilFrames` tells the `nil` slice from an empty slice that is not `nil`:
  `newAnimation` starts with the `nil` slice and `append` gives a slice that is
  not `nil`.
* The `float32` values that `UpdateSprite` and `DrawList.add` compute are kept as
  symbolic expressions (`Flt`); a conversion to `byte` and a comparison with 0 of
  such a value are parameters.
* `SectionName` and `sys.brightness`, `sys.frameSkip` are defined outside `src/`;
  they are parameters.  The map `AnimationTable` is the list of its keys with the
  animations they point to: a key is assigned once, so a pointer into the table is
  its key.
-/

namespace Ikemen

/-! ## Machine integers -/

/-- Two's-complement reduction to `int16` (the conversion `int16(x)`). -/
def int16 (x : Int) : Int := (x + 32768) % 65536 - 32768

/-- Two's-complement reduction to `int32`. -/
def int32 (x : Int) : Int := (x + 2147483648) % 4294967296 - 2147483648

/-- Two's-complement reduction to Go's `int` (64 bits). -/
def goInt (x : Int) : Int :=
  (x + 9223372036854775808) % 18446744073709551616 - 9223372036854775808

/-! ## The `strings` functions used by the parser -/

/-- The predicate `unicode.IsSpace`. -/
def isSpace (c : Char) : Bool :=
  let n := c.toNat
  (9 ≤ n && n ≤ 13) || n == 32 || n == 0x85 || n == 0xA0 || n == 0x1680 ||
  (0x2000 ≤ n && n ≤ 0x200a) || n == 0x2028 || n == 0x2029 || n == 0x202f ||
  n == 0x205f || n == 0x3000

/-- The test `'0' <= c && c <= '9'`. -/
def isDigit (c : Char) : Bool := 48 ≤ c.toNat && c.toNat ≤ 57

/-- The function `strings.TrimSpace`. -/
def TrimSpace (s : List Char) : List Char :=
  (s.dropWhile isSpace).rdropWhile isSpace

/-- The function `strings.ToLower` on ASCII text. -/
def ToLower (s : List Char) : List Char := s.map Char.toLower

/-- Prepend a character to the first piece of a split. -/
def consHead (c : Char) : List (List Char) → List (List Char)
  | [] => [[c]]
  | h :: t => (c :: h) :: t

/-- The function `strings.Split(s, sep)` for a one-character separator. -/
def Split (sep : Char) : List Char → List (List Char)
  | [] => [[]]
  | c :: cs => if c = sep then [] :: Split sep cs else consHead c (Split sep cs)

/-- The function `strings.SplitN(s, sep, n)` for a one-character separator:
at most `n` pieces, the last one holding the unsplit rest. -/
def SplitN (sep : Char) : Nat → List Char → List (List Char)
  | 0, _ => []
  | 1, s => [s]
  | _ + 2, [] => [[]]
  | n + 2, c :: cs =>
    if c = sep then [] :: SplitN sep (n + 1) cs else consHead c (SplitN sep (n + 2) cs)

/-- The function `strings.Index(s, sep)` for a one-character `sep`: the position of
its first occurrence, or `-1`. -/
def Index (sep : Char) : List Char → Int
  | [] => -1
  | c :: cs => if c = sep then 0 else
      let r := Index sep cs
      if r < 0 then -1 else r + 1

/-- The function `strings.IndexAny(s, chars)`: the position of the first character of
`s` that occurs in `chars`, or `-1`. -/
def IndexAny (chars : List Char) : List Char → Int
  | [] => -1
  | c :: cs => if c ∈ chars then 0 else
      let r := IndexAny chars cs
      if r < 0 then -1 else r + 1

/-- Modelled from the spec: `SplitAndTrim` is defined outside `src/`; it splits on the
separator and trims the white space around every piece (the alpha field is read as
the "first matching token"). -/
def SplitAndTrim (str : List Char) (sep : Char) : List (List Char) :=
  (Split sep str).map TrimSpace

/-- Modelled from the spec: `Atoi` is defined outside `src/`.  This reader takes an
optional sign and the leading decimal digits of the trimmed text ("signed integer");
it only serves to evaluate the parser on concrete lines. -/
def decAtoi (s : List Char) : Int :=
  let digits : List Char → Int := fun t =>
    (t.takeWhile isDigit).foldl (fun n c => n * 10 + ((c.toNat : Int) - 48)) 0
  match TrimSpace s with
  | '-' :: t => - digits t
  | '+' :: t => digits t
  | t => digits t

/-! ## Frames -/

/-- A `float32` value of a frame, kept symbolically: an integer constant of the
source, or `float32(Atof(tok))` for the token `tok`. -/
inductive F32 where
  | const (n : Int)
  | parsed (tok : List Char)
  deriving DecidableEq, Repr

/-- The record `AnimFrame`. -/
structure AnimFrame where
  Time : Int
  Group : Int
  Number : Int
  Xoffset : Int
  Yoffset : Int
  SrcAlpha : Int
  DstAlpha : Int
  Hscale : Int
  Vscale : Int
  Xscale : F32
  Yscale : F32
  Angle : F32
  Clsn : List (List Int)
  deriving DecidableEq, Repr

/-- The constructor `newAnimFrame`. -/
def newAnimFrame : AnimFrame :=
  { Time := -1, Group := -1, Number := 0, Xoffset := 0, Yoffset := 0,
    SrcAlpha := 255, DstAlpha := 0, Hscale := 1, Vscale := 1,
    Xscale := F32.const 1, Yscale := F32.const 1, Angle := F32.const 0, Clsn := [] }

/-- The loop of `ReadAnimFrame` over the characters of the flip field. -/
def readFlip (af : AnimFrame) : List Char → AnimFrame
  | [] => af
  | c :: cs =>
    if c = 'H' ∨ c = 'h' then
      readFlip { af with Hscale := -1, Xoffset := int16 (af.Xoffset * -1) } cs
    else if c = 'V' ∨ c = 'v' then
      readFlip { af with Vscale := -1, Yoffset := int16 (af.Yoffset * -1) } cs
    else readFlip af cs

/-- The digit loops of `ReadAnimFrame`:
`for ; i < len(a) && a[i] >= '0' && a[i] <= '9'; i++ { alp = alp*10 + int(a[i]-'0') }`,
run on the text from position `i` on; returns `alp` and the text left at the final `i`. -/
def readDigits : List Char → Int → Int × List Char
  | [], alp => (alp, [])
  | c :: cs, alp =>
    if isDigit c then readDigits cs (goInt (alp * 10 + ((c.toNat : Int) - 48)))
    else (alp, c :: cs)

/-- The clamp `alp &= 0x3fff; if alp >= 255 { 255 } else { byte(alp) }`; the mask keeps
the low 14 bits, which is the remainder modulo `16384`. -/
def clampAlpha (alp : Int) : Int :=
  let alp := alp % 16384
  if alp ≥ 255 then 255 else alp

/-- The alpha `switch` of `ReadAnimFrame` on the lower-cased token `a`. -/
def readAlpha (a : List Char) (af : AnimFrame) : AnimFrame :=
  if a = ['a', '1'] then { af with SrcAlpha := 255, DstAlpha := 128 }
  else if a.length > 0 ∧ a.head? = some 's' then { af with SrcAlpha := 1, DstAlpha := 255 }
  else if a.length ≥ 2 ∧ a.take 2 = ['a', 's'] then
    if a.length > 2 ∧ (a.drop 2).head?.any isDigit then
      let r := readDigits (a.drop 2) 0
      let af := { af with SrcAlpha := clampAlpha r.1 }
      match r.2 with
      | 'd' :: rest =>
        if rest.head?.any isDigit then
          let r2 := readDigits rest 0
          let af := { af with DstAlpha := clampAlpha r2.1 }
          if af.SrcAlpha = 1 ∧ af.DstAlpha = 255 then { af with SrcAlpha := 0 } else af
        else af
      | _ => af
    else af
  else if a.length > 0 ∧ a.head? = some 'a' then { af with SrcAlpha := 255, DstAlpha := 255 }
  else af

/-- The token `a` of `ReadAnimFrame`: the alpha field from its first `A`/`S`
character on, first comma-separated piece, trimmed and lower-cased. -/
def alphaToken (field : List Char) : List Char :=
  let ia := IndexAny ['A', 'S', 'a', 's'] field
  let field := if ia ≥ 0 then field.drop ia.toNat else field
  ToLower ((SplitAndTrim field ',').headD [])

section Parser

variable (Atoi : List Char → Int) (IsNumeric : List Char → Bool)

/-- The function `ReadAnimFrame`; `none` is the `nil` result. -/
def ReadAnimFrame (line : List Char) : Option AnimFrame :=
  match line with
  | [] => none
  | c0 :: _ =>
    if (c0 < '0' ∨ '9' < c0) ∧ c0 ≠ '-' then none
    else
      let ary := SplitN ',' 10 line
      if ary.length < 5 then none
      else
        let af := { newAnimFrame with
          Group := int16 (Atoi (ary.getD 0 [])),
          Number := int16 (Atoi (ary.getD 1 [])),
          Xoffset := int16 (Atoi (ary.getD 2 [])),
          Yoffset := int16 (Atoi (ary.getD 3 [])),
          Time := Atoi (ary.getD 4 []) }
        if ary.length < 6 then some af
        else
          let af := readFlip af (ary.getD 5 [])
          if ary.length < 7 then some af
          else
            let af := readAlpha (alphaToken (ary.getD 6 [])) af
            if ary.length < 8 then some af
            else
              let af := if IsNumeric (ary.getD 7 []) then
                { af with Xscale := F32.parsed (ary.getD 7 []) } else af
              if ary.length < 9 then some af
              else
                let af := if IsNumeric (ary.getD 8 []) then
                  { af with Yscale := F32.parsed (ary.getD 8 []) } else af
                if ary.length < 10 then some af
                else
                  let af := if IsNumeric (ary.getD 9 []) then
                    { af with Angle := F32.parsed (ary.getD 9 []) } else af
                  some af

end Parser

/-! ## Animations -/

/-- The record `Animation`: the frame table and the integer and boolean playback
fields (the sprite, palette, remap and `float32` snapshot fields play no part in the
parser).  The slice `frames` is the list of its elements; `nilFrames` tells, for a
slice without elements, the `nil` slice from an empty slice that is not `nil`.  A
slice with elements is never `nil`, and `nilFrames` is not read for it. -/
structure Animation where
  frames : List AnimFrame
  loopstart : Int
  interpolate_offset : List Int
  interpolate_scale : List Int
  interpolate_angle : List Int
  interpolate_blend : List Int
  current : Int
  drawidx : Int
  time : Int
  sumtime : Int
  totaltime : Int
  looptime : Int
  nazotime : Int
  mask : Int
  srcAlpha : Int
  dstAlpha : Int
  newframe : Bool
  loopend : Bool
  nilFrames : Bool
  deriving DecidableEq, Repr

/-- The constructor `newAnimation`: it leaves `frames` unset, which is the `nil`
slice. -/
def newAnimation : Animation :=
  { frames := [], loopstart := 0, interpolate_offset := [], interpolate_scale := [],
    interpolate_angle := [], interpolate_blend := [], current := 0, drawidx := 0,
    time := 0, sumtime := 0, totaltime := 0, looptime := 0, nazotime := 0,
    mask := -1, srcAlpha := -1, dstAlpha := 0, newframe := true, loopend := false,
    nilFrames := true }

/-- The result of a run of the source: a value, a run-time panic, or the exhaustion of
the iteration budget of the embedding (shown below never to happen). -/
inductive Outcome (α : Type) where
  | ok (val : α)
  | panic
  | fuel
  deriving DecidableEq, Repr

/-- The locals of `ReadAnimation` together with the animation under construction. -/
structure ScanState where
  a : Animation
  ols : Int
  clsn1 : List Int
  clsn1d : List Int
  clsn2 : List Int
  clsn2d : List Int
  def1 : Bool
  def2 : Bool
  deriving DecidableEq, Repr

/-- The expression `strings.ToLower(strings.TrimSpace(strings.SplitN(raw, ";", 2)[0]))`. -/
def normLine (raw : List Char) : List Char :=
  ToLower (TrimSpace ((SplitN ';' 2 raw).headD []))

/-- The test `len(raw) > 0 && raw[0] == '['` that ends the block. -/
def sectionStart (raw : List Char) : Bool :=
  decide (raw.length > 0) && (raw.head? == some '[')

/-- The test `len(line) >= n && line[:n] == p` for a text `p` of length `n`. -/
def hasPrefix (p line : List Char) : Bool :=
  decide (line.length ≥ p.length) && (line.take p.length == p)

/-- The slice store `xs[i] = v`; `none` when the index is out of range. -/
def setIdx (xs : List Int) (i : Int) (v : Int) : Option (List Int) :=
  if 0 ≤ i ∧ i < xs.length then some (xs.set i.toNat v) else none

/-- The assignment `clsn[n*4], clsn[n*4+1], clsn[n*4+2], clsn[n*4+3] = l, t, r, b`
with `n` an `int32`. -/
def storeRect (clsn : List Int) (n l t r b : Int) : Option (List Int) :=
  (setIdx clsn (int32 (n * 4)) l).bind fun c1 =>
  (setIdx c1 (int32 (int32 (n * 4) + 1)) t).bind fun c2 =>
  (setIdx c2 (int32 (int32 (n * 4) + 2)) r).bind fun c3 =>
  setIdx c3 (int32 (int32 (n * 4) + 3)) b

/-- The allocation `make([]float32, size*4)` with `size` an `int32`; `none` when the
product wraps to a negative length. -/
def makeClsn (size : Int) : Option (List Int) :=
  if int32 (size * 4) < 0 then none else some (List.replicate (int32 (size * 4)).toNat 0)

section Parser

variable (Atoi : List Char → Int) (IsNumeric : List Char → Bool)

/-- The rectangle loop of `ReadAnimation`,
`for n := int32(0); n < size && *i < len(lines); n++ { ... }`.
The first argument is the number `size - n` of iterations still allowed by `n < size`;
the result is the final `*i` and the filled slice, `none` on a panic. -/
def clsnRects (lines : List (List Char)) :
    Nat → Int → Nat → List Int → Option (Nat × List Int)
  | 0, _, i, clsn => some (i, clsn)
  | k + 1, n, i, clsn =>
    if i < lines.length then
      let line := normLine (lines.getD i [])
      if line.length = 0 then clsnRects lines k (n + 1) i clsn
      else if line.length < 4 ∨ line.take 4 ≠ ['c', 'l', 's', 'n'] then some (i, clsn)
      else
        let ii := Index '=' line
        if ii < 0 then some (i, clsn)
        else
          let ary := Split ',' (line.drop (ii.toNat + 1))
          if ary.length < 4 then some (i, clsn)
          else
            let l := Atoi (ary.getD 0 [])
            let t := Atoi (ary.getD 1 [])
            let r := Atoi (ary.getD 2 [])
            let b := Atoi (ary.getD 3 [])
            let l1 := if l > r then r else l
            let r1 := if l > r then l else r
            let t1 := if t > b then b else t
            let b1 := if t > b then t else b
            match storeRect clsn n l1 t1 r1 b1 with
            | none => none
            | some clsn1 => clsnRects lines k (n + 1) (i + 1) clsn1
    else some (i, clsn)

/-- The `clsn` case of the `switch` of `ReadAnimation` on the normalised line at
index `i`.  Returns `*i` and the locals at the end of the case.  The slice written by
the rectangle loop is the one just allocated, which `clsn1` (`clsn2`) and, for a
`default` declaration, `clsn1d` (`clsn2d`) refer to: they receive the filled slice. -/
def clsnCase (lines : List (List Char)) (line : List Char) (i : Nat) (s : ScanState) :
    Outcome (Nat × ScanState) :=
  let ii := Index ':' line
  if ii < 0 then .ok (i, s)
  else
    let size := Atoi (line.drop (ii.toNat + 1))
    if size < 0 then .ok (i, s)
    else
      let isDefault := hasPrefix ['d', 'e', 'f', 'a', 'u', 'l', 't'] (line.drop 5)
      if line.getD 4 ' ' = '1' then
        match makeClsn size with
        | none => .panic
        | some fresh =>
          if size = 0 then
            .ok (i, { s with clsn1 := fresh,
                             clsn1d := if isDefault then fresh else s.clsn1d, def1 := false })
          else
            match clsnRects Atoi lines size.toNat 0 (i + 1) fresh with
            | none => .panic
            | some (j, filled) =>
              .ok (j - 1, { s with clsn1 := filled,
                                   clsn1d := if isDefault then filled else s.clsn1d,
                                   def1 := false })
      else if line.getD 4 ' ' = '2' then
        match makeClsn size with
        | none => .panic
        | some fresh =>
          if size = 0 then
            .ok (i, { s with clsn2 := fresh,
                             clsn2d := if isDefault then fresh else s.clsn2d, def2 := false })
          else
            match clsnRects Atoi lines size.toNat 0 (i + 1) fresh with
            | none => .panic
            | some (j, filled) =>
              .ok (j - 1, { s with clsn2 := filled,
                                   clsn2d := if isDefault then filled else s.clsn2d,
                                   def2 := false })
      else .ok (i, s)

/-- The `af != nil` case of the `switch` of `ReadAnimation`. -/
def frameCase (af : AnimFrame) (s : ScanState) : ScanState :=
  let clsn1 := if s.def1 then s.clsn1d else s.clsn1
  let clsn2 := if s.def2 then s.clsn2d else s.clsn2
  let af1 :=
    if clsn1.length > 0 ∨ clsn2.length > 0 then
      let c := if af.Clsn.length < 2 then [[], []] else af.Clsn
      { af with Clsn := (c.set 0 clsn1).set 1 clsn2 }
    else af
  { s with a := { s.a with frames := s.a.frames ++ [af1], nilFrames := false },
           ols := s.a.loopstart, clsn1 := clsn1, clsn2 := clsn2, def1 := true, def2 := true }

/-- The body of the line loop of `ReadAnimation` after the `[` test: the `switch` on
the normalised line at index `i`.  Returns `*i` and the locals before the `(*i)++`
of the loop. -/
def scanStep (lines : List (List Char)) (i : Nat) (s : ScanState) :
    Outcome (Nat × ScanState) :=
  let line := normLine (lines.getD i [])
  match ReadAnimFrame Atoi IsNumeric line with
  | some af => .ok (i, frameCase af s)
  | none =>
    if hasPrefix "loopstart".toList line then
      .ok (i, { s with a := { s.a with loopstart := s.a.frames.length } })
    else if hasPrefix "interpolate offset".toList line then
      .ok (i, { s with a := { s.a with
        interpolate_offset := s.a.interpolate_offset ++ [(s.a.frames.length : Int)] } })
    else if hasPrefix "interpolate scale".toList line then
      .ok (i, { s with a := { s.a with
        interpolate_scale := s.a.interpolate_scale ++ [(s.a.frames.length : Int)] } })
    else if hasPrefix "interpolate angle".toList line then
      .ok (i, { s with a := { s.a with
        interpolate_angle := s.a.interpolate_angle ++ [(s.a.frames.length : Int)] } })
    else if hasPrefix "interpolate blend".toList line then
      .ok (i, { s with a := { s.a with
        interpolate_blend := s.a.interpolate_blend ++ [(s.a.frames.length : Int)] } })
    else if line.length ≥ 5 ∧ line.take 4 = ['c', 'l', 's', 'n'] then
      clsnCase Atoi lines line i s
    else .ok (i, s)

/-- The line loop of `ReadAnimation`, `for ; *i < len(lines); (*i)++ { ... }`.  The
first argument bounds the number of iterations. -/
def scanLoop (lines : List (List Char)) : Nat → Nat → ScanState → Outcome (Nat × ScanState)
  | 0, i, s => if i < lines.length then .fuel else .ok (i, s)
  | fuel + 1, i, s =>
    if i < lines.length then
      if sectionStart (lines.getD i []) then .ok (i, s)
      else
        match scanStep Atoi IsNumeric lines i s with
        | .ok (j, s1) => scanLoop lines fuel (j + 1) s1
        | .panic => .panic
        | .fuel => .fuel
    else .ok (i, s)

end Parser

/-- The running totals of the last loop of `ReadAnimation`. -/
structure Totals where
  totaltime : Int
  looptime : Int
  nazotime : Int
  tmp : Int
  deriving DecidableEq, Repr

/-- The loop `for i, f := range a.frames { ... }` of `ReadAnimation`, from index `i`. -/
def totalsLoop (loopstart : Int) : List AnimFrame → Int → Totals → Totals
  | [], _, t => t
  | f :: fs, i, t =>
    let t1 := if f.Time = -1 then
      { t with totaltime := 0, looptime := int32 (-t.tmp), nazotime := 0 } else t
    let t2 := { t1 with totaltime := int32 (t1.totaltime + f.Time) }
    let t3 := if i < loopstart then
      { t2 with nazotime := int32 (t2.nazotime + f.Time), tmp := int32 (t2.tmp + f.Time) }
      else { t2 with looptime := int32 (t2.looptime + f.Time) }
    totalsLoop loopstart fs (i + 1) t3

/-- The statements of `ReadAnimation` after the line loop. -/
def finishAnimation (s : ScanState) : Animation :=
  let a := s.a
  let a := if a.loopstart ≥ a.frames.length then { a with loopstart := s.ols } else a
  if a.frames.length = 0 then a
  else if (a.frames.getLast?.map fun f => f.Time) = some (-1) then { a with totaltime := -1 }
  else
    let t := totalsLoop a.loopstart a.frames 0
      { totaltime := a.totaltime, looptime := a.looptime, nazotime := a.nazotime, tmp := 0 }
    let a := { a with totaltime := t.totaltime, looptime := t.looptime, nazotime := t.nazotime }
    if a.totaltime = -1 then { a with nazotime := 0 } else a

/-- The locals of `ReadAnimation` before the line loop (`a.mask = 0`). -/
def initScan : ScanState :=
  { a := { newAnimation with mask := 0 }, ols := 0, clsn1 := [], clsn1d := [],
    clsn2 := [], clsn2d := [], def1 := true, def2 := true }

/-- The function `ReadAnimation`: the final value of `*i` and the animation. -/
def ReadAnimation (Atoi : List Char → Int) (IsNumeric : List Char → Bool)
    (lines : List (List Char)) (i : Nat) : Outcome (Nat × Animation) :=
  match scanLoop Atoi IsNumeric lines (lines.length - i) i initScan with
  | .ok (j, s) => .ok (j, finishAnimation s)
  | .panic => .panic
  | .fuel => .fuel

/-! ## Playback -/

/-- The method `AnimFrame.Clsn1`. -/
def AnimFrame.Clsn1 (af : AnimFrame) : List Int :=
  if af.Clsn.length > 0 then af.Clsn.getD 0 [] else []

/-- The method `AnimFrame.Clsn2`. -/
def AnimFrame.Clsn2 (af : AnimFrame) : List Int :=
  if af.Clsn.length > 1 then af.Clsn.getD 1 [] else []

/-- Modelled from the spec: `Max` is defined outside `src/`; it is the larger of its
arguments ("each duration counted as max(0, Time)"). -/
def Max (x y : Int) : Int := if x ≥ y then x else y

/-- The method `Animation.Reset` (the sprite pointer is not modelled). -/
def Animation.Reset (a : Animation) : Animation :=
  { a with current := 0, drawidx := 0, time := 0, sumtime := 0, newframe := true,
           loopend := false }

/-- The indexing `a.frames[i]` with an `int32` index; `none` when it is out of range. -/
def Animation.frameAt (a : Animation) (i : Int) : Option AnimFrame :=
  if 0 ≤ i ∧ i < a.frames.length then a.frames.get? i.toNat else none

/-- The method `Animation.CurrentFrame`: `nil` (here `none`) for a table without
frames, else the frame `a.frames[a.current]` of `curFrame`. -/
def Animation.CurrentFrame (a : Animation) : Outcome (Option AnimFrame) :=
  if a.frames.length = 0 then .ok none
  else
    match a.frameAt a.current with
    | none => .panic
    | some f => .ok (some f)

/-- The method `Animation.AnimTime`. -/
def Animation.AnimTime (a : Animation) : Int := int32 (a.sumtime - a.totaltime)

/-- The loop `for i := int32(0); i < e; i++ { t -= Max(0, a.frames[i].Time) }` of
`AnimElemTime`; the first argument is the number `e - i` of iterations left. -/
def elemTimeLoop (a : Animation) : Nat → Int → Int → Outcome Int
  | 0, _, t => .ok t
  | k + 1, i, t =>
    match a.frameAt i with
    | none => .panic
    | some f => elemTimeLoop a k (int32 (i + 1)) (int32 (t - Max 0 f.Time))

/-- The method `Animation.AnimElemTime`. -/
def Animation.AnimElemTime (a : Animation) (elem : Int) : Outcome Int :=
  if elem > a.frames.length then
    let t := a.AnimTime
    .ok (if t > 0 then 0 else t)
  else
    let e := int32 (Max 0 elem - 1)
    elemTimeLoop a e.toNat 0 a.sumtime

/-- The loop of `AnimElemNo` for `time <= 0`, on the locals `i`, `time`, `oldt` and
`loop`; the first argument bounds the number of iterations. -/
def elemNoBack (a : Animation) : Nat → Int → Int → Int → Bool → Outcome Int
  | 0, _, _, _, _ => .fuel
  | k + 1, i, time, oldt, loop =>
    if time ≥ 0 then .ok (int32 (i + 1))
    else
      let i1 := int32 (i - 1)
      if i1 < 0 ∨ (a.current ≥ a.loopstart ∧ i1 < a.loopstart) then
        if time = oldt then .ok (a.frames.length : Int)
        else
          let i2 := int32 ((a.frames.length : Int) - 1)
          match a.frameAt i2 with
          | none => .panic
          | some f =>
            let time1 := int32 (time + Max 0 f.Time)
            if i2 = int32 ((a.frames.length : Int) - 1) ∧ f.Time = -1 then .ok (int32 (i2 + 1))
            else elemNoBack a k i2 time1 time true
      else
        match a.frameAt i1 with
        | none => .panic
        | some f =>
          let time1 := int32 (time + Max 0 f.Time)
          if loop = true ∧ i1 = int32 ((a.frames.length : Int) - 1) ∧ f.Time = -1 then
            .ok (int32 (i1 + 1))
          else elemNoBack a k i1 time1 oldt loop

/-- The loop of `AnimElemNo` for `time > 0`, on the locals `i`, `time` and `oldt`; the
first argument bounds the number of iterations. -/
def elemNoFwd (a : Animation) : Nat → Int → Int → Int → Outcome Int
  | 0, _, _, _ => .fuel
  | k + 1, i, time, oldt =>
    match a.frameAt i with
    | none => .panic
    | some f =>
      let time1 := int32 (time - Max 0 f.Time)
      if time1 < 0 ∨ (i = int32 ((a.frames.length : Int) - 1) ∧ f.Time = -1) then
        .ok (int32 (i + 1))
      else
        let i1 := int32 (i + 1)
        if i1 ≥ (a.frames.length : Int) then
          if time1 = oldt then .ok (a.frames.length : Int)
          else elemNoFwd a k a.loopstart time1 time1
        else elemNoFwd a k i1 time1 oldt

/-- The iteration budget given to the loops of `AnimElemNo`: the local `time` is an
`int32`, and between two changes of it the index `i` makes at most two passes over the
frames. -/
def elemNoFuel (a : Animation) : Nat := 2147483650 * (a.frames.length + 2)

/-- The method `Animation.AnimElemNo`. -/
def Animation.AnimElemNo (a : Animation) (time : Int) : Outcome Int :=
  if a.frames.length > 0 then
    if time ≤ 0 then
      elemNoBack a (elemNoFuel a) a.current (int32 (time + a.time)) 0 false
    else
      elemNoFwd a (elemNoFuel a) a.current (int32 (time + a.time)) 0
  else .ok (a.frames.length : Int)

/-- The inner loop of `animSeek`,
`for int(a.current) < len(a.frames) && a.curFrame().Time <= 0 { ... a.current++ }`, on
`a.current` (not negative here); the first argument is the number
`len(a.frames) - a.current` of iterations left before `a.current` reaches the end. -/
def seekLoop (a : Animation) : Nat → Int → Int
  | 0, cur => cur
  | k + 1, cur =>
    match a.frameAt cur with
    | none => cur
    | some f =>
      if f.Time ≤ 0 then
        if cur = (a.frames.length : Int) - 1 ∧ f.Time = -1 then cur
        else seekLoop a k (int32 (cur + 1))
      else cur

/-- The method `Animation.animSeek`.  The outer loop runs at most twice: its second
turn starts from the same `elem`. -/
def Animation.animSeek (a : Animation) (elem : Int) : Animation :=
  let elem := if elem < 0 then 0 else elem
  let c1 := seekLoop a ((a.frames.length : Int) - elem).toNat elem
  let c :=
    if c1 < (a.frames.length : Int) then c1
    else
      let c2 := seekLoop a ((a.frames.length : Int) - elem).toNat elem
      if c2 < (a.frames.length : Int) then c2 else int32 ((a.frames.length : Int) - 1)
  let c := if c < 0 then 0 else if c ≥ (a.frames.length : Int) then
    int32 ((a.frames.length : Int) - 1) else c
  { a with current := c }

/-- The frame accesses `a.frames[nextDrawidx]` of the interpolation loops of
`UpdateSprite` for the drawn frame `f`: whether one of them is made. -/
def interpolates (a : Animation) (f : AnimFrame) (nextDrawidx : Int) : Bool :=
  decide (f.Time ≥ 0) &&
    (decide (nextDrawidx ∈ a.interpolate_offset) || decide (nextDrawidx ∈ a.interpolate_scale) ||
     decide (nextDrawidx ∈ a.interpolate_angle) ||
     (decide (f.SrcAlpha ≠ 1 ∨ f.DstAlpha ≠ 255) && decide (nextDrawidx ∈ a.interpolate_blend)))

/-- The block `if a.totaltime > 0 { ... }` of `UpdateSprite`. -/
def Animation.updateCurrent (a : Animation) : Animation :=
  if a.totaltime > 0 then
    let b := if a.sumtime ≥ a.totaltime then
      { a with time := 0, newframe := true, current := a.loopstart } else a
    let b := b.animSeek b.current
    if b.nazotime < 0 ∧ b.sumtime ≥ int32 (b.totaltime + b.nazotime) ∧
        b.sumtime ≥ int32 (b.totaltime - b.looptime) ∧
        (b.sumtime = int32 (b.totaltime + b.nazotime) ∨
          b.sumtime = int32 (b.totaltime - b.looptime)) then
      { b with time := 0, newframe := true, current := 0 }
    else b
  else a

/-- The method `Animation.UpdateSprite` on the integer and boolean fields; the sprite
lookup and the `float32` snapshot are not modelled, their frame accesses are. -/
def Animation.UpdateSprite (a : Animation) : Outcome Animation :=
  if a.frames.length = 0 then .ok a
  else
    let a1 := a.updateCurrent
    match a1.frameAt a1.current with
    | none => .panic
    | some f =>
      let a2 := { a1 with newframe := false, drawidx := a1.current }
      let nextDrawidx :=
        if a2.drawidx ≥ (a2.frames.length : Int) - 1 then a2.loopstart
        else int32 (a2.drawidx + 1)
      if interpolates a2 f nextDrawidx = true ∧ a2.frameAt nextDrawidx = none then .panic
      else .ok a2

/-- The loop `for { a.current++; if ... { break } }` of the closure `next` of `Action`;
the first argument bounds the number of iterations. -/
def nextLoop : Nat → Animation → Outcome Animation
  | 0, _ => .fuel
  | k + 1, a =>
    let b := { a with current := int32 (a.current + 1) }
    if b.totaltime = -1 ∧ b.current = (b.frames.length : Int) - 1 then .ok b
    else if b.current ≥ (b.frames.length : Int) then .ok b
    else
      match b.frameAt b.current with
      | none => .panic
      | some f => if f.Time > 0 then .ok b else nextLoop k b

/-- The closure `next` of `Action`. -/
def Animation.next (a : Animation) : Outcome Animation :=
  if a.totaltime ≠ -1 ∨ a.current < (a.frames.length : Int) - 1 then
    nextLoop (((a.frames.length : Int) - a.current).toNat + 1)
      { a with time := 0, newframe := true }
  else .ok a

/-- The last statements of `Action`, on `sumtime` and `loopend`. -/
def Animation.countTick (b : Animation) : Animation :=
  let c := if b.totaltime ≠ -1 ∧ b.sumtime ≥ b.totaltime then
    { b with sumtime := int32 (b.totaltime - b.looptime) } else b
  let d := { c with sumtime := int32 (c.sumtime + 1) }
  if d.totaltime ≠ -1 ∧ d.sumtime ≥ d.totaltime then { d with loopend := true } else d

/-- The part of `Action` after the first call of `next`. -/
def Animation.actionTail (a : Animation) : Outcome Animation :=
  let r : Outcome Animation :=
    if a.current < (a.frames.length : Int) then
      let b := { a with time := int32 (a.time + 1) }
      match b.frameAt b.current with
      | none => .panic
      | some f =>
        if b.time ≥ f.Time then
          match b.next with
          | .ok c =>
            .ok (if c.current ≥ (c.frames.length : Int) then { c with current := c.loopstart }
              else c)
          | .panic => .panic
          | .fuel => .fuel
        else .ok b
    else .ok { a with current := a.loopstart }
  match r with
  | .ok b => .ok b.countTick
  | .panic => .panic
  | .fuel => .fuel

/-- The test `a.frames == nil`. -/
def Animation.framesNil (a : Animation) : Prop := a.frames = [] ∧ a.nilFrames = true

instance (a : Animation) : Decidable a.framesNil := by
  unfold Animation.framesNil
  exact inferInstance

/-- The method `Animation.Action` (the receiver is not `nil`). -/
def Animation.Action (a : Animation) : Outcome Animation :=
  if a.framesNil then .ok a
  else if a.frames.length = 0 then .ok { a with loopend := true }
  else
    match a.UpdateSprite with
    | .panic => .panic
    | .fuel => .fuel
    | .ok b =>
      match b.frameAt b.current with
      | none => .panic
      | some f =>
        if f.Time ≤ 0 then
          match b.next with
          | .ok c => c.actionTail
          | .panic => .panic
          | .fuel => .fuel
        else b.actionTail

/-- The state after `n` calls of `Action`. -/
def actionN : Nat → Animation → Outcome Animation
  | 0, a => .ok a
  | n + 1, a =>
    match actionN n a with
    | .ok b => b.Action
    | .panic => .panic
    | .fuel => .fuel

/-- The method `Animation.SetAnimElem`. -/
def Animation.SetAnimElem (a : Animation) (elem : Int) : Outcome Animation :=
  let a1 := { a with current := Max 0 (int32 (elem - 1)) }
  let a2 := if a1.current ≥ (a1.frames.length : Int) then { a1 with current := 0 } else a1
  let a3 := { a2 with drawidx := a2.current, time := 0, newframe := true }
  match a3.UpdateSprite with
  | .panic => .panic
  | .fuel => .fuel
  | .ok a4 =>
    let a5 := { a4 with loopend := false, sumtime := 0 }
    match a5.AnimElemTime (int32 (a5.current + 1)) with
    | .ok t => .ok { a5 with sumtime := int32 (-t) }
    | .panic => .panic
    | .fuel => .fuel

/-- The conversion `byte(x)` of an integer: its lowest eight bits. -/
def byte (x : Int) : Nat := (x % 256).toNat

/-- The first statement of `Animation.alpha`, which resolves the bytes `sa` and `da`;
`bs` and `bd` are the bytes `byte(a.interpolate_blend_srcalpha)` and
`byte(a.interpolate_blend_dstalpha)` of the `float32` snapshot. -/
def Animation.alphaBytes (a : Animation) (bs bd : Nat) : Nat × Nat :=
  if a.srcAlpha ≥ 0 then
    let sa := byte a.srcAlpha
    if a.dstAlpha < 0 then
      let da := byte (int16 (-a.dstAlpha - 1) >>> (1 : Nat))
      (if sa = 1 ∧ da = 255 then 0 else sa, da)
    else (sa, byte a.dstAlpha)
  else (bs, bd)

/-- The method `Animation.alpha`; `brightness` is `sys.brightness`.  The operands of
`|` and `<<` are converted bytes, so the operations are taken on natural numbers. -/
def Animation.alpha (a : Animation) (bs bd : Nat) (brightness : Int) : Int :=
  let sa := (a.alphaBytes bs bd).1
  let da := (a.alphaBytes bs bd).2
  if sa = 1 ∧ da = 255 then -2
  else
    let sa := byte (int32 ((sa : Int) * brightness) >>> (8 : Nat))
    if sa < 5 ∧ da = 255 then 0
    else if sa = 255 ∧ da = 255 then -1
    else
      let trans := sa
      if sa + da < 254 ∨ 256 < sa + da then ((trans ||| (da <<< 10 ||| 1 <<< 9) : Nat) : Int)
      else (trans : Int)

/-- A `float32` value computed by `UpdateSprite`, kept symbolically: the conversion
`float32(n)` of an integer and the arithmetic operations on such values. -/
inductive Flt where
  | ofInt (n : Int)
  | add (x y : Flt)
  | sub (x y : Flt)
  | mul (x y : Flt)
  | div (x y : Flt)
  deriving DecidableEq, Repr

/-- The `float32` fields of `Animation` that `UpdateSprite` writes for the offset and
the blend. -/
structure Snapshot where
  interpolate_offset_x : Flt
  interpolate_offset_y : Flt
  interpolate_blend_srcalpha : Flt
  interpolate_blend_dstalpha : Flt
  deriving DecidableEq, Repr

/-- The local `nextDrawidx` of `UpdateSprite`. -/
def Animation.nextDrawidx (a : Animation) : Int :=
  if a.drawidx ≥ (a.frames.length : Int) - 1 then a.loopstart else int32 (a.drawidx + 1)

/-- The expression `x / float32(a.curFrame().Time) * float32(a.time)`; `none` when the
index of `curFrame` is out of range. -/
def Animation.perTick (a : Animation) (x : Flt) : Option Flt :=
  (a.frameAt a.current).map fun c => Flt.mul (Flt.div x (Flt.ofInt c.Time)) (Flt.ofInt a.time)

/-- The loop of `UpdateSprite` over `a.interpolate_offset` for the drawn frame `d` and
the next index `n`; `none` when a frame index is out of range. -/
def Animation.offsetStep (a : Animation) (d : AnimFrame) (n : Int) (s : Snapshot) :
    Option Snapshot :=
  if n ∈ a.interpolate_offset ∧ d.Time ≥ 0 then
    (a.frameAt n).bind fun nf =>
    (a.perTick (Flt.ofInt (int16 (nf.Xoffset - d.Xoffset)))).bind fun x =>
    (a.perTick (Flt.ofInt (int16 (nf.Yoffset - d.Yoffset)))).map fun y =>
      { s with interpolate_offset_x := x, interpolate_offset_y := y }
  else some s

/-- The frame accesses of the loops of `UpdateSprite` over `a.interpolate_scale` and
`a.interpolate_angle`, whose values are not modelled. -/
def Animation.scaleAngleStep (a : Animation) (d : AnimFrame) (n : Int) (s : Snapshot) :
    Option Snapshot :=
  if (n ∈ a.interpolate_scale ∨ n ∈ a.interpolate_angle) ∧ d.Time ≥ 0 then
    (a.frameAt n).bind fun _ => (a.frameAt a.current).map fun _ => s
  else some s

/-- The last statement of `UpdateSprite`, on the blend.  `toByte` is the conversion
`byte(x)` of a `float32`; the first test converts `float32(SrcAlpha)` and
`float32(DstAlpha)` back, which gives the bytes themselves. -/
def Animation.blendStep (toByte : Flt → Nat) (a : Animation) (d : AnimFrame) (n : Int)
    (s : Snapshot) : Option Snapshot :=
  if (d.SrcAlpha ≠ 1 ∨ d.DstAlpha ≠ 255) ∧ n ∈ a.interpolate_blend ∧ d.Time ≥ 0 then
    (a.frameAt n).bind fun nf =>
    (a.perTick (Flt.sub (Flt.ofInt nf.SrcAlpha) s.interpolate_blend_srcalpha)).bind fun ds =>
    (a.perTick (Flt.sub (Flt.ofInt nf.DstAlpha) s.interpolate_blend_dstalpha)).map fun dd =>
      let src := Flt.add s.interpolate_blend_srcalpha ds
      let dst := Flt.add s.interpolate_blend_dstalpha dd
      { s with
        interpolate_blend_srcalpha :=
          if toByte src = 1 ∧ toByte dst = 255 then Flt.ofInt 0 else src,
        interpolate_blend_dstalpha := dst }
  else some s

/-- The statements of `UpdateSprite` after `a.newframe, a.drawidx = false, a.current`,
on the offset and blend fields. -/
def Animation.snapshot (toByte : Flt → Nat) (a : Animation) : Outcome Snapshot :=
  match a.frameAt a.drawidx with
  | none => .panic
  | some d =>
    let n := a.nextDrawidx
    let s0 : Snapshot :=
      { interpolate_offset_x := Flt.ofInt 0, interpolate_offset_y := Flt.ofInt 0,
        interpolate_blend_srcalpha := Flt.ofInt d.SrcAlpha,
        interpolate_blend_dstalpha := Flt.ofInt d.DstAlpha }
    match ((a.offsetStep d n s0).bind (a.scaleAngleStep d n)).bind (a.blendStep toByte d n) with
    | none => .panic
    | some s => .ok s

/-- The method `Animation.UpdateSprite` with the offset and blend fields of the
snapshot: `old` holds their values before the call. -/
def Animation.UpdateSpriteFloats (toByte : Flt → Nat) (a : Animation) (old : Snapshot) :
    Outcome (Animation × Snapshot) :=
  if a.frames.length = 0 then .ok (a, old)
  else
    match a.UpdateSprite with
    | .panic => .panic
    | .fuel => .fuel
    | .ok b =>
      match b.snapshot toByte with
      | .panic => .panic
      | .fuel => .fuel
      | .ok s => .ok (b, s)

/-! ## The draw list -/

/-- The record `SprData`: the fields that `DrawList.add` reads or writes, and
`projection`.  The field `anim` is the test `sd.anim != nil`, `spr` the test
`sd.anim.spr != nil`, and `angle` is `sd.rot.angle`. -/
structure SprData where
  anim : Bool
  spr : Bool
  scl : Flt × Flt
  priority : Int
  angle : Flt
  ascl : Flt × Flt
  projection : Int
  deriving DecidableEq, Repr

/-- The indexing `(*dl)[i]` with an index of type `int`; `none` when it is out of
range. -/
def entryAt (dl : List SprData) (i : Int) : Option SprData :=
  if 0 ≤ i ∧ i < dl.length then dl.get? i.toNat else none

/-- The loop `for l := len(*dl); l > 0; { ... }` of `DrawList.add` on the locals `i`,
`start` and `l`, for the priority of the new entry; the result is the final `i`.  The
first argument bounds the number of iterations. -/
def searchLoop (dl : List SprData) (priority : Int) : Nat → Int → Int → Int → Outcome Int
  | 0, _, _, _ => .fuel
  | k + 1, i, start, l =>
    if l > 0 then
      let i := goInt (start + (l >>> (1 : Nat)))
      match entryAt dl i with
      | none => .panic
      | some e =>
        if priority ≤ e.priority then searchLoop dl priority k i start (goInt (i - start))
        else if i = start then searchLoop dl priority k (goInt (i + 1)) start 0
        else searchLoop dl priority k i i (goInt (l - goInt (i - start)))
    else .ok i

/-- The statement `if sd.rot.angle != 0 { ... }` of `DrawList.add`; `nonzero` is the
comparison `x != 0` of a `float32`. -/
def SprData.applyAscl (nonzero : Flt → Bool) (sd : SprData) : SprData :=
  if nonzero sd.angle = true then
    { sd with scl := (Flt.mul sd.scl.1 sd.ascl.1, Flt.mul sd.scl.2 sd.ascl.2),
              ascl := (Flt.ofInt 1, Flt.ofInt 1) }
  else sd

/-- The method `DrawList.add`; `frameSkip` is `sys.frameSkip`.  The last three
statements append `nil`, move the entries from index `i` on one place up and store
the new entry at index `i`; the slice expression `(*dl)[i+1:]` panics when `i` is
not in `[0, len]`. -/
def DrawList.add (frameSkip : Bool) (nonzero : Flt → Bool) (dl : List SprData)
    (sd : SprData) : Outcome (List SprData) :=
  if frameSkip = true ∨ sd.anim = false ∨ sd.spr = false then .ok dl
  else
    let sd1 := sd.applyAscl nonzero
    match searchLoop dl sd1.priority (dl.length + 1) 0 0 dl.length with
    | .panic => .panic
    | .fuel => .fuel
    | .ok i =>
      if 0 ≤ i ∧ i ≤ dl.length then .ok (dl.take i.toNat ++ sd1 :: dl.drop i.toNat)
      else .panic

/-- The draw list after the calls of `DrawList.add` for the entries of `sds` in
order. -/
def addAll (frameSkip : Bool) (nonzero : Flt → Bool) :
    List SprData → List SprData → Outcome (List SprData)
  | dl, [] => .ok dl
  | dl, sd :: rest =>
    match DrawList.add frameSkip nonzero dl sd with
    | .ok dl1 => addAll frameSkip nonzero dl1 rest
    | .panic => .panic
    | .fuel => .fuel

/-! ## The animation table -/

/-- The loop `for ; *i < len(lines); (*i)++ { ... }` of `ReadAction` over the lines from
index `i` on: the index it stops at and the last value of `name, subname`. -/
def findSection (SectionName : List Char → List Char × List Char) :
    List (List Char) → Nat → List Char × List Char → Nat × List Char × List Char
  | [], i, cur => (i, cur)
  | line :: rest, i, _ =>
    if (SectionName line).1.length > 0 then (i, SectionName line)
    else findSection SectionName rest (i + 1) (SectionName line)

/-- The function `ReadAction`: the new value of `*i`, and the action number with the
animation, or `none` for the `nil` animation.  `SectionName` is defined outside `src/`
and is a parameter. -/
def ReadAction (SectionName : List Char → List Char × List Char) (Atoi : List Char → Int)
    (IsNumeric : List Char → Bool) (lines : List (List Char)) (i : Nat) :
    Outcome (Nat × Option (Int × Animation)) :=
  let r := findSection SectionName (lines.drop i) i ([], [])
  let name := r.2.1
  let subname := r.2.2
  if name ≠ "begin ".toList then .ok (r.1, none)
  else
    let spi := Index ' ' subname
    if spi < 0 then .ok (r.1, none)
    else if ToLower (subname.take (spi + 1).toNat) ≠ "action ".toList then .ok (r.1, none)
    else
      match ReadAnimation Atoi IsNumeric lines (r.1 + 1) with
      | .ok (j, a) => .ok (j, some (Atoi (subname.drop (spi + 1).toNat), a))
      | .panic => .panic
      | .fuel => .fuel

/-- The map `AnimationTable`, as the list of its keys with the animations they point
to, in the order of the first assignment.  A key is assigned once, so the pointer
`at[no]` stands for the key `no`, and `*a = *a2` is the update of the value at the key
of `a`. -/
abbrev AnimationTable := List (Int × Animation)

/-- The map access `at[no]`: `none` for `nil`. -/
def entry : AnimationTable → Int → Option Animation
  | [], _ => none
  | p :: rest, no => if p.1 = no then some p.2 else entry rest no

/-- The animation `*a` for the pointer `a = at[no]` of a key that has been assigned. -/
def deref (tbl : AnimationTable) (no : Int) : Animation := (entry tbl no).getD newAnimation

/-- The assignment `*a = v` for the pointer `a = at[no]`. -/
def storeAt (tbl : AnimationTable) (no : Int) (v : Animation) : AnimationTable :=
  tbl.map fun p => if p.1 = no then (no, v) else p

mutual

/-- The method `AnimationTable.readAction` from the test of its outer loop on: the key
of the returned animation (`none` for `nil`), the table and `*i`.  The first argument
bounds the depth of the calls. -/
def readActionLoop (SectionName : List Char → List Char × List Char)
    (Atoi : List Char → Int) (IsNumeric : List Char → Bool) (lines : List (List Char)) :
    Nat → AnimationTable → Nat → Outcome (Option Int × AnimationTable × Nat)
  | 0, _, _ => .fuel
  | k + 1, tbl, i =>
    if i < lines.length then
      match ReadAction SectionName Atoi IsNumeric lines i with
      | .panic => .panic
      | .fuel => .fuel
      | .ok (i1, none) => readActionLoop SectionName Atoi IsNumeric lines k tbl (i1 + 1)
      | .ok (i1, some (no, a)) =>
        match entry tbl no with
        | some _ => .ok (some no, tbl, i1)
        | none => forwardLoop SectionName Atoi IsNumeric lines k (tbl ++ [(no, a)]) no i1
    else .ok (none, tbl, i)

/-- The loop `for len(a.frames) == 0 && *i < len(lines) { ... }` of `readAction` for
the animation `a = at[no]`, and the statement `return a` after it. -/
def forwardLoop (SectionName : List Char → List Char × List Char)
    (Atoi : List Char → Int) (IsNumeric : List Char → Bool) (lines : List (List Char)) :
    Nat → AnimationTable → Int → Nat → Outcome (Option Int × AnimationTable × Nat)
  | 0, _, _, _ => .fuel
  | k + 1, tbl, no, i =>
    if (deref tbl no).frames.length = 0 ∧ i < lines.length then
      match readActionLoop SectionName Atoi IsNumeric lines k tbl i with
      | .panic => .panic
      | .fuel => .fuel
      | .ok (some k2, tbl2, i2) => .ok (some no, storeAt tbl2 no (deref tbl2 k2), i2)
      | .ok (none, tbl2, i2) =>
        forwardLoop SectionName Atoi IsNumeric lines k tbl2 no (i2 + 1)
    else .ok (some no, tbl, i)

end

/-- The method `AnimationTable.readAction`. -/
def AnimationTable.readAction (SectionName : List Char → List Char × List Char)
    (Atoi : List Char → Int) (IsNumeric : List Char → Bool) (lines : List (List Char))
    (tbl : AnimationTable) (i : Nat) : Outcome (Option Int × AnimationTable × Nat) :=
  readActionLoop SectionName Atoi IsNumeric lines (2 * (lines.length - i) + 2) tbl i

/-- The loop `for at.readAction(sff, pal, lines, i) != nil { }` of `ReadAnimationTable`;
the first argument bounds the number of iterations. -/
def tableLoop (SectionName : List Char → List Char × List Char)
    (Atoi : List Char → Int) (IsNumeric : List Char → Bool) (lines : List (List Char)) :
    Nat → AnimationTable → Nat → Outcome (AnimationTable × Nat)
  | 0, _, _ => .fuel
  | k + 1, tbl, i =>
    match AnimationTable.readAction SectionName Atoi IsNumeric lines tbl i with
    | .panic => .panic
    | .fuel => .fuel
    | .ok (some _, tbl1, i1) => tableLoop SectionName Atoi IsNumeric lines k tbl1 i1
    | .ok (none, tbl1, i1) => .ok (tbl1, i1)

/-- The function `ReadAnimationTable`: the table and the final value of `*i`. -/
def ReadAnimationTable (SectionName : List Char → List Char × List Char)
    (Atoi : List Char → Int) (IsNumeric : List Char → Bool) (lines : List (List Char))
    (i : Nat) : Outcome (AnimationTable × Nat) :=
  tableLoop SectionName Atoi IsNumeric lines (lines.length - i + 1) [] i

/-! ## Notions used to state the properties -/

/-- The number of characters of `s` equal to `hi` or `lo` (the flip characters `H`/`h`
or `V`/`v`). -/
def countFlip (hi lo : Char) (s : List Char) : Nat :=
  s.countP fun c => c == hi || c == lo

/-- The numeric value of a string of decimal digits. -/
def decVal (ds : List Char) : Int :=
  ds.foldl (fun n c => n * 10 + ((c.toNat : Int) - 48)) 0

/-- The fields of a frame line as `ReadAnimFrame` takes them:
`strings.SplitN(line, ",", 10)`. -/
def fields (line : List Char) : List (List Char) := SplitN ',' 10 line

/-- Modelled from the spec: `IsNumeric` is defined outside `src/` ("syntactically
numeric" token).  This test accepts an optional sign followed by digits and points,
at least one digit; it only serves to evaluate the parser on concrete lines. -/
def decIsNumeric (s : List Char) : Bool :=
  let body := match TrimSpace s with
    | '-' :: t => t
    | '+' :: t => t
    | t => t
  body.all (fun c => isDigit c || c == '.') && body.any isDigit

/-- The normalised lines of the block that `ReadAnimation` reads from index `i`: the
lines from `i` up to, not including, the first line whose first byte is `[`, each
with its comment stripped, trimmed and lower-cased. -/
def blockLines (lines : List (List Char)) (i : Nat) : List (List Char) :=
  ((lines.drop i).takeWhile fun raw => !sectionStart raw).map normLine

/-- A frame without its collision boxes. -/
def AnimFrame.noClsn (f : AnimFrame) : AnimFrame := { f with Clsn := [] }

/-- The part of the locals of `ReadAnimation` that a line other than a `clsn`
declaration can change, collision boxes left out: the frames, `a.loopstart` and `ols`. -/
structure Core where
  frames : List AnimFrame
  loopstart : Int
  ols : Int

/-- The `Core` of the locals of `ReadAnimation`. -/
def coreOf (s : ScanState) : Core :=
  { frames := s.a.frames.map AnimFrame.noClsn, loopstart := s.a.loopstart, ols := s.ols }

/-- The effect on the `Core` of the `switch` of `ReadAnimation` on one normalised line. -/
def coreStep (Atoi : List Char → Int) (IsNumeric : List Char → Bool) (c : Core)
    (line : List Char) : Core :=
  match ReadAnimFrame Atoi IsNumeric line with
  | some af => { frames := c.frames ++ [af.noClsn], loopstart := c.loopstart, ols := c.loopstart }
  | none =>
    if hasPrefix "loopstart".toList line then { c with loopstart := c.frames.length } else c

/-- The value of an outcome, if the run returned one. -/
def Outcome.val? {α : Type} : Outcome α → Option α
  | .ok r => some r
  | .panic => none
  | .fuel => none

/-- The playback position of an animation: `current`, `time`, `sumtime`, `loopend`. -/
def positionOf (a : Animation) : Int × Int × Int × Bool :=
  (a.current, a.time, a.sumtime, a.loopend)

/-- The animation of an outcome, if the run returned one. -/
def Outcome.animation : Outcome (Nat × Animation) → Option Animation
  | .ok r => some r.2
  | .panic => none
  | .fuel => none

/-- The timing data of an animation: the frame durations, `loopstart`, `totaltime`,
`looptime` and `nazotime`. -/
def timingOf (a : Animation) : List Int × Int × Int × Int × Int :=
  (a.frames.map AnimFrame.Time, a.loopstart, a.totaltime, a.looptime, a.nazotime)

/-- The sum of the durations of a list of frames. -/
def sumTime (fs : List AnimFrame) : Int := (fs.map AnimFrame.Time).sum

/-- The cumulative duration of a list of frames, each duration counted as
`Max(0, Time)`. -/
def sumMax (fs : List AnimFrame) : Int := (fs.map fun f => Max 0 f.Time).sum

/-- An animation with frames, all of positive duration, whose loop start is a frame
index and whose timing data are the sums that `ReadAnimation` computes, below `2^31`:
`totaltime` the sum of all durations, `looptime` the sum from the loop start on,
`nazotime` the sum before the loop start. -/
def Animation.positiveTimed (a : Animation) : Prop :=
  a.frames ≠ [] ∧ (∀ f ∈ a.frames, 0 < f.Time) ∧
  0 ≤ a.loopstart ∧ a.loopstart < (a.frames.length : Int) ∧
  a.totaltime = sumTime a.frames ∧
  a.looptime = sumTime (a.frames.drop a.loopstart.toNat) ∧
  a.nazotime = sumTime (a.frames.take a.loopstart.toNat) ∧
  a.totaltime < 2147483648

instance (a : Animation) : Decidable a.positiveTimed := by
  unfold Animation.positiveTimed
  infer_instance

/-- A playback state of a `positiveTimed` animation that is on its timeline: `current`
is a frame index, `0 <= sumtime <= totaltime`; while `sumtime < totaltime`, `time` is
within the duration of the current frame and `sumtime` is `time` plus the durations of
the frames before `current`; when `sumtime = totaltime`, the state is at the loop start
with `time = 0`. -/
def Animation.onTrack (a : Animation) : Prop :=
  a.positiveTimed ∧ (0 ≤ a.current ∧ a.current < (a.frames.length : Int)) ∧
  0 ≤ a.sumtime ∧ a.sumtime ≤ a.totaltime ∧
  (a.sumtime < a.totaltime →
    ∃ f, a.frameAt a.current = some f ∧ 0 ≤ a.time ∧ a.time < f.Time ∧
      a.sumtime = a.time + sumTime (a.frames.take a.current.toNat)) ∧
  (a.sumtime = a.totaltime → a.current = a.loopstart ∧ a.time = 0)

/-- One turn of the `switch` of the line loop of `ReadAnimation`: the index of the line
it handles, that line normalised, and the locals before and after the turn. -/
structure Turn where
  index : Nat
  line : List Char
  before : ScanState
  after : ScanState
  deriving DecidableEq, Repr

/-- The turns of the `switch` that the line loop `scanLoop` makes from index `i` and
locals `s`, in order. -/
def turns (Atoi : List Char → Int) (IsNumeric : List Char → Bool)
    (lines : List (List Char)) : Nat → Nat → ScanState → List Turn
  | 0, _, _ => []
  | fuel + 1, i, s =>
    if i < lines.length then
      if sectionStart (lines.getD i []) then []
      else
        match scanStep Atoi IsNumeric lines i s with
        | .ok (j, s1) =>
          { index := i, line := normLine (lines.getD i []), before := s, after := s1 } ::
            turns Atoi IsNumeric lines fuel (j + 1) s1
        | .panic => []
        | .fuel => []
    else []

/-- The turns of the `switch` in the run of `ReadAnimation` on `lines` from index `i`. -/
def readTurns (Atoi : List Char → Int) (IsNumeric : List Char → Bool)
    (lines : List (List Char)) (i : Nat) : List Turn :=
  turns Atoi IsNumeric lines (lines.length - i) i initScan

/-- The normalised line handled by the turn of number `r`. -/
def turnLine (T : List Turn) (r : Nat) : List Char :=
  ((T.get? r).map Turn.line).getD []

/-- The index of the line handled by the turn of number `r`. -/
def turnIndex (T : List Turn) (r : Nat) : Nat :=
  ((T.get? r).map Turn.index).getD 0

/-- The number of frames read before the turn of number `r`: the index that a frame
read by this turn has in the animation. -/
def framesBefore (T : List Turn) (r : Nat) : Nat :=
  ((T.get? r).map fun t => t.before.a.frames.length).getD 0

/-- The collision boxes `Clsn1()` (`w = false`) or `Clsn2()` (`w = true`) of a frame. -/
def boxesOf (w : Bool) (f : AnimFrame) : List Int := if w then f.Clsn2 else f.Clsn1

/-- The local `clsn1` (`w = false`) or `clsn2` (`w = true`) of `ReadAnimation`. -/
def curOf (w : Bool) (s : ScanState) : List Int := if w then s.clsn2 else s.clsn1

/-- The local `clsn1d` (`w = false`) or `clsn2d` (`w = true`) of `ReadAnimation`. -/
def defaultOf (w : Bool) (s : ScanState) : List Int := if w then s.clsn2d else s.clsn1d

/-- The local `def1` (`w = false`) or `def2` (`w = true`) of `ReadAnimation`. -/
def flagOf (w : Bool) (s : ScanState) : Bool := if w then s.def2 else s.def1

/-- The default boxes `clsn1d` (`clsn2d`) after the turn of number `r`. -/
def defaultAfter (w : Bool) (T : List Turn) (r : Nat) : List Int :=
  ((T.get? r).map fun t => defaultOf w t.after).getD []

/-- A normalised line that the `switch` takes as a declaration of `clsn1` (`w = false`)
or `clsn2` (`w = true`): at least 5 bytes, beginning with `clsn1` (`clsn2`). -/
def isClsnLine (w : Bool) (line : List Char) : Bool :=
  decide (line.length ≥ 5) && (line.take 4 == ['c', 'l', 's', 'n']) &&
    (line.getD 4 ' ' == if w then '2' else '1')

/-- A declaration line of `clsn1default` (`clsn2default`). -/
def isDefaultLine (w : Bool) (line : List Char) : Bool :=
  isClsnLine w line && hasPrefix ['d', 'e', 'f', 'a', 'u', 'l', 't'] (line.drop 5)

/-- The size read from a declaration line: `Atoi` of the text after the first `:`;
`none` when the line has no `:`. -/
def declSize (Atoi : List Char → Int) (line : List Char) : Option Int :=
  if Index ':' line < 0 then none else some (Atoi (line.drop ((Index ':' line).toNat + 1)))

/-! ## Sample inputs -/

/-- A frame line `0,number,0,0,time` as `ReadAnimFrame` reads it. -/
def sampleFrame (number time : Int) : AnimFrame :=
  { newAnimFrame with Group := 0, Number := number, Xoffset := 0, Yoffset := 0, Time := time }

/-- Three frames of duration 5. -/
def linesThreeFrames : List (List Char) :=
  ["0,0,0,0,5".toList, "0,1,0,0,5".toList, "0,2,0,0,5".toList]

/-- The animation read from `linesThreeFrames`. -/
def animThreeFrames : Animation :=
  { newAnimation with
    mask := 0, nilFrames := false,
    frames := [sampleFrame 0 5, sampleFrame 1 5, sampleFrame 2 5],
    totaltime := 15, looptime := 15 }

/-- The animation read from a block without lines: it has no frames. -/
def animEmpty : Animation := { newAnimation with mask := 0 }

/-- Two frames of duration 0: the loop segment has total duration zero. -/
def animZeroLoop : Animation :=
  { newAnimation with
    mask := 0, nilFrames := false, frames := [sampleFrame 0 0, sampleFrame 1 0] }

/-- A `clsn1default` block of one rectangle, two frames, a `clsn1: 0` declaration, and
two more frames. -/
def linesDefault : List (List Char) :=
  ["Clsn1Default: 1".toList, " Clsn1[0] = 1,2,3,4".toList, "0,0,0,0,5".toList,
   "0,1,0,0,5".toList, "Clsn1: 0".toList, "0,2,0,0,5".toList, "0,3,0,0,5".toList]

/-- The animation read from `linesDefault`. -/
def animDefault : Animation :=
  { newAnimation with
    mask := 0, nilFrames := false,
    frames := [{ sampleFrame 0 5 with Clsn := [[1, 2, 3, 4], []] },
      { sampleFrame 1 5 with Clsn := [[1, 2, 3, 4], []] },
      sampleFrame 2 5,
      { sampleFrame 3 5 with Clsn := [[1, 2, 3, 4], []] }],
    totaltime := 20, looptime := 20 }

/-- The state of `animThreeFrames` after 7 calls of `Action` from the reset state. -/
def animSevenTicks : Animation :=
  { animThreeFrames with current := 1, drawidx := 1, time := 2, sumtime := 7, newframe := false }

/-- Frames of durations 3, -1 and 4 with a `loopstart` directive after the first: the
frame of duration -1 is not the last one. -/
def linesMidHold : List (List Char) :=
  ["0,0,0,0,3".toList, "loopstart".toList, "0,1,0,0,-1".toList, "0,2,0,0,4".toList]

/-- The animation read from `linesMidHold`. -/
def animMidHold : Animation :=
  { newAnimation with
    mask := 0, nilFrames := false,
    frames := [sampleFrame 0 3, sampleFrame 1 (-1), sampleFrame 2 4],
    loopstart := 1, totaltime := 3, looptime := 0, nazotime := 0 }

/-- Two frames with a `loopstart` directive between them, a second directive that no
frame follows, and the header of the next section. -/
def linesLoop : List (List Char) :=
  ["0,0,0,0,10".toList, "LoopStart".toList, "0,1,0,0,5 ; second".toList,
   "loopstart".toList, "[Begin Action 1]".toList]

/-- The animation read from `linesLoop`. -/
def animLoop : Animation :=
  { newAnimation with
    mask := 0, nilFrames := false, frames := [sampleFrame 0 10, sampleFrame 1 5],
    loopstart := 1,
    totaltime := 15, looptime := 5, nazotime := 10 }

/-- Frames of durations 10, 5 and -1 with a `loopstart` directive after the first. -/
def linesHold : List (List Char) :=
  ["0,0,0,0,10".toList, "loopstart".toList, "0,1,0,0,5".toList, "0,2,0,0,-1".toList]

/-- The animation read from `linesHold`. -/
def animHold : Animation :=
  { newAnimation with
    mask := 0, nilFrames := false,
    frames := [sampleFrame 0 10, sampleFrame 1 5, sampleFrame 2 (-1)],
    loopstart := 1, totaltime := -1 }

/-- The state of `animHold` after 15 calls of `Action` from the reset state. -/
def animHeld : Animation :=
  { animHold with current := 2, drawidx := 1, time := 0, sumtime := 15, newframe := true }

/-- A block with a `clsn1` declaration of two rectangles, one rectangle line with
reversed coordinates, and a frame. -/
def linesClsn : List (List Char) :=
  ["Clsn1: 2".toList, " Clsn1[0] = 5,6,1,2".toList, "0,0,0,0,5".toList]

/-- The animation read from `linesClsn`. -/
def animClsn : Animation :=
  { newAnimation with
    mask := 0, nilFrames := false,
    frames := [{ sampleFrame 0 5 with Clsn := [[1, 2, 5, 6, 0, 0, 0, 0], []] }],
    totaltime := 5, looptime := 5 }

/-- The three-frame animation with source alpha 128 and destination alpha 64. -/
def animAlpha : Animation := { animThreeFrames with srcAlpha := 128, dstAlpha := 64 }

/-- A conversion `byte(x)` for the sample runs: the integer itself for `float32(n)`
with `n` a byte, 0 for the other values. -/
def sampleToByte : Flt → Nat
  | Flt.ofInt n => if 0 ≤ n ∧ n < 256 then n.toNat else 0
  | _ => 0

/-- A snapshot with all four values zero. -/
def snapshotZero : Snapshot :=
  { interpolate_offset_x := Flt.ofInt 0, interpolate_offset_y := Flt.ofInt 0,
    interpolate_blend_srcalpha := Flt.ofInt 0, interpolate_blend_dstalpha := Flt.ofInt 0 }

/-- Three frames of duration 5 with an `interpolate offset` directive before the
second. -/
def linesOffset : List (List Char) :=
  ["0,0,10,20,5".toList, "Interpolate Offset".toList, "0,1,30,50,5".toList,
   "0,2,0,0,5".toList]

/-- The animation read from `linesOffset`. -/
def animOffset : Animation :=
  { newAnimation with
    mask := 0, nilFrames := false,
    frames := [{ sampleFrame 0 5 with Xoffset := 10, Yoffset := 20 },
      { sampleFrame 1 5 with Xoffset := 30, Yoffset := 50 }, sampleFrame 2 5],
    interpolate_offset := [1], totaltime := 15, looptime := 15 }

/-- The state of `animOffset` after 7 calls of `Action` from the reset state. -/
def animOffsetTicks : Animation :=
  { animOffset with current := 1, drawidx := 1, time := 2, sumtime := 7, newframe := false }

/-- A draw list is sorted: the priorities do not decrease along it. -/
def sortedByPriority (dl : List SprData) : Prop :=
  dl.Pairwise fun x y => x.priority ≤ y.priority

/-- A draw request with a sprite, not rotated; `tag` is stored in `projection` and
tells the requests of equal priority apart. -/
def sampleSpr (priority tag : Int) : SprData :=
  { anim := true, spr := true, scl := (Flt.ofInt 1, Flt.ofInt 1), priority := priority,
    angle := Flt.ofInt 0, ascl := (Flt.ofInt 1, Flt.ofInt 1), projection := tag }

/-- The comparison `x != 0` for the sample runs. -/
def sampleNonzero (x : Flt) : Bool := decide (x ≠ Flt.ofInt 0)

/-- Four draw requests of priorities 5, 1, 5 and -2, tagged 1 to 4 in arrival order. -/
def sampleRequests : List SprData :=
  [sampleSpr 5 1, sampleSpr 1 2, sampleSpr 5 3, sampleSpr (-2) 4]

/-- The entries before index `j` have a priority below `p`, those from `j` on a
priority of at least `p`. -/
def splitsAt (dl : List SprData) (p : Int) (j : Int) : Prop :=
  (0 ≤ j ∧ j ≤ dl.length) ∧
  (∀ (k : Nat) (e : SprData), (k : Int) < j → dl.get? k = some e → e.priority < p) ∧
  (∀ (k : Nat) (e : SprData), j ≤ (k : Int) → dl.get? k = some e → p ≤ e.priority)

instance (dl : List SprData) : Decidable (sortedByPriority dl) := by
  unfold sortedByPriority
  exact inferInstance

/-- Modelled from the spec: `SectionName` is defined outside `src/`; a "section header
`[Begin Action <N>]` starts an action block".  For a line `[name rest]` this reader
gives the lower-cased `name` with the blank after it and `rest`, for a line `[name]`
the lower-cased `name` and the empty string, and two empty strings for every other
line.  It is used only to evaluate concrete inputs. -/
def decSectionName (line : List Char) : List Char × List Char :=
  match TrimSpace ((SplitN ';' 2 line).headD []) with
  | '[' :: rest =>
    if rest.getLast? = some ']' then
      let sec := rest.dropLast
      let i := Index ' ' sec
      if i ≥ 0 then (ToLower (sec.take (i + 1).toNat), sec.drop (i + 1).toNat)
      else (ToLower sec, [])
    else ([], [])
  | _ => ([], [])

/-- An action block 1 without frame lines, an action block 2 with one frame, and a
second block for the number 1. -/
def linesTable : List (List Char) :=
  ["[Begin Action 1]".toList, "[Begin Action 2]".toList, "0,0,0,0,5".toList,
   "[Begin Action 1]".toList, "0,1,0,0,7".toList]

/-- An action block 1 without frame lines followed by a second block for the number 1
with one frame. -/
def linesRevisit : List (List Char) :=
  ["[Begin Action 1]".toList, "[Begin Action 1]".toList, "0,0,0,0,5".toList]

/-- The animation of one frame of duration 5. -/
def animOneFrame : Animation :=
  { newAnimation with
    mask := 0, nilFrames := false, frames := [sampleFrame 0 5], totaltime := 5,
    looptime := 5 }

/-- The rectangles of a collision-box set are ordered: in every group of four
consecutive values `left, top, right, bottom`, `left <= right` and `top <= bottom`. -/
def rectsOrdered (c : List Int) : Prop :=
  ∀ q : Nat, 4 * q + 3 < c.length →
    c.getD (4 * q) 0 ≤ c.getD (4 * q + 2) 0 ∧ c.getD (4 * q + 1) 0 ≤ c.getD (4 * q + 3) 0

/-- The rectangles held by the locals of `ReadAnimation` and by the frames read so far
are all ordered. -/
def boxesOrdered (s : ScanState) : Prop :=
  rectsOrdered s.clsn1 ∧ rectsOrdered s.clsn1d ∧ rectsOrdered s.clsn2 ∧
  rectsOrdered s.clsn2d ∧ ∀ f ∈ s.a.frames, ∀ c ∈ f.Clsn, rectsOrdered c

/-! ## Lemmas on the string functions -/

theorem char_lt_iff (c d : Char) : c < d ↔ c.toNat < d.toNat := Iff.rfl

theorem not_digit_iff (c : Char) : (c < '0' ∨ '9' < c) ↔ isDigit c = false := by
  rw [char_lt_iff, char_lt_iff]
  have h0 : ('0' : Char).toNat = 48 := rfl
  have h9 : ('9' : Char).toNat = 57 := rfl
  rw [h0, h9]
  unfold isDigit
  rw [Bool.and_eq_false_iff]
  simp only [decide_eq_false_iff_not, Nat.not_le]

theorem consHead_length (c : Char) (l : List (List Char)) (h : l ≠ []) :
    (consHead c l).length = l.length := by
  cases l with
  | nil => exact absurd rfl h
  | cons a t => rfl

theorem Split_ne_nil (sep : Char) (s : List Char) : Split sep s ≠ [] := by
  cases s with
  | nil => simp [Split]
  | cons c cs =>
    unfold Split
    split
    · simp
    · cases h : Split sep cs <;> simp [consHead]

theorem SplitN_ne_nil (sep : Char) (n : Nat) (s : List Char) : SplitN sep (n + 1) s ≠ [] := by
  induction s generalizing n with
  | nil => cases n <;> simp [SplitN]
  | cons c cs ih =>
    cases n with
    | zero => simp [SplitN]
    | succ m =>
      unfold SplitN
      split
      · simp
      · cases h : SplitN sep (m + 2) cs <;> simp [consHead]

/-- The number of pieces of `SplitN` is the number of pieces of `Split`, capped at `n`. -/
theorem SplitN_length (sep : Char) (n : Nat) (s : List Char) :
    (SplitN sep (n + 1) s).length = min (n + 1) (Split sep s).length := by
  induction s generalizing n with
  | nil => cases n <;> simp [SplitN, Split]
  | cons c cs ih =>
    have hpos : 0 < (Split sep (c :: cs)).length :=
      List.length_pos.mpr (Split_ne_nil sep (c :: cs))
    cases n with
    | zero => simp only [SplitN, List.length_singleton]; omega
    | succ m =>
      unfold SplitN Split
      by_cases hc : c = sep
      · simp only [hc, if_true, List.length_cons, ih m]; omega
      · simp only [hc, if_false]
        rw [consHead_length _ _ (SplitN_ne_nil sep (m + 1) cs),
          consHead_length _ _ (Split_ne_nil sep cs), ih (m + 1)]

/-! ## Lemmas on `ReadAnimFrame` -/

/-- The flip loop only touches the flip flags and the offsets. -/
theorem readFlip_frame (af : AnimFrame) (s : List Char) :
    readFlip af s =
      { af with
        Hscale := (readFlip af s).Hscale, Vscale := (readFlip af s).Vscale,
        Xoffset := (readFlip af s).Xoffset, Yoffset := (readFlip af s).Yoffset } := by
  induction s generalizing af with
  | nil => rfl
  | cons c cs ih =>
    unfold readFlip
    split_ifs
    · rw [ih]
    · rw [ih]
    · exact ih af

/-- The alpha switch only touches the two alpha bytes. -/
theorem readAlpha_frame (a : List Char) (af : AnimFrame) :
    readAlpha a af =
      { af with
        SrcAlpha := (readAlpha a af).SrcAlpha, DstAlpha := (readAlpha a af).DstAlpha } := by
  unfold readAlpha
  split_ifs
  all_goals first
    | rfl
    | (dsimp only; split <;> first | rfl | (split_ifs <;> rfl))

theorem readAlpha_Time (a : List Char) (af : AnimFrame) :
    (readAlpha a af).Time = af.Time := by rw [readAlpha_frame]
theorem readAlpha_Group (a : List Char) (af : AnimFrame) :
    (readAlpha a af).Group = af.Group := by rw [readAlpha_frame]
theorem readAlpha_Number (a : List Char) (af : AnimFrame) :
    (readAlpha a af).Number = af.Number := by rw [readAlpha_frame]
theorem readAlpha_Xoffset (a : List Char) (af : AnimFrame) :
    (readAlpha a af).Xoffset = af.Xoffset := by rw [readAlpha_frame]
theorem readAlpha_Yoffset (a : List Char) (af : AnimFrame) :
    (readAlpha a af).Yoffset = af.Yoffset := by rw [readAlpha_frame]
theorem readAlpha_Hscale (a : List Char) (af : AnimFrame) :
    (readAlpha a af).Hscale = af.Hscale := by rw [readAlpha_frame]
theorem readAlpha_Vscale (a : List Char) (af : AnimFrame) :
    (readAlpha a af).Vscale = af.Vscale := by rw [readAlpha_frame]
theorem readAlpha_Xscale (a : List Char) (af : AnimFrame) :
    (readAlpha a af).Xscale = af.Xscale := by rw [readAlpha_frame]
theorem readAlpha_Yscale (a : List Char) (af : AnimFrame) :
    (readAlpha a af).Yscale = af.Yscale := by rw [readAlpha_frame]
theorem readAlpha_Angle (a : List Char) (af : AnimFrame) :
    (readAlpha a af).Angle = af.Angle := by rw [readAlpha_frame]
theorem readAlpha_Clsn (a : List Char) (af : AnimFrame) :
    (readAlpha a af).Clsn = af.Clsn := by rw [readAlpha_frame]

theorem readFlip_Time (af : AnimFrame) (s : List Char) :
    (readFlip af s).Time = af.Time := by rw [readFlip_frame]
theorem readFlip_Group (af : AnimFrame) (s : List Char) :
    (readFlip af s).Group = af.Group := by rw [readFlip_frame]
theorem readFlip_Number (af : AnimFrame) (s : List Char) :
    (readFlip af s).Number = af.Number := by rw [readFlip_frame]
theorem readFlip_SrcAlpha (af : AnimFrame) (s : List Char) :
    (readFlip af s).SrcAlpha = af.SrcAlpha := by rw [readFlip_frame]
theorem readFlip_DstAlpha (af : AnimFrame) (s : List Char) :
    (readFlip af s).DstAlpha = af.DstAlpha := by rw [readFlip_frame]
theorem readFlip_Xscale (af : AnimFrame) (s : List Char) :
    (readFlip af s).Xscale = af.Xscale := by rw [readFlip_frame]
theorem readFlip_Yscale (af : AnimFrame) (s : List Char) :
    (readFlip af s).Yscale = af.Yscale := by rw [readFlip_frame]
theorem readFlip_Angle (af : AnimFrame) (s : List Char) :
    (readFlip af s).Angle = af.Angle := by rw [readFlip_frame]
theorem readFlip_Clsn (af : AnimFrame) (s : List Char) :
    (readFlip af s).Clsn = af.Clsn := by rw [readFlip_frame]

/-- The alpha bytes after the switch depend on the token and on the alpha bytes before. -/
theorem readAlpha_congr (a : List Char) (af bf : AnimFrame)
    (h1 : af.SrcAlpha = bf.SrcAlpha) (h2 : af.DstAlpha = bf.DstAlpha) :
    (readAlpha a af).SrcAlpha = (readAlpha a bf).SrcAlpha ∧
    (readAlpha a af).DstAlpha = (readAlpha a bf).DstAlpha := by
  unfold readAlpha
  split_ifs
  all_goals first
    | exact ⟨rfl, rfl⟩
    | exact ⟨h1, h2⟩
    | (dsimp only
       split
       · split_ifs <;> first | exact ⟨rfl, rfl⟩ | exact ⟨h1, h2⟩ | exact ⟨rfl, h2⟩
       · exact ⟨rfl, h2⟩)

theorem int16_range (x : Int) : -32768 ≤ int16 x ∧ int16 x < 32768 := by
  unfold int16; omega

theorem int16_of_range (x : Int) (h1 : -32768 ≤ x) (h2 : x < 32768) : int16 x = x := by
  unfold int16; omega

theorem countFlip_cons (hi lo c : Char) (cs : List Char) :
    countFlip hi lo (c :: cs) = countFlip hi lo cs + if c = hi ∨ c = lo then 1 else 0 := by
  unfold countFlip
  rw [List.countP_cons]
  by_cases h : c = hi ∨ c = lo
  · rw [if_pos h]
    have : (c == hi || c == lo) = true := by rcases h with h | h <;> simp [h]
    rw [if_pos this]
  · rw [if_neg h]
    have : ¬ (c == hi || c == lo) = true := by
      intro h2; apply h; simpa using h2
    rw [if_neg this]

theorem readFlip_Hscale (af : AnimFrame) (s : List Char) :
    (readFlip af s).Hscale = if countFlip 'H' 'h' s = 0 then af.Hscale else -1 := by
  induction s generalizing af with
  | nil => simp [readFlip, countFlip]
  | cons c cs ih =>
    unfold readFlip
    rw [countFlip_cons]
    by_cases hH : c = 'H' ∨ c = 'h'
    · rw [if_pos hH, if_pos hH, ih, if_neg (Nat.succ_ne_zero _)]
      split_ifs <;> rfl
    · rw [if_neg hH, if_neg hH, Nat.add_zero]
      by_cases hV : c = 'V' ∨ c = 'v'
      · rw [if_pos hV]
        exact ih { af with Vscale := -1, Yoffset := int16 (af.Yoffset * -1) }
      · rw [if_neg hV]
        exact ih af

theorem readFlip_Vscale (af : AnimFrame) (s : List Char) :
    (readFlip af s).Vscale = if countFlip 'V' 'v' s = 0 then af.Vscale else -1 := by
  induction s generalizing af with
  | nil => simp [readFlip, countFlip]
  | cons c cs ih =>
    unfold readFlip
    rw [countFlip_cons]
    by_cases hH : c = 'H' ∨ c = 'h'
    · have hV : ¬ (c = 'V' ∨ c = 'v') := by
        rcases hH with h | h <;> subst h <;> decide
      rw [if_pos hH, if_neg hV, ih, Nat.add_zero]
    · rw [if_neg hH]
      by_cases hV : c = 'V' ∨ c = 'v'
      · rw [if_pos hV, if_pos hV, ih, if_neg (Nat.succ_ne_zero _)]
        split_ifs <;> rfl
      · rw [if_neg hV, if_neg hV, ih, Nat.add_zero]

theorem readFlip_Xoffset (af : AnimFrame) (s : List Char)
    (h1 : -32768 ≤ af.Xoffset) (h2 : af.Xoffset < 32768) :
    (readFlip af s).Xoffset =
      if countFlip 'H' 'h' s % 2 = 0 then af.Xoffset else int16 (af.Xoffset * -1) := by
  induction s generalizing af with
  | nil => simp [readFlip, countFlip]
  | cons c cs ih =>
    unfold readFlip
    rw [countFlip_cons]
    by_cases hH : c = 'H' ∨ c = 'h'
    · rw [if_pos hH, if_pos hH, ih _ (int16_range _).1 (int16_range _).2]
      have e : int16 (int16 (af.Xoffset * -1) * -1) = af.Xoffset := by
        unfold int16; omega
      simp only [e]
      split_ifs <;> first | rfl | omega
    · rw [if_neg hH, if_neg hH, Nat.add_zero]
      by_cases hV : c = 'V' ∨ c = 'v'
      · rw [if_pos hV]
        exact ih { af with Vscale := -1, Yoffset := int16 (af.Yoffset * -1) } h1 h2
      · rw [if_neg hV]
        exact ih af h1 h2

theorem readFlip_Yoffset (af : AnimFrame) (s : List Char)
    (h1 : -32768 ≤ af.Yoffset) (h2 : af.Yoffset < 32768) :
    (readFlip af s).Yoffset =
      if countFlip 'V' 'v' s % 2 = 0 then af.Yoffset else int16 (af.Yoffset * -1) := by
  induction s generalizing af with
  | nil => simp [readFlip, countFlip]
  | cons c cs ih =>
    unfold readFlip
    rw [countFlip_cons]
    by_cases hH : c = 'H' ∨ c = 'h'
    · have hV : ¬ (c = 'V' ∨ c = 'v') := by
        rcases hH with h | h <;> subst h <;> decide
      rw [if_pos hH, if_neg hV, Nat.add_zero]
      exact ih { af with Hscale := -1, Xoffset := int16 (af.Xoffset * -1) } h1 h2
    · rw [if_neg hH]
      by_cases hV : c = 'V' ∨ c = 'v'
      · rw [if_pos hV, if_pos hV, ih _ (int16_range _).1 (int16_range _).2]
        have e : int16 (int16 (af.Yoffset * -1) * -1) = af.Yoffset := by
          unfold int16; omega
        simp only [e]
        split_ifs <;> first | rfl | omega
      · rw [if_neg hV, if_neg hV, ih _ h1 h2, Nat.add_zero]

theorem readAlpha_nil (af : AnimFrame) : readAlpha (alphaToken []) af = af := by
  have h : alphaToken [] = [] := by decide
  rw [h]
  simp [readAlpha]

/-- What `ReadAnimFrame` returns when it returns a frame, field by field. -/
theorem ReadAnimFrame_some (Atoi : List Char → Int) (IsNumeric : List Char → Bool)
    (line : List Char) (af : AnimFrame)
    (h : ReadAnimFrame Atoi IsNumeric line = some af) :
    5 ≤ (SplitN ',' 10 line).length ∧
    af.Group = int16 (Atoi ((SplitN ',' 10 line).getD 0 [])) ∧
    af.Number = int16 (Atoi ((SplitN ',' 10 line).getD 1 [])) ∧
    af.Time = Atoi ((SplitN ',' 10 line).getD 4 []) ∧
    af.Hscale = (if countFlip 'H' 'h' ((SplitN ',' 10 line).getD 5 []) = 0 then 1 else -1) ∧
    af.Vscale = (if countFlip 'V' 'v' ((SplitN ',' 10 line).getD 5 []) = 0 then 1 else -1) ∧
    af.Xoffset = (if countFlip 'H' 'h' ((SplitN ',' 10 line).getD 5 []) % 2 = 0
      then int16 (Atoi ((SplitN ',' 10 line).getD 2 []))
      else int16 (int16 (Atoi ((SplitN ',' 10 line).getD 2 [])) * -1)) ∧
    af.Yoffset = (if countFlip 'V' 'v' ((SplitN ',' 10 line).getD 5 []) % 2 = 0
      then int16 (Atoi ((SplitN ',' 10 line).getD 3 []))
      else int16 (int16 (Atoi ((SplitN ',' 10 line).getD 3 [])) * -1)) ∧
    af.SrcAlpha = (readAlpha (alphaToken ((SplitN ',' 10 line).getD 6 [])) newAnimFrame).SrcAlpha ∧
    af.DstAlpha = (readAlpha (alphaToken ((SplitN ',' 10 line).getD 6 [])) newAnimFrame).DstAlpha ∧
    ((SplitN ',' 10 line).length < 8 → af.Xscale = F32.const 1) ∧
    ((SplitN ',' 10 line).length < 9 → af.Yscale = F32.const 1) ∧
    ((SplitN ',' 10 line).length < 10 → af.Angle = F32.const 0) ∧
    af.Clsn = [] := by
  generalize hary : SplitN ',' 10 line = ary
  unfold ReadAnimFrame at h
  cases line with
  | nil => simp at h
  | cons c0 rest =>
    simp only [hary] at h
    by_cases h0 : (c0 < '0' ∨ '9' < c0) ∧ c0 ≠ '-'
    · rw [if_pos h0] at h; cases h
    rw [if_neg h0] at h
    by_cases h5 : ary.length < 5
    · rw [if_pos h5] at h; cases h
    rw [if_neg h5] at h
    have hX := fun b hb1 hb2 => readFlip_Xoffset b (ary.getD 5 []) hb1 hb2
    have hY := fun b hb1 hb2 => readFlip_Yoffset b (ary.getD 5 []) hb1 hb2
    have hA := fun b => readAlpha_congr (alphaToken (ary.getD 6 [])) b newAnimFrame
    by_cases h6 : ary.length < 6
    · rw [if_pos h6] at h
      cases h
      have e5 : ary.getD 5 [] = [] := List.getD_eq_default _ _ (by omega)
      have e6 : ary.getD 6 [] = [] := List.getD_eq_default _ _ (by omega)
      rw [e5, e6, readAlpha_nil]
      simp [countFlip, newAnimFrame]
      omega
    rw [if_neg h6] at h
    have hx0 := int16_range (Atoi (ary.getD 2 []))
    have hy0 := int16_range (Atoi (ary.getD 3 []))
    have tail : ∀ x : AnimFrame, some x = some af →
        x.Group = int16 (Atoi (ary.getD 0 [])) → x.Number = int16 (Atoi (ary.getD 1 [])) →
        x.Time = Atoi (ary.getD 4 []) →
        x.Hscale = (if countFlip 'H' 'h' (ary.getD 5 []) = 0 then 1 else -1) →
        x.Vscale = (if countFlip 'V' 'v' (ary.getD 5 []) = 0 then 1 else -1) →
        x.Xoffset = (if countFlip 'H' 'h' (ary.getD 5 []) % 2 = 0
          then int16 (Atoi (ary.getD 2 [])) else int16 (int16 (Atoi (ary.getD 2 [])) * -1)) →
        x.Yoffset = (if countFlip 'V' 'v' (ary.getD 5 []) % 2 = 0
          then int16 (Atoi (ary.getD 3 [])) else int16 (int16 (Atoi (ary.getD 3 [])) * -1)) →
        x.SrcAlpha = (readAlpha (alphaToken (ary.getD 6 [])) newAnimFrame).SrcAlpha →
        x.DstAlpha = (readAlpha (alphaToken (ary.getD 6 [])) newAnimFrame).DstAlpha →
        (ary.length < 8 → x.Xscale = F32.const 1) →
        (ary.length < 9 → x.Yscale = F32.const 1) →
        (ary.length < 10 → x.Angle = F32.const 0) → x.Clsn = [] →
        5 ≤ ary.length ∧
        af.Group = int16 (Atoi (ary.getD 0 [])) ∧ af.Number = int16 (Atoi (ary.getD 1 [])) ∧
        af.Time = Atoi (ary.getD 4 []) ∧
        af.Hscale = (if countFlip 'H' 'h' (ary.getD 5 []) = 0 then 1 else -1) ∧
        af.Vscale = (if countFlip 'V' 'v' (ary.getD 5 []) = 0 then 1 else -1) ∧
        af.Xoffset = (if countFlip 'H' 'h' (ary.getD 5 []) % 2 = 0
          then int16 (Atoi (ary.getD 2 [])) else int16 (int16 (Atoi (ary.getD 2 [])) * -1)) ∧
        af.Yoffset = (if countFlip 'V' 'v' (ary.getD 5 []) % 2 = 0
          then int16 (Atoi (ary.getD 3 [])) else int16 (int16 (Atoi (ary.getD 3 [])) * -1)) ∧
        af.SrcAlpha = (readAlpha (alphaToken (ary.getD 6 [])) newAnimFrame).SrcAlpha ∧
        af.DstAlpha = (readAlpha (alphaToken (ary.getD 6 [])) newAnimFrame).DstAlpha ∧
        (ary.length < 8 → af.Xscale = F32.const 1) ∧
        (ary.length < 9 → af.Yscale = F32.const 1) ∧
        (ary.length < 10 → af.Angle = F32.const 0) ∧ af.Clsn = [] := by
      intro x hx a1 a2 a3 a4 a5 a6 a7 a8 a9 a10 a11 a12 a13
      cases hx
      exact ⟨by omega, a1, a2, a3, a4, a5, a6, a7, a8, a9, a10, a11, a12, a13⟩
    -- the frame after the flip loop
    generalize hb1 : readFlip
      { newAnimFrame with
        Group := int16 (Atoi (ary.getD 0 [])), Number := int16 (Atoi (ary.getD 1 [])),
        Xoffset := int16 (Atoi (ary.getD 2 [])), Yoffset := int16 (Atoi (ary.getD 3 [])),
        Time := Atoi (ary.getD 4 []) } (ary.getD 5 []) = b1 at h
    have c1 : b1.Group = int16 (Atoi (ary.getD 0 [])) := by rw [← hb1, readFlip_Group]
    have c2 : b1.Number = int16 (Atoi (ary.getD 1 [])) := by rw [← hb1, readFlip_Number]
    have c3 : b1.Time = Atoi (ary.getD 4 []) := by rw [← hb1, readFlip_Time]
    have c4 : b1.Hscale = (if countFlip 'H' 'h' (ary.getD 5 []) = 0 then 1 else -1) := by
      rw [← hb1, readFlip_Hscale]; rfl
    have c5 : b1.Vscale = (if countFlip 'V' 'v' (ary.getD 5 []) = 0 then 1 else -1) := by
      rw [← hb1, readFlip_Vscale]; rfl
    have c6 : b1.Xoffset = (if countFlip 'H' 'h' (ary.getD 5 []) % 2 = 0
        then int16 (Atoi (ary.getD 2 [])) else int16 (int16 (Atoi (ary.getD 2 [])) * -1)) := by
      rw [← hb1, readFlip_Xoffset _ _ hx0.1 hx0.2]
    have c7 : b1.Yoffset = (if countFlip 'V' 'v' (ary.getD 5 []) % 2 = 0
        then int16 (Atoi (ary.getD 3 [])) else int16 (int16 (Atoi (ary.getD 3 [])) * -1)) := by
      rw [← hb1, readFlip_Yoffset _ _ hy0.1 hy0.2]
    have c8 : b1.SrcAlpha = newAnimFrame.SrcAlpha := by rw [← hb1, readFlip_SrcAlpha]
    have c9 : b1.DstAlpha = newAnimFrame.DstAlpha := by rw [← hb1, readFlip_DstAlpha]
    have c10 : b1.Xscale = F32.const 1 := by rw [← hb1, readFlip_Xscale]; rfl
    have c11 : b1.Yscale = F32.const 1 := by rw [← hb1, readFlip_Yscale]; rfl
    have c12 : b1.Angle = F32.const 0 := by rw [← hb1, readFlip_Angle]; rfl
    have c13 : b1.Clsn = [] := by rw [← hb1, readFlip_Clsn]; rfl
    by_cases h7 : ary.length < 7
    · rw [if_pos h7] at h
      have e6 : ary.getD 6 [] = [] := List.getD_eq_default _ _ (by omega)
      refine tail b1 h c1 c2 c3 c4 c5 c6 c7 ?_ ?_ (fun _ => c10) (fun _ => c11) (fun _ => c12) c13
      · rw [e6, readAlpha_nil]; exact c8
      · rw [e6, readAlpha_nil]; exact c9
    rw [if_neg h7] at h
    generalize hb2 : readAlpha (alphaToken (ary.getD 6 [])) b1 = b2 at h
    have d1 : b2.Group = int16 (Atoi (ary.getD 0 [])) := by rw [← hb2, readAlpha_Group, c1]
    have d2 : b2.Number = int16 (Atoi (ary.getD 1 [])) := by rw [← hb2, readAlpha_Number, c2]
    have d3 : b2.Time = Atoi (ary.getD 4 []) := by rw [← hb2, readAlpha_Time, c3]
    have d4 : b2.Hscale = (if countFlip 'H' 'h' (ary.getD 5 []) = 0 then 1 else -1) := by
      rw [← hb2, readAlpha_Hscale, c4]
    have d5 : b2.Vscale = (if countFlip 'V' 'v' (ary.getD 5 []) = 0 then 1 else -1) := by
      rw [← hb2, readAlpha_Vscale, c5]
    have d6 : b2.Xoffset = (if countFlip 'H' 'h' (ary.getD 5 []) % 2 = 0
        then int16 (Atoi (ary.getD 2 [])) else int16 (int16 (Atoi (ary.getD 2 [])) * -1)) := by
      rw [← hb2, readAlpha_Xoffset, c6]
    have d7 : b2.Yoffset = (if countFlip 'V' 'v' (ary.getD 5 []) % 2 = 0
        then int16 (Atoi (ary.getD 3 [])) else int16 (int16 (Atoi (ary.getD 3 [])) * -1)) := by
      rw [← hb2, readAlpha_Yoffset, c7]
    have d8 : b2.SrcAlpha = (readAlpha (alphaToken (ary.getD 6 [])) newAnimFrame).SrcAlpha := by
      rw [← hb2]; exact (hA b1 c8 c9).1
    have d9 : b2.DstAlpha = (readAlpha (alphaToken (ary.getD 6 [])) newAnimFrame).DstAlpha := by
      rw [← hb2]; exact (hA b1 c8 c9).2
    have d10 : b2.Xscale = F32.const 1 := by rw [← hb2, readAlpha_Xscale, c10]
    have d11 : b2.Yscale = F32.const 1 := by rw [← hb2, readAlpha_Yscale, c11]
    have d12 : b2.Angle = F32.const 0 := by rw [← hb2, readAlpha_Angle, c12]
    have d13 : b2.Clsn = [] := by rw [← hb2, readAlpha_Clsn, c13]
    clear hb1 hb2 c1 c2 c3 c4 c5 c6 c7 c8 c9 c10 c11 c12 c13 hX hY hA
    split_ifs at h
    all_goals
      refine tail _ h ?_ ?_ ?_ ?_ ?_ ?_ ?_ ?_ ?_ ?_ ?_ ?_ ?_
      all_goals first
        | assumption
        | (intro hlt; first | assumption | omega)

/-! ## Lemmas on the alpha token -/

theorem goInt_mod (x : Int) : goInt x % 16384 = x % 16384 := by
  unfold goInt; omega

/-- The digit loop reads a run of digits up to the first character that is not a
digit, and what it accumulates agrees with the decimal value modulo `16384`, whether
or not the machine integer has wrapped. -/
theorem readDigits_append (ds rest : List Char) (alp acc : Int)
    (hd : ∀ c ∈ ds, isDigit c = true) (hr : rest.head?.any isDigit = false)
    (hacc : alp % 16384 = acc % 16384) :
    (readDigits (ds ++ rest) alp).2 = rest ∧
    (readDigits (ds ++ rest) alp).1 % 16384 =
      (ds.foldl (fun n c => n * 10 + ((c.toNat : Int) - 48)) acc) % 16384 := by
  induction ds generalizing alp acc with
  | nil =>
    cases rest with
    | nil => exact ⟨rfl, hacc⟩
    | cons c cs =>
      have hc : isDigit c = false := by simpa using hr
      simp only [List.nil_append, readDigits, hc, List.foldl_nil]
      exact ⟨rfl, hacc⟩
  | cons d ds ih =>
    have hdd : isDigit d = true := hd d (List.mem_cons_self _ _)
    simp only [List.cons_append, readDigits, hdd, if_true, List.foldl_cons]
    apply ih
    · intro c hc; exact hd c (List.mem_cons_of_mem _ hc)
    · rw [goInt_mod]; omega

theorem clampAlpha_eq (x : Int) : clampAlpha x = min (x % 16384) 255 := by
  unfold clampAlpha
  simp only []
  rw [min_def]
  split_ifs <;> omega

theorem clampAlpha_readDigits (ds rest : List Char)
    (hd : ∀ c ∈ ds, isDigit c = true) (hr : rest.head?.any isDigit = false) :
    clampAlpha (readDigits (ds ++ rest) 0).1 = min (decVal ds % 16384) 255 := by
  rw [clampAlpha_eq, (readDigits_append ds rest 0 0 hd hr rfl).2]
  rfl

/-- The alpha switch on a token `as<digits>d<digits>`. -/
theorem readAlpha_as_d (ds1 ds2 : List Char) (af : AnimFrame)
    (h1 : ds1 ≠ []) (h2 : ds2 ≠ [])
    (hd1 : ∀ c ∈ ds1, isDigit c = true) (hd2 : ∀ c ∈ ds2, isDigit c = true) :
    (readAlpha ('a' :: 's' :: (ds1 ++ 'd' :: ds2)) af).DstAlpha = min (decVal ds2 % 16384) 255 ∧
    (readAlpha ('a' :: 's' :: (ds1 ++ 'd' :: ds2)) af).SrcAlpha =
      if min (decVal ds1 % 16384) 255 = 1 ∧ min (decVal ds2 % 16384) 255 = 255 then 0
      else min (decVal ds1 % 16384) 255 := by
  obtain ⟨c1, t1, rfl⟩ := List.exists_cons_of_ne_nil h1
  obtain ⟨c2, t2, rfl⟩ := List.exists_cons_of_ne_nil h2
  have hc1 : isDigit c1 = true := hd1 c1 (List.mem_cons_self _ _)
  have hc2 : isDigit c2 = true := hd2 c2 (List.mem_cons_self _ _)
  have hdnot : isDigit 'd' = false := by decide
  have hr1 : (('d' :: (c2 :: t2)).head?.any isDigit) = false := by
    simp [hdnot]
  have e1 := readDigits_append (c1 :: t1) ('d' :: c2 :: t2) 0 0 hd1 hr1 rfl
  have e2 := readDigits_append (c2 :: t2) [] 0 0 hd2 rfl rfl
  have k1 := clampAlpha_readDigits (c1 :: t1) ('d' :: c2 :: t2) hd1 hr1
  have k2 := clampAlpha_readDigits (c2 :: t2) [] hd2 rfl
  rw [List.append_nil] at e2 k2
  unfold readAlpha
  have n1 : ¬ ('a' :: 's' :: (c1 :: t1 ++ 'd' :: c2 :: t2) = ['a', '1']) := by
    intro h; simp at h
  have n2 : ¬ (('a' :: 's' :: (c1 :: t1 ++ 'd' :: c2 :: t2)).length > 0 ∧
      ('a' :: 's' :: (c1 :: t1 ++ 'd' :: c2 :: t2)).head? = some 's') := by
    intro h; simp at h
  have p3 : ('a' :: 's' :: (c1 :: t1 ++ 'd' :: c2 :: t2)).length ≥ 2 ∧
      ('a' :: 's' :: (c1 :: t1 ++ 'd' :: c2 :: t2)).take 2 = ['a', 's'] := by
    simp
  have p4 : ('a' :: 's' :: (c1 :: t1 ++ 'd' :: c2 :: t2)).length > 2 ∧
      (('a' :: 's' :: (c1 :: t1 ++ 'd' :: c2 :: t2)).drop 2).head?.any isDigit = true := by
    simp [hc1]
  rw [if_neg n1, if_neg n2, if_pos p3, if_pos p4]
  have hdrop : ('a' :: 's' :: (c1 :: t1 ++ 'd' :: c2 :: t2)).drop 2 =
      (c1 :: t1) ++ 'd' :: c2 :: t2 := rfl
  rw [hdrop]
  simp only [e1.1]
  have p5 : ((c2 :: t2).head?.any isDigit) = true := by simp [hc2]
  rw [if_pos p5, k1, k2]
  split_ifs <;> exact ⟨rfl, rfl⟩

/-- The alpha switch on a token `as<digits>` with no `d` part. -/
theorem readAlpha_as (ds : List Char) (af : AnimFrame)
    (h1 : ds ≠ []) (hd : ∀ c ∈ ds, isDigit c = true) :
    (readAlpha ('a' :: 's' :: ds) af).SrcAlpha = min (decVal ds % 16384) 255 ∧
    (readAlpha ('a' :: 's' :: ds) af).DstAlpha = af.DstAlpha := by
  obtain ⟨c1, t1, rfl⟩ := List.exists_cons_of_ne_nil h1
  have hc1 : isDigit c1 = true := hd c1 (List.mem_cons_self _ _)
  have e1 := readDigits_append (c1 :: t1) [] 0 0 hd rfl rfl
  have k1 := clampAlpha_readDigits (c1 :: t1) [] hd rfl
  rw [List.append_nil] at e1 k1
  unfold readAlpha
  have n1 : ¬ ('a' :: 's' :: c1 :: t1 = ['a', '1']) := by
    intro h; simp at h
  have n2 : ¬ (('a' :: 's' :: c1 :: t1).length > 0 ∧
      ('a' :: 's' :: c1 :: t1).head? = some 's') := by
    intro h; simp at h
  have p3 : ('a' :: 's' :: c1 :: t1).length ≥ 2 ∧
      ('a' :: 's' :: c1 :: t1).take 2 = ['a', 's'] := by
    simp
  have p4 : ('a' :: 's' :: c1 :: t1).length > 2 ∧
      (('a' :: 's' :: c1 :: t1).drop 2).head?.any isDigit = true := by
    simp [hc1]
  rw [if_neg n1, if_neg n2, if_pos p3, if_pos p4]
  have hdrop : ('a' :: 's' :: c1 :: t1).drop 2 = c1 :: t1 := rfl
  rw [hdrop]
  simp only [e1.1, k1]
  exact ⟨trivial, trivial⟩

/-- The alpha switch on a token that begins with `s`. -/
theorem readAlpha_s (a : List Char) (af : AnimFrame) (h : a.head? = some 's') :
    (readAlpha a af).SrcAlpha = 1 ∧ (readAlpha a af).DstAlpha = 255 := by
  cases a with
  | nil => simp at h
  | cons c t =>
    have hc : c = 's' := by simpa using h
    subst hc
    unfold readAlpha
    have n1 : ¬ ('s' :: t = ['a', '1']) := by intro h; simp at h
    have p2 : ('s' :: t).length > 0 ∧ ('s' :: t).head? = some 's' := by simp
    rw [if_neg n1, if_pos p2]
    exact ⟨rfl, rfl⟩

/-- The alpha switch on the token `a1`. -/
theorem readAlpha_a1 (af : AnimFrame) :
    (readAlpha ['a', '1'] af).SrcAlpha = 255 ∧ (readAlpha ['a', '1'] af).DstAlpha = 128 := by
  unfold readAlpha
  rw [if_pos rfl]
  exact ⟨rfl, rfl⟩

/-- The alpha switch on a token that begins with `a`, is not `a1` and does not begin
with `as`. -/
theorem readAlpha_a (rest : List Char) (af : AnimFrame)
    (h1 : rest ≠ ['1']) (h2 : rest.head? ≠ some 's') :
    (readAlpha ('a' :: rest) af).SrcAlpha = 255 ∧
    (readAlpha ('a' :: rest) af).DstAlpha = 255 := by
  unfold readAlpha
  have n1 : ¬ ('a' :: rest = ['a', '1']) := by
    intro h; apply h1; simpa using h
  have n2 : ¬ (('a' :: rest).length > 0 ∧ ('a' :: rest).head? = some 's') := by
    intro h; simp at h
  have n3 : ¬ (('a' :: rest).length ≥ 2 ∧ ('a' :: rest).take 2 = ['a', 's']) := by
    rintro ⟨_, h⟩
    apply h2
    cases rest with
    | nil => simp at h
    | cons c t =>
      simp only [List.take_succ_cons, List.take_zero, List.cons.injEq, and_true, true_and] at h
      simp [h]
  have p4 : ('a' :: rest).length > 0 ∧ ('a' :: rest).head? = some 'a' := by simp
  rw [if_neg n1, if_neg n2, if_neg n3, if_pos p4]
  exact ⟨rfl, rfl⟩

/-- The alpha switch on a token that begins with `as` not followed by a digit: the
`as` case is taken and changes nothing. -/
theorem readAlpha_as_nodigit (rest : List Char) (af : AnimFrame)
    (h : rest.head?.any isDigit = false) :
    readAlpha ('a' :: 's' :: rest) af = af := by
  unfold readAlpha
  have n1 : ¬ ('a' :: 's' :: rest = ['a', '1']) := by intro h; simp at h
  have n2 : ¬ (('a' :: 's' :: rest).length > 0 ∧ ('a' :: 's' :: rest).head? = some 's') := by
    intro h; simp at h
  have p3 : ('a' :: 's' :: rest).length ≥ 2 ∧ ('a' :: 's' :: rest).take 2 = ['a', 's'] := by
    simp
  have n4 : ¬ (('a' :: 's' :: rest).length > 2 ∧
      (('a' :: 's' :: rest).drop 2).head?.any isDigit = true) := by
    rintro ⟨_, h4⟩
    have : ('a' :: 's' :: rest).drop 2 = rest := rfl
    rw [this, h] at h4
    cases h4
  rw [if_neg n1, if_neg n2, if_pos p3, if_neg n4]

/-- The alpha switch yields the pair `(1, 255)` from the default bytes only on a token
that begins with `s`. -/
theorem readAlpha_sentinel (a : List Char)
    (h : (readAlpha a newAnimFrame).SrcAlpha = 1 ∧ (readAlpha a newAnimFrame).DstAlpha = 255) :
    a.head? = some 's' := by
  by_contra hs
  revert h
  unfold readAlpha
  have n2 : ¬ (a.length > 0 ∧ a.head? = some 's') := fun h => hs h.2
  rw [if_neg n2]
  split_ifs
  · rintro ⟨h, _⟩; cases h
  · dsimp only
    split
    · split_ifs with hd hsent
      · rintro ⟨h, _⟩; cases h
      · intro h; exact hsent h
      · rintro ⟨_, h⟩; cases h
    · rintro ⟨_, h⟩; cases h
  · rintro ⟨_, h⟩; cases h
  · rintro ⟨h, _⟩; cases h
  · rintro ⟨_, h⟩; cases h

theorem countFlip_eq_zero_iff (hi lo : Char) (s : List Char) :
    countFlip hi lo s = 0 ↔ ∀ c ∈ s, c ≠ hi ∧ c ≠ lo := by
  unfold countFlip
  rw [List.countP_eq_zero]
  constructor
  · intro h c hc
    have := h c hc
    simpa using this
  · intro h c hc
    have := h c hc
    simpa using this

theorem fields_length_le (line : List Char) : (fields line).length ≤ 10 := by
  have h : (SplitN ',' 10 line).length = min 10 (Split ',' line).length :=
    SplitN_length ',' 9 line
  unfold fields
  rw [h]
  exact min_le_left _ _

/-! ## Claims on `ReadAnimFrame` -/

/-- C2. `ReadAnimFrame(line)` is `nil` exactly when the line is empty, or its first byte
is neither a decimal digit nor `-`, or splitting it on `,` gives fewer than 5 fields. -/
theorem C2_ReadAnimFrame_nil_iff (Atoi : List Char → Int) (IsNumeric : List Char → Bool)
    (line : List Char) :
    ReadAnimFrame Atoi IsNumeric line = none ↔
      (line = [] ∨ (∃ c, line.head? = some c ∧ isDigit c = false ∧ c ≠ '-') ∨
        (Split ',' line).length < 5) := by
  have hlen : (SplitN ',' 10 line).length < 5 ↔ (Split ',' line).length < 5 := by
    have h : (SplitN ',' 10 line).length = min 10 (Split ',' line).length :=
      SplitN_length ',' 9 line
    rw [min_def] at h
    split_ifs at h <;> omega
  cases line with
  | nil => simp [ReadAnimFrame]
  | cons c0 rest =>
    unfold ReadAnimFrame
    simp only [List.head?_cons, Option.some.injEq, exists_eq_left', reduceCtorEq, false_or]
    rw [← not_digit_iff, ← hlen]
    generalize SplitN ',' 10 (c0 :: rest) = ary
    by_cases h0 : (c0 < '0' ∨ '9' < c0) ∧ c0 ≠ '-'
    · simp only [if_pos h0, true_iff]
      exact Or.inl h0
    · rw [if_neg h0]
      by_cases h5 : ary.length < 5
      · simp only [if_pos h5, true_iff]
        exact Or.inr h5
      · simp only [if_neg h5]
        constructor
        · intro h
          exfalso
          by_cases h6 : ary.length < 6
          · rw [if_pos h6] at h; cases h
          rw [if_neg h6] at h
          by_cases h7 : ary.length < 7
          · rw [if_pos h7] at h; cases h
          rw [if_neg h7] at h
          by_cases h8 : ary.length < 8
          · rw [if_pos h8] at h; cases h
          rw [if_neg h8] at h
          by_cases h9 : ary.length < 9
          · rw [if_pos h9] at h; cases h
          rw [if_neg h9] at h
          by_cases h10 : ary.length < 10
          · rw [if_pos h10] at h; cases h
          rw [if_neg h10] at h
          cases h
        · rintro (h | h)
          · exact absurd h h0
          · exact absurd h h5

/-- C3 (counterexample). On the line `0,0,3,4,5,H` the third field has the value 3 and
the frame has `Xoffset = -3`; on the line `70000,0,0,0,5` the first field has the value
70000 and the frame has `Group = 4464` (`Group` is an `int16`). -/
theorem C3_counterexample :
    Option.map AnimFrame.Xoffset
        (ReadAnimFrame decAtoi decIsNumeric "0,0,3,4,5,H".toList) = some (-3) ∧
    decAtoi ((fields "0,0,3,4,5,H".toList).getD 2 []) = 3 ∧
    Option.map AnimFrame.Group
        (ReadAnimFrame decAtoi decIsNumeric "70000,0,0,0,5".toList) = some 4464 ∧
    decAtoi ((fields "70000,0,0,0,5".toList).getD 0 []) = 70000 := by
  decide

/-- C3 (amended). For every line on which `ReadAnimFrame` returns a frame (5 to 10
fields): `Group` and `Number` are the values of the first two fields converted to
`int16`, `Time` is the value of the fifth field; `Xoffset` (`Yoffset`) is the value of
the third (fourth) field converted to `int16` whenever the flip field is absent or
holds no `H`/`h` (`V`/`v`); and every optional field that is not supplied has its
default: `Hscale = Vscale = 1`, `SrcAlpha = 255`, `DstAlpha = 0`, `Xscale = Yscale = 1`,
`Angle = 0`.  The conversion to `int16` leaves a value of the `int16` range as it is
(`int16_of_range`). -/
theorem C3_required_fields_and_defaults (Atoi : List Char → Int)
    (IsNumeric : List Char → Bool) (line : List Char) (af : AnimFrame)
    (h : ReadAnimFrame Atoi IsNumeric line = some af) :
    (5 ≤ (fields line).length ∧ (fields line).length ≤ 10 ∧
      af.Group = int16 (Atoi ((fields line).getD 0 [])) ∧
      af.Number = int16 (Atoi ((fields line).getD 1 [])) ∧
      af.Time = Atoi ((fields line).getD 4 []) ∧
      ((∀ c ∈ ((fields line).getD 5 []), c ≠ 'H' ∧ c ≠ 'h') →
        af.Hscale = 1 ∧ af.Xoffset = int16 (Atoi ((fields line).getD 2 []))) ∧
      ((∀ c ∈ ((fields line).getD 5 []), c ≠ 'V' ∧ c ≠ 'v') →
        af.Vscale = 1 ∧ af.Yoffset = int16 (Atoi ((fields line).getD 3 []))) ∧
      ((fields line).length < 6 →
        af.Hscale = 1 ∧ af.Vscale = 1 ∧
        af.Xoffset = int16 (Atoi ((fields line).getD 2 [])) ∧
        af.Yoffset = int16 (Atoi ((fields line).getD 3 []))) ∧
      ((fields line).length < 7 → af.SrcAlpha = 255 ∧ af.DstAlpha = 0) ∧
      ((fields line).length < 8 → af.Xscale = F32.const 1) ∧
      ((fields line).length < 9 → af.Yscale = F32.const 1) ∧
      ((fields line).length < 10 → af.Angle = F32.const 0)) := by
  have hs := ReadAnimFrame_some Atoi IsNumeric line af h
  have hle := fields_length_le line
  have hH := countFlip_eq_zero_iff 'H' 'h' ((fields line).getD 5 [])
  have hV := countFlip_eq_zero_iff 'V' 'v' ((fields line).getD 5 [])
  unfold fields at hle hH hV ⊢
  obtain ⟨g0, g1, g2, g3, g4, g5, g6, g7, g8, g9, g10, g11, g12, _⟩ := hs
  have e5 : (SplitN ',' 10 line).length < 6 → (SplitN ',' 10 line).getD 5 [] = [] :=
    fun hlt => List.getD_eq_default _ _ (by omega)
  have e6 : (SplitN ',' 10 line).length < 7 → (SplitN ',' 10 line).getD 6 [] = [] :=
    fun hlt => List.getD_eq_default _ _ (by omega)
  refine ⟨g0, hle, g1, g2, g3, ?_, ?_, ?_, ?_, g10, g11, g12⟩
  · intro hno
    have hz := hH.mpr hno
    rw [hz] at g4 g6
    exact ⟨g4, g6⟩
  · intro hno
    have hz := hV.mpr hno
    rw [hz] at g5 g7
    exact ⟨g5, g7⟩
  · intro hlt
    rw [e5 hlt] at g4 g5 g6 g7
    exact ⟨g4, g5, g6, g7⟩
  · intro hlt
    rw [e6 hlt, readAlpha_nil] at g8 g9
    exact ⟨g8, g9⟩

/-- C3 (witness): the line `10,20,3,4,5`. -/
theorem C3_required_fields_and_defaults_witness :
    ReadAnimFrame decAtoi decIsNumeric "10,20,3,4,5".toList = some
      ({ newAnimFrame with Group := 10, Number := 20, Xoffset := 3, Yoffset := 4, Time := 5 } : AnimFrame) ∧
    (5 ≤ (fields "10,20,3,4,5".toList).length ∧ (fields "10,20,3,4,5".toList).length ≤ 10 ∧
      ({ newAnimFrame with Group := 10, Number := 20, Xoffset := 3, Yoffset := 4, Time := 5 } : AnimFrame).Group = int16 (decAtoi ((fields "10,20,3,4,5".toList).getD 0 [])) ∧
      ({ newAnimFrame with Group := 10, Number := 20, Xoffset := 3, Yoffset := 4, Time := 5 } : AnimFrame).Number = int16 (decAtoi ((fields "10,20,3,4,5".toList).getD 1 [])) ∧
      ({ newAnimFrame with Group := 10, Number := 20, Xoffset := 3, Yoffset := 4, Time := 5 } : AnimFrame).Time = decAtoi ((fields "10,20,3,4,5".toList).getD 4 []) ∧
      ((∀ c ∈ ((fields "10,20,3,4,5".toList).getD 5 []), c ≠ 'H' ∧ c ≠ 'h') →
        ({ newAnimFrame with Group := 10, Number := 20, Xoffset := 3, Yoffset := 4, Time := 5 } : AnimFrame).Hscale = 1 ∧ ({ newAnimFrame with Group := 10, Number := 20, Xoffset := 3, Yoffset := 4, Time := 5 } : AnimFrame).Xoffset = int16 (decAtoi ((fields "10,20,3,4,5".toList).getD 2 []))) ∧
      ((∀ c ∈ ((fields "10,20,3,4,5".toList).getD 5 []), c ≠ 'V' ∧ c ≠ 'v') →
        ({ newAnimFrame with Group := 10, Number := 20, Xoffset := 3, Yoffset := 4, Time := 5 } : AnimFrame).Vscale = 1 ∧ ({ newAnimFrame with Group := 10, Number := 20, Xoffset := 3, Yoffset := 4, Time := 5 } : AnimFrame).Yoffset = int16 (decAtoi ((fields "10,20,3,4,5".toList).getD 3 []))) ∧
      ((fields "10,20,3,4,5".toList).length < 6 →
        ({ newAnimFrame with Group := 10, Number := 20, Xoffset := 3, Yoffset := 4, Time := 5 } : AnimFrame).Hscale = 1 ∧ ({ newAnimFrame with Group := 10, Number := 20, Xoffset := 3, Yoffset := 4, Time := 5 } : AnimFrame).Vscale = 1 ∧
        ({ newAnimFrame with Group := 10, Number := 20, Xoffset := 3, Yoffset := 4, Time := 5 } : AnimFrame).Xoffset = int16 (decAtoi ((fields "10,20,3,4,5".toList).getD 2 [])) ∧
        ({ newAnimFrame with Group := 10, Number := 20, Xoffset := 3, Yoffset := 4, Time := 5 } : AnimFrame).Yoffset = int16 (decAtoi ((fields "10,20,3,4,5".toList).getD 3 []))) ∧
      ((fields "10,20,3,4,5".toList).length < 7 → ({ newAnimFrame with Group := 10, Number := 20, Xoffset := 3, Yoffset := 4, Time := 5 } : AnimFrame).SrcAlpha = 255 ∧ ({ newAnimFrame with Group := 10, Number := 20, Xoffset := 3, Yoffset := 4, Time := 5 } : AnimFrame).DstAlpha = 0) ∧
      ((fields "10,20,3,4,5".toList).length < 8 → ({ newAnimFrame with Group := 10, Number := 20, Xoffset := 3, Yoffset := 4, Time := 5 } : AnimFrame).Xscale = F32.const 1) ∧
      ((fields "10,20,3,4,5".toList).length < 9 → ({ newAnimFrame with Group := 10, Number := 20, Xoffset := 3, Yoffset := 4, Time := 5 } : AnimFrame).Yscale = F32.const 1) ∧
      ((fields "10,20,3,4,5".toList).length < 10 → ({ newAnimFrame with Group := 10, Number := 20, Xoffset := 3, Yoffset := 4, Time := 5 } : AnimFrame).Angle = F32.const 0)) :=
  ⟨by decide, C3_required_fields_and_defaults decAtoi decIsNumeric _ _ (by decide)⟩

/-- C4 (counterexample). On the line `0,0,0,0,5,,S` the alpha token begins with `s` and
the frame carries the pair `(SrcAlpha, DstAlpha) = (1, 255)`, not `(0, 255)`. -/
theorem C4_counterexample :
    (alphaToken ((fields "0,0,0,0,5,,S".toList).getD 6 [])).head? = some 's' ∧
    Option.map AnimFrame.SrcAlpha
        (ReadAnimFrame decAtoi decIsNumeric "0,0,0,0,5,,S".toList) = some 1 ∧
    Option.map AnimFrame.DstAlpha
        (ReadAnimFrame decAtoi decIsNumeric "0,0,0,0,5,,S".toList) = some 255 := by
  decide

/-- C4 (amended). For every line on which `ReadAnimFrame` returns a frame: if the alpha
token is `AS1D255` the frame has `SrcAlpha = 0` and `DstAlpha = 255`; if the alpha token
begins with `S` (any case) the frame has the reserved pair `SrcAlpha = 1`,
`DstAlpha = 255`; and a frame carries the reserved pair only when its alpha token begins
with `S`. -/
theorem C4_sub_alias_and_sentinel (Atoi : List Char → Int)
    (IsNumeric : List Char → Bool) (line : List Char) (af : AnimFrame)
    (h : ReadAnimFrame Atoi IsNumeric line = some af) :
    ((alphaToken ((fields line).getD 6 []) = "as1d255".toList →
        af.SrcAlpha = 0 ∧ af.DstAlpha = 255) ∧
      ((alphaToken ((fields line).getD 6 [])).head? = some 's' →
        af.SrcAlpha = 1 ∧ af.DstAlpha = 255) ∧
      (af.SrcAlpha = 1 ∧ af.DstAlpha = 255 →
        (alphaToken ((fields line).getD 6 [])).head? = some 's')) := by
  have hs := ReadAnimFrame_some Atoi IsNumeric line af h
  unfold fields
  obtain ⟨_, _, _, _, _, _, _, _, g8, g9, _⟩ := hs
  refine ⟨?_, ?_, ?_⟩
  · intro ht
    have k := readAlpha_as_d ['1'] ['2', '5', '5'] newAnimFrame (by decide) (by decide)
      (by decide) (by decide)
    have e : "as1d255".toList = 'a' :: 's' :: (['1'] ++ 'd' :: ['2', '5', '5']) := by decide
    rw [ht, e] at g8 g9
    rw [g8, g9, k.1, k.2]
    decide
  · intro ht
    have k := readAlpha_s _ newAnimFrame ht
    rw [g8, g9]
    exact k
  · intro hp
    rw [g8, g9] at hp
    exact readAlpha_sentinel _ hp

/-- C4 (witness): the line `0,0,0,0,5,, AS1D255`. -/
theorem C4_sub_alias_and_sentinel_witness :
    ReadAnimFrame decAtoi decIsNumeric "0,0,0,0,5,, AS1D255".toList = some
      ({ newAnimFrame with Group := 0, Number := 0, Xoffset := 0, Yoffset := 0, Time := 5, SrcAlpha := 0, DstAlpha := 255 } : AnimFrame) ∧
    ((alphaToken ((fields "0,0,0,0,5,, AS1D255".toList).getD 6 []) = "as1d255".toList →
        ({ newAnimFrame with Group := 0, Number := 0, Xoffset := 0, Yoffset := 0, Time := 5, SrcAlpha := 0, DstAlpha := 255 } : AnimFrame).SrcAlpha = 0 ∧ ({ newAnimFrame with Group := 0, Number := 0, Xoffset := 0, Yoffset := 0, Time := 5, SrcAlpha := 0, DstAlpha := 255 } : AnimFrame).DstAlpha = 255) ∧
      ((alphaToken ((fields "0,0,0,0,5,, AS1D255".toList).getD 6 [])).head? = some 's' →
        ({ newAnimFrame with Group := 0, Number := 0, Xoffset := 0, Yoffset := 0, Time := 5, SrcAlpha := 0, DstAlpha := 255 } : AnimFrame).SrcAlpha = 1 ∧ ({ newAnimFrame with Group := 0, Number := 0, Xoffset := 0, Yoffset := 0, Time := 5, SrcAlpha := 0, DstAlpha := 255 } : AnimFrame).DstAlpha = 255) ∧
      (({ newAnimFrame with Group := 0, Number := 0, Xoffset := 0, Yoffset := 0, Time := 5, SrcAlpha := 0, DstAlpha := 255 } : AnimFrame).SrcAlpha = 1 ∧ ({ newAnimFrame with Group := 0, Number := 0, Xoffset := 0, Yoffset := 0, Time := 5, SrcAlpha := 0, DstAlpha := 255 } : AnimFrame).DstAlpha = 255 →
        (alphaToken ((fields "0,0,0,0,5,, AS1D255".toList).getD 6 [])).head? = some 's')) :=
  ⟨by decide, C4_sub_alias_and_sentinel decAtoi decIsNumeric _ _ (by decide)⟩

/-- C5. For every line on which `ReadAnimFrame` returns a frame and whose alpha token
is `AS<n>D<m>`, with `n` and `m` non-empty strings of decimal digits of any length and
`N`, `M` their values: `DstAlpha = min(M mod 16384, 255)` and `SrcAlpha` is
`min(N mod 16384, 255)`, rewritten to `0` when the pair is `(1, 255)`; the digit loop
works in the machine integer, whose wrap-around does not change the result. -/
theorem C5_alpha_AS_D_clamp (Atoi : List Char → Int)
    (IsNumeric : List Char → Bool) (line : List Char) (af : AnimFrame)
    (ds1 ds2 : List Char)
    (h : ReadAnimFrame Atoi IsNumeric line = some af)
    (htok : alphaToken ((fields line).getD 6 []) = 'a' :: 's' :: (ds1 ++ 'd' :: ds2))
    (h1 : ds1 ≠ []) (h2 : ds2 ≠ [])
    (hd1 : ∀ c ∈ ds1, isDigit c = true) (hd2 : ∀ c ∈ ds2, isDigit c = true) :
    (af.DstAlpha = min (decVal ds2 % 16384) 255 ∧
      af.SrcAlpha =
        if min (decVal ds1 % 16384) 255 = 1 ∧ min (decVal ds2 % 16384) 255 = 255 then 0
        else min (decVal ds1 % 16384) 255) := by
  have hs := ReadAnimFrame_some Atoi IsNumeric line af h
  unfold fields at htok
  obtain ⟨_, _, _, _, _, _, _, _, g8, g9, _⟩ := hs
  have k := readAlpha_as_d ds1 ds2 newAnimFrame h1 h2 hd1 hd2
  rw [htok] at g8 g9
  rw [g8, g9]
  exact k

/-- C5 (witness): the line `0,0,0,0,5,,AS300D10000` yields `(255, 255)`. -/
theorem C5_alpha_AS_D_clamp_witness :
    (ReadAnimFrame decAtoi decIsNumeric "0,0,0,0,5,,AS300D10000".toList = some
      ({ newAnimFrame with Group := 0, Number := 0, Xoffset := 0, Yoffset := 0, Time := 5, SrcAlpha := 255, DstAlpha := 255 } : AnimFrame) ∧
     alphaToken ((fields "0,0,0,0,5,,AS300D10000".toList).getD 6 []) =
       'a' :: 's' :: ("300".toList ++ 'd' :: "10000".toList) ∧
     "300".toList ≠ [] ∧ "10000".toList ≠ [] ∧
     (∀ c ∈ "300".toList, isDigit c = true) ∧ (∀ c ∈ "10000".toList, isDigit c = true)) ∧
    (({ newAnimFrame with Group := 0, Number := 0, Xoffset := 0, Yoffset := 0, Time := 5, SrcAlpha := 255, DstAlpha := 255 } : AnimFrame).DstAlpha = min (decVal "10000".toList % 16384) 255 ∧
      ({ newAnimFrame with Group := 0, Number := 0, Xoffset := 0, Yoffset := 0, Time := 5, SrcAlpha := 255, DstAlpha := 255 } : AnimFrame).SrcAlpha =
        if min (decVal "300".toList % 16384) 255 = 1 ∧ min (decVal "10000".toList % 16384) 255 = 255 then 0
        else min (decVal "300".toList % 16384) 255) :=
  ⟨by decide, C5_alpha_AS_D_clamp decAtoi decIsNumeric "0,0,0,0,5,,AS300D10000".toList
    _ _ _ (by decide) (by decide)
    (by decide) (by decide) (by decide) (by decide)⟩

/-- C6 (counterexample). On the line `0,0,0,0,5,,AS128` the alpha token is `as128`, with
no `D` part, and the frame has `DstAlpha = 0`, not `255`. -/
theorem C6_counterexample :
    alphaToken ((fields "0,0,0,0,5,,AS128".toList).getD 6 []) = "as128".toList ∧
    Option.map AnimFrame.SrcAlpha
        (ReadAnimFrame decAtoi decIsNumeric "0,0,0,0,5,,AS128".toList) = some 128 ∧
    Option.map AnimFrame.DstAlpha
        (ReadAnimFrame decAtoi decIsNumeric "0,0,0,0,5,,AS128".toList) = some 0 := by
  decide

/-- C6 (amended). For every line on which `ReadAnimFrame` returns a frame and whose
alpha token is `AS<n>`, with `n` a non-empty string of decimal digits of value `N` and
no `D<m>` part: `SrcAlpha = min(N mod 16384, 255)` and `DstAlpha` keeps the default `0`
of a new frame. -/
theorem C6_alpha_AS_keeps_dst (Atoi : List Char → Int)
    (IsNumeric : List Char → Bool) (line : List Char) (af : AnimFrame) (ds : List Char)
    (h : ReadAnimFrame Atoi IsNumeric line = some af)
    (htok : alphaToken ((fields line).getD 6 []) = 'a' :: 's' :: ds)
    (h1 : ds ≠ []) (hd : ∀ c ∈ ds, isDigit c = true) :
    (af.SrcAlpha = min (decVal ds % 16384) 255 ∧ af.DstAlpha = 0) := by
  have hs := ReadAnimFrame_some Atoi IsNumeric line af h
  unfold fields at htok
  obtain ⟨_, _, _, _, _, _, _, _, g8, g9, _⟩ := hs
  have k := readAlpha_as ds newAnimFrame h1 hd
  rw [htok] at g8 g9
  rw [g8, g9]
  exact k

/-- C6 (witness): the line `0,0,0,0,5,,AS128`. -/
theorem C6_alpha_AS_keeps_dst_witness :
    (ReadAnimFrame decAtoi decIsNumeric "0,0,0,0,5,,AS128".toList = some
      ({ newAnimFrame with Group := 0, Number := 0, Xoffset := 0, Yoffset := 0, Time := 5, SrcAlpha := 128, DstAlpha := 0 } : AnimFrame) ∧
     alphaToken ((fields "0,0,0,0,5,,AS128".toList).getD 6 []) = 'a' :: 's' :: "128".toList ∧
     "128".toList ≠ [] ∧ (∀ c ∈ "128".toList, isDigit c = true)) ∧
    (({ newAnimFrame with Group := 0, Number := 0, Xoffset := 0, Yoffset := 0, Time := 5, SrcAlpha := 128, DstAlpha := 0 } : AnimFrame).SrcAlpha = min (decVal "128".toList % 16384) 255 ∧ ({ newAnimFrame with Group := 0, Number := 0, Xoffset := 0, Yoffset := 0, Time := 5, SrcAlpha := 128, DstAlpha := 0 } : AnimFrame).DstAlpha = 0) :=
  ⟨by decide, C6_alpha_AS_keeps_dst decAtoi decIsNumeric "0,0,0,0,5,,AS128".toList
    _ _ (by decide) (by decide)
    (by decide) (by decide)⟩

/-- C7 (counterexample). On the line `0,0,0,0,5,,AS` the alpha token `as` begins with
`a`, is not `a1` and has no digit after `as`; the frame keeps `(255, 0)`, it does not get
`(255, 255)`. -/
theorem C7_counterexample :
    alphaToken ((fields "0,0,0,0,5,,AS".toList).getD 6 []) = "as".toList ∧
    Option.map AnimFrame.SrcAlpha
        (ReadAnimFrame decAtoi decIsNumeric "0,0,0,0,5,,AS".toList) = some 255 ∧
    Option.map AnimFrame.DstAlpha
        (ReadAnimFrame decAtoi decIsNumeric "0,0,0,0,5,,AS".toList) = some 0 := by
  decide

/-- C7 (amended). For every line on which `ReadAnimFrame` returns a frame: if the alpha
token is `A1` the frame has `(SrcAlpha, DstAlpha) = (255, 128)`; if the token begins
with `A`, is not `A1` and does not begin with `AS`, the frame has `(255, 255)`; if the
token begins with `AS` not followed by a digit, the frame keeps the defaults
`(255, 0)`. -/
theorem C7_alpha_A_tokens (Atoi : List Char → Int)
    (IsNumeric : List Char → Bool) (line : List Char) (af : AnimFrame)
    (h : ReadAnimFrame Atoi IsNumeric line = some af) :
    ((alphaToken ((fields line).getD 6 []) = ['a', '1'] →
        af.SrcAlpha = 255 ∧ af.DstAlpha = 128) ∧
      (∀ rest : List Char, alphaToken ((fields line).getD 6 []) = 'a' :: rest →
        rest ≠ ['1'] → rest.head? ≠ some 's' →
        af.SrcAlpha = 255 ∧ af.DstAlpha = 255) ∧
      (∀ rest : List Char, alphaToken ((fields line).getD 6 []) = 'a' :: 's' :: rest →
        rest.head?.any isDigit = false →
        af.SrcAlpha = 255 ∧ af.DstAlpha = 0)) := by
  have hs := ReadAnimFrame_some Atoi IsNumeric line af h
  unfold fields
  obtain ⟨_, _, _, _, _, _, _, _, g8, g9, _⟩ := hs
  refine ⟨?_, ?_, ?_⟩
  · intro ht
    rw [ht] at g8 g9
    rw [g8, g9]
    exact readAlpha_a1 newAnimFrame
  · intro rest ht hr1 hr2
    rw [ht] at g8 g9
    rw [g8, g9]
    exact readAlpha_a rest newAnimFrame hr1 hr2
  · intro rest ht hr
    rw [ht, readAlpha_as_nodigit rest newAnimFrame hr] at g8 g9
    exact ⟨g8, g9⟩

/-- C7 (witness): the line `0,0,0,0,5,,A1`. -/
theorem C7_alpha_A_tokens_witness :
    ReadAnimFrame decAtoi decIsNumeric "0,0,0,0,5,,A1".toList = some
      ({ newAnimFrame with Group := 0, Number := 0, Xoffset := 0, Yoffset := 0, Time := 5, SrcAlpha := 255, DstAlpha := 128 } : AnimFrame) ∧
    ((alphaToken ((fields "0,0,0,0,5,,A1".toList).getD 6 []) = ['a', '1'] →
        ({ newAnimFrame with Group := 0, Number := 0, Xoffset := 0, Yoffset := 0, Time := 5, SrcAlpha := 255, DstAlpha := 128 } : AnimFrame).SrcAlpha = 255 ∧ ({ newAnimFrame with Group := 0, Number := 0, Xoffset := 0, Yoffset := 0, Time := 5, SrcAlpha := 255, DstAlpha := 128 } : AnimFrame).DstAlpha = 128) ∧
      (∀ rest : List Char, alphaToken ((fields "0,0,0,0,5,,A1".toList).getD 6 []) = 'a' :: rest →
        rest ≠ ['1'] → rest.head? ≠ some 's' →
        ({ newAnimFrame with Group := 0, Number := 0, Xoffset := 0, Yoffset := 0, Time := 5, SrcAlpha := 255, DstAlpha := 128 } : AnimFrame).SrcAlpha = 255 ∧ ({ newAnimFrame with Group := 0, Number := 0, Xoffset := 0, Yoffset := 0, Time := 5, SrcAlpha := 255, DstAlpha := 128 } : AnimFrame).DstAlpha = 255) ∧
      (∀ rest : List Char, alphaToken ((fields "0,0,0,0,5,,A1".toList).getD 6 []) = 'a' :: 's' :: rest →
        rest.head?.any isDigit = false →
        ({ newAnimFrame with Group := 0, Number := 0, Xoffset := 0, Yoffset := 0, Time := 5, SrcAlpha := 255, DstAlpha := 128 } : AnimFrame).SrcAlpha = 255 ∧ ({ newAnimFrame with Group := 0, Number := 0, Xoffset := 0, Yoffset := 0, Time := 5, SrcAlpha := 255, DstAlpha := 128 } : AnimFrame).DstAlpha = 0)) :=
  ⟨by decide, C7_alpha_A_tokens decAtoi decIsNumeric _ _ (by decide)⟩

/-- C8 (counterexample). On the line `0,0,3,4,5,HH` the flip field contains `H` and the
parsed X value is 3; the frame has `Hscale = -1` and `Xoffset = 3`, not `-3`. -/
theorem C8_counterexample :
    Option.map AnimFrame.Hscale
        (ReadAnimFrame decAtoi decIsNumeric "0,0,3,4,5,HH".toList) = some (-1) ∧
    Option.map AnimFrame.Xoffset
        (ReadAnimFrame decAtoi decIsNumeric "0,0,3,4,5,HH".toList) = some 3 ∧
    'H' ∈ (fields "0,0,3,4,5,HH".toList).getD 5 [] ∧
    int16 (decAtoi ((fields "0,0,3,4,5,HH".toList).getD 2 [])) = 3 := by
  decide

/-- C8 (amended). For every line on which `ReadAnimFrame` returns a frame: `Hscale` is
`-1` if the flip field contains `H` or `h` and `1` otherwise; `Xoffset` is the parsed X
value negated once for every `H`/`h` of the flip field, in `int16` arithmetic: the
negation of the parsed value when their number is odd, the parsed value itself when it
is even.  The same holds, independently, for `V`/`v` with `Vscale` and `Yoffset`. -/
theorem C8_flip_flags_and_offsets (Atoi : List Char → Int)
    (IsNumeric : List Char → Bool) (line : List Char) (af : AnimFrame)
    (h : ReadAnimFrame Atoi IsNumeric line = some af) :
    (((∃ c ∈ ((fields line).getD 5 []), c = 'H' ∨ c = 'h') → af.Hscale = -1) ∧
      ((∀ c ∈ ((fields line).getD 5 []), c ≠ 'H' ∧ c ≠ 'h') → af.Hscale = 1) ∧
      (countFlip 'H' 'h' ((fields line).getD 5 []) % 2 = 1 →
        af.Xoffset = int16 (int16 (Atoi ((fields line).getD 2 [])) * -1)) ∧
      (countFlip 'H' 'h' ((fields line).getD 5 []) % 2 = 0 →
        af.Xoffset = int16 (Atoi ((fields line).getD 2 []))) ∧
      ((∃ c ∈ ((fields line).getD 5 []), c = 'V' ∨ c = 'v') → af.Vscale = -1) ∧
      ((∀ c ∈ ((fields line).getD 5 []), c ≠ 'V' ∧ c ≠ 'v') → af.Vscale = 1) ∧
      (countFlip 'V' 'v' ((fields line).getD 5 []) % 2 = 1 →
        af.Yoffset = int16 (int16 (Atoi ((fields line).getD 3 [])) * -1)) ∧
      (countFlip 'V' 'v' ((fields line).getD 5 []) % 2 = 0 →
        af.Yoffset = int16 (Atoi ((fields line).getD 3 [])))) := by
  have hs := ReadAnimFrame_some Atoi IsNumeric line af h
  have hH := countFlip_eq_zero_iff 'H' 'h' ((fields line).getD 5 [])
  have hV := countFlip_eq_zero_iff 'V' 'v' ((fields line).getD 5 [])
  unfold fields at hH hV ⊢
  obtain ⟨_, _, _, _, g4, g5, g6, g7, _⟩ := hs
  refine ⟨?_, ?_, ?_, ?_, ?_, ?_, ?_, ?_⟩
  · rintro ⟨c, hc, hc2⟩
    have hnz : ¬ countFlip 'H' 'h' ((SplitN ',' 10 line).getD 5 []) = 0 := by
      intro hz
      have := hH.mp hz c hc
      rcases hc2 with e | e
      · exact this.1 e
      · exact this.2 e
    rw [if_neg hnz] at g4
    exact g4
  · intro hno
    rw [if_pos (hH.mpr hno)] at g4
    exact g4
  · intro hodd
    rw [if_neg (by omega)] at g6
    exact g6
  · intro hev
    rw [if_pos hev] at g6
    exact g6
  · rintro ⟨c, hc, hc2⟩
    have hnz : ¬ countFlip 'V' 'v' ((SplitN ',' 10 line).getD 5 []) = 0 := by
      intro hz
      have := hV.mp hz c hc
      rcases hc2 with e | e
      · exact this.1 e
      · exact this.2 e
    rw [if_neg hnz] at g5
    exact g5
  · intro hno
    rw [if_pos (hV.mpr hno)] at g5
    exact g5
  · intro hodd
    rw [if_neg (by omega)] at g7
    exact g7
  · intro hev
    rw [if_pos hev] at g7
    exact g7

/-- C8 (witness): the line `1,2,3,4,5,Hv`. -/
theorem C8_flip_flags_and_offsets_witness :
    ReadAnimFrame decAtoi decIsNumeric "1,2,3,4,5,Hv".toList = some
      ({ newAnimFrame with Group := 1, Number := 2, Xoffset := -3, Yoffset := -4, Time := 5, Hscale := -1, Vscale := -1 } : AnimFrame) ∧
    (((∃ c ∈ ((fields "1,2,3,4,5,Hv".toList).getD 5 []), c = 'H' ∨ c = 'h') → ({ newAnimFrame with Group := 1, Number := 2, Xoffset := -3, Yoffset := -4, Time := 5, Hscale := -1, Vscale := -1 } : AnimFrame).Hscale = -1) ∧
      ((∀ c ∈ ((fields "1,2,3,4,5,Hv".toList).getD 5 []), c ≠ 'H' ∧ c ≠ 'h') → ({ newAnimFrame with Group := 1, Number := 2, Xoffset := -3, Yoffset := -4, Time := 5, Hscale := -1, Vscale := -1 } : AnimFrame).Hscale = 1) ∧
      (countFlip 'H' 'h' ((fields "1,2,3,4,5,Hv".toList).getD 5 []) % 2 = 1 →
        ({ newAnimFrame with Group := 1, Number := 2, Xoffset := -3, Yoffset := -4, Time := 5, Hscale := -1, Vscale := -1 } : AnimFrame).Xoffset = int16 (int16 (decAtoi ((fields "1,2,3,4,5,Hv".toList).getD 2 [])) * -1)) ∧
      (countFlip 'H' 'h' ((fields "1,2,3,4,5,Hv".toList).getD 5 []) % 2 = 0 →
        ({ newAnimFrame with Group := 1, Number := 2, Xoffset := -3, Yoffset := -4, Time := 5, Hscale := -1, Vscale := -1 } : AnimFrame).Xoffset = int16 (decAtoi ((fields "1,2,3,4,5,Hv".toList).getD 2 []))) ∧
      ((∃ c ∈ ((fields "1,2,3,4,5,Hv".toList).getD 5 []), c = 'V' ∨ c = 'v') → ({ newAnimFrame with Group := 1, Number := 2, Xoffset := -3, Yoffset := -4, Time := 5, Hscale := -1, Vscale := -1 } : AnimFrame).Vscale = -1) ∧
      ((∀ c ∈ ((fields "1,2,3,4,5,Hv".toList).getD 5 []), c ≠ 'V' ∧ c ≠ 'v') → ({ newAnimFrame with Group := 1, Number := 2, Xoffset := -3, Yoffset := -4, Time := 5, Hscale := -1, Vscale := -1 } : AnimFrame).Vscale = 1) ∧
      (countFlip 'V' 'v' ((fields "1,2,3,4,5,Hv".toList).getD 5 []) % 2 = 1 →
        ({ newAnimFrame with Group := 1, Number := 2, Xoffset := -3, Yoffset := -4, Time := 5, Hscale := -1, Vscale := -1 } : AnimFrame).Yoffset = int16 (int16 (decAtoi ((fields "1,2,3,4,5,Hv".toList).getD 3 [])) * -1)) ∧
      (countFlip 'V' 'v' ((fields "1,2,3,4,5,Hv".toList).getD 5 []) % 2 = 0 →
        ({ newAnimFrame with Group := 1, Number := 2, Xoffset := -3, Yoffset := -4, Time := 5, Hscale := -1, Vscale := -1 } : AnimFrame).Yoffset = int16 (decAtoi ((fields "1,2,3,4,5,Hv".toList).getD 3 [])))) :=
  ⟨by decide, C8_flip_flags_and_offsets decAtoi decIsNumeric _ _ (by decide)⟩

/-! ## Lemmas on the line loop of `ReadAnimation` -/

/-- The rectangle loop moves `*i` forward, not beyond the end of the lines, and the
lines it passes begin with `clsn` once normalised. -/
theorem clsnRects_spec (Atoi : List Char → Int) (lines : List (List Char)) (k : Nat) :
    ∀ (n : Int) (i0 : Nat) (clsn : List Int) (j : Nat) (c : List Int),
      clsnRects Atoi lines k n i0 clsn = some (j, c) →
      i0 ≤ j ∧ (j ≤ lines.length ∨ j = i0) ∧
      ∀ m, i0 ≤ m → m < j → (normLine (lines.getD m [])).take 4 = ['c', 'l', 's', 'n'] := by
  induction k with
  | zero =>
    intro n i0 clsn j c h
    simp only [clsnRects, Option.some.injEq, Prod.mk.injEq] at h
    obtain ⟨rfl, _⟩ := h
    exact ⟨le_refl _, Or.inr rfl, fun m h1 h2 => absurd h1 (by omega)⟩
  | succ k ih =>
    intro n i0 clsn j c h
    have stop : ∀ {x : Nat × List Int}, some (i0, clsn) = some x → x = (j, c) →
        i0 ≤ j ∧ (j ≤ lines.length ∨ j = i0) ∧
        ∀ m, i0 ≤ m → m < j → (normLine (lines.getD m [])).take 4 = ['c', 'l', 's', 'n'] := by
      intro x h1 h2
      cases h1
      cases h2
      exact ⟨le_refl _, Or.inr rfl, fun m h1 h2 => absurd h1 (by omega)⟩
    unfold clsnRects at h
    by_cases hi : i0 < lines.length
    · rw [if_pos hi] at h
      simp only [] at h
      by_cases he : (normLine (lines.getD i0 [])).length = 0
      · rw [if_pos he] at h
        exact ih _ _ _ _ _ h
      rw [if_neg he] at h
      by_cases hp : (normLine (lines.getD i0 [])).length < 4 ∨
          (normLine (lines.getD i0 [])).take 4 ≠ ['c', 'l', 's', 'n']
      · rw [if_pos hp] at h; exact stop h rfl
      rw [if_neg hp] at h
      by_cases hii : Index '=' (normLine (lines.getD i0 [])) < 0
      · rw [if_pos hii] at h; exact stop h rfl
      rw [if_neg hii] at h
      by_cases h4 : (Split ',' ((normLine (lines.getD i0 [])).drop
          ((Index '=' (normLine (lines.getD i0 []))).toNat + 1))).length < 4
      · rw [if_pos h4] at h; exact stop h rfl
      rw [if_neg h4] at h
      revert h
      generalize storeRect clsn n _ _ _ _ = r
      intro h
      cases r with
      | none => cases h
      | some c1 =>
        obtain ⟨a1, a2, a3⟩ := ih _ _ _ _ _ h
        refine ⟨by omega, ?_, ?_⟩
        · rcases a2 with a2 | a2
          · exact Or.inl a2
          · left; omega
        · intro m hm1 hm2
          by_cases hm : m = i0
          · subst hm
            by_contra hne
            exact hp (Or.inr hne)
          · exact a3 m (by omega) hm2
    · rw [if_neg hi] at h
      exact stop h rfl

/-- The `clsn` case leaves the frames, `a.loopstart`, `ols` and the totals alone, moves
`*i` forward over lines that begin with `clsn`, and stays within the lines. -/
theorem clsnCase_spec (Atoi : List Char → Int) (lines : List (List Char))
    (line : List Char) (i : Nat) (s : ScanState) (j : Nat) (s1 : ScanState)
    (hi : i < lines.length) (h : clsnCase Atoi lines line i s = .ok (j, s1)) :
    s1.a = s.a ∧ s1.ols = s.ols ∧ i ≤ j ∧ j < lines.length ∧
    ∀ m, i < m → m ≤ j → (normLine (lines.getD m [])).take 4 = ['c', 'l', 's', 'n'] := by
  have stay : ∀ a b : ScanState,
      (Outcome.ok (i, b) : Outcome (Nat × ScanState)) = .ok (j, a) →
      b.a = s.a → b.ols = s.ols →
      a.a = s.a ∧ a.ols = s.ols ∧ i ≤ j ∧ j < lines.length ∧
      ∀ m, i < m → m ≤ j → (normLine (lines.getD m [])).take 4 = ['c', 'l', 's', 'n'] := by
    intro a b hab hb1 hb2
    cases hab
    exact ⟨hb1, hb2, le_refl _, hi, fun m h1 h2 => absurd h1 (by omega)⟩
  have move : ∀ (a b : ScanState) (fresh : List Int) (size : Int) (r1 : Nat) (r2 : List Int),
      (Outcome.ok (r1 - 1, b) : Outcome (Nat × ScanState)) = .ok (j, a) →
      clsnRects Atoi lines size.toNat 0 (i + 1) fresh = some (r1, r2) →
      b.a = s.a → b.ols = s.ols →
      a.a = s.a ∧ a.ols = s.ols ∧ i ≤ j ∧ j < lines.length ∧
      ∀ m, i < m → m ≤ j → (normLine (lines.getD m [])).take 4 = ['c', 'l', 's', 'n'] := by
    intro a b fresh size r1 r2 hab hr hb1 hb2
    obtain ⟨q1, q2, q3⟩ := clsnRects_spec Atoi lines _ _ _ _ _ _ hr
    cases hab
    refine ⟨hb1, hb2, by omega, by omega, ?_⟩
    intro m h1 h2
    exact q3 m (by omega) (by omega)
  unfold clsnCase at h
  simp only [] at h
  by_cases hii : Index ':' line < 0
  · rw [if_pos hii] at h; exact stay _ _ h rfl rfl
  rw [if_neg hii] at h
  by_cases hsz : Atoi (line.drop ((Index ':' line).toNat + 1)) < 0
  · rw [if_pos hsz] at h; exact stay _ _ h rfl rfl
  rw [if_neg hsz] at h
  by_cases h1 : line.getD 4 ' ' = '1'
  · rw [if_pos h1] at h
    cases hm : makeClsn (Atoi (line.drop ((Index ':' line).toNat + 1))) with
    | none => rw [hm] at h; cases h
    | some fresh =>
      rw [hm] at h
      simp only [] at h
      by_cases h0 : Atoi (line.drop ((Index ':' line).toNat + 1)) = 0
      · rw [if_pos h0] at h; exact stay _ _ h rfl rfl
      rw [if_neg h0] at h
      cases hr : clsnRects Atoi lines (Atoi (line.drop ((Index ':' line).toNat + 1))).toNat
          0 (i + 1) fresh with
      | none => rw [hr] at h; cases h
      | some r =>
        obtain ⟨r1, r2⟩ := r
        rw [hr] at h
        exact move _ _ _ _ r1 r2 h hr rfl rfl
  rw [if_neg h1] at h
  by_cases h2 : line.getD 4 ' ' = '2'
  · rw [if_pos h2] at h
    cases hm : makeClsn (Atoi (line.drop ((Index ':' line).toNat + 1))) with
    | none => rw [hm] at h; cases h
    | some fresh =>
      rw [hm] at h
      simp only [] at h
      by_cases h0 : Atoi (line.drop ((Index ':' line).toNat + 1)) = 0
      · rw [if_pos h0] at h; exact stay _ _ h rfl rfl
      rw [if_neg h0] at h
      cases hr : clsnRects Atoi lines (Atoi (line.drop ((Index ':' line).toNat + 1))).toNat
          0 (i + 1) fresh with
      | none => rw [hr] at h; cases h
      | some r =>
        obtain ⟨r1, r2⟩ := r
        rw [hr] at h
        exact move _ _ _ _ r1 r2 h hr rfl rfl
  rw [if_neg h2] at h
  exact stay _ _ h rfl rfl

theorem clsnCase_ne_fuel (Atoi : List Char → Int) (lines : List (List Char))
    (line : List Char) (i : Nat) (s : ScanState) :
    clsnCase Atoi lines line i s ≠ .fuel := by
  unfold clsnCase
  simp only []
  split_ifs <;> (repeat' split) <;> (intro h; cases h)

theorem coreOf_frameCase (af : AnimFrame) (s : ScanState) :
    coreOf (frameCase af s) =
      { frames := (coreOf s).frames ++ [af.noClsn], loopstart := (coreOf s).loopstart,
        ols := (coreOf s).loopstart } := by
  unfold frameCase coreOf
  simp only [List.map_append, List.map_cons, List.map_nil]
  split_ifs <;> rfl

/-- One turn of the `switch` of `ReadAnimation`: its effect on the frames, on
`a.loopstart` and on `ols` is `coreStep` on the normalised line; `*i` only moves over
lines that begin with `clsn`; the totals are not touched. -/
theorem scanStep_spec (Atoi : List Char → Int) (IsNumeric : List Char → Bool)
    (lines : List (List Char)) (i : Nat) (s : ScanState) (j : Nat) (s1 : ScanState)
    (hi : i < lines.length) (h : scanStep Atoi IsNumeric lines i s = .ok (j, s1)) :
    coreOf s1 = coreStep Atoi IsNumeric (coreOf s) (normLine (lines.getD i [])) ∧
    i ≤ j ∧ j < lines.length ∧
    (∀ m, i < m → m ≤ j → (normLine (lines.getD m [])).take 4 = ['c', 'l', 's', 'n']) ∧
    s1.a.totaltime = s.a.totaltime ∧ s1.a.looptime = s.a.looptime ∧
    s1.a.nazotime = s.a.nazotime := by
  unfold scanStep at h
  simp only [] at h
  unfold coreStep
  cases hf : ReadAnimFrame Atoi IsNumeric (normLine (lines.getD i [])) with
  | some af =>
    rw [hf] at h
    simp only [] at h
    cases h
    exact ⟨coreOf_frameCase af s, le_refl _, hi, fun m h1 h2 => absurd h1 (by omega),
      rfl, rfl, rfl⟩
  | none =>
    rw [hf] at h
    simp only [] at h
    have here : ∀ (b : ScanState) (c : Core),
        (Outcome.ok (i, b) : Outcome (Nat × ScanState)) = .ok (j, s1) → coreOf b = c →
        b.a.totaltime = s.a.totaltime → b.a.looptime = s.a.looptime →
        b.a.nazotime = s.a.nazotime →
        coreOf s1 = c ∧ i ≤ j ∧ j < lines.length ∧
        (∀ m, i < m → m ≤ j → (normLine (lines.getD m [])).take 4 = ['c', 'l', 's', 'n']) ∧
        s1.a.totaltime = s.a.totaltime ∧ s1.a.looptime = s.a.looptime ∧
        s1.a.nazotime = s.a.nazotime := by
      intro b c hb hc t1 t2 t3
      cases hb
      exact ⟨hc, le_refl _, hi, fun m h1 h2 => absurd h1 (by omega), t1, t2, t3⟩
    by_cases p1 : hasPrefix "loopstart".toList (normLine (lines.getD i [])) = true
    · rw [if_pos p1] at h
      rw [if_pos p1]
      refine here _ _ h ?_ rfl rfl rfl
      simp [coreOf]
    rw [if_neg p1] at h
    rw [if_neg p1]
    by_cases p2 : hasPrefix "interpolate offset".toList (normLine (lines.getD i [])) = true
    · rw [if_pos p2] at h; exact here _ _ h rfl rfl rfl rfl
    rw [if_neg p2] at h
    by_cases p3 : hasPrefix "interpolate scale".toList (normLine (lines.getD i [])) = true
    · rw [if_pos p3] at h; exact here _ _ h rfl rfl rfl rfl
    rw [if_neg p3] at h
    by_cases p4 : hasPrefix "interpolate angle".toList (normLine (lines.getD i [])) = true
    · rw [if_pos p4] at h; exact here _ _ h rfl rfl rfl rfl
    rw [if_neg p4] at h
    by_cases p5 : hasPrefix "interpolate blend".toList (normLine (lines.getD i [])) = true
    · rw [if_pos p5] at h; exact here _ _ h rfl rfl rfl rfl
    rw [if_neg p5] at h
    by_cases p6 : (normLine (lines.getD i [])).length ≥ 5 ∧
        (normLine (lines.getD i [])).take 4 = ['c', 'l', 's', 'n']
    · rw [if_pos p6] at h
      obtain ⟨q1, q2, q3, q4, q5⟩ := clsnCase_spec Atoi lines _ i s j s1 hi h
      refine ⟨?_, q3, q4, q5, by rw [q1], by rw [q1], by rw [q1]⟩
      unfold coreOf
      rw [q1, q2]
    · rw [if_neg p6] at h
      exact here _ _ h rfl rfl rfl rfl

theorem scanStep_ne_fuel (Atoi : List Char → Int) (IsNumeric : List Char → Bool)
    (lines : List (List Char)) (i : Nat) (s : ScanState) :
    scanStep Atoi IsNumeric lines i s ≠ .fuel := by
  unfold scanStep
  simp only []
  split
  · intro h; cases h
  · split_ifs <;> first
      | (intro h; cases h)
      | exact clsnCase_ne_fuel Atoi lines _ i s

/-- A line whose first byte is `[` still begins with `[` once normalised. -/
theorem normLine_sectionStart (raw : List Char) (h : sectionStart raw = true) :
    (normLine raw).head? = some '[' := by
  cases raw with
  | nil => simp [sectionStart] at h
  | cons c t =>
    have hc : c = '[' := by
      simp only [sectionStart, List.head?_cons, Bool.and_eq_true, beq_iff_eq,
        Option.some.injEq] at h
      exact h.2
    subst hc
    unfold normLine
    obtain ⟨u, hu⟩ : ∃ u, (SplitN ';' 2 ('[' :: t)).headD [] = '[' :: u := by
      simp only [SplitN]
      rw [if_neg (by decide)]
      cases hsp : SplitN ';' 2 t with
      | nil => exact ⟨[], rfl⟩
      | cons a b => exact ⟨a, rfl⟩
    rw [hu]
    unfold TrimSpace
    have hns : isSpace '[' = false := by decide
    have hd : ('[' :: u).dropWhile isSpace = '[' :: u := by
      rw [List.dropWhile_cons, hns]; rfl
    rw [hd]
    have hpre : ('[' :: u).rdropWhile isSpace <+: '[' :: u := List.rdropWhile_prefix _ _
    have hne : ('[' :: u).rdropWhile isSpace ≠ [] := by
      intro hnil
      rw [List.rdropWhile_eq_nil_iff] at hnil
      have := hnil '[' (List.mem_cons_self _ _)
      rw [hns] at this
      cases this
    obtain ⟨w, hw⟩ := hpre
    cases hr : ('[' :: u).rdropWhile isSpace with
    | nil => exact absurd hr hne
    | cons x y =>
      rw [hr] at hw
      have hx : x = '[' := by
        simp only [List.cons_append, List.cons.injEq] at hw
        exact hw.1
      subst hx
      rfl

/-- A line that begins with `clsn` once normalised does not start a section. -/
theorem not_sectionStart_of_clsn (raw : List Char)
    (h : (normLine raw).take 4 = ['c', 'l', 's', 'n']) : sectionStart raw = false := by
  cases hs : sectionStart raw with
  | false => rfl
  | true =>
    have := normLine_sectionStart raw hs
    cases hn : normLine raw with
    | nil => rw [hn] at this; cases this
    | cons x y =>
      rw [hn] at this h
      simp only [List.head?_cons, Option.some.injEq] at this
      subst this
      simp at h

/-- A line that begins with `clsn` is not a frame line. -/
theorem ReadAnimFrame_clsn (Atoi : List Char → Int) (IsNumeric : List Char → Bool)
    (line : List Char) (h : line.take 4 = ['c', 'l', 's', 'n']) :
    ReadAnimFrame Atoi IsNumeric line = none := by
  cases line with
  | nil => rfl
  | cons c t =>
    have hc : c = 'c' := by
      simp only [List.take_succ_cons, List.cons.injEq] at h
      exact h.1
    subst hc
    have h0 : (('c' : Char) < '0' ∨ '9' < ('c' : Char)) ∧ ('c' : Char) ≠ '-' := by decide
    unfold ReadAnimFrame
    simp only []
    rw [if_pos h0]

/-- A line that begins with `clsn` changes neither the frames nor the loop start. -/
theorem coreStep_clsn (Atoi : List Char → Int) (IsNumeric : List Char → Bool) (c : Core)
    (line : List Char) (h : line.take 4 = ['c', 'l', 's', 'n']) :
    coreStep Atoi IsNumeric c line = c := by
  unfold coreStep
  rw [ReadAnimFrame_clsn Atoi IsNumeric line h]
  simp only []
  have : hasPrefix "loopstart".toList line = false := by
    cases line with
    | nil => rfl
    | cons x t =>
      have hx : x = 'c' := by
        simp only [List.take_succ_cons, List.cons.injEq] at h
        exact h.1
      subst hx
      unfold hasPrefix
      have hl : "loopstart".toList = ['l', 'o', 'o', 'p', 's', 't', 'a', 'r', 't'] := by decide
      rw [hl]
      simp
  rw [this]
  rfl

theorem blockLines_of_le (lines : List (List Char)) (i : Nat) (h : lines.length ≤ i) :
    blockLines lines i = [] := by
  unfold blockLines
  rw [List.drop_of_length_le h]
  rfl

theorem blockLines_section (lines : List (List Char)) (i : Nat) (hi : i < lines.length)
    (h : sectionStart (lines.getD i []) = true) : blockLines lines i = [] := by
  unfold blockLines
  rw [List.drop_eq_getElem_cons hi]
  rw [List.getD_eq_getElem _ _ hi] at h
  rw [List.takeWhile_cons_of_neg (by simp [h])]
  rfl

theorem blockLines_cons (lines : List (List Char)) (i : Nat) (hi : i < lines.length)
    (h : sectionStart (lines.getD i []) = false) :
    blockLines lines i = normLine (lines.getD i []) :: blockLines lines (i + 1) := by
  unfold blockLines
  rw [List.drop_eq_getElem_cons hi]
  rw [List.getD_eq_getElem _ _ hi] at h ⊢
  rw [List.takeWhile_cons_of_pos (by simp [h])]
  rfl

/-- Folding over the block from `i + 1` or from `j + 1` gives the same result when the
lines `i + 1 .. j` begin with `clsn` and the step ignores such lines. -/
theorem foldl_block_skip {β : Type} (g : β → List Char → β)
    (hg : ∀ b l, l.take 4 = ['c', 'l', 's', 'n'] → g b l = b)
    (lines : List (List Char)) (i : Nat) (d : Nat) :
    ∀ (b : β), i + d < lines.length →
      (∀ m, i < m → m ≤ i + d → (normLine (lines.getD m [])).take 4 = ['c', 'l', 's', 'n']) →
      (blockLines lines (i + 1)).foldl g b = (blockLines lines (i + d + 1)).foldl g b := by
  induction d with
  | zero => intro b _ _; rfl
  | succ d ih =>
    intro b hlt hrect
    rw [ih b (by omega) (fun m h1 h2 => hrect m h1 (by omega))]
    have hc := hrect (i + d + 1) (by omega) (by omega)
    rw [blockLines_cons lines (i + d + 1) (by omega) (not_sectionStart_of_clsn _ hc)]
    rw [List.foldl_cons, hg b _ hc]
    rfl

/-- The line loop of `ReadAnimation` acts on the frames, on `a.loopstart` and on `ols`
as the fold of `coreStep` over the normalised lines of the block, and leaves the totals
alone. -/
theorem scanLoop_spec (Atoi : List Char → Int) (IsNumeric : List Char → Bool)
    (lines : List (List Char)) (fuel : Nat) :
    ∀ (i : Nat) (s : ScanState) (j : Nat) (s1 : ScanState),
      scanLoop Atoi IsNumeric lines fuel i s = .ok (j, s1) →
      coreOf s1 = (blockLines lines i).foldl (coreStep Atoi IsNumeric) (coreOf s) ∧
      s1.a.totaltime = s.a.totaltime ∧ s1.a.looptime = s.a.looptime ∧
      s1.a.nazotime = s.a.nazotime := by
  induction fuel with
  | zero =>
    intro i s j s1 h
    unfold scanLoop at h
    split_ifs at h with hi
    cases h
    rw [blockLines_of_le lines _ (by omega)]
    exact ⟨rfl, rfl, rfl, rfl⟩
  | succ fuel ih =>
    intro i s j s1 h
    unfold scanLoop at h
    by_cases hi : i < lines.length
    · rw [if_pos hi] at h
      cases hsec : sectionStart (lines.getD i []) with
      | true =>
        rw [hsec] at h
        simp only [if_true] at h
        cases h
        rw [blockLines_section lines _ hi hsec]
        exact ⟨rfl, rfl, rfl, rfl⟩
      | false =>
        rw [hsec] at h
        simp only [Bool.false_eq_true, if_false] at h
        cases hstep : scanStep Atoi IsNumeric lines i s with
        | panic => rw [hstep] at h; cases h
        | fuel => rw [hstep] at h; cases h
        | ok r =>
          obtain ⟨j1, s2⟩ := r
          rw [hstep] at h
          simp only [] at h
          obtain ⟨q1, q2, q3, q4, t1, t2, t3⟩ :=
            scanStep_spec Atoi IsNumeric lines i s j1 s2 hi hstep
          obtain ⟨r1, u1, u2, u3⟩ := ih _ _ _ _ h
          refine ⟨?_, by rw [u1, t1], by rw [u2, t2], by rw [u3, t3]⟩
          rw [r1, q1, blockLines_cons lines i hi hsec, List.foldl_cons]
          obtain ⟨d, rfl⟩ : ∃ d, j1 = i + d := ⟨j1 - i, by omega⟩
          exact (foldl_block_skip (coreStep Atoi IsNumeric)
            (coreStep_clsn Atoi IsNumeric) lines i d _ q3 q4).symm
    · rw [if_neg hi] at h
      cases h
      rw [blockLines_of_le lines _ (by omega)]
      exact ⟨rfl, rfl, rfl, rfl⟩

/-- The iteration budget `len(lines) - *i` is never exhausted. -/
theorem scanLoop_ne_fuel (Atoi : List Char → Int) (IsNumeric : List Char → Bool)
    (lines : List (List Char)) (fuel : Nat) :
    ∀ (i : Nat) (s : ScanState), lines.length - i ≤ fuel →
      scanLoop Atoi IsNumeric lines fuel i s ≠ .fuel := by
  induction fuel with
  | zero =>
    intro i s hle
    unfold scanLoop
    rw [if_neg (by omega)]
    intro h; cases h
  | succ fuel ih =>
    intro i s hle
    unfold scanLoop
    by_cases hi : i < lines.length
    · rw [if_pos hi]
      split_ifs
      · intro h; cases h
      · cases hstep : scanStep Atoi IsNumeric lines i s with
        | panic => intro h; cases h
        | fuel => exact absurd hstep (scanStep_ne_fuel Atoi IsNumeric lines i s)
        | ok r =>
          obtain ⟨j1, s2⟩ := r
          simp only []
          obtain ⟨_, q2, _⟩ := scanStep_spec Atoi IsNumeric lines i s j1 s2 hi hstep
          exact ih _ _ (by omega)
    · rw [if_neg hi]
      intro h; cases h

/-- The run of `ReadAnimation` is complete within its iteration budget: it returns an
animation or stops on a panic of the source. -/
theorem ReadAnimation_ne_fuel (Atoi : List Char → Int) (IsNumeric : List Char → Bool)
    (lines : List (List Char)) (i : Nat) :
    ReadAnimation Atoi IsNumeric lines i ≠ .fuel := by
  unfold ReadAnimation
  have := scanLoop_ne_fuel Atoi IsNumeric lines (lines.length - i) i initScan (le_refl _)
  cases h : scanLoop Atoi IsNumeric lines (lines.length - i) i initScan with
  | ok r => obtain ⟨j, s⟩ := r; intro h2; cases h2
  | panic => intro h2; cases h2
  | fuel => exact absurd h this

/-- What `ReadAnimation` returns is `finishAnimation` of locals whose frames, loop start
and `ols` are the fold of `coreStep` over the block, and whose totals are still zero. -/
theorem ReadAnimation_ok (Atoi : List Char → Int) (IsNumeric : List Char → Bool)
    (lines : List (List Char)) (i j : Nat) (a : Animation)
    (h : ReadAnimation Atoi IsNumeric lines i = .ok (j, a)) :
    ∃ s : ScanState, a = finishAnimation s ∧
      coreOf s = (blockLines lines i).foldl (coreStep Atoi IsNumeric)
        { frames := [], loopstart := 0, ols := 0 } ∧
      s.a.totaltime = 0 ∧ s.a.looptime = 0 ∧ s.a.nazotime = 0 := by
  unfold ReadAnimation at h
  cases hs : scanLoop Atoi IsNumeric lines (lines.length - i) i initScan with
  | panic => rw [hs] at h; cases h
  | fuel => rw [hs] at h; cases h
  | ok r =>
    obtain ⟨j1, s⟩ := r
    rw [hs] at h
    simp only [] at h
    cases h
    obtain ⟨q1, q2, q3, q4⟩ := scanLoop_spec Atoi IsNumeric lines _ _ _ _ _ hs
    exact ⟨s, rfl, q1, q2, q3, q4⟩

/-! ## When the line loop cannot panic -/

theorem setIdx_some (xs : List Int) (i v : Int) (h0 : 0 ≤ i) (h1 : i < xs.length) :
    ∃ ys, setIdx xs i v = some ys ∧ ys.length = xs.length := by
  unfold setIdx
  rw [if_pos ⟨h0, h1⟩]
  exact ⟨_, rfl, List.length_set _ _ _⟩

/-- The store of a rectangle succeeds when its four indices lie in the slice. -/
theorem storeRect_some (clsn : List Int) (n l t r b : Int) (h0 : 0 ≤ n)
    (h1 : n * 4 + 3 < clsn.length) (h2 : n * 4 + 3 < 2147483648) :
    ∃ c, storeRect clsn n l t r b = some c ∧ c.length = clsn.length := by
  have e0 : int32 (n * 4) = n * 4 := by unfold int32; omega
  have e1 : int32 (n * 4 + 1) = n * 4 + 1 := by unfold int32; omega
  have e2 : int32 (n * 4 + 2) = n * 4 + 2 := by unfold int32; omega
  have e3 : int32 (n * 4 + 3) = n * 4 + 3 := by unfold int32; omega
  unfold storeRect
  rw [e0, e1, e2, e3]
  obtain ⟨c1, q1, l1⟩ := setIdx_some clsn (n * 4) l (by omega) (by omega)
  obtain ⟨c2, q2, l2⟩ := setIdx_some c1 (n * 4 + 1) t (by omega) (by omega)
  obtain ⟨c3, q3, l3⟩ := setIdx_some c2 (n * 4 + 2) r (by omega) (by omega)
  obtain ⟨c4, q4, l4⟩ := setIdx_some c3 (n * 4 + 3) b (by omega) (by omega)
  rw [q1]
  simp only [Option.bind_some, Option.some_bind]
  rw [q2]
  simp only [Option.bind_some, Option.some_bind]
  rw [q3]
  simp only [Option.bind_some, Option.some_bind]
  exact ⟨c4, q4, by omega⟩

/-- The rectangle loop does not panic when the slice has `size*4` elements and the
product has not wrapped. -/
theorem clsnRects_ne_none (Atoi : List Char → Int) (lines : List (List Char)) (size : Int)
    (hsize : size * 4 < 2147483648) (k : Nat) :
    ∀ (n : Int) (i0 : Nat) (clsn : List Int), 0 ≤ n → n + k = size →
      (clsn.length : Int) = size * 4 →
      clsnRects Atoi lines k n i0 clsn ≠ none := by
  induction k with
  | zero =>
    intro n i0 clsn _ _ _ h
    simp [clsnRects] at h
  | succ k ih =>
    intro n i0 clsn hn hk hlen
    push_cast at hk
    have hst1 : ∀ l t r b, storeRect clsn n l t r b ≠ none := by
      intro l t r b hq
      obtain ⟨c, q, _⟩ := storeRect_some clsn n l t r b hn (by omega) (by omega)
      rw [q] at hq
      cases hq
    have hst2 : ∀ l t r b c, storeRect clsn n l t r b = some c → c.length = clsn.length := by
      intro l t r b c hq
      obtain ⟨c1, q, lc⟩ := storeRect_some clsn n l t r b hn (by omega) (by omega)
      rw [q] at hq
      cases hq
      exact lc
    unfold clsnRects
    by_cases hi : i0 < lines.length
    · rw [if_pos hi]
      simp only []
      by_cases he : (normLine (lines.getD i0 [])).length = 0
      · rw [if_pos he]
        exact ih _ _ _ (by omega) (by omega) hlen
      rw [if_neg he]
      by_cases hp : (normLine (lines.getD i0 [])).length < 4 ∨
          (normLine (lines.getD i0 [])).take 4 ≠ ['c', 'l', 's', 'n']
      · rw [if_pos hp]; intro h; cases h
      rw [if_neg hp]
      by_cases hii : Index '=' (normLine (lines.getD i0 [])) < 0
      · rw [if_pos hii]; intro h; cases h
      rw [if_neg hii]
      by_cases h4 : (Split ',' ((normLine (lines.getD i0 [])).drop
          ((Index '=' (normLine (lines.getD i0 []))).toNat + 1))).length < 4
      · rw [if_pos h4]; intro h; cases h
      rw [if_neg h4]
      split
      · next heq => exact absurd heq (hst1 _ _ _ _)
      · next c heq =>
        exact ih _ _ _ (by omega) (by omega) (by rw [hst2 _ _ _ _ _ heq]; exact hlen)
    · rw [if_neg hi]
      intro h; cases h

theorem makeClsn_some (size : Int) (h0 : 0 ≤ size) (h1 : size * 4 < 2147483648) :
    ∃ c, makeClsn size = some c ∧ (c.length : Int) = size * 4 := by
  have e : int32 (size * 4) = size * 4 := by unfold int32; omega
  unfold makeClsn
  rw [e, if_neg (by omega)]
  refine ⟨_, rfl, ?_⟩
  rw [List.length_replicate]
  omega

/-- The `clsn` case does not panic when the declared size times 4 fits an `int32`. -/
theorem clsnCase_ne_panic (Atoi : List Char → Int) (lines : List (List Char))
    (line : List Char) (i : Nat) (s : ScanState)
    (hA : ∀ t, Atoi t * 4 < 2147483648) :
    clsnCase Atoi lines line i s ≠ .panic := by
  unfold clsnCase
  simp only []
  by_cases hii : Index ':' line < 0
  · rw [if_pos hii]; intro h; cases h
  rw [if_neg hii]
  by_cases hsz : Atoi (line.drop ((Index ':' line).toNat + 1)) < 0
  · rw [if_pos hsz]; intro h; cases h
  rw [if_neg hsz]
  obtain ⟨c, hc, hlen⟩ := makeClsn_some (Atoi (line.drop ((Index ':' line).toNat + 1)))
    (by omega) (hA _)
  have hr := clsnRects_ne_none Atoi lines (Atoi (line.drop ((Index ':' line).toNat + 1)))
    (hA _) (Atoi (line.drop ((Index ':' line).toNat + 1))).toNat 0 (i + 1) c (le_refl _)
    (by omega) hlen
  rw [hc]
  simp only []
  cases hq : clsnRects Atoi lines (Atoi (line.drop ((Index ':' line).toNat + 1))).toNat
      0 (i + 1) c with
  | none => exact absurd hq hr
  | some r =>
    obtain ⟨r1, r2⟩ := r
    simp only []
    split_ifs <;> (intro h; cases h)

theorem scanStep_ne_panic (Atoi : List Char → Int) (IsNumeric : List Char → Bool)
    (lines : List (List Char)) (i : Nat) (s : ScanState)
    (hA : ∀ t, Atoi t * 4 < 2147483648) :
    scanStep Atoi IsNumeric lines i s ≠ .panic := by
  unfold scanStep
  simp only []
  split
  · intro h; cases h
  · split_ifs <;> first
      | (intro h; cases h)
      | exact clsnCase_ne_panic Atoi lines _ i s hA

theorem scanLoop_ne_panic (Atoi : List Char → Int) (IsNumeric : List Char → Bool)
    (lines : List (List Char)) (hA : ∀ t, Atoi t * 4 < 2147483648) (fuel : Nat) :
    ∀ (i : Nat) (s : ScanState), scanLoop Atoi IsNumeric lines fuel i s ≠ .panic := by
  induction fuel with
  | zero =>
    intro i s
    unfold scanLoop
    split_ifs <;> (intro h; cases h)
  | succ fuel ih =>
    intro i s
    unfold scanLoop
    split_ifs
    · intro h; cases h
    · cases hstep : scanStep Atoi IsNumeric lines i s with
      | panic => exact absurd hstep (scanStep_ne_panic Atoi IsNumeric lines i s hA)
      | fuel => intro h; cases h
      | ok r => obtain ⟨j1, s2⟩ := r; exact ih _ _
    · intro h; cases h

/-- When every number read by `Atoi` is below `2^29` (so that no `size*4` wraps),
`ReadAnimation` returns an animation. -/
theorem ReadAnimation_returns (Atoi : List Char → Int) (IsNumeric : List Char → Bool)
    (lines : List (List Char)) (i : Nat) (hA : ∀ t, Atoi t * 4 < 2147483648) :
    ∃ j a, ReadAnimation Atoi IsNumeric lines i = .ok (j, a) := by
  have h1 := scanLoop_ne_panic Atoi IsNumeric lines hA (lines.length - i) i initScan
  have h2 := scanLoop_ne_fuel Atoi IsNumeric lines (lines.length - i) i initScan (le_refl _)
  unfold ReadAnimation
  cases h : scanLoop Atoi IsNumeric lines (lines.length - i) i initScan with
  | ok r => obtain ⟨j, s⟩ := r; exact ⟨j, finishAnimation s, rfl⟩
  | panic => exact absurd h h1
  | fuel => exact absurd h h2

/-! ## Lemmas on the fold of `coreStep` -/

theorem ReadAnimFrame_noClsn (Atoi : List Char → Int) (IsNumeric : List Char → Bool)
    (line : List Char) (af : AnimFrame) (h : ReadAnimFrame Atoi IsNumeric line = some af) :
    af.noClsn = af := by
  have hc := (ReadAnimFrame_some Atoi IsNumeric line af h).2.2.2.2.2.2.2.2.2.2.2.2.2
  cases af
  simp only [AnimFrame.noClsn] at hc ⊢
  rw [hc]

theorem hasPrefix_loopstart_not_frame (Atoi : List Char → Int) (IsNumeric : List Char → Bool)
    (line : List Char) (h : hasPrefix "loopstart".toList line = true) :
    ReadAnimFrame Atoi IsNumeric line = none := by
  cases line with
  | nil => rfl
  | cons c t =>
    have hl : "loopstart".toList = ['l', 'o', 'o', 'p', 's', 't', 'a', 'r', 't'] := by decide
    rw [hl] at h
    have hc : c = 'l' := by
      unfold hasPrefix at h
      simp only [List.length_cons, List.length_nil, Bool.and_eq_true, decide_eq_true_eq,
        beq_iff_eq] at h
      have h2 := h.2
      simp only [List.take_succ_cons, List.cons.injEq] at h2
      exact h2.1
    subst hc
    have h0 : (('l' : Char) < '0' ∨ '9' < ('l' : Char)) ∧ ('l' : Char) ≠ '-' := by decide
    unfold ReadAnimFrame
    simp only []
    rw [if_pos h0]

theorem foldl_coreStep_frames (Atoi : List Char → Int) (IsNumeric : List Char → Bool)
    (ls : List (List Char)) :
    ∀ c : Core, (ls.foldl (coreStep Atoi IsNumeric) c).frames =
      c.frames ++ ls.filterMap (ReadAnimFrame Atoi IsNumeric) := by
  induction ls with
  | nil => intro c; simp
  | cons l ls ih =>
    intro c
    rw [List.foldl_cons, ih]
    unfold coreStep
    cases hf : ReadAnimFrame Atoi IsNumeric l with
    | none =>
      rw [List.filterMap_cons_none hf]
      simp only []
      split_ifs <;> rfl
    | some af =>
      rw [List.filterMap_cons_some hf]
      simp only [ReadAnimFrame_noClsn Atoi IsNumeric l af hf, List.append_assoc,
        List.singleton_append]

/-- Over lines that hold no `loopstart` directive, `a.loopstart` does not change, and
`ols` takes its value as soon as a frame is read. -/
theorem foldl_coreStep_noLoop (Atoi : List Char → Int) (IsNumeric : List Char → Bool)
    (ls : List (List Char)) :
    ∀ c : Core, (∀ l ∈ ls, hasPrefix "loopstart".toList l = false) →
      (ls.foldl (coreStep Atoi IsNumeric) c).loopstart = c.loopstart ∧
      ((∃ l ∈ ls, (ReadAnimFrame Atoi IsNumeric l).isSome = true) →
        (ls.foldl (coreStep Atoi IsNumeric) c).ols = c.loopstart) ∧
      ((∀ l ∈ ls, ReadAnimFrame Atoi IsNumeric l = none) →
        (ls.foldl (coreStep Atoi IsNumeric) c).ols = c.ols) := by
  induction ls with
  | nil =>
    intro c _
    refine ⟨rfl, ?_, fun _ => rfl⟩
    rintro ⟨l, hl, _⟩
    cases hl
  | cons l ls ih =>
    intro c hno
    have hl := hno l (List.mem_cons_self _ _)
    have hrest : ∀ x ∈ ls, hasPrefix "loopstart".toList x = false :=
      fun x hx => hno x (List.mem_cons_of_mem _ hx)
    rw [List.foldl_cons]
    obtain ⟨i1, i2, i3⟩ := ih (coreStep Atoi IsNumeric c l) hrest
    cases hf : ReadAnimFrame Atoi IsNumeric l with
    | none =>
      have e : coreStep Atoi IsNumeric c l = c := by
        unfold coreStep; rw [hf]; simp only [hl]; rfl
      rw [e] at i1 i2 i3 ⊢
      refine ⟨i1, ?_, ?_⟩
      · rintro ⟨x, hx, hxs⟩
        rcases List.mem_cons.mp hx with rfl | hx
        · rw [hf] at hxs; cases hxs
        · exact i2 ⟨x, hx, hxs⟩
      · intro hall
        exact i3 (fun x hx => hall x (List.mem_cons_of_mem _ hx))
    | some af =>
      have e : coreStep Atoi IsNumeric c l =
          { frames := c.frames ++ [af.noClsn], loopstart := c.loopstart,
            ols := c.loopstart } := by
        unfold coreStep; rw [hf]
      rw [e] at i1 i2 i3 ⊢
      refine ⟨i1, ?_, ?_⟩
      · intro _
        by_cases hex : ∃ x ∈ ls, (ReadAnimFrame Atoi IsNumeric x).isSome = true
        · exact i2 hex
        · have hall : ∀ x ∈ ls, ReadAnimFrame Atoi IsNumeric x = none := by
            intro x hx
            cases hx2 : ReadAnimFrame Atoi IsNumeric x with
            | none => rfl
            | some y => exact absurd ⟨x, hx, by rw [hx2]; rfl⟩ hex
          exact i3 hall
      · intro hall
        have := hall l (List.mem_cons_self _ _)
        rw [hf] at this
        cases this

/-- Over lines that hold no frame, the frames and `ols` do not change, and
`a.loopstart` stays or becomes the frame count. -/
theorem foldl_coreStep_noFrame (Atoi : List Char → Int) (IsNumeric : List Char → Bool)
    (ls : List (List Char)) :
    ∀ c : Core, (∀ l ∈ ls, ReadAnimFrame Atoi IsNumeric l = none) →
      (ls.foldl (coreStep Atoi IsNumeric) c).frames = c.frames ∧
      (ls.foldl (coreStep Atoi IsNumeric) c).ols = c.ols ∧
      ((ls.foldl (coreStep Atoi IsNumeric) c).loopstart = c.loopstart ∨
        (ls.foldl (coreStep Atoi IsNumeric) c).loopstart = c.frames.length) := by
  induction ls with
  | nil => intro c _; exact ⟨rfl, rfl, Or.inl rfl⟩
  | cons l ls ih =>
    intro c hno
    have hf := hno l (List.mem_cons_self _ _)
    have hrest : ∀ x ∈ ls, ReadAnimFrame Atoi IsNumeric x = none :=
      fun x hx => hno x (List.mem_cons_of_mem _ hx)
    rw [List.foldl_cons]
    obtain ⟨i1, i2, i3⟩ := ih (coreStep Atoi IsNumeric c l) hrest
    by_cases hl : hasPrefix "loopstart".toList l = true
    · have e : coreStep Atoi IsNumeric c l = { c with loopstart := c.frames.length } := by
        unfold coreStep; rw [hf]; simp only [hl, if_true]
      rw [e] at i1 i2 i3 ⊢
      refine ⟨i1, i2, ?_⟩
      rcases i3 with i3 | i3
      · exact Or.inr i3
      · exact Or.inr i3
    · have e : coreStep Atoi IsNumeric c l = c := by
        unfold coreStep; rw [hf]; simp only [hl]; rfl
      rw [e] at i1 i2 i3 ⊢
      exact ⟨i1, i2, i3⟩

/-- A list with an element that satisfies `p` splits at the last such element. -/
theorem exists_last_split {α : Type} (p : α → Prop) (l : List α) (h : ∃ x ∈ l, p x) :
    ∃ l1 x l2, l = l1 ++ x :: l2 ∧ p x ∧ ∀ y ∈ l2, ¬ p y := by
  induction l with
  | nil => obtain ⟨x, hx, _⟩ := h; cases hx
  | cons a t ih =>
    by_cases ht : ∃ x ∈ t, p x
    · obtain ⟨l1, x, l2, e, hp, hn⟩ := ih ht
      exact ⟨a :: l1, x, l2, by rw [e]; rfl, hp, hn⟩
    · obtain ⟨x, hx, hpx⟩ := h
      rcases List.mem_cons.mp hx with rfl | hx
      · exact ⟨[], x, t, rfl, hpx, fun y hy hpy => ht ⟨y, hy, hpy⟩⟩
      · exact absurd ⟨x, hx, hpx⟩ ht

/-! ## Lemmas on the statements after the line loop -/

theorem finishAnimation_frames (s : ScanState) : (finishAnimation s).frames = s.a.frames := by
  unfold finishAnimation
  simp only []
  split_ifs <;> rfl

theorem finishAnimation_loopstart (s : ScanState) :
    (finishAnimation s).loopstart =
      if s.a.loopstart ≥ s.a.frames.length then s.ols else s.a.loopstart := by
  unfold finishAnimation
  simp only []
  split_ifs <;> rfl

/-- The frames of the animation that `ReadAnimation` returns, collision boxes left out,
are the frames that `ReadAnimFrame` reads from the normalised lines of the block. -/
theorem ReadAnimation_frames (Atoi : List Char → Int) (IsNumeric : List Char → Bool)
    (lines : List (List Char)) (i j : Nat) (a : Animation)
    (h : ReadAnimation Atoi IsNumeric lines i = .ok (j, a)) :
    a.frames.map AnimFrame.noClsn =
      (blockLines lines i).filterMap (ReadAnimFrame Atoi IsNumeric) := by
  obtain ⟨s, rfl, hc, _⟩ := ReadAnimation_ok Atoi IsNumeric lines i j a h
  rw [finishAnimation_frames]
  have := foldl_coreStep_frames Atoi IsNumeric (blockLines lines i)
    { frames := [], loopstart := 0, ols := 0 }
  rw [← hc] at this
  simpa [coreOf] using this

/-- The bounds that the line loop keeps on `a.loopstart` and `ols`. -/
theorem foldl_coreStep_bounds (Atoi : List Char → Int) (IsNumeric : List Char → Bool)
    (ls : List (List Char)) :
    ∀ c : Core,
      (0 ≤ c.loopstart ∧ c.loopstart ≤ c.frames.length ∧ 0 ≤ c.ols ∧
        c.ols ≤ c.frames.length ∧ (c.frames ≠ [] → c.ols < c.frames.length)) →
      (0 ≤ (ls.foldl (coreStep Atoi IsNumeric) c).loopstart ∧
        (ls.foldl (coreStep Atoi IsNumeric) c).loopstart ≤
          (ls.foldl (coreStep Atoi IsNumeric) c).frames.length ∧
        0 ≤ (ls.foldl (coreStep Atoi IsNumeric) c).ols ∧
        (ls.foldl (coreStep Atoi IsNumeric) c).ols ≤
          (ls.foldl (coreStep Atoi IsNumeric) c).frames.length ∧
        ((ls.foldl (coreStep Atoi IsNumeric) c).frames ≠ [] →
          (ls.foldl (coreStep Atoi IsNumeric) c).ols <
            (ls.foldl (coreStep Atoi IsNumeric) c).frames.length)) := by
  induction ls with
  | nil => intro c hc; exact hc
  | cons l ls ih =>
    intro c hc
    rw [List.foldl_cons]
    apply ih
    obtain ⟨b1, b2, b3, b4, b5⟩ := hc
    unfold coreStep
    cases hf : ReadAnimFrame Atoi IsNumeric l with
    | some af =>
      simp only [List.length_append, List.length_singleton, Nat.cast_add, Nat.cast_one]
      refine ⟨b1, by omega, b1, by omega, fun _ => by omega⟩
    | none =>
      simp only []
      split_ifs
      · refine ⟨by simp, le_refl _, b3, b4, b5⟩
      · exact ⟨b1, b2, b3, b4, b5⟩

/-- The loop start after the final correction, when the block holds a `loopstart`
directive followed by a frame line: the frame count at the last such directive. -/
theorem foldl_coreStep_last_directive (Atoi : List Char → Int)
    (IsNumeric : List Char → Bool) (pre post : List (List Char)) (d : List Char)
    (hd : hasPrefix "loopstart".toList d = true)
    (hfr : ∃ f ∈ post, (ReadAnimFrame Atoi IsNumeric f).isSome = true)
    (hlast : ∀ pre1 d1 post1, post = pre1 ++ d1 :: post1 →
      hasPrefix "loopstart".toList d1 = true →
      ¬ ∃ f ∈ post1, (ReadAnimFrame Atoi IsNumeric f).isSome = true)
    (c : Core)
    (hc : c = (pre ++ d :: post).foldl (coreStep Atoi IsNumeric)
      { frames := [], loopstart := 0, ols := 0 }) :
    (if c.loopstart ≥ c.frames.length then c.ols else c.loopstart) =
      (pre.filterMap (ReadAnimFrame Atoi IsNumeric)).length := by
  obtain ⟨p1, f, p2, hpost, hf, hp2⟩ :=
    exists_last_split (fun l => (ReadAnimFrame Atoi IsNumeric l).isSome = true) post hfr
  -- no directive before the last frame of `post`
  have hp1 : ∀ l ∈ p1 ++ [f], hasPrefix "loopstart".toList l = false := by
    intro l hl
    cases hpre : hasPrefix "loopstart".toList l with
    | false => rfl
    | true =>
      exfalso
      rcases List.mem_append.mp hl with hl1 | hl1
      · obtain ⟨u, v, huv⟩ := List.append_of_mem hl1
        refine hlast u l (v ++ f :: p2) ?_ hpre ⟨f, by simp, hf⟩
        rw [hpost, huv]
        simp
      · have : l = f := by simpa using hl1
        subst this
        rw [hasPrefix_loopstart_not_frame Atoi IsNumeric l hpre] at hf
        cases hf
  have hp2none : ∀ l ∈ p2, ReadAnimFrame Atoi IsNumeric l = none := by
    intro l hl
    cases hx : ReadAnimFrame Atoi IsNumeric l with
    | none => rfl
    | some y => exact absurd (by rw [hx]; rfl) (hp2 l hl)
  have hsplit : pre ++ d :: post = pre ++ ([d] ++ ((p1 ++ [f]) ++ p2)) := by
    rw [hpost]; simp
  rw [hsplit, List.foldl_append, List.foldl_append, List.foldl_append] at hc
  generalize hc1 : pre.foldl (coreStep Atoi IsNumeric)
    { frames := [], loopstart := 0, ols := 0 } = c1 at hc
  have hfr1 : c1.frames = pre.filterMap (ReadAnimFrame Atoi IsNumeric) := by
    rw [← hc1, foldl_coreStep_frames]; rfl
  have hstep : [d].foldl (coreStep Atoi IsNumeric) c1 =
      { c1 with loopstart := c1.frames.length } := by
    simp only [List.foldl_cons, List.foldl_nil]
    unfold coreStep
    rw [hasPrefix_loopstart_not_frame Atoi IsNumeric d hd]
    simp only [hd, if_true]
  rw [hstep] at hc
  obtain ⟨n1, n2, _⟩ := foldl_coreStep_noLoop Atoi IsNumeric (p1 ++ [f])
    { c1 with loopstart := c1.frames.length } hp1
  have n2 := n2 ⟨f, by simp, hf⟩
  have hlen3 := foldl_coreStep_frames Atoi IsNumeric (p1 ++ [f])
    { c1 with loopstart := c1.frames.length }
  generalize (p1 ++ [f]).foldl (coreStep Atoi IsNumeric)
    { c1 with loopstart := c1.frames.length } = c3 at hc n1 n2 hlen3
  obtain ⟨m1, m2, m3⟩ := foldl_coreStep_noFrame Atoi IsNumeric p2 c3 hp2none
  rw [← hc] at m1 m2 m3
  have hfsome : ∃ y, ReadAnimFrame Atoi IsNumeric f = some y := by
    cases hx : ReadAnimFrame Atoi IsNumeric f with
    | none => rw [hx] at hf; cases hf
    | some y => exact ⟨y, rfl⟩
  obtain ⟨y, hy⟩ := hfsome
  have hlen : c.frames.length ≥ c1.frames.length + 1 := by
    rw [m1, hlen3]
    simp only [List.length_append, List.filterMap_append, List.filterMap_cons_some hy,
      List.filterMap_nil, List.length_singleton]
    omega
  simp only [] at n1 n2
  rw [← hfr1]
  split_ifs with hge
  · rw [m2, n2]
  · rcases m3 with m3 | m3
    · rw [m3, n1]
    · rw [m3, m1] at hge
      exact absurd (le_refl _) hge

/-- The loop start after the final correction, when no `loopstart` directive of the
block is followed by a frame line: zero. -/
theorem foldl_coreStep_no_directive (Atoi : List Char → Int)
    (IsNumeric : List Char → Bool) (ls : List (List Char))
    (hnone : ∀ pre d post, ls = pre ++ d :: post → hasPrefix "loopstart".toList d = true →
      ¬ ∃ f ∈ post, (ReadAnimFrame Atoi IsNumeric f).isSome = true)
    (c : Core)
    (hc : c = ls.foldl (coreStep Atoi IsNumeric) { frames := [], loopstart := 0, ols := 0 }) :
    (if c.loopstart ≥ c.frames.length then c.ols else c.loopstart) = 0 := by
  by_cases hfr : ∃ f ∈ ls, (ReadAnimFrame Atoi IsNumeric f).isSome = true
  · obtain ⟨p1, f, p2, hls, hf, hp2⟩ :=
      exists_last_split (fun l => (ReadAnimFrame Atoi IsNumeric l).isSome = true) ls hfr
    have hp1 : ∀ l ∈ p1 ++ [f], hasPrefix "loopstart".toList l = false := by
      intro l hl
      cases hpre : hasPrefix "loopstart".toList l with
      | false => rfl
      | true =>
        exfalso
        rcases List.mem_append.mp hl with hl1 | hl1
        · obtain ⟨u, v, huv⟩ := List.append_of_mem hl1
          refine hnone u l (v ++ f :: p2) ?_ hpre ⟨f, by simp, hf⟩
          rw [hls, huv]
          simp
        · have : l = f := by simpa using hl1
          subst this
          rw [hasPrefix_loopstart_not_frame Atoi IsNumeric l hpre] at hf
          cases hf
    have hp2none : ∀ l ∈ p2, ReadAnimFrame Atoi IsNumeric l = none := by
      intro l hl
      cases hx : ReadAnimFrame Atoi IsNumeric l with
      | none => rfl
      | some y => exact absurd (by rw [hx]; rfl) (hp2 l hl)
    have hsplit : ls = (p1 ++ [f]) ++ p2 := by rw [hls]; simp
    rw [hsplit, List.foldl_append] at hc
    obtain ⟨n1, n2, _⟩ := foldl_coreStep_noLoop Atoi IsNumeric (p1 ++ [f])
      { frames := [], loopstart := 0, ols := 0 } hp1
    have n2 := n2 ⟨f, by simp, hf⟩
    have hlen3 := foldl_coreStep_frames Atoi IsNumeric (p1 ++ [f])
      { frames := [], loopstart := 0, ols := 0 }
    generalize (p1 ++ [f]).foldl (coreStep Atoi IsNumeric)
      { frames := [], loopstart := 0, ols := 0 } = c3 at hc n1 n2 hlen3
    obtain ⟨m1, m2, m3⟩ := foldl_coreStep_noFrame Atoi IsNumeric p2 c3 hp2none
    rw [← hc] at m1 m2 m3
    simp only [] at n1 n2
    split_ifs with hge
    · rw [m2, n2]
    · rcases m3 with m3 | m3
      · rw [m3, n1]
      · rw [m3, m1] at hge
        exact absurd (le_refl _) hge
  · have hall : ∀ l ∈ ls, ReadAnimFrame Atoi IsNumeric l = none := by
      intro l hl
      cases hx : ReadAnimFrame Atoi IsNumeric l with
      | none => rfl
      | some y => exact absurd ⟨l, hl, by rw [hx]; rfl⟩ hfr
    obtain ⟨m1, m2, m3⟩ := foldl_coreStep_noFrame Atoi IsNumeric ls
      { frames := [], loopstart := 0, ols := 0 } hall
    rw [← hc] at m1 m2 m3
    simp only [List.length_nil, Nat.cast_zero] at m3
    split_ifs
    · exact m2
    · rcases m3 with m3 | m3 <;> exact m3

/-! ## Lemmas on the totals -/

theorem int32_idem (x : Int) : int32 (int32 x) = int32 x := by
  unfold int32; omega

theorem int32_add_left (a b : Int) : int32 (int32 a + b) = int32 (a + b) := by
  unfold int32; omega

theorem sumTime_cons (f : AnimFrame) (fs : List AnimFrame) :
    sumTime (f :: fs) = f.Time + sumTime fs := by
  simp [sumTime]

/-- The totals loop over frames none of which has duration `-1`: each total grows, in
`int32` arithmetic, by the durations of its part of the frames. -/
theorem totalsLoop_spec (L : Int) (fs : List AnimFrame) :
    ∀ (i : Int) (t : Totals), (∀ f ∈ fs, f.Time ≠ -1) →
      int32 t.totaltime = t.totaltime → int32 t.looptime = t.looptime →
      int32 t.nazotime = t.nazotime →
      (totalsLoop L fs i t).totaltime = int32 (t.totaltime + sumTime fs) ∧
      (totalsLoop L fs i t).nazotime =
        int32 (t.nazotime + sumTime (fs.take (L - i).toNat)) ∧
      (totalsLoop L fs i t).looptime =
        int32 (t.looptime + sumTime (fs.drop (L - i).toNat)) := by
  induction fs with
  | nil =>
    intro i t _ h1 h2 h3
    simp only [totalsLoop, List.take_nil, List.drop_nil, sumTime, List.map_nil, List.sum_nil,
      add_zero]
    exact ⟨h1.symm, h3.symm, h2.symm⟩
  | cons f fs ih =>
    intro i t hno h1 h2 h3
    have hf : f.Time ≠ -1 := hno f (List.mem_cons_self _ _)
    have hrest : ∀ x ∈ fs, x.Time ≠ -1 := fun x hx => hno x (List.mem_cons_of_mem _ hx)
    unfold totalsLoop
    simp only [if_neg hf]
    by_cases hi : i < L
    · simp only [if_pos hi]
      obtain ⟨k, hk⟩ : ∃ k : Nat, (L - i).toNat = k + 1 := ⟨(L - i).toNat - 1, by omega⟩
      have hk2 : (L - (i + 1)).toNat = k := by omega
      obtain ⟨r1, r2, r3⟩ := ih (i + 1)
        { totaltime := int32 (t.totaltime + f.Time), looptime := t.looptime,
          nazotime := int32 (t.nazotime + f.Time), tmp := int32 (t.tmp + f.Time) }
        hrest (int32_idem _) h2 (int32_idem _)
      rw [hk, List.take_succ_cons, List.drop_succ_cons, sumTime_cons, sumTime_cons]
      rw [hk2] at r2 r3
      rw [r1, r2, r3]
      refine ⟨?_, ?_, ?_⟩ <;> simp only [int32_add_left, add_assoc]
    · simp only [if_neg hi]
      have hk : (L - i).toNat = 0 := by omega
      have hk2 : (L - (i + 1)).toNat = 0 := by omega
      obtain ⟨r1, r2, r3⟩ := ih (i + 1)
        { totaltime := int32 (t.totaltime + f.Time),
          looptime := int32 (t.looptime + f.Time),
          nazotime := t.nazotime, tmp := t.tmp }
        hrest (int32_idem _) (int32_idem _) h3
      simp only [hk, List.take_zero, List.drop_zero, sumTime_cons]
      simp only [hk2, List.take_zero, List.drop_zero] at r2 r3
      rw [r1, r2, r3]
      refine ⟨?_, ?_, ?_⟩ <;> simp only [int32_add_left, add_assoc]

theorem sumTime_take_add_drop (fs : List AnimFrame) (n : Nat) :
    sumTime (fs.take n) + sumTime (fs.drop n) = sumTime fs := by
  unfold sumTime
  rw [List.map_take, List.map_drop, List.sum_take_add_sum_drop]

/-- The totals of the returned animation when it has frames and its last frame does not
have duration `-1`: what the totals loop computes, with `nazotime` reset when the total
is `-1`. -/
theorem finishAnimation_totals (s : ScanState)
    (z1 : s.a.totaltime = 0) (z2 : s.a.looptime = 0) (z3 : s.a.nazotime = 0)
    (hne : ¬ s.a.frames.length = 0)
    (hlast : ¬ (s.a.frames.getLast?.map fun f => f.Time) = some (-1)) :
    (finishAnimation s).totaltime =
      (totalsLoop (finishAnimation s).loopstart s.a.frames 0
        { totaltime := 0, looptime := 0, nazotime := 0, tmp := 0 }).totaltime ∧
    (finishAnimation s).looptime =
      (totalsLoop (finishAnimation s).loopstart s.a.frames 0
        { totaltime := 0, looptime := 0, nazotime := 0, tmp := 0 }).looptime ∧
    (finishAnimation s).nazotime =
      if (totalsLoop (finishAnimation s).loopstart s.a.frames 0
        { totaltime := 0, looptime := 0, nazotime := 0, tmp := 0 }).totaltime = -1 then 0
      else (totalsLoop (finishAnimation s).loopstart s.a.frames 0
        { totaltime := 0, looptime := 0, nazotime := 0, tmp := 0 }).nazotime := by
  rw [finishAnimation_loopstart]
  unfold finishAnimation
  by_cases hge : s.a.loopstart ≥ (s.a.frames.length : Int)
  · simp only [if_pos hge, if_neg hne, if_neg hlast, z1, z2, z3]
    split_ifs <;> exact ⟨rfl, rfl, rfl⟩
  · simp only [if_neg hge, if_neg hne, if_neg hlast, z1, z2, z3]
    split_ifs <;> exact ⟨rfl, rfl, rfl⟩

theorem finishAnimation_empty (s : ScanState)
    (z1 : s.a.totaltime = 0) (z2 : s.a.looptime = 0) (z3 : s.a.nazotime = 0)
    (hnil : s.a.frames.length = 0) :
    (finishAnimation s).totaltime = 0 ∧ (finishAnimation s).looptime = 0 ∧
    (finishAnimation s).nazotime = 0 := by
  unfold finishAnimation
  by_cases hge : s.a.loopstart ≥ (s.a.frames.length : Int)
  · simp only [if_pos hge, if_pos hnil, z1, z2, z3]
    exact ⟨trivial, trivial, trivial⟩
  · simp only [if_neg hge, if_pos hnil, z1, z2, z3]
    exact ⟨trivial, trivial, trivial⟩

/-! ## Claims on `ReadAnimation` -/

/-- C1 (failing input). On the two lines `clsn1: 1073741824` and `clsn1[0] = 0,0,1,1`
the product `size*4` wraps to `0` in `int32`, the rectangle slice is empty while
`size` is not zero, and the store `clsn[n*4]` of the first rectangle line is out of
range: `ReadAnimation` stops on a panic instead of skipping the malformed
declaration.  (For every run that returns, `ReadAnimation_frames` gives the frame
sequence the claim states.) -/
theorem C1_clsn_size_overflow_panics :
    ReadAnimation decAtoi decIsNumeric
      ["clsn1: 1073741824".toList, "clsn1[0] = 0,0,1,1".toList] 0 = Outcome.panic := by
  decide

/-- C9. For every animation that `ReadAnimation` returns: `loopstart >= 0`; `loopstart`
is below the frame count when at least one frame was read; `loopstart` is the number of
frames read before the last `loopstart` directive of the block that is followed by at
least one frame line; and it is `0` when no `loopstart` directive is followed by a
frame line. -/
theorem C9_loopstart_last_valid_directive (Atoi : List Char → Int)
    (IsNumeric : List Char → Bool) (lines : List (List Char)) (i j : Nat) (a : Animation)
    (h : ReadAnimation Atoi IsNumeric lines i = .ok (j, a)) :
    (0 ≤ a.loopstart ∧
      (a.frames ≠ [] → a.loopstart < a.frames.length) ∧
      (∀ pre d post, blockLines lines i = pre ++ d :: post →
        hasPrefix "loopstart".toList d = true →
        (∃ f ∈ post, (ReadAnimFrame Atoi IsNumeric f).isSome = true) →
        (∀ pre1 d1 post1, post = pre1 ++ d1 :: post1 →
          hasPrefix "loopstart".toList d1 = true →
          ¬ ∃ f ∈ post1, (ReadAnimFrame Atoi IsNumeric f).isSome = true) →
        a.loopstart = (pre.filterMap (ReadAnimFrame Atoi IsNumeric)).length) ∧
      ((∀ pre d post, blockLines lines i = pre ++ d :: post →
          hasPrefix "loopstart".toList d = true →
          ¬ ∃ f ∈ post, (ReadAnimFrame Atoi IsNumeric f).isSome = true) →
        a.loopstart = 0)) := by
  obtain ⟨s, rfl, hc, _⟩ := ReadAnimation_ok Atoi IsNumeric lines i j a h
  have hb := foldl_coreStep_bounds Atoi IsNumeric (blockLines lines i)
    { frames := [], loopstart := 0, ols := 0 }
    ⟨le_refl _, by simp, le_refl _, by simp, fun hne => absurd rfl hne⟩
  rw [← hc] at hb
  have hlen : (coreOf s).frames.length = s.a.frames.length := by
    simp [coreOf]
  have hfin : (finishAnimation s).loopstart =
      if (coreOf s).loopstart ≥ (coreOf s).frames.length then (coreOf s).ols
      else (coreOf s).loopstart := by
    rw [finishAnimation_loopstart, hlen]
    rfl
  rw [finishAnimation_frames]
  obtain ⟨b1, b2, b3, b4, b5⟩ := hb
  refine ⟨?_, ?_, ?_, ?_⟩
  · rw [hfin]
    split_ifs
    · exact b3
    · exact b1
  · intro hne
    have hne2 : (coreOf s).frames ≠ [] := by
      intro h0
      apply hne
      have : (coreOf s).frames.length = 0 := by rw [h0]; rfl
      rw [hlen] at this
      exact List.length_eq_zero.mp this
    rw [hfin, ← hlen]
    split_ifs with hge
    · exact b5 hne2
    · omega
  · intro pre d post hbl hd hfr hlast
    rw [hfin]
    rw [hbl] at hc
    exact foldl_coreStep_last_directive Atoi IsNumeric pre post d hd hfr hlast _ hc
  · intro hnone
    rw [hfin]
    exact foldl_coreStep_no_directive Atoi IsNumeric (blockLines lines i) hnone _ hc

/-- C9 (witness): the block `linesLoop`, whose second `loopstart` has no frame after it;
the loop start is the frame count 1 at the first directive. -/
theorem C9_loopstart_last_valid_directive_witness :
    ReadAnimation decAtoi decIsNumeric linesLoop 0 = .ok (4, animLoop) ∧
    (0 ≤ animLoop.loopstart ∧
      (animLoop.frames ≠ [] → animLoop.loopstart < animLoop.frames.length) ∧
      (∀ pre d post, blockLines linesLoop 0 = pre ++ d :: post →
        hasPrefix "loopstart".toList d = true →
        (∃ f ∈ post, (ReadAnimFrame decAtoi decIsNumeric f).isSome = true) →
        (∀ pre1 d1 post1, post = pre1 ++ d1 :: post1 →
          hasPrefix "loopstart".toList d1 = true →
          ¬ ∃ f ∈ post1, (ReadAnimFrame decAtoi decIsNumeric f).isSome = true) →
        animLoop.loopstart = (pre.filterMap (ReadAnimFrame decAtoi decIsNumeric)).length) ∧
      ((∀ pre d post, blockLines linesLoop 0 = pre ++ d :: post →
          hasPrefix "loopstart".toList d = true →
          ¬ ∃ f ∈ post, (ReadAnimFrame decAtoi decIsNumeric f).isSome = true) →
        animLoop.loopstart = 0)) :=
  ⟨by decide, C9_loopstart_last_valid_directive decAtoi decIsNumeric linesLoop 0 4 animLoop
    (by decide)⟩

/-- C10 (counterexample). Two frames of durations `-2` and `1` with `loopstart = 1`: no
frame has duration `-1`, the sum of the durations before the loop start is `-2`, yet
`nazotime = 0` (the total is `-1`), so `totaltime = -1` is not `nazotime + looptime = 1`.
Two frames of durations `2147483647` and `1`: `totaltime = -2147483648`, the `int32`
wrap of the sum. -/
theorem C10_counterexample :
    Option.map timingOf (ReadAnimation decAtoi decIsNumeric
      ["0,0,0,0,-2".toList, "loopstart".toList, "0,0,0,0,1".toList] 0).animation =
      some ([-2, 1], 1, -1, 1, 0) ∧
    Option.map timingOf (ReadAnimation decAtoi decIsNumeric
      ["0,0,0,0,2147483647".toList, "0,0,0,0,1".toList] 0).animation =
      some ([2147483647, 1], 0, -2147483648, -2147483648, 0) := by
  decide

/-- C10 (amended). For every animation that `ReadAnimation` returns and in which no
frame has duration `-1`, in `int32` wrap-around arithmetic: `totaltime` is the sum of
all frame durations and `looptime` the sum of the durations of the frames with index
`>= loopstart`; when `totaltime` is not `-1`, `nazotime` is the sum of the durations of
the frames with index `< loopstart` and `totaltime = nazotime + looptime`; when
`totaltime` is `-1`, `nazotime` is `0`. -/
theorem C10_totals_are_sums (Atoi : List Char → Int)
    (IsNumeric : List Char → Bool) (lines : List (List Char)) (i j : Nat) (a : Animation)
    (h : ReadAnimation Atoi IsNumeric lines i = .ok (j, a))
    (hno : ∀ f ∈ a.frames, f.Time ≠ -1) :
    (a.totaltime = int32 (sumTime a.frames) ∧
      a.looptime = int32 (sumTime (a.frames.drop a.loopstart.toNat)) ∧
      (a.totaltime ≠ -1 →
        a.nazotime = int32 (sumTime (a.frames.take a.loopstart.toNat)) ∧
        a.totaltime = int32 (a.nazotime + a.looptime)) ∧
      (a.totaltime = -1 → a.nazotime = 0)) := by
  obtain ⟨s, rfl, _, z1, z2, z3⟩ := ReadAnimation_ok Atoi IsNumeric lines i j a h
  have hfr := finishAnimation_frames s
  have hls := finishAnimation_loopstart s
  rw [hfr] at hno
  generalize hL : (finishAnimation s).loopstart = L at hls
  rw [hfr]
  have hz : int32 0 = 0 := by decide
  obtain ⟨r1, r2, r3⟩ := totalsLoop_spec L s.a.frames 0
    { totaltime := 0, looptime := 0, nazotime := 0, tmp := 0 } hno hz hz hz
  simp only [zero_add, sub_zero] at r1 r2 r3
  have hsum := sumTime_take_add_drop s.a.frames L.toNat
  have hfin : (finishAnimation s).totaltime = int32 (sumTime s.a.frames) ∧
      (finishAnimation s).looptime = int32 (sumTime (s.a.frames.drop L.toNat)) ∧
      (finishAnimation s).nazotime =
        if int32 (sumTime s.a.frames) = -1 then 0
        else int32 (sumTime (s.a.frames.take L.toNat)) := by
    by_cases h0 : s.a.frames.length = 0
    · obtain ⟨e1, e2, e3⟩ := finishAnimation_empty s z1 z2 z3 h0
      have hnil : s.a.frames = [] := List.length_eq_zero.mp h0
      rw [e1, e2, e3, hnil]
      simp only [sumTime, List.map_nil, List.sum_nil, List.take_nil, List.drop_nil, hz]
      exact ⟨trivial, trivial, by decide⟩
    · have hlast : ¬ (s.a.frames.getLast?.map fun f => f.Time) = some (-1) := by
        intro hl
        cases hg : s.a.frames.getLast? with
        | none => rw [hg] at hl; cases hl
        | some f =>
          rw [hg] at hl
          simp only [Option.map_some', Option.some.injEq] at hl
          exact hno f (List.mem_of_getLast?_eq_some hg) hl
      obtain ⟨e1, e2, e3⟩ := finishAnimation_totals s z1 z2 z3 h0 hlast
      rw [hL] at e1 e2 e3
      rw [e1, e2, e3, r1, r2, r3]
      exact ⟨rfl, rfl, rfl⟩
  obtain ⟨f1, f2, f3⟩ := hfin
  refine ⟨f1, f2, ?_, ?_⟩
  · intro hne
    rw [f1] at hne
    rw [f3, if_neg hne]
    refine ⟨rfl, ?_⟩
    rw [f1, f2, ← hsum]
    unfold int32
    omega
  · intro heq
    rw [f1] at heq
    rw [f3, if_pos heq]

/-- C10 (witness): durations `[5, 5, 5]` with `loopstart = 0` give `totaltime = 15`. -/
theorem C10_totals_are_sums_witness :
    (ReadAnimation decAtoi decIsNumeric linesThreeFrames 0 = .ok (3, animThreeFrames) ∧
      (∀ f ∈ animThreeFrames.frames, f.Time ≠ -1)) ∧
    (animThreeFrames.totaltime = int32 (sumTime animThreeFrames.frames) ∧
      animThreeFrames.looptime = int32 (sumTime (animThreeFrames.frames.drop animThreeFrames.loopstart.toNat)) ∧
      (animThreeFrames.totaltime ≠ -1 →
        animThreeFrames.nazotime = int32 (sumTime (animThreeFrames.frames.take animThreeFrames.loopstart.toNat)) ∧
        animThreeFrames.totaltime = int32 (animThreeFrames.nazotime + animThreeFrames.looptime)) ∧
      (animThreeFrames.totaltime = -1 → animThreeFrames.nazotime = 0)) ∧
    timingOf animThreeFrames = ([5, 5, 5], 0, 15, 15, 0) :=
  ⟨by decide, C10_totals_are_sums decAtoi decIsNumeric linesThreeFrames 0 3 animThreeFrames
    (by decide) (by decide), by decide⟩

/-! ## Invariants of the line loop -/

/-- A property of the locals that every turn of the `switch` keeps holds when the line
loop ends. -/
theorem scanLoop_invariant (Atoi : List Char → Int) (IsNumeric : List Char → Bool)
    (lines : List (List Char)) (P : ScanState → Prop)
    (hstep : ∀ i s j s1, i < lines.length → P s →
      scanStep Atoi IsNumeric lines i s = .ok (j, s1) → P s1)
    (fuel : Nat) :
    ∀ (i : Nat) (s : ScanState) (j : Nat) (s1 : ScanState), P s →
      scanLoop Atoi IsNumeric lines fuel i s = .ok (j, s1) → P s1 := by
  induction fuel with
  | zero =>
    intro i s j s1 hp h
    unfold scanLoop at h
    split_ifs at h
    cases h
    exact hp
  | succ fuel ih =>
    intro i s j s1 hp h
    unfold scanLoop at h
    by_cases hi : i < lines.length
    · rw [if_pos hi] at h
      by_cases hsec : sectionStart (lines.getD i []) = true
      · rw [if_pos hsec] at h
        cases h
        exact hp
      · rw [if_neg hsec] at h
        cases hstp : scanStep Atoi IsNumeric lines i s with
        | panic => rw [hstp] at h; cases h
        | fuel => rw [hstp] at h; cases h
        | ok r =>
          obtain ⟨j1, s2⟩ := r
          rw [hstp] at h
          exact ih _ _ _ _ (hstep i s j1 s2 hi hp hstp) h
    · rw [if_neg hi] at h
      cases h
      exact hp

/-- What `ReadAnimation` returns is `finishAnimation` of the locals at the end of the
line loop. -/
theorem ReadAnimation_scan (Atoi : List Char → Int) (IsNumeric : List Char → Bool)
    (lines : List (List Char)) (i j : Nat) (a : Animation)
    (h : ReadAnimation Atoi IsNumeric lines i = .ok (j, a)) :
    ∃ s : ScanState,
      scanLoop Atoi IsNumeric lines (lines.length - i) i initScan = .ok (j, s) ∧
      a = finishAnimation s := by
  unfold ReadAnimation at h
  cases hs : scanLoop Atoi IsNumeric lines (lines.length - i) i initScan with
  | panic => rw [hs] at h; cases h
  | fuel => rw [hs] at h; cases h
  | ok r =>
    obtain ⟨j1, s⟩ := r
    rw [hs] at h
    simp only [] at h
    cases h
    exact ⟨s, rfl, rfl⟩

/-! ## Claims on the parsed animation: hold frame and collision boxes -/

theorem finishAnimation_hold (s : ScanState)
    (hlast : (s.a.frames.getLast?.map fun f => f.Time) = some (-1)) :
    (finishAnimation s).totaltime = -1 := by
  have hne : ¬ s.a.frames.length = 0 := by
    intro h0
    rw [List.length_eq_zero.mp h0] at hlast
    cases hlast
  unfold finishAnimation
  by_cases hge : s.a.loopstart ≥ (s.a.frames.length : Int)
  · simp only [if_pos hge, if_neg hne, if_pos hlast]
  · simp only [if_neg hge, if_neg hne, if_pos hlast]

/-- C11. For every animation that `ReadAnimation` returns, if it has frames and its last
frame has duration `-1`, then `totaltime = -1`, whatever the other durations and the
loop start. -/
theorem C11_hold_frame_totaltime (Atoi : List Char → Int)
    (IsNumeric : List Char → Bool) (lines : List (List Char)) (i j : Nat) (a : Animation)
    (h : ReadAnimation Atoi IsNumeric lines i = .ok (j, a))
    (hne : a.frames ≠ [])
    (hlast : Option.map AnimFrame.Time a.frames.getLast? = some (-1)) :
    a.totaltime = -1 := by
  obtain ⟨s, rfl, _⟩ := ReadAnimation_ok Atoi IsNumeric lines i j a h
  rw [finishAnimation_frames] at hlast
  exact finishAnimation_hold s hlast

/-- C11 (witness): durations `[10, 5, -1]` with `loopstart = 1`. -/
theorem C11_hold_frame_totaltime_witness :
    (ReadAnimation decAtoi decIsNumeric linesHold 0 = .ok (4, animHold) ∧
      animHold.frames ≠ [] ∧
      Option.map AnimFrame.Time animHold.frames.getLast? = some (-1)) ∧
    animHold.totaltime = -1 ∧
    timingOf animHold = ([10, 5, -1], 1, -1, 0, 0) :=
  ⟨by decide, C11_hold_frame_totaltime decAtoi decIsNumeric linesHold 0 4 animHold
    (by decide) (by decide) (by decide), by decide⟩

theorem getD_set_int (xs : List Int) (i j : Nat) (v d : Int) :
    (xs.set i v).getD j d = if j = i ∧ i < xs.length then v else xs.getD j d := by
  simp only [List.getD_eq_getElem?_getD, List.getElem?_set]
  by_cases hij : i = j
  · subst hij
    by_cases hlt : i < xs.length
    · simp [hlt]
    · have : xs[i]? = none := List.getElem?_eq_none (by omega)
      simp [hlt, this]
  · have hji : ¬ j = i := fun e => hij e.symm
    simp [hij, hji]

theorem setIdx_eq (xs : List Int) (i v : Int) (ys : List Int) (h : setIdx xs i v = some ys) :
    0 ≤ i ∧ i < xs.length ∧ ys = xs.set i.toNat v := by
  unfold setIdx at h
  split_ifs at h with hc
  cases h
  exact ⟨hc.1, hc.2, rfl⟩

theorem rectsOrdered_nil : rectsOrdered [] := by
  intro q hq
  simp at hq

theorem rectsOrdered_replicate (n : Nat) : rectsOrdered (List.replicate n 0) := by
  intro q _
  simp [List.getD_eq_getElem?_getD, List.getElem?_replicate]
  constructor <;> (split_ifs <;> simp)

/-- The store of an ordered rectangle keeps the rectangles of the slice ordered. -/
theorem storeRect_ordered (clsn : List Int) (n l t r b : Int) (c : List Int)
    (h : storeRect clsn n l t r b = some c) (hlr : l ≤ r) (htb : t ≤ b)
    (ho : rectsOrdered clsn) : rectsOrdered c := by
  unfold storeRect at h
  cases h1 : setIdx clsn (int32 (n * 4)) l with
  | none => rw [h1] at h; cases h
  | some c1 =>
    rw [h1] at h
    simp only [Option.some_bind] at h
    cases h2 : setIdx c1 (int32 (int32 (n * 4) + 1)) t with
    | none => rw [h2] at h; cases h
    | some c2 =>
      rw [h2] at h
      simp only [Option.some_bind] at h
      cases h3 : setIdx c2 (int32 (int32 (n * 4) + 2)) r with
      | none => rw [h3] at h; cases h
      | some c3 =>
        rw [h3] at h
        simp only [Option.some_bind] at h
        obtain ⟨a0, a1, e1⟩ := setIdx_eq _ _ _ _ h1
        obtain ⟨_, _, e2⟩ := setIdx_eq _ _ _ _ h2
        obtain ⟨_, _, e3⟩ := setIdx_eq _ _ _ _ h3
        obtain ⟨_, _, e4⟩ := setIdx_eq _ _ _ _ h
        generalize hk : int32 (n * 4) = k at *
        have hk4 : k % 4 = 0 := by rw [← hk]; unfold int32; omega
        have hkr : k < 2147483648 := by rw [← hk]; unfold int32; omega
        have k1 : int32 (k + 1) = k + 1 := by unfold int32; omega
        have k2 : int32 (k + 2) = k + 2 := by unfold int32; omega
        have k3 : int32 (k + 3) = k + 3 := by unfold int32; omega
        rw [k1] at e2
        rw [k2] at e3
        rw [k3] at e4
        obtain ⟨m, hm⟩ : ∃ m : Nat, k = 4 * (m : Int) := ⟨(k / 4).toNat, by omega⟩
        have t0 : k.toNat = 4 * m := by omega
        have t1 : (k + 1).toNat = 4 * m + 1 := by omega
        have t2 : (k + 2).toNat = 4 * m + 2 := by omega
        have t3 : (k + 3).toNat = 4 * m + 3 := by omega
        rw [t3] at e4
        rw [t2] at e3
        rw [t1] at e2
        rw [t0] at e1
        have l1 : c1.length = clsn.length := by rw [e1]; exact List.length_set _ _ _
        have l2 : c2.length = clsn.length := by rw [e2, List.length_set]; exact l1
        have l3 : c3.length = clsn.length := by rw [e3, List.length_set]; exact l2
        have l4 : c.length = clsn.length := by rw [e4, List.length_set]; exact l3
        have hget : ∀ idx : Nat, c.getD idx 0 =
            if idx = 4 * m + 3 ∧ 4 * m + 3 < clsn.length then b
            else if idx = 4 * m + 2 ∧ 4 * m + 2 < clsn.length then r
            else if idx = 4 * m + 1 ∧ 4 * m + 1 < clsn.length then t
            else if idx = 4 * m ∧ 4 * m < clsn.length then l
            else clsn.getD idx 0 := by
          intro idx
          rw [e4, getD_set_int, e3, getD_set_int, e2, getD_set_int, e1, getD_set_int]
          simp only [List.length_set]
        intro q hq
        rw [l4] at hq
        rw [hget, hget, hget, hget]
        by_cases hqm : q = m
        · subst hqm
          have x0 : ¬ (4 * q = 4 * q + 3 ∧ 4 * q + 3 < clsn.length) := by omega
          have x1 : ¬ (4 * q = 4 * q + 2 ∧ 4 * q + 2 < clsn.length) := by omega
          have x2 : ¬ (4 * q = 4 * q + 1 ∧ 4 * q + 1 < clsn.length) := by omega
          have x3 : (4 * q = 4 * q ∧ 4 * q < clsn.length) := by omega
          have y0 : ¬ (4 * q + 2 = 4 * q + 3 ∧ 4 * q + 3 < clsn.length) := by omega
          have y1 : (4 * q + 2 = 4 * q + 2 ∧ 4 * q + 2 < clsn.length) := by omega
          have z0 : ¬ (4 * q + 1 = 4 * q + 3 ∧ 4 * q + 3 < clsn.length) := by omega
          have z1 : ¬ (4 * q + 1 = 4 * q + 2 ∧ 4 * q + 2 < clsn.length) := by omega
          have z2 : (4 * q + 1 = 4 * q + 1 ∧ 4 * q + 1 < clsn.length) := by omega
          have w0 : (4 * q + 3 = 4 * q + 3 ∧ 4 * q + 3 < clsn.length) := by omega
          rw [if_neg x0, if_neg x1, if_neg x2, if_pos x3, if_neg y0, if_pos y1, if_neg z0,
            if_neg z1, if_pos z2, if_pos w0]
          exact ⟨hlr, htb⟩
        · have hold := ho q hq
          have u : ∀ d e : Nat, d < 4 → e < 4 →
              ¬ (4 * q + d = 4 * m + e ∧ 4 * m + e < clsn.length) := by
            intro d e hd he; omega
          have ua := u 0 0 (by omega) (by omega)
          simp only [Nat.add_zero] at ua
          have ub := fun e he => u 0 e (by omega) he
          simp only [Nat.add_zero] at ub
          have uc := fun d hd => u d 0 hd (by omega)
          simp only [Nat.add_zero] at uc
          rw [if_neg (ub 3 (by omega)), if_neg (ub 2 (by omega)), if_neg (ub 1 (by omega)),
            if_neg ua,
            if_neg (u 2 3 (by omega) (by omega)), if_neg (u 2 2 (by omega) (by omega)),
            if_neg (u 2 1 (by omega) (by omega)), if_neg (uc 2 (by omega)),
            if_neg (u 1 3 (by omega) (by omega)), if_neg (u 1 2 (by omega) (by omega)),
            if_neg (u 1 1 (by omega) (by omega)), if_neg (uc 1 (by omega)),
            if_neg (u 3 3 (by omega) (by omega)), if_neg (u 3 2 (by omega) (by omega)),
            if_neg (u 3 1 (by omega) (by omega)), if_neg (uc 3 (by omega))]
          exact hold

theorem makeClsn_ordered (size : Int) (fresh : List Int) (h : makeClsn size = some fresh) :
    rectsOrdered fresh := by
  unfold makeClsn at h
  split_ifs at h
  cases h
  exact rectsOrdered_replicate _

/-- The rectangle loop keeps the rectangles of the slice ordered. -/
theorem clsnRects_ordered (Atoi : List Char → Int) (lines : List (List Char)) (k : Nat) :
    ∀ (n : Int) (i0 : Nat) (clsn : List Int) (j : Nat) (c : List Int),
      clsnRects Atoi lines k n i0 clsn = some (j, c) → rectsOrdered clsn → rectsOrdered c := by
  induction k with
  | zero =>
    intro n i0 clsn j c h ho
    simp only [clsnRects, Option.some.injEq, Prod.mk.injEq] at h
    obtain ⟨_, rfl⟩ := h
    exact ho
  | succ k ih =>
    intro n i0 clsn j c h ho
    have stop : ∀ {x : Nat × List Int}, some (i0, clsn) = some x → x = (j, c) →
        rectsOrdered c := by
      intro x h1 h2
      cases h1
      cases h2
      exact ho
    unfold clsnRects at h
    by_cases hi : i0 < lines.length
    · rw [if_pos hi] at h
      simp only [] at h
      by_cases he : (normLine (lines.getD i0 [])).length = 0
      · rw [if_pos he] at h
        exact ih _ _ _ _ _ h ho
      rw [if_neg he] at h
      by_cases hp : (normLine (lines.getD i0 [])).length < 4 ∨
          (normLine (lines.getD i0 [])).take 4 ≠ ['c', 'l', 's', 'n']
      · rw [if_pos hp] at h; exact stop h rfl
      rw [if_neg hp] at h
      by_cases hii : Index '=' (normLine (lines.getD i0 [])) < 0
      · rw [if_pos hii] at h; exact stop h rfl
      rw [if_neg hii] at h
      by_cases h4 : (Split ',' ((normLine (lines.getD i0 [])).drop
          ((Index '=' (normLine (lines.getD i0 []))).toNat + 1))).length < 4
      · rw [if_pos h4] at h; exact stop h rfl
      rw [if_neg h4] at h
      revert h
      generalize hl : Atoi ((Split ',' ((normLine (lines.getD i0 [])).drop
          ((Index '=' (normLine (lines.getD i0 []))).toNat + 1))).getD 0 []) = l
      generalize ht : Atoi ((Split ',' ((normLine (lines.getD i0 [])).drop
          ((Index '=' (normLine (lines.getD i0 []))).toNat + 1))).getD 1 []) = t
      generalize hr : Atoi ((Split ',' ((normLine (lines.getD i0 [])).drop
          ((Index '=' (normLine (lines.getD i0 []))).toNat + 1))).getD 2 []) = r
      generalize hb : Atoi ((Split ',' ((normLine (lines.getD i0 [])).drop
          ((Index '=' (normLine (lines.getD i0 []))).toNat + 1))).getD 3 []) = b
      intro h
      cases hs : storeRect clsn n (if l > r then r else l) (if t > b then b else t)
          (if l > r then l else r) (if t > b then t else b) with
      | none => rw [hs] at h; cases h
      | some c1 =>
        rw [hs] at h
        refine ih _ _ _ _ _ h (storeRect_ordered _ _ _ _ _ _ _ hs ?_ ?_ ho)
        · split_ifs <;> omega
        · split_ifs <;> omega
    · rw [if_neg hi] at h
      exact stop h rfl

/-- The `clsn` case keeps the rectangles of the locals and of the frames ordered. -/
theorem clsnCase_ordered (Atoi : List Char → Int) (lines : List (List Char))
    (line : List Char) (i : Nat) (s : ScanState) (j : Nat) (s1 : ScanState)
    (hp : boxesOrdered s) (h : clsnCase Atoi lines line i s = .ok (j, s1)) :
    boxesOrdered s1 := by
  obtain ⟨o1, o1d, o2, o2d, ofr⟩ := hp
  have stay : ∀ (k : Nat) (b : ScanState),
      (Outcome.ok (k, b) : Outcome (Nat × ScanState)) = .ok (j, s1) →
      boxesOrdered b → boxesOrdered s1 := by
    intro k b hab hb
    cases hab
    exact hb
  unfold clsnCase at h
  simp only [] at h
  by_cases hii : Index ':' line < 0
  · rw [if_pos hii] at h; exact stay _ _ h ⟨o1, o1d, o2, o2d, ofr⟩
  rw [if_neg hii] at h
  by_cases hsz : Atoi (line.drop ((Index ':' line).toNat + 1)) < 0
  · rw [if_pos hsz] at h; exact stay _ _ h ⟨o1, o1d, o2, o2d, ofr⟩
  rw [if_neg hsz] at h
  by_cases h1 : line.getD 4 ' ' = '1'
  · rw [if_pos h1] at h
    cases hm : makeClsn (Atoi (line.drop ((Index ':' line).toNat + 1))) with
    | none => rw [hm] at h; cases h
    | some fresh =>
      rw [hm] at h
      simp only [] at h
      have hfresh := makeClsn_ordered _ _ hm
      by_cases h0 : Atoi (line.drop ((Index ':' line).toNat + 1)) = 0
      · rw [if_pos h0] at h
        refine stay _ _ h ⟨hfresh, ?_, o2, o2d, ofr⟩
        dsimp only
        split_ifs
        · exact hfresh
        · exact o1d
      rw [if_neg h0] at h
      cases hr : clsnRects Atoi lines (Atoi (line.drop ((Index ':' line).toNat + 1))).toNat
          0 (i + 1) fresh with
      | none => rw [hr] at h; cases h
      | some r =>
        obtain ⟨r1, r2⟩ := r
        rw [hr] at h
        have hfilled := clsnRects_ordered Atoi lines _ _ _ _ _ _ hr hfresh
        refine stay _ _ h ⟨hfilled, ?_, o2, o2d, ofr⟩
        dsimp only
        split_ifs
        · exact hfilled
        · exact o1d
  rw [if_neg h1] at h
  by_cases h2 : line.getD 4 ' ' = '2'
  · rw [if_pos h2] at h
    cases hm : makeClsn (Atoi (line.drop ((Index ':' line).toNat + 1))) with
    | none => rw [hm] at h; cases h
    | some fresh =>
      rw [hm] at h
      simp only [] at h
      have hfresh := makeClsn_ordered _ _ hm
      by_cases h0 : Atoi (line.drop ((Index ':' line).toNat + 1)) = 0
      · rw [if_pos h0] at h
        refine stay _ _ h ⟨o1, o1d, hfresh, ?_, ofr⟩
        dsimp only
        split_ifs
        · exact hfresh
        · exact o2d
      rw [if_neg h0] at h
      cases hr : clsnRects Atoi lines (Atoi (line.drop ((Index ':' line).toNat + 1))).toNat
          0 (i + 1) fresh with
      | none => rw [hr] at h; cases h
      | some r =>
        obtain ⟨r1, r2⟩ := r
        rw [hr] at h
        have hfilled := clsnRects_ordered Atoi lines _ _ _ _ _ _ hr hfresh
        refine stay _ _ h ⟨o1, o1d, hfilled, ?_, ofr⟩
        dsimp only
        split_ifs
        · exact hfilled
        · exact o2d
  rw [if_neg h2] at h
  exact stay _ _ h ⟨o1, o1d, o2, o2d, ofr⟩

/-- The frame case stores ordered rectangles in the new frame. -/
theorem frameCase_ordered (af : AnimFrame) (s : ScanState) (haf : af.Clsn = [])
    (hp : boxesOrdered s) : boxesOrdered (frameCase af s) := by
  obtain ⟨o1, o1d, o2, o2d, ofr⟩ := hp
  have c1 : rectsOrdered (if s.def1 = true then s.clsn1d else s.clsn1) := by
    split_ifs
    · exact o1d
    · exact o1
  have c2 : rectsOrdered (if s.def2 = true then s.clsn2d else s.clsn2) := by
    split_ifs
    · exact o2d
    · exact o2
  unfold frameCase
  dsimp only
  refine ⟨c1, o1d, c2, o2d, ?_⟩
  intro f hf c hc
  rw [List.mem_append] at hf
  rcases hf with hf | hf
  · exact ofr f hf c hc
  · rw [List.mem_singleton] at hf
    subst hf
    revert hc
    generalize (if s.def1 = true then s.clsn1d else s.clsn1) = x1 at c1 ⊢
    generalize (if s.def2 = true then s.clsn2d else s.clsn2) = x2 at c2 ⊢
    intro hc
    by_cases hlen : x1.length > 0 ∨ x2.length > 0
    · rw [if_pos hlen] at hc
      rw [haf] at hc
      simp at hc
      rcases hc with rfl | rfl
      · exact c1
      · exact c2
    · rw [if_neg hlen] at hc
      rw [haf] at hc
      cases hc

/-- Every turn of the `switch` keeps the rectangles ordered. -/
theorem scanStep_ordered (Atoi : List Char → Int) (IsNumeric : List Char → Bool)
    (lines : List (List Char)) (i : Nat) (s : ScanState) (j : Nat) (s1 : ScanState)
    (hp : boxesOrdered s) (h : scanStep Atoi IsNumeric lines i s = .ok (j, s1)) :
    boxesOrdered s1 := by
  unfold scanStep at h
  simp only [] at h
  cases hf : ReadAnimFrame Atoi IsNumeric (normLine (lines.getD i [])) with
  | some af =>
    rw [hf] at h
    simp only [] at h
    cases h
    exact frameCase_ordered af s
      (ReadAnimFrame_some Atoi IsNumeric _ af hf).2.2.2.2.2.2.2.2.2.2.2.2.2 hp
  | none =>
    rw [hf] at h
    simp only [] at h
    have here : ∀ (b : ScanState),
        (Outcome.ok (i, b) : Outcome (Nat × ScanState)) = .ok (j, s1) →
        boxesOrdered b → boxesOrdered s1 := by
      intro b hb hc
      cases hb
      exact hc
    by_cases p1 : hasPrefix "loopstart".toList (normLine (lines.getD i [])) = true
    · rw [if_pos p1] at h; exact here _ h hp
    rw [if_neg p1] at h
    by_cases p2 : hasPrefix "interpolate offset".toList (normLine (lines.getD i [])) = true
    · rw [if_pos p2] at h; exact here _ h hp
    rw [if_neg p2] at h
    by_cases p3 : hasPrefix "interpolate scale".toList (normLine (lines.getD i [])) = true
    · rw [if_pos p3] at h; exact here _ h hp
    rw [if_neg p3] at h
    by_cases p4 : hasPrefix "interpolate angle".toList (normLine (lines.getD i [])) = true
    · rw [if_pos p4] at h; exact here _ h hp
    rw [if_neg p4] at h
    by_cases p5 : hasPrefix "interpolate blend".toList (normLine (lines.getD i [])) = true
    · rw [if_pos p5] at h; exact here _ h hp
    rw [if_neg p5] at h
    by_cases p6 : (normLine (lines.getD i [])).length ≥ 5 ∧
        (normLine (lines.getD i [])).take 4 = ['c', 'l', 's', 'n']
    · rw [if_pos p6] at h
      exact clsnCase_ordered Atoi lines _ i s j s1 hp h
    · rw [if_neg p6] at h
      exact here _ h hp

theorem Clsn1_mem (f : AnimFrame) : f.Clsn1 = [] ∨ f.Clsn1 ∈ f.Clsn := by
  unfold AnimFrame.Clsn1
  split_ifs with h
  · right
    rw [List.getD_eq_getElem?_getD, List.getElem?_eq_getElem h]
    exact List.getElem_mem _
  · left; rfl

theorem Clsn2_mem (f : AnimFrame) : f.Clsn2 = [] ∨ f.Clsn2 ∈ f.Clsn := by
  unfold AnimFrame.Clsn2
  split_ifs with h
  · right
    rw [List.getD_eq_getElem?_getD, List.getElem?_eq_getElem h]
    exact List.getElem_mem _
  · left; rfl

/-- C12. For every input on which `ReadAnimation` returns an animation and every frame
of it, every rectangle (group of four consecutive values left, top, right, bottom) of
`Clsn1()` and of `Clsn2()` has `left ≤ right` and `top ≤ bottom`. -/
theorem C12_clsn_rectangles_ordered (Atoi : List Char → Int)
    (IsNumeric : List Char → Bool) (lines : List (List Char)) (i j : Nat) (a : Animation)
    (h : ReadAnimation Atoi IsNumeric lines i = .ok (j, a)) :
    ∀ f ∈ a.frames, rectsOrdered f.Clsn1 ∧ rectsOrdered f.Clsn2 := by
  obtain ⟨s, hs, rfl⟩ := ReadAnimation_scan Atoi IsNumeric lines i j a h
  have h0 : boxesOrdered initScan :=
    ⟨rectsOrdered_nil, rectsOrdered_nil, rectsOrdered_nil, rectsOrdered_nil,
      fun f hf => by cases hf⟩
  have hinv := scanLoop_invariant Atoi IsNumeric lines boxesOrdered
    (fun i s j s1 _ hp hstep => scanStep_ordered Atoi IsNumeric lines i s j s1 hp hstep)
    _ _ _ _ _ h0 hs
  intro f hf
  rw [finishAnimation_frames] at hf
  have hall := hinv.2.2.2.2 f hf
  constructor
  · rcases Clsn1_mem f with e | e
    · rw [e]; exact rectsOrdered_nil
    · exact hall _ e
  · rcases Clsn2_mem f with e | e
    · rw [e]; exact rectsOrdered_nil
    · exact hall _ e

/-- C12 (witness): a `Clsn1: 2` block with one rectangle line whose coordinates are
reversed (`5,6,1,2`); the frame holds the rectangles `1,2,5,6` and `0,0,0,0`. -/
theorem C12_clsn_rectangles_ordered_witness :
    ReadAnimation decAtoi decIsNumeric linesClsn 0 = .ok (3, animClsn) ∧
    (∀ f ∈ animClsn.frames, rectsOrdered f.Clsn1 ∧ rectsOrdered f.Clsn2) ∧
    animClsn.frames.map AnimFrame.Clsn1 = [[1, 2, 5, 6, 0, 0, 0, 0]] :=
  ⟨by decide, C12_clsn_rectangles_ordered decAtoi decIsNumeric linesClsn 0 3 animClsn
    (by decide), by decide⟩

/-! ## Lemmas on playback -/

theorem frameAt_some (a : Animation) (i : Int) (h0 : 0 ≤ i) (h1 : i < a.frames.length) :
    ∃ f, a.frameAt i = some f ∧ a.frames.get? i.toNat = some f ∧ f ∈ a.frames := by
  have hlt : i.toNat < a.frames.length := by omega
  refine ⟨a.frames.get ⟨i.toNat, hlt⟩, ?_, ?_, List.get_mem _ _ _⟩
  · unfold Animation.frameAt
    rw [if_pos ⟨h0, h1⟩]
    exact List.get?_eq_get hlt
  · exact List.get?_eq_get hlt

theorem frameAt_range (a : Animation) (i : Int) (f : AnimFrame) (h : a.frameAt i = some f) :
    0 ≤ i ∧ i < a.frames.length ∧ a.frames.get? i.toNat = some f ∧ f ∈ a.frames := by
  unfold Animation.frameAt at h
  split_ifs at h with hc
  exact ⟨hc.1, hc.2, h, List.get?_mem h⟩

theorem frameAt_last (a : Animation) (hne : a.frames ≠ []) :
    a.frameAt ((a.frames.length : Int) - 1) = a.frames.getLast? := by
  have hpos : 0 < a.frames.length := List.length_pos.mpr hne
  unfold Animation.frameAt
  rw [if_pos ⟨by omega, by omega⟩]
  have : ((a.frames.length : Int) - 1).toNat = a.frames.length - 1 := by omega
  rw [this, List.getLast?_eq_getElem?, List.get?_eq_getElem?]

theorem actionN_add (m n : Nat) (a : Animation) :
    actionN (m + n) a =
      match actionN m a with
      | .ok b => actionN n b
      | .panic => .panic
      | .fuel => .fuel := by
  induction n with
  | zero =>
    simp only [Nat.add_zero, actionN]
    cases actionN m a <;> rfl
  | succ n ih =>
    rw [← Nat.add_assoc]
    simp only [actionN]
    rw [ih]
    cases actionN m a <;> rfl

/-- One call of `Action` on the terminal frame of duration `-1` of an animation with
`totaltime = -1`: the call returns, and leaves `current` and `loopend` alone. -/
theorem Action_hold (a : Animation) (hne : a.frames ≠ [])
    (hlast : Option.map AnimFrame.Time a.frames.getLast? = some (-1))
    (htot : a.totaltime = -1) (hcur : a.current = (a.frames.length : Int) - 1) :
    ∃ b, a.Action = .ok b ∧ b.frames = a.frames ∧ b.totaltime = a.totaltime ∧
      b.current = a.current ∧ b.loopend = a.loopend := by
  have hlen : ¬ a.frames.length = 0 := fun h => hne (List.length_eq_zero.mp h)
  obtain ⟨f, hf⟩ : ∃ f, a.frames.getLast? = some f := by
    cases hg : a.frames.getLast? with
    | none => rw [hg] at hlast; cases hlast
    | some f => exact ⟨f, rfl⟩
  have hT : f.Time = -1 := by
    rw [hf] at hlast
    simpa using hlast
  have hfa : a.frameAt a.current = some f := by rw [hcur, frameAt_last a hne, hf]
  have hup : a.UpdateSprite = .ok { a with newframe := false, drawidx := a.current } := by
    have h0 : ¬ a.totaltime > 0 := by omega
    have hu : a.updateCurrent = a := by
      unfold Animation.updateCurrent
      rw [if_neg h0]
    unfold Animation.UpdateSprite
    rw [if_neg hlen]
    simp only [hu, hfa]
    have hi : ∀ x (y : Int), interpolates x f y = false := by
      intro x y
      unfold interpolates
      rw [hT]
      rfl
    rw [hi]
    simp
  have hnext : ∀ b : Animation, b.frames = a.frames → b.totaltime = a.totaltime →
      b.current = a.current → b.next = .ok b := by
    intro b e1 e2 e3
    unfold Animation.next
    rw [e1, e2, e3, if_neg]
    omega
  have hfr : ∀ b : Animation, b.frames = a.frames → b.current = a.current →
      b.frameAt b.current = some f := by
    intro b e1 e3
    unfold Animation.frameAt
    unfold Animation.frameAt at hfa
    rw [e1, e3]
    exact hfa
  have htail : ∀ b : Animation, b.frames = a.frames → b.totaltime = a.totaltime →
      b.current = a.current → b.loopend = a.loopend →
      ∃ c, b.actionTail = .ok c ∧ c.frames = a.frames ∧ c.totaltime = a.totaltime ∧
        c.current = a.current ∧ c.loopend = a.loopend := by
    intro b e1 e2 e3 e4
    unfold Animation.actionTail
    have hc : b.current < (b.frames.length : Int) := by rw [e1, e3, hcur]; omega
    rw [if_pos hc]
    simp only []
    rw [hfr { b with time := int32 (b.time + 1) } e1 e3]
    simp only []
    rw [hnext { b with time := int32 (b.time + 1) } e1 e2 e3]
    simp only []
    have hc2 : ¬ b.current ≥ (b.frames.length : Int) := by omega
    simp only [if_neg hc2, ite_self]
    have h3 : ¬ (b.totaltime ≠ -1 ∧ b.sumtime ≥ b.totaltime) := by
      rw [e2, htot]; simp
    have h4 : ¬ (b.totaltime ≠ -1 ∧ int32 (b.sumtime + 1) ≥ b.totaltime) := by
      rw [e2, htot]; simp
    unfold Animation.countTick
    simp only [if_neg h3, if_neg h4]
    exact ⟨_, rfl, e1, e2, e3, e4⟩
  unfold Animation.Action
  rw [if_neg (fun h => hne h.1), if_neg hlen, hup]
  simp only []
  rw [hfr { a with newframe := false, drawidx := a.current } rfl rfl]
  simp only []
  have hle : f.Time ≤ 0 := by omega
  rw [if_pos hle, hnext { a with newframe := false, drawidx := a.current } rfl rfl rfl]
  exact htail _ rfl rfl rfl rfl

/-- The same for any number of calls. -/
theorem actionN_hold (a : Animation) (hne : a.frames ≠ [])
    (hlast : Option.map AnimFrame.Time a.frames.getLast? = some (-1))
    (htot : a.totaltime = -1) (hcur : a.current = (a.frames.length : Int) - 1) (n : Nat) :
    ∃ b, actionN n a = .ok b ∧ b.frames = a.frames ∧ b.totaltime = a.totaltime ∧
      b.current = a.current ∧ b.loopend = a.loopend := by
  induction n with
  | zero => exact ⟨a, rfl, rfl, rfl, rfl, rfl⟩
  | succ n ih =>
    obtain ⟨b, h1, e1, e2, e3, e4⟩ := ih
    obtain ⟨c, h2, g1, g2, g3, g4⟩ := Action_hold b (by rw [e1]; exact hne)
      (by rw [e1]; exact hlast) (by rw [e2]; exact htot) (by rw [e3, e1]; exact hcur)
    refine ⟨c, ?_, by rw [g1, e1], by rw [g2, e2], by rw [g3, e3], by rw [g4, e4]⟩
    simp only [actionN, h1]
    exact h2

/-! ## Claims on `Action` -/

/-- C14. For every animation with `totaltime = -1` whose last frame has duration `-1`:
once `current` is the index of the last frame, every number of further calls of
`Action` returns and leaves `current` at that index and `loopend` as it was. -/
theorem C14_hold_on_last_frame (a : Animation) (n : Nat) (hne : a.frames ≠ [])
    (hlast : Option.map AnimFrame.Time a.frames.getLast? = some (-1))
    (htot : a.totaltime = -1) (hcur : a.current = (a.frames.length : Int) - 1) :
    ∃ b, actionN n a = .ok b ∧ b.current = a.current ∧ b.loopend = a.loopend := by
  obtain ⟨b, h, _, _, e3, e4⟩ := actionN_hold a hne hlast htot hcur n
  exact ⟨b, h, e3, e4⟩

set_option maxRecDepth 8000 in
/-- C14 (witness): durations `[10, 5, -1]` with `loopstart = 1`, from the reset state:
`current` is `1` after 10 calls of `Action`, `2` after 15 calls, and `2` after every
number of calls from there on, with `loopend` never set. -/
theorem C14_hold_on_last_frame_witness :
    Option.map positionOf (actionN 10 animHold.Reset).val? = some (1, 0, 10, false) ∧
    actionN 15 animHold.Reset = .ok animHeld ∧
    (animHeld.frames ≠ [] ∧
      Option.map AnimFrame.Time animHeld.frames.getLast? = some (-1) ∧
      animHeld.totaltime = -1 ∧ animHeld.current = (animHeld.frames.length : Int) - 1) ∧
    animHeld.current = 2 ∧ animHeld.loopend = false ∧
    ∀ n : Nat, ∃ b, actionN n animHeld = .ok b ∧ b.current = animHeld.current ∧
      b.loopend = animHeld.loopend :=
  ⟨by decide, by decide, by decide, by decide, by decide,
    fun n => C14_hold_on_last_frame animHeld n (by decide) (by decide) (by decide) (by decide)⟩

/-! ## Lemmas on `UpdateSprite` -/

theorem int32_of_range (x : Int) (h1 : -2147483648 ≤ x) (h2 : x < 2147483648) :
    int32 x = x := by
  unfold int32; omega

theorem int32_range (x : Int) : -2147483648 ≤ int32 x ∧ int32 x < 2147483648 := by
  unfold int32; omega

theorem seekLoop_pos (a : Animation) (k : Nat) (cur : Int) (f : AnimFrame)
    (hf : a.frameAt cur = some f) (hT : 0 < f.Time) : seekLoop a k cur = cur := by
  cases k with
  | zero => rfl
  | succ k =>
    unfold seekLoop
    rw [hf]
    simp only []
    rw [if_neg (by omega)]

/-- The method `animSeek` only changes `current`, and leaves it a frame index. -/
theorem animSeek_range (a : Animation) (elem : Int) (hne : a.frames ≠ [])
    (hlen : (a.frames.length : Int) < 2147483648) :
    0 ≤ (a.animSeek elem).current ∧ (a.animSeek elem).current < a.frames.length := by
  have hpos : 0 < a.frames.length := List.length_pos.mpr hne
  have h32 : int32 ((a.frames.length : Int) - 1) = (a.frames.length : Int) - 1 :=
    int32_of_range _ (by omega) (by omega)
  unfold Animation.animSeek
  simp only [h32]
  split_ifs <;> omega

theorem animSeek_pos (a : Animation) (elem : Int) (f : AnimFrame)
    (hf : a.frameAt elem = some f) (hT : 0 < f.Time) :
    a.animSeek elem = { a with current := elem } := by
  obtain ⟨h0, h1, _, _⟩ := frameAt_range a elem f hf
  unfold Animation.animSeek
  have e0 : ¬ elem < 0 := by omega
  simp only [if_neg e0, seekLoop_pos a _ elem f hf hT, if_pos h1]
  rw [if_neg (by omega)]

theorem frameAt_congr (a b : Animation) (h : b.frames = a.frames) (i : Int) :
    b.frameAt i = a.frameAt i := by
  unfold Animation.frameAt
  rw [h]

/-- The block `if a.totaltime > 0 { ... }` of `UpdateSprite` changes `time`, `newframe`
and `current` only, and a changed `time` is `0`. -/
theorem updateCurrent_same (a : Animation) :
    a.updateCurrent.frames = a.frames ∧ a.updateCurrent.loopstart = a.loopstart ∧
    a.updateCurrent.totaltime = a.totaltime ∧ a.updateCurrent.looptime = a.looptime ∧
    a.updateCurrent.nazotime = a.nazotime ∧ a.updateCurrent.sumtime = a.sumtime ∧
    a.updateCurrent.loopend = a.loopend ∧
    (a.updateCurrent.time = a.time ∨ a.updateCurrent.time = 0) := by
  unfold Animation.updateCurrent Animation.animSeek
  simp only []
  split_ifs <;> simp

theorem updateCurrent_range (a : Animation) (hne : a.frames ≠ [])
    (hlen : (a.frames.length : Int) < 2147483648)
    (hcur : 0 ≤ a.current ∧ a.current < a.frames.length) :
    0 ≤ a.updateCurrent.current ∧ a.updateCurrent.current < a.frames.length := by
  have hpos : 0 < a.frames.length := List.length_pos.mpr hne
  unfold Animation.updateCurrent
  by_cases h0 : a.totaltime > 0
  · rw [if_pos h0]
    simp only []
    generalize hb : (if a.sumtime ≥ a.totaltime then
      { a with time := 0, newframe := true, current := a.loopstart } else a) = b
    have hbf : b.frames = a.frames := by
      rw [← hb]; split_ifs <;> rfl
    have hr := animSeek_range b b.current (by rw [hbf]; exact hne) (by rw [hbf]; exact hlen)
    rw [hbf] at hr
    split_ifs
    · exact ⟨le_refl _, by simp only []; omega⟩
    · exact hr
  · rw [if_neg h0]
    exact hcur

/-- On a non-empty animation whose `current` and `loopstart` are frame indices,
`UpdateSprite` returns: its frame accesses are in range. -/
theorem UpdateSprite_ok (a : Animation) (hne : a.frames ≠ [])
    (hlen : (a.frames.length : Int) < 2147483648)
    (hloop : 0 ≤ a.loopstart ∧ a.loopstart < a.frames.length)
    (hcur : 0 ≤ a.current ∧ a.current < a.frames.length) :
    a.UpdateSprite =
      .ok { a.updateCurrent with newframe := false, drawidx := a.updateCurrent.current } := by
  have hl0 : ¬ a.frames.length = 0 := fun h => hne (List.length_eq_zero.mp h)
  obtain ⟨s1, s2, _⟩ := updateCurrent_same a
  obtain ⟨r0, r1⟩ := updateCurrent_range a hne hlen hcur
  obtain ⟨f, hf, _⟩ := frameAt_some a.updateCurrent a.updateCurrent.current r0
    (by rw [s1]; exact r1)
  unfold Animation.UpdateSprite
  rw [if_neg hl0]
  simp only [hf]
  rw [if_neg]
  intro hc
  have hnone := hc.2
  have i32 : a.updateCurrent.current + 1 < 2147483648 →
      int32 (a.updateCurrent.current + 1) = a.updateCurrent.current + 1 :=
    fun h => int32_of_range _ (by omega) h
  simp only [Animation.frameAt, s1, s2] at hnone
  by_cases h1 : a.updateCurrent.current ≥ (a.frames.length : Int) - 1
  · rw [if_pos h1, if_pos hloop, List.get?_eq_none] at hnone
    omega
  · rw [if_neg h1, i32 (by omega), if_pos ⟨by omega, by omega⟩, List.get?_eq_none] at hnone
    omega

/-- With positive durations and `nazotime >= 0` the block `if a.totaltime > 0 { ... }`
of `UpdateSprite` only restarts the loop when `sumtime` has reached `totaltime`. -/
theorem updateCurrent_pos (a : Animation) (hpos : ∀ f ∈ a.frames, 0 < f.Time)
    (hloop : 0 ≤ a.loopstart ∧ a.loopstart < a.frames.length)
    (hcur : 0 ≤ a.current ∧ a.current < a.frames.length)
    (htot : 0 < a.totaltime) (hnz : 0 ≤ a.nazotime) :
    a.updateCurrent =
      if a.sumtime ≥ a.totaltime then
        { a with time := 0, newframe := true, current := a.loopstart }
      else a := by
  unfold Animation.updateCurrent
  rw [if_pos htot]
  simp only []
  by_cases hs : a.sumtime ≥ a.totaltime
  · simp only [if_pos hs]
    obtain ⟨f, hf, _, hm⟩ := frameAt_some a a.loopstart hloop.1 hloop.2
    have hf2 : ({ a with time := 0, newframe := true, current := a.loopstart } :
        Animation).frameAt a.loopstart = some f := by
      exact (frameAt_congr a _ rfl _).trans hf
    rw [animSeek_pos _ _ f hf2 (hpos f hm)]
    rw [if_neg]
    simp only []
    omega
  · simp only [if_neg hs]
    obtain ⟨f, hf, _, hm⟩ := frameAt_some a a.current hcur.1 hcur.2
    rw [animSeek_pos _ _ f hf (hpos f hm)]
    rw [if_neg]
    simp only []
    omega

/-! ## Lemmas on `Action` with positive durations -/

theorem sumTime_ge_length (fs : List AnimFrame) (hpos : ∀ f ∈ fs, 0 < f.Time) :
    (fs.length : Int) ≤ sumTime fs := by
  induction fs with
  | nil => simp [sumTime]
  | cons f fs ih =>
    rw [sumTime_cons]
    have h1 := hpos f (List.mem_cons_self _ _)
    have h2 := ih (fun g hg => hpos g (List.mem_cons_of_mem _ hg))
    simp only [List.length_cons, Nat.cast_add, Nat.cast_one]
    omega

theorem positiveTimed_congr (a b : Animation) (hp : a.positiveTimed)
    (h1 : b.frames = a.frames) (h2 : b.loopstart = a.loopstart)
    (h3 : b.totaltime = a.totaltime) (h4 : b.looptime = a.looptime)
    (h5 : b.nazotime = a.nazotime) : b.positiveTimed := by
  unfold Animation.positiveTimed at hp ⊢
  rw [h1, h2, h3, h4, h5]
  exact hp

/-- The facts on a `positiveTimed` animation used below: the frame count and the
totals fit `int32`, `totaltime` is positive and `nazotime` is not negative. -/
theorem positiveTimed_facts (a : Animation) (hp : a.positiveTimed) :
    (a.frames.length : Int) ≤ a.totaltime ∧ 0 < a.totaltime ∧ 0 ≤ a.nazotime ∧
    0 < a.looptime ∧ a.nazotime + a.looptime = a.totaltime := by
  obtain ⟨hne, hpos, hl0, hl1, htot, hlt, hnz, hfit⟩ := hp
  have hlen := sumTime_ge_length a.frames hpos
  have hlp : 0 < a.frames.length := List.length_pos.mpr hne
  have hn := sumTime_ge_length (a.frames.take a.loopstart.toNat)
    (fun f hf => hpos f (List.mem_of_mem_take hf))
  have hd := sumTime_ge_length (a.frames.drop a.loopstart.toNat)
    (fun f hf => hpos f (List.mem_of_mem_drop hf))
  have hsum := sumTime_take_add_drop a.frames a.loopstart.toNat
  rw [List.length_drop] at hd
  rw [htot, hlt, hnz]
  refine ⟨hlen, by omega, by omega, by omega, hsum⟩

/-- With positive durations the closure `next` of `Action` moves to the next index. -/
theorem next_pos (a : Animation) (hpos : ∀ f ∈ a.frames, 0 < f.Time)
    (hlen : (a.frames.length : Int) < 2147483648) (htot : a.totaltime ≠ -1)
    (hcur : 0 ≤ a.current ∧ a.current < a.frames.length) :
    a.next = .ok { a with time := 0, newframe := true, current := a.current + 1 } := by
  have h32 : int32 (a.current + 1) = a.current + 1 := int32_of_range _ (by omega) (by omega)
  unfold Animation.next
  rw [if_pos (Or.inl htot)]
  unfold nextLoop
  simp only [h32]
  rw [if_neg (by intro h; exact htot h.1)]
  by_cases hge : a.current + 1 ≥ (a.frames.length : Int)
  · rw [if_pos hge]
  · rw [if_neg hge]
    obtain ⟨f, hf, _, hm⟩ := frameAt_some a (a.current + 1) (by omega) (by omega)
    have hf2 : ({ a with time := 0, newframe := true, current := a.current + 1 } :
        Animation).frameAt (a.current + 1) = some f :=
      (frameAt_congr a _ rfl _).trans hf
    rw [hf2]
    simp only []
    rw [if_pos (hpos f hm)]

/-- The last statements of `Action` change `sumtime` and `loopend` only. -/
theorem countTick_spec (b : Animation) (htot : b.totaltime ≠ -1) :
    b.countTick.frames = b.frames ∧ b.countTick.loopstart = b.loopstart ∧
    b.countTick.totaltime = b.totaltime ∧ b.countTick.looptime = b.looptime ∧
    b.countTick.nazotime = b.nazotime ∧ b.countTick.current = b.current ∧
    b.countTick.time = b.time ∧
    b.countTick.sumtime = int32 ((if b.sumtime ≥ b.totaltime then
      int32 (b.totaltime - b.looptime) else b.sumtime) + 1) ∧
    b.countTick.loopend = (b.loopend || decide (b.countTick.sumtime ≥ b.totaltime)) := by
  unfold Animation.countTick
  simp only [htot, ne_eq, not_false_eq_true, true_and]
  by_cases hs : b.sumtime ≥ b.totaltime
  · simp only [if_pos hs]
    by_cases hs2 : int32 (int32 (b.totaltime - b.looptime) + 1) ≥ b.totaltime
    · simp [hs2, htot]
    · simp [hs2, htot]
  · simp only [if_neg hs]
    by_cases hs2 : int32 (b.sumtime + 1) ≥ b.totaltime
    · simp [hs2, htot]
    · simp [hs2, htot]

/-- The part of `Action` after `UpdateSprite`, on an animation of positive durations
whose `current` is a frame index. -/
theorem actionTail_pos (a : Animation) (hp : a.positiveTimed) (f : AnimFrame)
    (hf : a.frameAt a.current = some f) :
    ∃ b, a.actionTail = .ok b ∧
      b.frames = a.frames ∧ b.loopstart = a.loopstart ∧ b.totaltime = a.totaltime ∧
      b.looptime = a.looptime ∧ b.nazotime = a.nazotime ∧
      b.current = (if int32 (a.time + 1) ≥ f.Time then
        (if a.current + 1 ≥ (a.frames.length : Int) then a.loopstart else a.current + 1)
        else a.current) ∧
      b.time = (if int32 (a.time + 1) ≥ f.Time then 0 else int32 (a.time + 1)) ∧
      b.sumtime = int32 ((if a.sumtime ≥ a.totaltime then int32 (a.totaltime - a.looptime)
        else a.sumtime) + 1) ∧
      b.loopend = (a.loopend || decide (b.sumtime ≥ a.totaltime)) := by
  obtain ⟨hlen, htot, _, _, _⟩ := positiveTimed_facts a hp
  obtain ⟨hne, hpos, hl0, hl1, _, _, _, hfit⟩ := hp
  obtain ⟨c0, c1, _, _⟩ := frameAt_range a _ f hf
  have hne1 : a.totaltime ≠ -1 := by omega
  have hf2 : ({ a with time := int32 (a.time + 1) } : Animation).frameAt a.current = some f :=
    (frameAt_congr a _ rfl _).trans hf
  have hnx := next_pos { a with time := int32 (a.time + 1) } hpos (by simp only []; omega)
    hne1 ⟨c0, c1⟩
  have fin : ∀ r : Animation, r.frames = a.frames → r.loopstart = a.loopstart →
      r.totaltime = a.totaltime → r.looptime = a.looptime → r.nazotime = a.nazotime →
      r.sumtime = a.sumtime → r.loopend = a.loopend →
      ∃ b, (Outcome.ok r.countTick : Outcome Animation) = .ok b ∧
        b.frames = a.frames ∧ b.loopstart = a.loopstart ∧ b.totaltime = a.totaltime ∧
        b.looptime = a.looptime ∧ b.nazotime = a.nazotime ∧
        b.current = r.current ∧ b.time = r.time ∧
        b.sumtime = int32 ((if a.sumtime ≥ a.totaltime then int32 (a.totaltime - a.looptime)
          else a.sumtime) + 1) ∧
        b.loopend = (a.loopend || decide (b.sumtime ≥ a.totaltime)) := by
    intro r e1 e2 e3 e4 e5 e6 e7
    obtain ⟨g1, g2, g3, g4, g5, g6, g7, g8, g9⟩ := countTick_spec r (by rw [e3]; exact hne1)
    refine ⟨_, rfl, by rw [g1, e1], by rw [g2, e2], by rw [g3, e3], by rw [g4, e4],
      by rw [g5, e5], g6, g7, ?_, ?_⟩
    · rw [g8, e3, e4, e6]
    · rw [g9, e3, e7]
  unfold Animation.actionTail
  rw [if_pos c1]
  simp only [hf2, hnx]
  by_cases hge : int32 (a.time + 1) ≥ f.Time
  · simp only [if_pos hge]
    by_cases hend : a.current + 1 ≥ (a.frames.length : Int)
    · simp only [if_pos hend]
      exact fin _ rfl rfl rfl rfl rfl rfl rfl
    · simp only [if_neg hend]
      exact fin _ rfl rfl rfl rfl rfl rfl rfl
  · simp only [if_neg hge]
    exact fin _ rfl rfl rfl rfl rfl rfl rfl

/-- One call of `Action` on an animation of positive durations whose `current` is a
frame index: the call returns; the frame left is the one at `current`, or the one at
`loopstart` when `sumtime` has reached `totaltime`. -/
theorem Action_pos (a : Animation) (hp : a.positiveTimed)
    (hcur : 0 ≤ a.current ∧ a.current < a.frames.length) :
    ∃ f b, a.frameAt (if a.sumtime ≥ a.totaltime then a.loopstart else a.current) = some f ∧
      a.Action = .ok b ∧
      b.frames = a.frames ∧ b.loopstart = a.loopstart ∧ b.totaltime = a.totaltime ∧
      b.looptime = a.looptime ∧ b.nazotime = a.nazotime ∧
      b.current = (if int32 ((if a.sumtime ≥ a.totaltime then 0 else a.time) + 1) ≥ f.Time then
        (if (if a.sumtime ≥ a.totaltime then a.loopstart else a.current) + 1 ≥
            (a.frames.length : Int) then a.loopstart
          else (if a.sumtime ≥ a.totaltime then a.loopstart else a.current) + 1)
        else (if a.sumtime ≥ a.totaltime then a.loopstart else a.current)) ∧
      b.time = (if int32 ((if a.sumtime ≥ a.totaltime then 0 else a.time) + 1) ≥ f.Time then 0
        else int32 ((if a.sumtime ≥ a.totaltime then 0 else a.time) + 1)) ∧
      b.sumtime = int32 ((if a.sumtime ≥ a.totaltime then int32 (a.totaltime - a.looptime)
        else a.sumtime) + 1) ∧
      b.loopend = (a.loopend || decide (b.sumtime ≥ a.totaltime)) := by
  obtain ⟨hlen, htot, hnz, _, _⟩ := positiveTimed_facts a hp
  have hp0 := hp
  obtain ⟨hne, hpos, hl0, hl1, _, _, _, hfit⟩ := hp
  have hl : ¬ a.frames.length = 0 := fun h => hne (List.length_eq_zero.mp h)
  have hup := UpdateSprite_ok a hne (by omega) ⟨hl0, hl1⟩ hcur
  have huc := updateCurrent_pos a hpos ⟨hl0, hl1⟩ hcur htot hnz
  by_cases hs : a.sumtime ≥ a.totaltime
  · obtain ⟨f, hf, _, hm⟩ := frameAt_some a a.loopstart hl0 hl1
    have hT := hpos f hm
    have hact : a.Action = Animation.actionTail
        { a with
          time := 0, newframe := false, current := a.loopstart, drawidx := a.loopstart } := by
      unfold Animation.Action
      rw [if_neg (fun h => hne h.1), if_neg hl, hup, huc]
      simp only [if_pos hs]
      have hf1 := hf
      unfold Animation.frameAt at hf1
      simp only [Animation.frameAt, hf1]
      rw [if_neg (by omega)]
    obtain ⟨b, h1, h2⟩ := actionTail_pos
      { a with time := 0, newframe := false, current := a.loopstart, drawidx := a.loopstart }
      (positiveTimed_congr a _ hp0 rfl rfl rfl rfl rfl) f ((frameAt_congr a _ rfl _).trans hf)
    simp only [if_pos hs] at h2 ⊢
    exact ⟨f, b, hf, hact.trans h1, h2⟩
  · obtain ⟨f, hf, _, hm⟩ := frameAt_some a a.current hcur.1 hcur.2
    have hT := hpos f hm
    have hact : a.Action = Animation.actionTail
        { a with
          newframe := false, drawidx := a.current } := by
      unfold Animation.Action
      rw [if_neg (fun h => hne h.1), if_neg hl, hup, huc]
      simp only [if_neg hs]
      have hf1 := hf
      unfold Animation.frameAt at hf1
      simp only [Animation.frameAt, hf1]
      rw [if_neg (by omega)]
    obtain ⟨b, h1, h2⟩ := actionTail_pos
      { a with newframe := false, drawidx := a.current }
      (positiveTimed_congr a _ hp0 rfl rfl rfl rfl rfl) f ((frameAt_congr a _ rfl _).trans hf)
    simp only [if_neg hs] at h2 ⊢
    exact ⟨f, b, hf, hact.trans h1, h2⟩

/-! ## The run of `Action` from the reset state -/

theorem sumTime_take_succ (fs : List AnimFrame) (c : Nat) (f : AnimFrame)
    (h : fs.get? c = some f) :
    sumTime (fs.take (c + 1)) = sumTime (fs.take c) + f.Time := by
  induction fs generalizing c with
  | nil => simp at h
  | cons g gs ih =>
    cases c with
    | zero =>
      simp only [List.get?_cons_zero, Option.some.injEq] at h
      subst h
      simp [sumTime]
    | succ c =>
      simp only [List.get?_cons_succ] at h
      simp only [List.take_succ_cons, sumTime_cons]
      rw [ih c h]
      omega

theorem sumTime_take_bounds (fs : List AnimFrame) (hpos : ∀ f ∈ fs, 0 < f.Time) (c : Nat) :
    0 ≤ sumTime (fs.take c) ∧
    sumTime (fs.take c) + ((fs.length - c : Nat) : Int) ≤ sumTime fs := by
  have h1 := sumTime_ge_length (fs.take c) (fun f hf => hpos f (List.mem_of_mem_take hf))
  have h2 := sumTime_ge_length (fs.drop c) (fun f hf => hpos f (List.mem_of_mem_drop hf))
  have h3 := sumTime_take_add_drop fs c
  rw [List.length_drop] at h2
  constructor
  · omega
  · omega

/-- Every call of `Action` on an animation of positive durations whose `current` is a
frame index returns, keeps the frame table and the timing data, leaves `current` a
frame index, and does not clear `loopend`. -/
theorem Action_pos_total (a : Animation) (hp : a.positiveTimed)
    (hcur : 0 ≤ a.current ∧ a.current < a.frames.length) :
    ∃ b, a.Action = .ok b ∧ b.positiveTimed ∧
      (0 ≤ b.current ∧ b.current < b.frames.length) ∧
      (a.loopend = true → b.loopend = true) := by
  obtain ⟨f, b, hf, hact, e1, e2, e3, e4, e5, ecur, _, _, elp⟩ := Action_pos a hp hcur
  have hl := hp.2.2
  obtain ⟨r0, r1, _, _⟩ := frameAt_range a _ f hf
  refine ⟨b, hact, positiveTimed_congr a b hp e1 e2 e3 e4 e5, ?_, ?_⟩
  · rw [ecur, e1]
    split_ifs <;> omega
  · intro h
    rw [elp, h]
    rfl

theorem actionN_pos_total (n : Nat) (a : Animation) (hp : a.positiveTimed)
    (hcur : 0 ≤ a.current ∧ a.current < a.frames.length) :
    ∃ b, actionN n a = .ok b ∧ b.positiveTimed ∧
      (0 ≤ b.current ∧ b.current < b.frames.length) ∧
      (a.loopend = true → b.loopend = true) := by
  induction n with
  | zero => exact ⟨a, rfl, hp, hcur, fun h => h⟩
  | succ n ih =>
    obtain ⟨b, h1, hp1, hc1, hl1⟩ := ih
    obtain ⟨c, h2, hp2, hc2, hl2⟩ := Action_pos_total b hp1 hc1
    refine ⟨c, ?_, hp2, hc2, fun h => hl2 (hl1 h)⟩
    simp only [actionN, h1]
    exact h2

theorem Reset_positiveTimed (a : Animation) (hp : a.positiveTimed) : a.Reset.positiveTimed :=
  positiveTimed_congr a a.Reset hp rfl rfl rfl rfl rfl

/-- The first `totaltime` calls of `Action` from the reset state, on an animation of
positive durations: after `n` calls `sumtime = n`; for `n < totaltime` the position
`(current, time)` is the one reached by walking `n` ticks through the frames and
`loopend` is still false; for `n = totaltime` the animation is back on the frame at
`loopstart` with `time = 0` and `loopend` set. -/
theorem actionN_pos_run (a : Animation) (hp : a.positiveTimed) (n : Nat)
    (hn : (n : Int) ≤ a.totaltime) :
    ∃ b, actionN n a.Reset = .ok b ∧ b.positiveTimed ∧
      b.frames = a.frames ∧ b.loopstart = a.loopstart ∧ b.totaltime = a.totaltime ∧
      b.looptime = a.looptime ∧ b.nazotime = a.nazotime ∧
      (0 ≤ b.current ∧ b.current < a.frames.length) ∧
      b.sumtime = n ∧
      ((n : Int) < a.totaltime →
        (∃ f, a.frameAt b.current = some f ∧ 0 ≤ b.time ∧ b.time < f.Time) ∧
        (n : Int) = sumTime (a.frames.take b.current.toNat) + b.time ∧ b.loopend = false) ∧
      ((n : Int) = a.totaltime → b.current = a.loopstart ∧ b.time = 0 ∧ b.loopend = true) := by
  obtain ⟨hlen, htot, hnz, hlt0, hsum⟩ := positiveTimed_facts a hp
  have hp0 := hp
  obtain ⟨hne, hpos, hl0, hl1, htotal, hloopt, hnazo, hfit⟩ := hp
  have hlp : 0 < a.frames.length := List.length_pos.mpr hne
  induction n with
  | zero =>
    obtain ⟨f, hf, _, hm⟩ := frameAt_some a 0 (le_refl _) (by omega)
    refine ⟨a.Reset, rfl, Reset_positiveTimed a hp0, rfl, rfl, rfl, rfl, rfl,
      ⟨le_refl _, by simp only [Animation.Reset]; omega⟩, rfl, ?_, ?_⟩
    · intro _
      refine ⟨⟨f, hf, le_refl _, hpos f hm⟩, ?_, rfl⟩
      simp [Animation.Reset, sumTime]
    · intro h
      simp only [Nat.cast_zero] at h
      omega
  | succ n ih =>
    have hn1 : (n : Int) < a.totaltime := by push_cast at hn; omega
    obtain ⟨b, hb, hpb, f1, f2, f3, f4, f5, hcb, hsb, hlt, _⟩ := ih (by omega)
    obtain ⟨⟨f, hf, t0, t1⟩, hpos1, hle⟩ := hlt hn1
    obtain ⟨g, c, hg, hact, e1, e2, e3, e4, e5, ecur, etime, esum, elp⟩ :=
      Action_pos b hpb (by rw [f1]; exact hcb)
    have hs : ¬ b.sumtime ≥ b.totaltime := by rw [hsb, f3]; omega
    simp only [if_neg hs] at hg ecur etime esum
    rw [frameAt_congr a b f1, hf] at hg
    cases hg
    obtain ⟨_, _, hget, hm⟩ := frameAt_range a _ f hf
    have hS1 := sumTime_take_succ a.frames b.current.toNat f hget
    obtain ⟨bd0, bd1⟩ := sumTime_take_bounds a.frames hpos b.current.toNat
    obtain ⟨_, bd2⟩ := sumTime_take_bounds a.frames hpos (b.current.toNat + 1)
    rw [← htotal] at bd1 bd2
    have hfT : f.Time ≤ a.totaltime := by omega
    have ht32 : int32 (b.time + 1) = b.time + 1 := int32_of_range _ (by omega) (by omega)
    have hs32 : int32 (b.sumtime + 1) = b.sumtime + 1 :=
      int32_of_range _ (by rw [hsb]; omega) (by rw [hsb]; omega)
    rw [ht32] at ecur etime
    rw [hs32, hsb] at esum
    rw [f1, f2] at ecur
    have hact1 : actionN (n + 1) a.Reset = .ok c := by
      simp only [actionN, hb]
      exact hact
    have hcc : 0 ≤ c.current ∧ c.current < a.frames.length := by
      rw [ecur]
      split_ifs <;> omega
    refine ⟨c, hact1, positiveTimed_congr a c hp0 (by rw [e1, f1]) (by rw [e2, f2])
      (by rw [e3, f3]) (by rw [e4, f4]) (by rw [e5, f5]),
      by rw [e1, f1], by rw [e2, f2], by rw [e3, f3], by rw [e4, f4], by rw [e5, f5], hcc,
      by rw [esum]; push_cast; rfl, ?_, ?_⟩
    · intro hlt1
      push_cast at hlt1
      by_cases hge : b.time + 1 ≥ f.Time
      · rw [if_pos hge] at ecur etime
        have hnext : b.current + 1 < (a.frames.length : Int) := by
          by_contra hcon
          have : a.frames.length - (b.current.toNat + 1) = 0 := by omega
          have hlen0 : (b.current.toNat + 1) ≥ a.frames.length := by omega
          have hall : sumTime (a.frames.take (b.current.toNat + 1)) = sumTime a.frames := by
            rw [List.take_of_length_le hlen0]
          omega
        rw [if_neg (by omega)] at ecur
        obtain ⟨f2, hf2, _, hm2⟩ := frameAt_some a (b.current + 1) (by omega) hnext
        have htn : c.current.toNat = b.current.toNat + 1 := by rw [ecur]; omega
        refine ⟨⟨f2, by rw [ecur]; exact hf2, by rw [etime], by rw [etime]; exact hpos f2 hm2⟩,
          ?_, ?_⟩
        · rw [htn, etime]
          push_cast
          omega
        · rw [elp, hle, esum, f3]
          simp only [Bool.false_or, decide_eq_false_iff_not]
          omega
      · rw [if_neg hge] at ecur etime
        refine ⟨⟨f, by rw [ecur]; exact hf, by rw [etime]; omega, by rw [etime]; omega⟩,
          ?_, ?_⟩
        · rw [ecur, etime]
          push_cast
          omega
        · rw [elp, hle, esum, f3]
          simp only [Bool.false_or, decide_eq_false_iff_not]
          omega
    · intro heq
      push_cast at heq
      have hge : b.time + 1 ≥ f.Time := by omega
      have hend : b.current + 1 ≥ (a.frames.length : Int) := by
        by_contra hcon
        have : a.frames.length - (b.current.toNat + 1) ≥ 1 := by omega
        omega
      rw [if_pos hge] at ecur etime
      rw [if_pos hend] at ecur
      refine ⟨ecur, etime, ?_⟩
      rw [elp, esum, f3]
      simp only [Bool.or_eq_true, decide_eq_true_eq]
      right
      omega

/-! ## Claims on the loop restart -/

/-- C15 (counterexample). The animation read from a block without lines has no frames,
so its durations are all positive, and `totaltime = 0`.  `Action` returns at once on
it: after `0` calls and after one further call `sumtime` is `0`, not
`totaltime - looptime + 1 = 1`. -/
theorem C15_counterexample :
    ReadAnimation decAtoi decIsNumeric [] 0 = .ok (0, animEmpty) ∧
    (∀ f ∈ animEmpty.frames, 0 < f.Time) ∧
    animEmpty.totaltime = 0 ∧
    Option.map positionOf (actionN animEmpty.totaltime.toNat animEmpty.Reset).val? =
      some (0, 0, 0, false) ∧
    Option.map positionOf (actionN (animEmpty.totaltime.toNat + 1) animEmpty.Reset).val? =
      some (0, 0, 0, false) ∧
    animEmpty.totaltime - animEmpty.looptime + 1 = 1 := by
  decide

/-- C15 (amended). For every animation that has frames, all of positive duration, with
the timing data of `ReadAnimation` below `2^31` (`positiveTimed`), starting from the
reset state: after exactly `totaltime` calls of `Action`, `current = loopstart`,
`time = 0` and `sumtime = totaltime`; after one further call,
`sumtime = totaltime - looptime + 1`. -/
theorem C15_loop_restart (a : Animation) (hp : a.positiveTimed) :
    (∃ b, actionN a.totaltime.toNat a.Reset = .ok b ∧
      b.current = a.loopstart ∧ b.time = 0 ∧ b.sumtime = a.totaltime) ∧
    (∃ c, actionN (a.totaltime.toNat + 1) a.Reset = .ok c ∧
      c.sumtime = a.totaltime - a.looptime + 1) := by
  obtain ⟨hlen, htot, hnz, hlt0, hsum⟩ := positiveTimed_facts a hp
  have hfit := hp.2.2.2.2.2.2.2
  have hT : ((a.totaltime.toNat : Nat) : Int) = a.totaltime := by omega
  obtain ⟨b, hb, hpb, f1, f2, f3, f4, f5, hcb, hsb, _, heq⟩ :=
    actionN_pos_run a hp a.totaltime.toNat (by omega)
  obtain ⟨q1, q2, q3⟩ := heq hT
  rw [hT] at hsb
  refine ⟨⟨b, hb, q1, q2, hsb⟩, ?_⟩
  obtain ⟨g, c, hg, hact, e1, e2, e3, e4, e5, ecur, etime, esum, elp⟩ :=
    Action_pos b hpb (by rw [f1]; exact hcb)
  refine ⟨c, ?_, ?_⟩
  · simp only [actionN, hb]
    exact hact
  · have hs : b.sumtime ≥ b.totaltime := by rw [hsb, f3]
    rw [if_pos hs, f3, f4] at esum
    rw [esum, int32_add_left]
    exact int32_of_range _ (by omega) (by omega)

set_option maxRecDepth 8000 in
/-- C15 (witness): durations `[5, 5, 5]` with `loopstart = 0`: after 15 calls the
position is `current = 0`, `time = 0`, `sumtime = 15`; after 16 calls `sumtime = 1` and
`current = 0`. -/
theorem C15_loop_restart_witness :
    animThreeFrames.positiveTimed ∧
    ((∃ b, actionN animThreeFrames.totaltime.toNat animThreeFrames.Reset = .ok b ∧
      b.current = animThreeFrames.loopstart ∧ b.time = 0 ∧
      b.sumtime = animThreeFrames.totaltime) ∧
    (∃ c, actionN (animThreeFrames.totaltime.toNat + 1) animThreeFrames.Reset = .ok c ∧
      c.sumtime = animThreeFrames.totaltime - animThreeFrames.looptime + 1)) ∧
    Option.map positionOf (actionN 15 animThreeFrames.Reset).val? = some (0, 0, 15, true) ∧
    Option.map positionOf (actionN 16 animThreeFrames.Reset).val? = some (0, 1, 1, true) :=
  ⟨by decide, C15_loop_restart animThreeFrames (by decide), by decide, by decide⟩

set_option maxRecDepth 8000 in
/-- C16 (counterexample). Durations `[5, 5, 5]` from the reset state: `loopend` is false
after 14 calls of `Action`, true after 15 calls, and still true after 16 calls, where
`sumtime` is back to `1`. -/
theorem C16_counterexample :
    Option.map positionOf (actionN 14 animThreeFrames.Reset).val? = some (2, 4, 14, false) ∧
    Option.map positionOf (actionN 15 animThreeFrames.Reset).val? = some (0, 0, 15, true) ∧
    Option.map positionOf (actionN 16 animThreeFrames.Reset).val? = some (0, 1, 1, true) := by
  decide

/-- C16 (amended). For every animation that has frames, all of positive duration, with
the timing data of `ReadAnimation` below `2^31` (`positiveTimed`), starting from the
reset state, every number `n` of calls of `Action` returns, and `loopend` is true after
the `n`-th call exactly when `n >= totaltime`: it is false before `sumtime` first
reaches `totaltime`, true on that call, and stays true on every later call (`Action`
never clears it). -/
theorem C16_loopend_stays (a : Animation) (n : Nat) (hp : a.positiveTimed) :
    ∃ b, actionN n a.Reset = .ok b ∧ (b.loopend = true ↔ a.totaltime ≤ (n : Int)) := by
  obtain ⟨hlen, htot, hnz, hlt0, hsum⟩ := positiveTimed_facts a hp
  by_cases hn : (n : Int) ≤ a.totaltime
  · obtain ⟨b, hb, _, _, _, _, _, _, _, _, hlt, heq⟩ := actionN_pos_run a hp n hn
    refine ⟨b, hb, ?_⟩
    by_cases hlt1 : (n : Int) < a.totaltime
    · obtain ⟨_, _, hl⟩ := hlt hlt1
      rw [hl]
      constructor
      · intro h; cases h
      · intro h; omega
    · obtain ⟨_, _, hl⟩ := heq (by omega)
      rw [hl]
      constructor
      · intro _; omega
      · intro _; rfl
  · have hT : ((a.totaltime.toNat : Nat) : Int) = a.totaltime := by omega
    obtain ⟨b, hb, hpb, f1, _, _, _, _, hcb, _, _, heq⟩ :=
      actionN_pos_run a hp a.totaltime.toNat (by omega)
    obtain ⟨_, _, hl⟩ := heq hT
    obtain ⟨c, hc, _, _, hlc⟩ := actionN_pos_total (n - a.totaltime.toNat) b hpb
      (by rw [f1]; exact hcb)
    have hsplit : n = a.totaltime.toNat + (n - a.totaltime.toNat) := by omega
    refine ⟨c, ?_, ?_⟩
    · rw [hsplit, actionN_add, hb]
      exact hc
    · constructor
      · intro _; omega
      · intro _; exact hlc hl

set_option maxRecDepth 8000 in
/-- C16 (witness): durations `[5, 5, 5]`, 16 calls. -/
theorem C16_loopend_stays_witness :
    animThreeFrames.positiveTimed ∧
    (∃ b, actionN 16 animThreeFrames.Reset = .ok b ∧
      (b.loopend = true ↔ animThreeFrames.totaltime ≤ ((16 : Nat) : Int))) ∧
    animThreeFrames.totaltime = 15 :=
  ⟨by decide, C16_loopend_stays animThreeFrames 16 (by decide), by decide⟩

/-! ## Lemmas on `AnimElemTime` and `SetAnimElem` -/

theorem Max_zero_nonneg (x : Int) : 0 ≤ Max 0 x := by
  unfold Max; split_ifs <;> omega

theorem sumMax_cons (f : AnimFrame) (fs : List AnimFrame) :
    sumMax (f :: fs) = Max 0 f.Time + sumMax fs := by
  simp [sumMax]

theorem sumMax_nonneg (fs : List AnimFrame) : 0 ≤ sumMax fs := by
  induction fs with
  | nil => simp [sumMax]
  | cons f fs ih =>
    rw [sumMax_cons]
    have := Max_zero_nonneg f.Time
    omega

theorem int32_sub_left (a b : Int) : int32 (int32 a - b) = int32 (a - b) := by
  unfold int32; omega

/-- The loop of `AnimElemTime` over the `k` frames from index `i`: it subtracts, in
`int32` arithmetic, their cumulative duration. -/
theorem elemTimeLoop_spec (a : Animation) (k : Nat) :
    ∀ (i t : Int), 0 ≤ i → i + k ≤ a.frames.length → i + k < 2147483648 →
      elemTimeLoop a k i (int32 t) =
        .ok (int32 (t - sumMax ((a.frames.drop i.toNat).take k))) := by
  induction k with
  | zero =>
    intro i t _ _ _
    simp [elemTimeLoop, sumMax]
  | succ k ih =>
    intro i t h0 h1 h2
    push_cast at h1 h2
    obtain ⟨f, hf, hget, _⟩ := frameAt_some a i h0 (by omega)
    have h32 : int32 (i + 1) = i + 1 := int32_of_range _ (by omega) (by omega)
    unfold elemTimeLoop
    rw [hf]
    simp only []
    rw [h32, int32_sub_left, ih (i + 1) _ (by omega) (by omega) (by omega)]
    have hi : (i + 1).toNat = i.toNat + 1 := by omega
    have hlt : i.toNat < a.frames.length := by omega
    have hd : a.frames.drop i.toNat = f :: a.frames.drop (i.toNat + 1) := by
      rw [List.get?_eq_getElem?, List.getElem?_eq_getElem hlt] at hget
      cases hget
      exact List.drop_eq_getElem_cons hlt
    rw [hd, hi, List.take_succ_cons, sumMax_cons]
    congr 2
    omega

/-- The method `AnimElemTime` for an element `N` of the animation. -/
theorem AnimElemTime_elem (a : Animation) (N : Int) (hs : int32 a.sumtime = a.sumtime)
    (h1 : 1 ≤ N) (h2 : N ≤ a.frames.length) (h3 : N < 2147483648) :
    a.AnimElemTime N = .ok (int32 (a.sumtime - sumMax (a.frames.take (N - 1).toNat))) := by
  unfold Animation.AnimElemTime
  rw [if_neg (by omega)]
  have hM : Max 0 N = N := by unfold Max; rw [if_neg (by omega)]
  have hk : ((N - 1).toNat : Int) = N - 1 := by omega
  simp only [hM, int32_of_range (N - 1) (by omega) (by omega)]
  have := elemTimeLoop_spec a (N - 1).toNat 0 a.sumtime (le_refl _) (by omega) (by omega)
  rw [hs] at this
  rw [this]
  simp

/-- The method `SetAnimElem` on a non-empty animation whose `loopstart` is a frame
index: it returns; `current` is the index that `UpdateSprite` seeks from the requested
one, `time = 0`, `loopend = false`, and `sumtime` is the cumulative duration, in
`int32` arithmetic, of the frames before `current`. -/
theorem SetAnimElem_spec (a : Animation) (N : Int) (hne : a.frames ≠ [])
    (hlen : (a.frames.length : Int) < 2147483648)
    (hloop : 0 ≤ a.loopstart ∧ a.loopstart < a.frames.length) :
    ∃ b, a.SetAnimElem N = .ok b ∧ b.frames = a.frames ∧
      (0 ≤ b.current ∧ b.current < a.frames.length) ∧
      b.current = (Animation.updateCurrent
        { a with
          current := (if Max 0 (int32 (N - 1)) ≥ (a.frames.length : Int) then 0
            else Max 0 (int32 (N - 1))),
          drawidx := (if Max 0 (int32 (N - 1)) ≥ (a.frames.length : Int) then 0
            else Max 0 (int32 (N - 1))),
          time := 0, newframe := true }).current ∧
      b.time = 0 ∧ b.loopend = false ∧
      b.sumtime = int32 (sumMax (a.frames.take b.current.toNat)) := by
  have hlp : 0 < a.frames.length := List.length_pos.mpr hne
  generalize hc : (if Max 0 (int32 (N - 1)) ≥ (a.frames.length : Int) then 0
    else Max 0 (int32 (N - 1))) = c
  have hc0 : 0 ≤ c ∧ c < a.frames.length := by
    have := Max_zero_nonneg (int32 (N - 1))
    rw [← hc]
    split_ifs <;> omega
  generalize ha3 : ({ a with current := c, drawidx := c, time := 0, newframe := true } :
    Animation) = a3
  have g1 : a3.frames = a.frames := by rw [← ha3]
  have g2 : a3.loopstart = a.loopstart := by rw [← ha3]
  have g3 : a3.current = c := by rw [← ha3]
  have g4 : a3.time = 0 := by rw [← ha3]
  have hup := UpdateSprite_ok a3 (by rw [g1]; exact hne) (by rw [g1]; exact hlen)
    (by rw [g1, g2]; exact hloop) (by rw [g1, g3]; exact hc0)
  obtain ⟨s1, _, _, _, _, _, _, s8⟩ := updateCurrent_same a3
  obtain ⟨r0, r1⟩ := updateCurrent_range a3 (by rw [g1]; exact hne) (by rw [g1]; exact hlen)
    (by rw [g1, g3]; exact hc0)
  rw [g1] at r1 s1
  rw [g4] at s8
  have ht0 : a3.updateCurrent.time = 0 := by rcases s8 with h | h <;> exact h
  have hset : a.SetAnimElem N =
      match a3.UpdateSprite with
      | .panic => .panic
      | .fuel => .fuel
      | .ok a4 =>
        match Animation.AnimElemTime { a4 with loopend := false, sumtime := 0 }
            (int32 (a4.current + 1)) with
        | .ok t => .ok { a4 with loopend := false, sumtime := int32 (-t) }
        | .panic => .panic
        | .fuel => .fuel := by
    unfold Animation.SetAnimElem
    simp only []
    rw [← ha3, ← hc]
    split_ifs <;> rfl
  rw [hset, hup]
  simp only []
  have h32 : int32 (a3.updateCurrent.current + 1) = a3.updateCurrent.current + 1 :=
    int32_of_range _ (by omega) (by omega)
  rw [h32]
  have hk : (a3.updateCurrent.current + 1 - 1).toNat = a3.updateCurrent.current.toNat := by
    congr 1; omega
  have het := AnimElemTime_elem
    { a3.updateCurrent with
      newframe := false, drawidx := a3.updateCurrent.current, loopend := false, sumtime := 0 }
    (a3.updateCurrent.current + 1) (by show int32 (0 : Int) = 0; decide) (by omega)
    (by simp only [s1]; omega) (by omega)
  rw [het]
  simp only []
  refine ⟨_, rfl, s1, ⟨r0, r1⟩, rfl, ht0, rfl, ?_⟩
  simp only [s1, hk, zero_sub]
  unfold int32
  omega

/-! ## Claims on `SetAnimElem` and `AnimElemTime` -/

set_option maxRecDepth 8000 in
/-- C17 (counterexample). Two frames of durations `0` and `5`, reset state:
`SetAnimElem(3)` leaves `current = 1`, because `UpdateSprite` seeks past the frame of
duration `0`.  Frames of durations `10` and `5` with `loopstart = 1`, after 15 calls of
`Action` (`sumtime = totaltime`): `SetAnimElem(3)` leaves `current = 1`, because
`UpdateSprite` restarts the loop. -/
theorem C17_counterexample :
    Option.map (fun a => Option.map positionOf (a.Reset.SetAnimElem 3).val?)
      (ReadAnimation decAtoi decIsNumeric ["0,0,0,0,0".toList, "0,1,0,0,5".toList] 0).animation =
      some (some (1, 0, 0, false)) ∧
    Option.map (fun a => Option.map positionOf (a.SetAnimElem 3).val?)
      (actionN 15 animLoop.Reset).val? = some (some (1, 0, 10, false)) := by
  decide

/-- C17 (amended). For every non-empty animation whose `loopstart` is a frame index, in
any playback state, and every `N` greater than the frame count: `SetAnimElem(N)` does
what `SetAnimElem(1)` does, it returns, and it leaves `current = 0` whenever
`totaltime <= 0`, or `sumtime < totaltime` and the first frame has a positive
duration. -/
theorem C17_SetAnimElem_beyond_end (a : Animation) (N : Int) (hne : a.frames ≠ [])
    (hlen : (a.frames.length : Int) < 2147483648)
    (hloop : 0 ≤ a.loopstart ∧ a.loopstart < a.frames.length)
    (hN : (a.frames.length : Int) < N) (hN32 : N < 2147483648) :
    a.SetAnimElem N = a.SetAnimElem 1 ∧
    ∃ b, a.SetAnimElem N = .ok b ∧
      ((a.totaltime ≤ 0 ∨
        (a.sumtime < a.totaltime ∧ ∃ f, a.frames.head? = some f ∧ 0 < f.Time)) →
        b.current = 0) := by
  have hlp : 0 < a.frames.length := List.length_pos.mpr hne
  have hcN : (if Max 0 (int32 (N - 1)) ≥ (a.frames.length : Int) then 0
      else Max 0 (int32 (N - 1))) = 0 := by
    rw [int32_of_range (N - 1) (by omega) (by omega)]
    have : Max 0 (N - 1) = N - 1 := by unfold Max; rw [if_neg (by omega)]
    rw [this, if_pos (by omega)]
  have hc1 : (if Max 0 (int32 (1 - 1)) ≥ (a.frames.length : Int) then 0
      else Max 0 (int32 (1 - 1))) = 0 := by
    have : Max 0 (int32 (1 - 1)) = 0 := by decide
    rw [this]
    simp
  constructor
  · have e : ∀ M : Int, (if Max 0 (int32 (M - 1)) ≥ (a.frames.length : Int) then 0
        else Max 0 (int32 (M - 1))) = 0 →
        a.SetAnimElem M = Animation.SetAnimElem { a with current := 0 } 1 := by
      intro M hM
      unfold Animation.SetAnimElem
      simp only []
      have hc1a : Max 0 (int32 (1 - 1)) = 0 := by decide
      rw [hc1a]
      have h0 : ¬ (0 : Int) ≥ (a.frames.length : Int) := by omega
      rw [if_neg h0]
      by_cases hge : Max 0 (int32 (M - 1)) ≥ (a.frames.length : Int)
      · rw [if_pos hge]
      · rw [if_neg hge] at hM
        rw [if_neg hge, hM]
    rw [e N hcN, e 1 hc1]
  · obtain ⟨b, hb, _, _, hcur, _⟩ := SetAnimElem_spec a N hne hlen hloop
    refine ⟨b, hb, ?_⟩
    intro hcase
    rw [hcur, hcN]
    unfold Animation.updateCurrent
    rcases hcase with h0 | ⟨hs, f, hf, hT⟩
    · rw [if_neg (by simp only []; omega)]
    · by_cases htot : a.totaltime > 0
      · rw [if_pos htot]
        have hsn : ¬ a.sumtime ≥ a.totaltime := by omega
        simp only [if_neg hsn]
        have hfa : Animation.frameAt
            { a with
              current := 0, drawidx := 0, time := 0, newframe := true } 0 = some f := by
          unfold Animation.frameAt
          simp only []
          rw [if_pos ⟨le_refl _, by omega⟩]
          cases hfr : a.frames with
          | nil => exact absurd hfr hne
          | cons g gs =>
            rw [hfr] at hf
            simpa using hf
        rw [animSeek_pos _ 0 f hfa hT]
        split_ifs <;> rfl
      · rw [if_neg htot]

/-- C17 (witness): durations `[5, 5, 5]`, state after 7 calls of `Action`, `N = 7`. -/
theorem C17_SetAnimElem_beyond_end_witness :
    (animThreeFrames.frames ≠ [] ∧
      (animThreeFrames.frames.length : Int) < 2147483648 ∧
      (0 ≤ animThreeFrames.loopstart ∧
        animThreeFrames.loopstart < animThreeFrames.frames.length) ∧
      (animThreeFrames.frames.length : Int) < 7 ∧ (7 : Int) < 2147483648) ∧
    (animThreeFrames.SetAnimElem 7 = animThreeFrames.SetAnimElem 1 ∧
      ∃ b, animThreeFrames.SetAnimElem 7 = .ok b ∧
        ((animThreeFrames.totaltime ≤ 0 ∨
          (animThreeFrames.sumtime < animThreeFrames.totaltime ∧
            ∃ f, animThreeFrames.frames.head? = some f ∧ 0 < f.Time)) →
          b.current = 0)) ∧
    Option.map positionOf (animThreeFrames.SetAnimElem 7).val? = some (0, 0, 0, false) :=
  ⟨by decide, C17_SetAnimElem_beyond_end animThreeFrames 7 (by decide) (by decide)
    (by decide) (by decide) (by decide), by decide⟩

/-- C18 (counterexample). Durations `[5, 5, 5]`: after `SetAnimElem(2)` the position is
`current = 1`, `time = 0`, `sumtime = 5`, `loopend = false`: `sumtime` is the cumulative
duration `5` of the frames before the current one, not its negative `-5`. -/
theorem C18_counterexample :
    Option.map positionOf (animThreeFrames.SetAnimElem 2).val? = some (1, 0, 5, false) ∧
    -sumMax (animThreeFrames.frames.take 1) = -5 := by
  decide

/-- C18 (amended). For every non-empty animation whose `loopstart` is a frame index and
every `N`, `SetAnimElem(N)` returns, and after it `time = 0`, `loopend = false`, and
`sumtime` is the cumulative duration (each duration counted as `Max(0, Time)`), in
`int32` arithmetic, of the frames strictly before the resulting current frame: the
cumulative duration itself, not its negative, whenever it is below `2^31`. -/
theorem C18_SetAnimElem_sumtime (a : Animation) (N : Int) (hne : a.frames ≠ [])
    (hlen : (a.frames.length : Int) < 2147483648)
    (hloop : 0 ≤ a.loopstart ∧ a.loopstart < a.frames.length) :
    ∃ b, a.SetAnimElem N = .ok b ∧ b.time = 0 ∧ b.loopend = false ∧
      b.sumtime = int32 (sumMax (a.frames.take b.current.toNat)) ∧
      (sumMax (a.frames.take b.current.toNat) < 2147483648 →
        b.sumtime = sumMax (a.frames.take b.current.toNat)) := by
  obtain ⟨b, hb, _, _, _, ht, hl, hs⟩ := SetAnimElem_spec a N hne hlen hloop
  refine ⟨b, hb, ht, hl, hs, ?_⟩
  intro hlt
  rw [hs]
  exact int32_of_range _ (by have := sumMax_nonneg (a.frames.take b.current.toNat); omega) hlt

/-- C18 (witness): durations `[5, 5, 5]`, `N = 3`: `sumtime = 10`. -/
theorem C18_SetAnimElem_sumtime_witness :
    (animThreeFrames.frames ≠ [] ∧
      (animThreeFrames.frames.length : Int) < 2147483648 ∧
      (0 ≤ animThreeFrames.loopstart ∧
        animThreeFrames.loopstart < animThreeFrames.frames.length)) ∧
    (∃ b, animThreeFrames.SetAnimElem 3 = .ok b ∧ b.time = 0 ∧ b.loopend = false ∧
      b.sumtime = int32 (sumMax (animThreeFrames.frames.take b.current.toNat)) ∧
      (sumMax (animThreeFrames.frames.take b.current.toNat) < 2147483648 →
        b.sumtime = sumMax (animThreeFrames.frames.take b.current.toNat))) ∧
    Option.map positionOf (animThreeFrames.SetAnimElem 3).val? = some (2, 0, 10, false) :=
  ⟨by decide, C18_SetAnimElem_sumtime animThreeFrames 3 (by decide) (by decide) (by decide),
    by decide⟩

/-- C19. For every animation and every `N` with `1 <= N <= len(frames)`,
`AnimElemTime(N)` is `sumtime` minus the sum over the frames `i < N-1` of
`Max(0, frames[i].Time)`, in the `int32` arithmetic of the code, and exactly that
difference when it is not below `-2^31`; `AnimElemTime(1) = sumtime`; for every `M`
greater than `len(frames)`, `AnimElemTime(M)` is `min(0, sumtime - totaltime)`, hence
never positive. -/
theorem C19_AnimElemTime (a : Animation) (N M : Int)
    (hs : int32 a.sumtime = a.sumtime)
    (h1 : 1 ≤ N) (h2 : N ≤ a.frames.length) (h3 : N < 2147483648)
    (hM : (a.frames.length : Int) < M) :
    a.AnimElemTime N = .ok (int32 (a.sumtime - sumMax (a.frames.take (N - 1).toNat))) ∧
    (-2147483648 ≤ a.sumtime - sumMax (a.frames.take (N - 1).toNat) →
      a.AnimElemTime N = .ok (a.sumtime - sumMax (a.frames.take (N - 1).toNat))) ∧
    a.AnimElemTime 1 = .ok a.sumtime ∧
    a.AnimElemTime M = .ok (min 0 (int32 (a.sumtime - a.totaltime))) ∧
    min 0 (int32 (a.sumtime - a.totaltime)) ≤ 0 := by
  have hN := AnimElemTime_elem a N hs h1 h2 h3
  have hr := int32_range a.sumtime
  rw [hs] at hr
  refine ⟨hN, ?_, ?_, ?_, min_le_left _ _⟩
  · intro hlow
    rw [hN, int32_of_range _ hlow
      (by have := sumMax_nonneg (a.frames.take (N - 1).toNat); omega)]
  · have h := AnimElemTime_elem a 1 hs (le_refl _) (by omega) (by decide)
    rw [h]
    simp [sumMax, hs]
  · unfold Animation.AnimElemTime Animation.AnimTime
    rw [if_pos (by omega)]
    simp only []
    congr 1
    rw [min_def]
    split_ifs <;> omega

/-- C19 (witness): durations `[5, 5, 5]` with `sumtime = 0`: `AnimElemTime(3) = -10`,
`AnimElemTime(1) = 0`, `AnimElemTime(4) = -15`. -/
theorem C19_AnimElemTime_witness :
    (int32 animThreeFrames.sumtime = animThreeFrames.sumtime ∧ (1 : Int) ≤ 3 ∧
      (3 : Int) ≤ animThreeFrames.frames.length ∧ (3 : Int) < 2147483648 ∧
      (animThreeFrames.frames.length : Int) < 4) ∧
    (animThreeFrames.AnimElemTime 3 = .ok (int32 (animThreeFrames.sumtime -
        sumMax (animThreeFrames.frames.take ((3 : Int) - 1).toNat))) ∧
      (-2147483648 ≤ animThreeFrames.sumtime -
          sumMax (animThreeFrames.frames.take ((3 : Int) - 1).toNat) →
        animThreeFrames.AnimElemTime 3 = .ok (animThreeFrames.sumtime -
          sumMax (animThreeFrames.frames.take ((3 : Int) - 1).toNat))) ∧
      animThreeFrames.AnimElemTime 1 = .ok animThreeFrames.sumtime ∧
      animThreeFrames.AnimElemTime 4 =
        .ok (min 0 (int32 (animThreeFrames.sumtime - animThreeFrames.totaltime))) ∧
      min 0 (int32 (animThreeFrames.sumtime - animThreeFrames.totaltime)) ≤ 0) ∧
    animThreeFrames.AnimElemTime 3 = .ok (-10) ∧ animThreeFrames.AnimElemTime 4 = .ok (-15) :=
  ⟨by decide, C19_AnimElemTime animThreeFrames 3 4 (by decide) (by decide) (by decide)
    (by decide) (by decide), by decide⟩

/-! ## Termination of `AnimElemNo` -/

theorem Max_zero_cases (x : Int) (h : x < 2147483648) :
    Max 0 x = 0 ∨ (1 ≤ Max 0 x ∧ Max 0 x < 2147483648) := by
  unfold Max; split_ifs <;> omega

/-- The effect of a frame duration on the product that bounds the number of turns of
the loops of `AnimElemNo`. -/
theorem elemNo_product (x L m : Int) (hL : 0 ≤ L) (hm : m = 0 ∨ 1 ≤ m) :
    ∃ Y, (x + m) * L = x * L + Y ∧ ((m = 0 ∧ Y = 0) ∨ (1 ≤ m ∧ L ≤ Y)) := by
  refine ⟨m * L, by ring, ?_⟩
  rcases hm with h0 | h1
  · left; exact ⟨h0, by rw [h0, zero_mul]⟩
  · right
    refine ⟨h1, ?_⟩
    have := Int.mul_le_mul_of_nonneg_right h1 hL
    rw [one_mul] at this
    exact this

/-- The backward loop of `AnimElemNo` returns an element number within the iteration
budget `(-time) * (len + 1) + i + (len + 1) + 2`. -/
theorem elemNoBack_returns (a : Animation)
    (hlen : (a.frames.length : Int) < 2147483648)
    (hT : ∀ f ∈ a.frames, f.Time < 2147483648) (k : Nat) :
    ∀ (i time oldt : Int) (loop : Bool), 0 ≤ i → i < a.frames.length →
      -2147483648 ≤ time → 1 ≤ k →
      (time < 0 → (k : Int) ≥ (-time) * ((a.frames.length : Int) + 1) + i +
        (if time = oldt then 0 else (a.frames.length : Int) + 1) + 2) →
      ∃ r, elemNoBack a k i time oldt loop = .ok r ∧ 1 ≤ r ∧ r ≤ a.frames.length := by
  induction k with
  | zero => intro i time oldt loop _ _ _ hk; omega
  | succ k ih =>
    intro i time oldt loop hi0 hi1 htlow _ hfuel
    have h32 : ∀ x : Int, -1 ≤ x → x ≤ a.frames.length → int32 x = x :=
      fun x h1 h2 => int32_of_range x (by omega) (by omega)
    unfold elemNoBack
    by_cases hge : time ≥ 0
    · rw [if_pos hge, h32 (i + 1) (by omega) (by omega)]
      exact ⟨_, rfl, by omega, by omega⟩
    rw [if_neg hge]
    have hfuel1 := hfuel (by omega)
    push_cast at hfuel1
    have hprod : 0 ≤ (-time) * ((a.frames.length : Int) + 1) :=
      mul_nonneg (by omega) (by omega)
    simp only [h32 (i - 1) (by omega) (by omega),
      h32 ((a.frames.length : Int) - 1) (by omega) (by omega)]
    have prod : ∀ f ∈ a.frames, int32 (time + Max 0 f.Time) = time + Max 0 f.Time ∧
        ∃ Y, (-(time + Max 0 f.Time)) * ((a.frames.length : Int) + 1) =
          (-time) * ((a.frames.length : Int) + 1) - Y ∧
          ((Max 0 f.Time = 0 ∧ Y = 0) ∨
            (1 ≤ Max 0 f.Time ∧ (a.frames.length : Int) + 1 ≤ Y)) := by
      intro f hm
      have hmax := Max_zero_cases f.Time (hT f hm)
      refine ⟨int32_of_range _ (by omega) (by omega), ?_⟩
      obtain ⟨Y, hY, hc⟩ := elemNo_product time ((a.frames.length : Int) + 1) (Max 0 f.Time)
        (by omega) (by omega)
      refine ⟨Y, ?_, hc⟩
      have : (-(time + Max 0 f.Time)) * ((a.frames.length : Int) + 1) =
          -((time + Max 0 f.Time) * ((a.frames.length : Int) + 1)) := by ring
      rw [this, hY]
      ring
    by_cases hwrap : i - 1 < 0 ∨ (a.current ≥ a.loopstart ∧ i - 1 < a.loopstart)
    · rw [if_pos hwrap]
      by_cases hold : time = oldt
      · rw [if_pos hold]
        exact ⟨_, rfl, by omega, le_refl _⟩
      rw [if_neg hold] at hfuel1 ⊢
      obtain ⟨f, hf, _, hm⟩ := frameAt_some a ((a.frames.length : Int) - 1) (by omega) (by omega)
      rw [hf]
      simp only [true_and]
      by_cases hT1 : f.Time = -1
      · rw [if_pos hT1, h32 _ (by omega) (by omega)]
        exact ⟨_, rfl, by omega, by omega⟩
      rw [if_neg hT1]
      obtain ⟨ht1, Y, hY, hc⟩ := prod f hm
      rw [ht1]
      refine ih _ _ _ _ (by omega) (by omega) (by omega) (by omega) ?_
      intro hneg
      rw [hY]
      rcases hc with ⟨h0, hy0⟩ | ⟨h1, hy1⟩
      · rw [if_pos (by omega)]; omega
      · split_ifs <;> omega
    · rw [if_neg hwrap]
      obtain ⟨f, hf, _, hm⟩ := frameAt_some a (i - 1) (by omega) (by omega)
      rw [hf]
      simp only []
      by_cases hret : loop = true ∧ i - 1 = (a.frames.length : Int) - 1 ∧ f.Time = -1
      · rw [if_pos hret, h32 _ (by omega) (by omega)]
        exact ⟨_, rfl, by omega, by omega⟩
      rw [if_neg hret]
      obtain ⟨ht1, Y, hY, hc⟩ := prod f hm
      rw [ht1]
      refine ih _ _ _ _ (by omega) (by omega) (by omega) ?_ ?_
      · split_ifs at hfuel1 <;> omega
      · intro hneg
        rw [hY]
        rcases hc with ⟨h0, hy0⟩ | ⟨h1, hy1⟩
        · rw [h0, add_zero]
          split_ifs at hfuel1 ⊢ <;> omega
        · split_ifs at hfuel1 ⊢ <;> omega

/-- The forward loop of `AnimElemNo`, entered with `time >= 0`, returns an element
number within the iteration budget `time * (len + 1) + (len - i) + (len + 1) + 1`. -/
theorem elemNoFwd_returns (a : Animation)
    (hlen : (a.frames.length : Int) < 2147483648)
    (hloop : 0 ≤ a.loopstart ∧ a.loopstart < a.frames.length)
    (hT : ∀ f ∈ a.frames, f.Time < 2147483648) (k : Nat) :
    ∀ (i time oldt : Int), 0 ≤ i → i < a.frames.length →
      0 ≤ time → time < 2147483648 →
      (k : Int) ≥ time * ((a.frames.length : Int) + 1) + ((a.frames.length : Int) - i) +
        (if time = oldt then 0 else (a.frames.length : Int) + 1) + 1 →
      ∃ r, elemNoFwd a k i time oldt = .ok r ∧ 1 ≤ r ∧ r ≤ a.frames.length := by
  induction k with
  | zero =>
    intro i time oldt _ hi1 ht0 _ hk
    have hprod : 0 ≤ time * ((a.frames.length : Int) + 1) := mul_nonneg ht0 (by omega)
    simp only [Nat.cast_zero] at hk
    split_ifs at hk <;> omega
  | succ k ih =>
    intro i time oldt hi0 hi1 ht0 ht1 hfuel
    push_cast at hfuel
    have hprod : 0 ≤ time * ((a.frames.length : Int) + 1) := mul_nonneg ht0 (by omega)
    obtain ⟨f, hf, _, hm⟩ := frameAt_some a i hi0 hi1
    have hmax := Max_zero_cases f.Time (hT f hm)
    have h32 : int32 (i + 1) = i + 1 := int32_of_range _ (by omega) (by omega)
    have ht32 : int32 (time - Max 0 f.Time) = time - Max 0 f.Time :=
      int32_of_range _ (by omega) (by omega)
    obtain ⟨Y, hY, hc⟩ := elemNo_product (time - Max 0 f.Time)
      ((a.frames.length : Int) + 1) (Max 0 f.Time) (by omega) (by omega)
    rw [sub_add_cancel] at hY
    unfold elemNoFwd
    rw [hf]
    simp only [h32, ht32]
    by_cases hret : time - Max 0 f.Time < 0 ∨ (i = int32 ((a.frames.length : Int) - 1) ∧
        f.Time = -1)
    · rw [if_pos hret]
      exact ⟨_, rfl, by omega, by omega⟩
    rw [if_neg hret]
    have hpos1 : 0 ≤ time - Max 0 f.Time := by
      by_contra hcon
      exact hret (Or.inl (by omega))
    by_cases hend : i + 1 ≥ (a.frames.length : Int)
    · rw [if_pos hend]
      by_cases hold : time - Max 0 f.Time = oldt
      · rw [if_pos hold]
        exact ⟨_, rfl, by omega, le_refl _⟩
      rw [if_neg hold]
      refine ih _ _ _ hloop.1 hloop.2 hpos1 (by omega) ?_
      rw [if_pos rfl]
      rcases hc with ⟨h0, hy0⟩ | ⟨h1, hy1⟩
      · rw [h0, sub_zero] at hold ⊢
        rw [if_neg hold] at hfuel
        omega
      · split_ifs at hfuel <;> omega
    · rw [if_neg hend]
      refine ih _ _ _ (by omega) (by omega) hpos1 (by omega) ?_
      rcases hc with ⟨h0, hy0⟩ | ⟨h1, hy1⟩
      · rw [h0, sub_zero]
        split_ifs at hfuel ⊢ <;> omega
      · split_ifs at hfuel ⊢ <;> omega

/-! ## Claim on `AnimElemNo` -/

/-- C20. For every animation with `0 <= current < len(frames)` and
`0 <= loopstart < len(frames)` (the frame count and the durations being `int32`
values) and every signed time offset, `AnimElemNo` terminates and returns a value in
`[1, len(frames)]`, whatever the durations of the loop segment; for an animation with
no frames it returns `0`. -/
theorem C20_AnimElemNo_terminates (a : Animation) (t : Int)
    (hcur : 0 ≤ a.current ∧ a.current < a.frames.length)
    (hloop : 0 ≤ a.loopstart ∧ a.loopstart < a.frames.length)
    (hlen : (a.frames.length : Int) < 2147483648)
    (hT : ∀ f ∈ a.frames, f.Time < 2147483648) :
    (∃ r, a.AnimElemNo t = .ok r ∧ 1 ≤ r ∧ r ≤ a.frames.length) ∧
    ∀ e : Animation, e.frames = [] → e.AnimElemNo t = .ok 0 := by
  constructor
  · have hlp : a.frames.length > 0 := by omega
    obtain ⟨r0, r1⟩ := int32_range (t + a.time)
    unfold Animation.AnimElemNo
    rw [if_pos hlp]
    by_cases ht : t ≤ 0
    · rw [if_pos ht]
      refine elemNoBack_returns a hlen hT _ _ _ _ _ hcur.1 hcur.2 r0 ?_ ?_
      · unfold elemNoFuel; omega
      · intro hneg
        have hmul : (-int32 (t + a.time)) * ((a.frames.length : Int) + 1) ≤
            2147483648 * ((a.frames.length : Int) + 1) :=
          Int.mul_le_mul_of_nonneg_right (by omega) (by omega)
        unfold elemNoFuel
        push_cast
        split_ifs <;> omega
    · rw [if_neg ht]
      obtain ⟨f, hf, _, hm⟩ := frameAt_some a a.current hcur.1 hcur.2
      have hfu : elemNoFuel a = (elemNoFuel a - 1) + 1 := by unfold elemNoFuel; omega
      obtain ⟨q0, q1⟩ := int32_range (int32 (t + a.time) - Max 0 f.Time)
      have h32 : int32 (a.current + 1) = a.current + 1 :=
        int32_of_range _ (by omega) (by omega)
      rw [hfu]
      unfold elemNoFwd
      rw [hf]
      simp only [h32]
      by_cases hret : int32 (int32 (t + a.time) - Max 0 f.Time) < 0 ∨
          (a.current = int32 ((a.frames.length : Int) - 1) ∧ f.Time = -1)
      · rw [if_pos hret]
        exact ⟨_, rfl, by omega, by omega⟩
      rw [if_neg hret]
      have hpos1 : 0 ≤ int32 (int32 (t + a.time) - Max 0 f.Time) := by
        by_contra hcon
        exact hret (Or.inl (by omega))
      have hmul : int32 (int32 (t + a.time) - Max 0 f.Time) * ((a.frames.length : Int) + 1) ≤
          2147483647 * ((a.frames.length : Int) + 1) :=
        Int.mul_le_mul_of_nonneg_right (by omega) (by omega)
      have hk : ((elemNoFuel a - 1 : Nat) : Int) =
          2147483650 * ((a.frames.length : Int) + 2) - 1 := by
        unfold elemNoFuel; omega
      by_cases hend : a.current + 1 ≥ (a.frames.length : Int)
      · rw [if_pos hend]
        by_cases hold : int32 (int32 (t + a.time) - Max 0 f.Time) = 0
        · rw [if_pos hold]
          exact ⟨_, rfl, by omega, le_refl _⟩
        rw [if_neg hold]
        refine elemNoFwd_returns a hlen hloop hT _ _ _ _ hloop.1 hloop.2 hpos1 q1 ?_
        rw [hk, if_pos rfl]
        omega
      · rw [if_neg hend]
        refine elemNoFwd_returns a hlen hloop hT _ _ _ _ (by omega) (by omega) hpos1 q1 ?_
        rw [hk]
        split_ifs <;> omega
  · intro e he
    unfold Animation.AnimElemNo
    rw [he]
    rfl

/-- C20 (witness): two frames of duration `0` (a loop segment of total duration zero):
`AnimElemNo(5)` and `AnimElemNo(-5)` return `2`; durations `[5, 5, 5]`:
`AnimElemNo(7)` returns `2`. -/
theorem C20_AnimElemNo_terminates_witness :
    ((0 ≤ animZeroLoop.current ∧ animZeroLoop.current < animZeroLoop.frames.length) ∧
      (0 ≤ animZeroLoop.loopstart ∧ animZeroLoop.loopstart < animZeroLoop.frames.length) ∧
      (animZeroLoop.frames.length : Int) < 2147483648 ∧
      (∀ f ∈ animZeroLoop.frames, f.Time < 2147483648)) ∧
    ((∃ r, animZeroLoop.AnimElemNo 5 = .ok r ∧ 1 ≤ r ∧ r ≤ animZeroLoop.frames.length) ∧
      ∀ e : Animation, e.frames = [] → e.AnimElemNo 5 = .ok 0) ∧
    animZeroLoop.AnimElemNo 5 = .ok 2 ∧ animZeroLoop.AnimElemNo (-5) = .ok 2 ∧
    animThreeFrames.AnimElemNo 7 = .ok 2 :=
  ⟨by decide, C20_AnimElemNo_terminates animZeroLoop 5 (by decide) (by decide) (by decide)
    (by decide), by decide, by decide, by decide⟩

/-! ## The turns of the `switch` and the collision boxes -/

theorem isClsnLine_spec (w : Bool) (line : List Char) (h : isClsnLine w line = true) :
    line.length ≥ 5 ∧ line.take 4 = ['c', 'l', 's', 'n'] ∧
    line.getD 4 ' ' = (if w then '2' else '1') := by
  unfold isClsnLine at h
  simp only [Bool.and_eq_true, decide_eq_true_eq, beq_iff_eq] at h
  exact ⟨h.1.1, h.1.2, h.2⟩

theorem hasPrefix_of_clsn (p : List Char) (c : Char) (ps : List Char) (hp : p = c :: ps)
    (hc : c ≠ 'c') (line : List Char) (h : line.take 4 = ['c', 'l', 's', 'n']) :
    hasPrefix p line = false := by
  subst hp
  cases line with
  | nil => simp at h
  | cons x t =>
    have hx : x = 'c' := by
      simp only [List.take_succ_cons, List.cons.injEq] at h
      exact h.1
    subst hx
    unfold hasPrefix
    simp only [List.length_cons, Bool.and_eq_false_imp, decide_eq_true_eq]
    intro _
    simp only [List.take_succ_cons, beq_eq_false_iff_ne, ne_eq, List.cons.injEq, not_and]
    intro hcc
    exact absurd hcc.symm hc

/-- On a line that begins with `clsn` and has at least 5 bytes the `switch` takes the
`clsn` case. -/
theorem scanStep_clsn_line (Atoi : List Char → Int) (IsNumeric : List Char → Bool)
    (lines : List (List Char)) (i : Nat) (s : ScanState)
    (h5 : (normLine (lines.getD i [])).length ≥ 5)
    (h4 : (normLine (lines.getD i [])).take 4 = ['c', 'l', 's', 'n']) :
    scanStep Atoi IsNumeric lines i s = clsnCase Atoi lines (normLine (lines.getD i [])) i s := by
  unfold scanStep
  simp only []
  rw [ReadAnimFrame_clsn Atoi IsNumeric _ h4]
  simp only []
  rw [hasPrefix_of_clsn "loopstart".toList 'l' "oopstart".toList (by decide) (by decide) _ h4,
    hasPrefix_of_clsn "interpolate offset".toList 'i' "nterpolate offset".toList (by decide)
      (by decide) _ h4,
    hasPrefix_of_clsn "interpolate scale".toList 'i' "nterpolate scale".toList (by decide)
      (by decide) _ h4,
    hasPrefix_of_clsn "interpolate angle".toList 'i' "nterpolate angle".toList (by decide)
      (by decide) _ h4,
    hasPrefix_of_clsn "interpolate blend".toList 'i' "nterpolate blend".toList (by decide)
      (by decide) _ h4]
  simp only [Bool.false_eq_true, if_false]
  rw [if_pos ⟨h5, h4⟩]

/-- The frame case of the `switch`: the new frame carries, as `Clsn1()` (`Clsn2()`), the
default boxes when no declaration came since the last frame, else the declared ones. -/
theorem frameCase_boxes (w : Bool) (af : AnimFrame) (s : ScanState) (haf : af.Clsn = []) :
    ∃ f, (frameCase af s).a.frames = s.a.frames ++ [f] ∧
      boxesOf w f = (if flagOf w s = true then defaultOf w s else curOf w s) ∧
      defaultOf w (frameCase af s) = defaultOf w s ∧
      flagOf w (frameCase af s) = true := by
  unfold frameCase
  simp only [haf]
  generalize hc1 : (if s.def1 = true then s.clsn1d else s.clsn1) = c1
  generalize hc2 : (if s.def2 = true then s.clsn2d else s.clsn2) = c2
  by_cases hlen : c1.length > 0 ∨ c2.length > 0
  · simp only [if_pos hlen]
    refine ⟨_, rfl, ?_, ?_, ?_⟩
    · cases w
      · simp [boxesOf, flagOf, defaultOf, curOf, AnimFrame.Clsn1, hc1]
      · simp [boxesOf, flagOf, defaultOf, curOf, AnimFrame.Clsn2, hc2]
    · cases w <;> rfl
    · cases w <;> rfl
  · simp only [if_neg hlen]
    have h1 : c1 = [] := by
      cases c1 with
      | nil => rfl
      | cons x t => exact absurd (Or.inl (by simp)) hlen
    have h2 : c2 = [] := by
      cases c2 with
      | nil => rfl
      | cons x t => exact absurd (Or.inr (by simp)) hlen
    refine ⟨_, rfl, ?_, ?_, ?_⟩
    · cases w
      · simp [boxesOf, flagOf, defaultOf, curOf, AnimFrame.Clsn1, hc1, haf, h1]
      · simp [boxesOf, flagOf, defaultOf, curOf, AnimFrame.Clsn2, hc2, haf, h2]
    · cases w <;> rfl
    · cases w <;> rfl

/-- A turn on a frame line is the frame case. -/
theorem scanStep_frame (Atoi : List Char → Int) (IsNumeric : List Char → Bool)
    (lines : List (List Char)) (i : Nat) (s : ScanState) (af : AnimFrame)
    (h : ReadAnimFrame Atoi IsNumeric (normLine (lines.getD i [])) = some af) :
    scanStep Atoi IsNumeric lines i s = .ok (i, frameCase af s) := by
  unfold scanStep
  simp only [h]

/-- The `clsn` case on a declaration of the other box set, or of no box set, leaves
`clsn1`, `clsn1d` and `def1` (`clsn2`, `clsn2d` and `def2`) alone. -/
theorem clsnCase_other (Atoi : List Char → Int) (lines : List (List Char))
    (line : List Char) (i : Nat) (s : ScanState) (j : Nat) (s1 : ScanState) (w : Bool)
    (hw : line.getD 4 ' ' ≠ (if w then '2' else '1'))
    (h : clsnCase Atoi lines line i s = .ok (j, s1)) :
    curOf w s1 = curOf w s ∧ defaultOf w s1 = defaultOf w s ∧ flagOf w s1 = flagOf w s := by
  have stay : ∀ (k : Nat) (b : ScanState),
      (Outcome.ok (k, b) : Outcome (Nat × ScanState)) = .ok (j, s1) →
      curOf w b = curOf w s ∧ defaultOf w b = defaultOf w s ∧ flagOf w b = flagOf w s →
      curOf w s1 = curOf w s ∧ defaultOf w s1 = defaultOf w s ∧ flagOf w s1 = flagOf w s := by
    intro k b hab hb
    cases hab
    exact hb
  unfold clsnCase at h
  simp only [] at h
  by_cases hii : Index ':' line < 0
  · rw [if_pos hii] at h; exact stay _ _ h ⟨rfl, rfl, rfl⟩
  rw [if_neg hii] at h
  by_cases hsz : Atoi (line.drop ((Index ':' line).toNat + 1)) < 0
  · rw [if_pos hsz] at h; exact stay _ _ h ⟨rfl, rfl, rfl⟩
  rw [if_neg hsz] at h
  by_cases h1 : line.getD 4 ' ' = '1'
  · have hw1 : w = true := by
      cases w
      · exact absurd h1 hw
      · rfl
    subst hw1
    rw [if_pos h1] at h
    cases hm : makeClsn (Atoi (line.drop ((Index ':' line).toNat + 1))) with
    | none => rw [hm] at h; cases h
    | some fresh =>
      rw [hm] at h
      simp only [] at h
      by_cases h0 : Atoi (line.drop ((Index ':' line).toNat + 1)) = 0
      · rw [if_pos h0] at h; exact stay _ _ h ⟨rfl, rfl, rfl⟩
      rw [if_neg h0] at h
      cases hr : clsnRects Atoi lines (Atoi (line.drop ((Index ':' line).toNat + 1))).toNat
          0 (i + 1) fresh with
      | none => rw [hr] at h; cases h
      | some r =>
        obtain ⟨r1, r2⟩ := r
        rw [hr] at h
        exact stay _ _ h ⟨rfl, rfl, rfl⟩
  rw [if_neg h1] at h
  by_cases h2 : line.getD 4 ' ' = '2'
  · have hw2 : w = false := by
      cases w
      · rfl
      · exact absurd h2 hw
    subst hw2
    rw [if_pos h2] at h
    cases hm : makeClsn (Atoi (line.drop ((Index ':' line).toNat + 1))) with
    | none => rw [hm] at h; cases h
    | some fresh =>
      rw [hm] at h
      simp only [] at h
      by_cases h0 : Atoi (line.drop ((Index ':' line).toNat + 1)) = 0
      · rw [if_pos h0] at h; exact stay _ _ h ⟨rfl, rfl, rfl⟩
      rw [if_neg h0] at h
      cases hr : clsnRects Atoi lines (Atoi (line.drop ((Index ':' line).toNat + 1))).toNat
          0 (i + 1) fresh with
      | none => rw [hr] at h; cases h
      | some r =>
        obtain ⟨r1, r2⟩ := r
        rw [hr] at h
        exact stay _ _ h ⟨rfl, rfl, rfl⟩
  rw [if_neg h2] at h
  exact stay _ _ h ⟨rfl, rfl, rfl⟩

/-- A turn on a line that is neither a frame nor a declaration of `clsn1` (`clsn2`)
leaves `clsn1`, `clsn1d` and `def1` (`clsn2`, `clsn2d` and `def2`) alone. -/
theorem scanStep_noclsn (Atoi : List Char → Int) (IsNumeric : List Char → Bool)
    (lines : List (List Char)) (i : Nat) (s : ScanState) (j : Nat) (s1 : ScanState)
    (w : Bool)
    (hf : ReadAnimFrame Atoi IsNumeric (normLine (lines.getD i [])) = none)
    (hw : isClsnLine w (normLine (lines.getD i [])) = false)
    (h : scanStep Atoi IsNumeric lines i s = .ok (j, s1)) :
    curOf w s1 = curOf w s ∧ defaultOf w s1 = defaultOf w s ∧ flagOf w s1 = flagOf w s := by
  unfold scanStep at h
  simp only [hf] at h
  have here : ∀ (b : ScanState),
      (Outcome.ok (i, b) : Outcome (Nat × ScanState)) = .ok (j, s1) →
      curOf w b = curOf w s ∧ defaultOf w b = defaultOf w s ∧ flagOf w b = flagOf w s →
      curOf w s1 = curOf w s ∧ defaultOf w s1 = defaultOf w s ∧ flagOf w s1 = flagOf w s := by
    intro b hb hc
    cases hb
    exact hc
  by_cases p1 : hasPrefix "loopstart".toList (normLine (lines.getD i [])) = true
  · rw [if_pos p1] at h; exact here _ h ⟨rfl, rfl, rfl⟩
  rw [if_neg p1] at h
  by_cases p2 : hasPrefix "interpolate offset".toList (normLine (lines.getD i [])) = true
  · rw [if_pos p2] at h; exact here _ h ⟨rfl, rfl, rfl⟩
  rw [if_neg p2] at h
  by_cases p3 : hasPrefix "interpolate scale".toList (normLine (lines.getD i [])) = true
  · rw [if_pos p3] at h; exact here _ h ⟨rfl, rfl, rfl⟩
  rw [if_neg p3] at h
  by_cases p4 : hasPrefix "interpolate angle".toList (normLine (lines.getD i [])) = true
  · rw [if_pos p4] at h; exact here _ h ⟨rfl, rfl, rfl⟩
  rw [if_neg p4] at h
  by_cases p5 : hasPrefix "interpolate blend".toList (normLine (lines.getD i [])) = true
  · rw [if_pos p5] at h; exact here _ h ⟨rfl, rfl, rfl⟩
  rw [if_neg p5] at h
  by_cases p6 : (normLine (lines.getD i [])).length ≥ 5 ∧
      (normLine (lines.getD i [])).take 4 = ['c', 'l', 's', 'n']
  · rw [if_pos p6] at h
    refine clsnCase_other Atoi lines _ i s j s1 w ?_ h
    intro hc
    have ht : isClsnLine w (normLine (lines.getD i [])) = true := by
      unfold isClsnLine
      simp only [Bool.and_eq_true, decide_eq_true_eq, beq_iff_eq]
      exact ⟨⟨p6.1, p6.2⟩, hc⟩
    rw [ht] at hw
    cases hw
  · rw [if_neg p6] at h
    exact here _ h ⟨rfl, rfl, rfl⟩

/-- The `clsn` case on a declaration of `clsn1` (`clsn2`): a declaration that is not a
default one leaves `clsn1d` (`clsn2d`) alone; a declaration with a size `n >= 0` clears
`def1` (`def2`), makes `clsn1` (`clsn2`) empty when `n = 0`, else the slice filled by
the rectangle loop, and a default declaration makes it the default as well. -/
theorem clsnCase_decl (Atoi : List Char → Int) (lines : List (List Char))
    (line : List Char) (i : Nat) (s : ScanState) (j : Nat) (s1 : ScanState) (w : Bool)
    (hw : line.getD 4 ' ' = (if w then '2' else '1'))
    (h : clsnCase Atoi lines line i s = .ok (j, s1)) :
    (hasPrefix ['d', 'e', 'f', 'a', 'u', 'l', 't'] (line.drop 5) = false →
      defaultOf w s1 = defaultOf w s) ∧
    (∀ n, declSize Atoi line = some n → 0 ≤ n →
      flagOf w s1 = false ∧ (n = 0 → curOf w s1 = []) ∧
      (hasPrefix ['d', 'e', 'f', 'a', 'u', 'l', 't'] (line.drop 5) = true →
        defaultOf w s1 = curOf w s1) ∧
      (1 ≤ n → ∃ fresh k, makeClsn n = some fresh ∧
        clsnRects Atoi lines n.toNat 0 (i + 1) fresh = some (k, curOf w s1))) := by
  have hm0 : ∀ fresh, makeClsn 0 = some fresh → fresh = [] := by
    intro fresh hf
    have : makeClsn 0 = some [] := by decide
    rw [this] at hf
    cases hf
    rfl
  unfold clsnCase at h
  simp only [] at h
  unfold declSize
  by_cases hii : Index ':' line < 0
  · rw [if_pos hii] at h ⊢
    simp only [Outcome.ok.injEq, Prod.mk.injEq] at h
    obtain ⟨_, rfl⟩ := h
    exact ⟨fun _ => rfl, fun n hn => by cases hn⟩
  rw [if_neg hii] at h ⊢
  generalize hsize : Atoi (line.drop ((Index ':' line).toNat + 1)) = size at h ⊢
  by_cases hsz : size < 0
  · rw [if_pos hsz] at h
    simp only [Outcome.ok.injEq, Prod.mk.injEq] at h
    obtain ⟨_, rfl⟩ := h
    refine ⟨fun _ => rfl, ?_⟩
    intro n hn hn0
    cases hn
    omega
  rw [if_neg hsz] at h
  cases w
  · have h1 : line.getD 4 ' ' = '1' := hw
    rw [if_pos h1] at h
    cases hm : makeClsn size with
    | none => rw [hm] at h; cases h
    | some fresh =>
      rw [hm] at h
      simp only [] at h
      by_cases h0 : size = 0
      · rw [if_pos h0] at h
        subst h0
        have hfe := hm0 fresh hm
        subst hfe
        simp only [Outcome.ok.injEq, Prod.mk.injEq] at h
        obtain ⟨_, rfl⟩ := h
        refine ⟨?_, ?_⟩
        · intro hd
          simp [defaultOf, hd]
        · intro n hn _
          cases hn
          refine ⟨rfl, fun _ => rfl, ?_, fun h1 => absurd h1 (by decide)⟩
          intro hd
          simp [defaultOf, curOf, hd]
      rw [if_neg h0] at h
      cases hr : clsnRects Atoi lines size.toNat 0 (i + 1) fresh with
      | none => rw [hr] at h; cases h
      | some r =>
        obtain ⟨r1, r2⟩ := r
        rw [hr] at h
        simp only [Outcome.ok.injEq, Prod.mk.injEq] at h
        obtain ⟨_, rfl⟩ := h
        refine ⟨?_, ?_⟩
        · intro hd
          simp [defaultOf, hd]
        · intro n hn _
          cases hn
          refine ⟨rfl, fun h => absurd h h0, ?_, fun _ => ⟨fresh, r1, hm, hr⟩⟩
          intro hd
          simp [defaultOf, curOf, hd]
  · have h2 : line.getD 4 ' ' = '2' := hw
    have h1 : ¬ line.getD 4 ' ' = '1' := by rw [h2]; decide
    rw [if_neg h1, if_pos h2] at h
    cases hm : makeClsn size with
    | none => rw [hm] at h; cases h
    | some fresh =>
      rw [hm] at h
      simp only [] at h
      by_cases h0 : size = 0
      · rw [if_pos h0] at h
        subst h0
        have hfe := hm0 fresh hm
        subst hfe
        simp only [Outcome.ok.injEq, Prod.mk.injEq] at h
        obtain ⟨_, rfl⟩ := h
        refine ⟨?_, ?_⟩
        · intro hd
          simp [defaultOf, hd]
        · intro n hn _
          cases hn
          refine ⟨rfl, fun _ => rfl, ?_, fun h1 => absurd h1 (by decide)⟩
          intro hd
          simp [defaultOf, curOf, hd]
      rw [if_neg h0] at h
      cases hr : clsnRects Atoi lines size.toNat 0 (i + 1) fresh with
      | none => rw [hr] at h; cases h
      | some r =>
        obtain ⟨r1, r2⟩ := r
        rw [hr] at h
        simp only [Outcome.ok.injEq, Prod.mk.injEq] at h
        obtain ⟨_, rfl⟩ := h
        refine ⟨?_, ?_⟩
        · intro hd
          simp [defaultOf, hd]
        · intro n hn _
          cases hn
          refine ⟨rfl, fun h => absurd h h0, ?_, fun _ => ⟨fresh, r1, hm, hr⟩⟩
          intro hd
          simp [defaultOf, curOf, hd]

theorem ReadAnimFrame_Clsn_nil (Atoi : List Char → Int) (IsNumeric : List Char → Bool)
    (line : List Char) (af : AnimFrame)
    (h : ReadAnimFrame Atoi IsNumeric line = some af) : af.Clsn = [] :=
  (ReadAnimFrame_some Atoi IsNumeric line af h).2.2.2.2.2.2.2.2.2.2.2.2.2

/-- A turn of the `switch` only appends to the frames. -/
theorem scanStep_frames_extend (Atoi : List Char → Int) (IsNumeric : List Char → Bool)
    (lines : List (List Char)) (i : Nat) (s : ScanState) (j : Nat) (s1 : ScanState)
    (hi : i < lines.length) (h : scanStep Atoi IsNumeric lines i s = .ok (j, s1)) :
    s.a.frames <+: s1.a.frames := by
  cases hf : ReadAnimFrame Atoi IsNumeric (normLine (lines.getD i [])) with
  | some af =>
    rw [scanStep_frame Atoi IsNumeric lines i s af hf] at h
    simp only [Outcome.ok.injEq, Prod.mk.injEq] at h
    obtain ⟨_, rfl⟩ := h
    obtain ⟨f, hfr, _⟩ := frameCase_boxes false af s
      (ReadAnimFrame_Clsn_nil Atoi IsNumeric _ af hf)
    rw [hfr]
    exact List.prefix_append _ _
  | none =>
    unfold scanStep at h
    simp only [hf] at h
    have here : ∀ (b : ScanState),
        (Outcome.ok (i, b) : Outcome (Nat × ScanState)) = .ok (j, s1) →
        b.a.frames = s.a.frames → s.a.frames <+: s1.a.frames := by
      intro b hb hc
      cases hb
      rw [hc]
    by_cases p1 : hasPrefix "loopstart".toList (normLine (lines.getD i [])) = true
    · rw [if_pos p1] at h; exact here _ h rfl
    rw [if_neg p1] at h
    by_cases p2 : hasPrefix "interpolate offset".toList (normLine (lines.getD i [])) = true
    · rw [if_pos p2] at h; exact here _ h rfl
    rw [if_neg p2] at h
    by_cases p3 : hasPrefix "interpolate scale".toList (normLine (lines.getD i [])) = true
    · rw [if_pos p3] at h; exact here _ h rfl
    rw [if_neg p3] at h
    by_cases p4 : hasPrefix "interpolate angle".toList (normLine (lines.getD i [])) = true
    · rw [if_pos p4] at h; exact here _ h rfl
    rw [if_neg p4] at h
    by_cases p5 : hasPrefix "interpolate blend".toList (normLine (lines.getD i [])) = true
    · rw [if_pos p5] at h; exact here _ h rfl
    rw [if_neg p5] at h
    by_cases p6 : (normLine (lines.getD i [])).length ≥ 5 ∧
        (normLine (lines.getD i [])).take 4 = ['c', 'l', 's', 'n']
    · rw [if_pos p6] at h
      obtain ⟨q1, _⟩ := clsnCase_spec Atoi lines _ i s j s1 hi h
      rw [q1]
    · rw [if_neg p6] at h
      exact here _ h rfl

theorem scanLoop_frames_extend (Atoi : List Char → Int) (IsNumeric : List Char → Bool)
    (lines : List (List Char)) (fuel : Nat) :
    ∀ (i : Nat) (s : ScanState) (j : Nat) (sfin : ScanState),
      scanLoop Atoi IsNumeric lines fuel i s = .ok (j, sfin) →
      s.a.frames <+: sfin.a.frames := by
  induction fuel with
  | zero =>
    intro i s j sfin h
    unfold scanLoop at h
    split_ifs at h
    cases h
    exact List.prefix_refl _
  | succ fuel ih =>
    intro i s j sfin h
    unfold scanLoop at h
    by_cases hi : i < lines.length
    · rw [if_pos hi] at h
      by_cases hsec : sectionStart (lines.getD i []) = true
      · rw [if_pos hsec] at h
        cases h
        exact List.prefix_refl _
      · rw [if_neg hsec] at h
        cases hstp : scanStep Atoi IsNumeric lines i s with
        | panic => rw [hstp] at h; cases h
        | fuel => rw [hstp] at h; cases h
        | ok r =>
          obtain ⟨j1, s2⟩ := r
          rw [hstp] at h
          exact (scanStep_frames_extend Atoi IsNumeric lines i s j1 s2 hi hstp).trans
            (ih _ _ _ _ h)
    · rw [if_neg hi] at h
      cases h
      exact List.prefix_refl _

/-- Every turn listed by `turns` is a turn of the `switch` on the line at its index;
the first one starts from the given locals, each next one from the locals the previous
one left; and the frames after each turn are a prefix of the frames at the end of the
loop. -/
theorem turns_spec (Atoi : List Char → Int) (IsNumeric : List Char → Bool)
    (lines : List (List Char)) (fuel : Nat) :
    ∀ (i : Nat) (s : ScanState),
      (∀ t, (turns Atoi IsNumeric lines fuel i s).get? 0 = some t → t.before = s) ∧
      (∀ r t, (turns Atoi IsNumeric lines fuel i s).get? r = some t →
        t.index < lines.length ∧ t.line = normLine (lines.getD t.index []) ∧
        ∃ j, scanStep Atoi IsNumeric lines t.index t.before = .ok (j, t.after)) ∧
      (∀ r t t1, (turns Atoi IsNumeric lines fuel i s).get? r = some t →
        (turns Atoi IsNumeric lines fuel i s).get? (r + 1) = some t1 →
        t1.before = t.after) ∧
      (∀ r t j sfin, (turns Atoi IsNumeric lines fuel i s).get? r = some t →
        scanLoop Atoi IsNumeric lines fuel i s = .ok (j, sfin) →
        t.after.a.frames <+: sfin.a.frames) := by
  induction fuel with
  | zero =>
    intro i s
    simp [turns]
  | succ fuel ih =>
    intro i s
    unfold turns scanLoop
    by_cases hi : i < lines.length
    · rw [if_pos hi, if_pos hi]
      by_cases hsec : sectionStart (lines.getD i []) = true
      · rw [if_pos hsec, if_pos hsec]
        simp
      · rw [if_neg hsec, if_neg hsec]
        cases hstp : scanStep Atoi IsNumeric lines i s with
        | panic => simp
        | fuel => simp
        | ok x =>
          obtain ⟨j1, s2⟩ := x
          simp only []
          obtain ⟨i1, i2, i3, i4⟩ := ih (j1 + 1) s2
          refine ⟨?_, ?_, ?_, ?_⟩
          · intro t ht
            simp only [List.get?_cons_zero, Option.some.injEq] at ht
            rw [← ht]
          · intro r t ht
            cases r with
            | zero =>
              simp only [List.get?_cons_zero, Option.some.injEq] at ht
              rw [← ht]
              exact ⟨hi, rfl, j1, hstp⟩
            | succ r =>
              simp only [List.get?_cons_succ] at ht
              exact i2 r t ht
          · intro r t t1 ht ht1
            simp only [List.get?_cons_succ] at ht1
            cases r with
            | zero =>
              simp only [List.get?_cons_zero, Option.some.injEq] at ht
              rw [← ht]
              exact i1 t1 ht1
            | succ r =>
              simp only [List.get?_cons_succ] at ht
              exact i3 r t t1 ht ht1
          · intro r t j sfin ht hfin
            cases r with
            | zero =>
              simp only [List.get?_cons_zero, Option.some.injEq] at ht
              rw [← ht]
              exact scanLoop_frames_extend Atoi IsNumeric lines fuel _ _ _ _ hfin
            | succ r =>
              simp only [List.get?_cons_succ] at ht
              exact i4 r t j sfin ht hfin
    · rw [if_neg hi, if_neg hi]
      simp

theorem turnLine_eq (T : List Turn) (r : Nat) (t : Turn) (h : T.get? r = some t) :
    turnLine T r = t.line := by
  unfold turnLine
  rw [h]
  rfl

theorem get?_of_lt (T : List Turn) (r : Nat) (h : r < T.length) : ∃ t, T.get? r = some t :=
  ⟨T.get ⟨r, h⟩, List.get?_eq_get h⟩

theorem get?_lt (T : List Turn) (r : Nat) (t : Turn) (h : T.get? r = some t) :
    r < T.length := by
  by_contra hc
  rw [List.get?_eq_none.mpr (by omega)] at h
  cases h

/-- A declaration turn: the `switch` takes the `clsn` case on its line. -/
theorem turn_decl (Atoi : List Char → Int) (IsNumeric : List Char → Bool)
    (lines : List (List Char)) (fuel i : Nat) (s : ScanState) (w : Bool) (r : Nat) (t : Turn)
    (ht : (turns Atoi IsNumeric lines fuel i s).get? r = some t)
    (hc : isClsnLine w t.line = true) :
    t.line.getD 4 ' ' = (if w then '2' else '1') ∧
    ∃ j, clsnCase Atoi lines t.line t.index t.before = .ok (j, t.after) := by
  obtain ⟨_, h2, j, h3⟩ := (turns_spec Atoi IsNumeric lines fuel i s).2.1 r t ht
  obtain ⟨c5, c4, cw⟩ := isClsnLine_spec w t.line hc
  refine ⟨cw, j, ?_⟩
  rw [h2] at c5 c4 ⊢
  rw [← scanStep_clsn_line Atoi IsNumeric lines t.index t.before c5 c4]
  exact h3

/-- Turns on lines that are neither frames nor declarations of `clsn1` (`clsn2`) leave
`clsn1`, `clsn1d` and `def1` (`clsn2`, `clsn2d` and `def2`) alone. -/
theorem turns_keep (Atoi : List Char → Int) (IsNumeric : List Char → Bool)
    (lines : List (List Char)) (fuel i : Nat) (s : ScanState) (w : Bool) (r : Nat) (d : Nat) :
    (∀ r1, r < r1 → r1 < r + 1 + d →
      isClsnLine w (turnLine (turns Atoi IsNumeric lines fuel i s) r1) = false ∧
      ReadAnimFrame Atoi IsNumeric (turnLine (turns Atoi IsNumeric lines fuel i s) r1) = none) →
    ∀ t t1, (turns Atoi IsNumeric lines fuel i s).get? r = some t →
      (turns Atoi IsNumeric lines fuel i s).get? (r + 1 + d) = some t1 →
      curOf w t1.before = curOf w t.after ∧ defaultOf w t1.before = defaultOf w t.after ∧
      flagOf w t1.before = flagOf w t.after := by
  obtain ⟨_, sp2, sp3, _⟩ := turns_spec Atoi IsNumeric lines fuel i s
  induction d with
  | zero =>
    intro _ t t1 ht ht1
    rw [sp3 r t t1 ht ht1]
    exact ⟨rfl, rfl, rfl⟩
  | succ d ih =>
    intro hsil t t1 ht ht1
    have hlt := get?_lt _ _ _ ht1
    obtain ⟨t0, ht0⟩ := get?_of_lt (turns Atoi IsNumeric lines fuel i s) (r + 1 + d) (by omega)
    obtain ⟨e1, e2, e3⟩ := ih (fun r1 h1 h2 => hsil r1 h1 (by omega)) t t0 ht ht0
    obtain ⟨hq1, hq2⟩ := hsil (r + 1 + d) (by omega) (by omega)
    rw [turnLine_eq _ _ _ ht0] at hq1 hq2
    obtain ⟨_, hl, j, hstep⟩ := sp2 _ _ ht0
    rw [hl] at hq1 hq2
    obtain ⟨g1, g2, g3⟩ := scanStep_noclsn Atoi IsNumeric lines t0.index t0.before j t0.after w
      hq2 hq1 hstep
    have hch := sp3 (r + 1 + d) t0 t1 ht0 ht1
    rw [hch, g1, g2, g3]
    exact ⟨e1, e2, e3⟩

/-- After a default declaration of size `n >= 1` at turn `p`, and without another default
declaration up to turn `q`: before every turn `r` with `p < r <= q` the default boxes
are those of turn `p`, and the next frame inherits them unless a frame turn is still to
come before `q`. -/
theorem turns_inherit (Atoi : List Char → Int) (IsNumeric : List Char → Bool)
    (lines : List (List Char)) (fuel i : Nat) (s : ScanState) (w : Bool) (p q : Nat)
    (n : Int) (tp : Turn)
    (htp : (turns Atoi IsNumeric lines fuel i s).get? p = some tp)
    (hdef : isDefaultLine w tp.line = true)
    (hsize : declSize Atoi tp.line = some n) (hn : 1 ≤ n)
    (hno : ∀ r, r < q → p < r →
      isDefaultLine w (turnLine (turns Atoi IsNumeric lines fuel i s) r) = false)
    (hown : ∀ r, r < q → p < r →
      isClsnLine w (turnLine (turns Atoi IsNumeric lines fuel i s) r) = true →
      ∃ r1, r1 < q ∧ r < r1 ∧ (ReadAnimFrame Atoi IsNumeric
        (turnLine (turns Atoi IsNumeric lines fuel i s) r1)).isSome = true) (d : Nat) :
    p + 1 + d ≤ q → ∀ t, (turns Atoi IsNumeric lines fuel i s).get? (p + 1 + d) = some t →
      defaultOf w t.before = defaultOf w tp.after ∧
      ((flagOf w t.before = true ∨ curOf w t.before = defaultOf w tp.after) ∨
        ∃ r1, p + 1 + d ≤ r1 ∧ r1 < q ∧ (ReadAnimFrame Atoi IsNumeric
          (turnLine (turns Atoi IsNumeric lines fuel i s) r1)).isSome = true) := by
  obtain ⟨_, sp2, sp3, _⟩ := turns_spec Atoi IsNumeric lines fuel i s
  have hdc : isClsnLine w tp.line = true ∧
      hasPrefix ['d', 'e', 'f', 'a', 'u', 'l', 't'] (tp.line.drop 5) = true := by
    unfold isDefaultLine at hdef
    simpa using hdef
  induction d with
  | zero =>
    intro _ t ht
    obtain ⟨cw, j, hcase⟩ := turn_decl Atoi IsNumeric lines fuel i s w p tp htp hdc.1
    obtain ⟨_, hd2⟩ := clsnCase_decl Atoi lines tp.line tp.index tp.before j tp.after w cw hcase
    obtain ⟨_, _, hd3, _⟩ := hd2 n hsize (by omega)
    rw [sp3 p tp t htp ht]
    exact ⟨rfl, Or.inl (Or.inr (hd3 hdc.2).symm)⟩
  | succ d ih =>
    intro hle t ht
    obtain ⟨t0, ht0⟩ := get?_of_lt (turns Atoi IsNumeric lines fuel i s) (p + 1 + d)
      (by have := get?_lt _ _ _ ht; omega)
    obtain ⟨e1, e2⟩ := ih (by omega) t0 ht0
    obtain ⟨_, hl, j, hstep⟩ := sp2 _ _ ht0
    have hch := sp3 (p + 1 + d) t0 t ht0 ht
    have hline := turnLine_eq _ _ _ ht0
    rw [hch]
    cases hf : ReadAnimFrame Atoi IsNumeric t0.line with
    | some af =>
      rw [hl] at hf
      rw [scanStep_frame Atoi IsNumeric lines t0.index t0.before af hf] at hstep
      simp only [Outcome.ok.injEq, Prod.mk.injEq] at hstep
      obtain ⟨f, _, _, b3, b4⟩ := frameCase_boxes w af t0.before
        (ReadAnimFrame_Clsn_nil Atoi IsNumeric _ af hf)
      rw [← hstep.2, b3, b4]
      exact ⟨e1, Or.inl (Or.inl rfl)⟩
    | none =>
      cases hc : isClsnLine w t0.line with
      | true =>
        obtain ⟨cw, j1, hcase⟩ := turn_decl Atoi IsNumeric lines fuel i s w _ t0 ht0 hc
        obtain ⟨hd1, _⟩ := clsnCase_decl Atoi lines t0.line t0.index t0.before j1 t0.after w
          cw hcase
        have hnd := hno (p + 1 + d) (by omega) (by omega)
        rw [hline] at hnd
        unfold isDefaultLine at hnd
        rw [hc, Bool.true_and] at hnd
        rw [hd1 hnd]
        refine ⟨e1, Or.inr ?_⟩
        obtain ⟨r1, h1, h2, h3⟩ := hown (p + 1 + d) (by omega) (by omega) (by rw [hline]; exact hc)
        exact ⟨r1, by omega, h1, h3⟩
      | false =>
        rw [hl] at hf hc
        obtain ⟨g1, g2, g3⟩ := scanStep_noclsn Atoi IsNumeric lines t0.index t0.before j
          t0.after w hf hc hstep
        rw [g1, g2, g3]
        refine ⟨e1, ?_⟩
        rcases e2 with e2 | ⟨r1, h1, h2, h3⟩
        · exact Or.inl e2
        · right
          refine ⟨r1, ?_, h2, h3⟩
          by_contra hcon
          have hr : r1 = p + 1 + d := by omega
          rw [hr, hline, hl, hf] at h3
          cases h3

/-- The frame read by a frame turn: it is the frame of the animation at the index
`framesBefore`, and its boxes are the default ones or the declared ones. -/
theorem turn_frame (Atoi : List Char → Int) (IsNumeric : List Char → Bool)
    (lines : List (List Char)) (fuel i : Nat) (s : ScanState) (w : Bool) (q : Nat)
    (j : Nat) (sfin : ScanState) (tq : Turn)
    (hfin : scanLoop Atoi IsNumeric lines fuel i s = .ok (j, sfin))
    (htq : (turns Atoi IsNumeric lines fuel i s).get? q = some tq)
    (hfr : (ReadAnimFrame Atoi IsNumeric tq.line).isSome = true) :
    ∃ f, sfin.a.frames.get? (framesBefore (turns Atoi IsNumeric lines fuel i s) q) = some f ∧
      boxesOf w f = (if flagOf w tq.before = true then defaultOf w tq.before
        else curOf w tq.before) := by
  obtain ⟨_, sp2, _, sp4⟩ := turns_spec Atoi IsNumeric lines fuel i s
  obtain ⟨_, hl, j1, hstep⟩ := sp2 _ _ htq
  have hpre := sp4 q tq j sfin htq hfin
  cases hf : ReadAnimFrame Atoi IsNumeric tq.line with
  | none => rw [hf] at hfr; cases hfr
  | some af =>
    rw [hl] at hf
    rw [scanStep_frame Atoi IsNumeric lines tq.index tq.before af hf] at hstep
    simp only [Outcome.ok.injEq, Prod.mk.injEq] at hstep
    obtain ⟨f, b1, b2, _, _⟩ := frameCase_boxes w af tq.before
      (ReadAnimFrame_Clsn_nil Atoi IsNumeric _ af hf)
    rw [hstep.2] at b1
    refine ⟨f, ?_, b2⟩
    have hfb : framesBefore (turns Atoi IsNumeric lines fuel i s) q =
        tq.before.a.frames.length := by
      unfold framesBefore
      rw [htq]
      rfl
    rw [hfb]
    obtain ⟨rest, hrest⟩ := hpre
    rw [← hrest, b1, List.append_assoc, List.get?_eq_getElem?,
      List.getElem?_append_right (le_refl _)]
    simp

/-! ## Claim on the default collision boxes -/

/-- C13. In the run of `ReadAnimation`, let the turn of number `p` of the `switch` be a
`clsn1default: n` declaration with `n >= 1` (`w = false`; `clsn2default` for `w = true`),
let no turn between `p` and `q` be a `clsn1default` (`clsn2default`) declaration again,
and let turn `q` read a frame.  Then the animation holds that frame, the default boxes
left by turn `p` are the rectangles that the rectangle loop read after the declaration,
and: if every `clsn1` (`clsn2`) declaration between `p` and `q` is followed by a frame
before `q` (the frame has no declaration of its own), `Clsn1()` (`Clsn2()`) of the frame
is the default block of rectangles; if a `clsn1: 0` (`clsn2: 0`) declaration precedes
the frame with only other lines between, `Clsn1()` (`Clsn2()`) of the frame is empty. -/
theorem C13_default_boxes (Atoi : List Char → Int) (IsNumeric : List Char → Bool)
    (lines : List (List Char)) (i j : Nat) (a : Animation) (w : Bool) (p q : Nat) (n : Int)
    (h : ReadAnimation Atoi IsNumeric lines i = .ok (j, a))
    (hpq : p < q) (hq : q < (readTurns Atoi IsNumeric lines i).length)
    (hdef : isDefaultLine w (turnLine (readTurns Atoi IsNumeric lines i) p) = true)
    (hsize : declSize Atoi (turnLine (readTurns Atoi IsNumeric lines i) p) = some n)
    (hn : 1 ≤ n)
    (hno : ∀ r, r < q → p < r → isDefaultLine w (turnLine (readTurns Atoi IsNumeric lines i) r) = false)
    (hfr : (ReadAnimFrame Atoi IsNumeric (turnLine (readTurns Atoi IsNumeric lines i) q)).isSome = true) :
    ∃ f, a.frames.get? (framesBefore (readTurns Atoi IsNumeric lines i) q) = some f ∧
      (∃ fresh k, makeClsn n = some fresh ∧
        clsnRects Atoi lines (n).toNat 0 (turnIndex (readTurns Atoi IsNumeric lines i) p + 1) fresh =
          some (k, defaultAfter w (readTurns Atoi IsNumeric lines i) p)) ∧
      ((∀ r, r < q → p < r → isClsnLine w (turnLine (readTurns Atoi IsNumeric lines i) r) = true →
          ∃ r1, r1 < q ∧ r < r1 ∧
            (ReadAnimFrame Atoi IsNumeric (turnLine (readTurns Atoi IsNumeric lines i) r1)).isSome = true) →
        boxesOf w f = defaultAfter w (readTurns Atoi IsNumeric lines i) p) ∧
      (∀ r, r < q → p < r → isClsnLine w (turnLine (readTurns Atoi IsNumeric lines i) r) = true →
        declSize Atoi (turnLine (readTurns Atoi IsNumeric lines i) r) = some 0 →
        (∀ r1, r1 < q → r < r1 →
          isClsnLine w (turnLine (readTurns Atoi IsNumeric lines i) r1) = false ∧
          ReadAnimFrame Atoi IsNumeric (turnLine (readTurns Atoi IsNumeric lines i) r1) = none) →
        boxesOf w f = []) := by
  obtain ⟨sfin, hscan, rfl⟩ := ReadAnimation_scan Atoi IsNumeric lines i j a h
  rw [finishAnimation_frames]
  unfold readTurns at *
  obtain ⟨tq, htq⟩ := get?_of_lt _ q hq
  obtain ⟨tp, htp⟩ := get?_of_lt (turns Atoi IsNumeric lines (lines.length - i) i initScan) p
    (by omega)
  have hlp := turnLine_eq _ _ _ htp
  have hlq := turnLine_eq _ _ _ htq
  rw [hlp] at hdef hsize
  rw [hlq] at hfr
  have hDp : defaultAfter w (turns Atoi IsNumeric lines (lines.length - i) i initScan) p =
      defaultOf w tp.after := by
    unfold defaultAfter
    rw [htp]
    rfl
  have hIp : turnIndex (turns Atoi IsNumeric lines (lines.length - i) i initScan) p =
      tp.index := by
    unfold turnIndex
    rw [htp]
    rfl
  rw [hDp, hIp]
  have hdc : isClsnLine w tp.line = true ∧
      hasPrefix ['d', 'e', 'f', 'a', 'u', 'l', 't'] (tp.line.drop 5) = true := by
    unfold isDefaultLine at hdef
    simpa using hdef
  obtain ⟨f, hfget, hbox⟩ := turn_frame Atoi IsNumeric lines _ i initScan w q j sfin tq
    hscan htq hfr
  refine ⟨f, hfget, ?_, ?_, ?_⟩
  · obtain ⟨cw, j1, hcase⟩ := turn_decl Atoi IsNumeric lines _ i initScan w p tp htp hdc.1
    obtain ⟨_, hd2⟩ := clsnCase_decl Atoi lines tp.line tp.index tp.before j1 tp.after w cw
      hcase
    obtain ⟨_, _, hd3, hd4⟩ := hd2 n hsize (by omega)
    rw [hd3 hdc.2]
    exact hd4 hn
  · intro hown
    obtain ⟨d, hd⟩ : ∃ d, q = p + 1 + d := ⟨q - p - 1, by omega⟩
    obtain ⟨e1, e2⟩ := turns_inherit Atoi IsNumeric lines _ i initScan w p q n tp htp hdef
      hsize hn hno hown d (by omega) tq (by rw [← hd]; exact htq)
    rw [hbox]
    rcases e2 with (e2 | e2) | ⟨r1, h1, h2, _⟩
    · rw [if_pos e2, e1]
    · by_cases hflag : flagOf w tq.before = true
      · rw [if_pos hflag, e1]
      · rw [if_neg hflag, e2]
    · omega
  · intro r hr1 hr2 hclsn hsz0 hsil
    obtain ⟨tr, htr⟩ := get?_of_lt (turns Atoi IsNumeric lines (lines.length - i) i initScan) r
      (by omega)
    have hlr := turnLine_eq _ _ _ htr
    rw [hlr] at hclsn hsz0
    obtain ⟨cw, j1, hcase⟩ := turn_decl Atoi IsNumeric lines _ i initScan w r tr htr hclsn
    obtain ⟨_, hd2⟩ := clsnCase_decl Atoi lines tr.line tr.index tr.before j1 tr.after w cw
      hcase
    obtain ⟨z1, z2, _, _⟩ := hd2 0 hsz0 (le_refl _)
    obtain ⟨d, hd⟩ : ∃ d, q = r + 1 + d := ⟨q - r - 1, by omega⟩
    obtain ⟨k1, _, k3⟩ := turns_keep Atoi IsNumeric lines _ i initScan w r d
      (fun r1 h1 h2 => hsil r1 (by omega) h1) tr tq htr (by rw [← hd]; exact htq)
    rw [hbox, k3, z1, k1, z2 rfl]
    rfl

set_option maxRecDepth 8000 in
/-- C13 (witness): a `Clsn1Default: 1` block with the rectangle `1,2,3,4`, two frames, a
`Clsn1: 0` declaration and two more frames: the first, second and fourth frames have
`Clsn1() = 1,2,3,4`, the third one, which follows `Clsn1: 0`, has an empty `Clsn1()`. -/
theorem C13_default_boxes_witness :
    (ReadAnimation decAtoi decIsNumeric linesDefault 0 = .ok (7, animDefault) ∧
      0 < 2 ∧
      2 < (readTurns decAtoi decIsNumeric linesDefault 0).length ∧
      isDefaultLine false (turnLine (readTurns decAtoi decIsNumeric linesDefault 0) 0) = true ∧
      declSize decAtoi (turnLine (readTurns decAtoi decIsNumeric linesDefault 0) 0) = some (1 : Int) ∧
      (1 : Int) ≤ 1 ∧
      (∀ r, r < 2 → 0 < r →
        isDefaultLine false (turnLine (readTurns decAtoi decIsNumeric linesDefault 0) r) = false) ∧
      (ReadAnimFrame decAtoi decIsNumeric
        (turnLine (readTurns decAtoi decIsNumeric linesDefault 0) 2)).isSome = true) ∧
    (∃ f, animDefault.frames.get? (framesBefore (readTurns decAtoi decIsNumeric linesDefault 0) 2) = some f ∧
      (∃ fresh k, makeClsn (1 : Int) = some fresh ∧
        clsnRects decAtoi linesDefault ((1 : Int)).toNat 0 (turnIndex (readTurns decAtoi decIsNumeric linesDefault 0) 0 + 1) fresh =
          some (k, defaultAfter false (readTurns decAtoi decIsNumeric linesDefault 0) 0)) ∧
      ((∀ r, r < 2 → 0 < r → isClsnLine false (turnLine (readTurns decAtoi decIsNumeric linesDefault 0) r) = true →
          ∃ r1, r1 < 2 ∧ r < r1 ∧
            (ReadAnimFrame decAtoi decIsNumeric (turnLine (readTurns decAtoi decIsNumeric linesDefault 0) r1)).isSome = true) →
        boxesOf false f = defaultAfter false (readTurns decAtoi decIsNumeric linesDefault 0) 0) ∧
      (∀ r, r < 2 → 0 < r → isClsnLine false (turnLine (readTurns decAtoi decIsNumeric linesDefault 0) r) = true →
        declSize decAtoi (turnLine (readTurns decAtoi decIsNumeric linesDefault 0) r) = some 0 →
        (∀ r1, r1 < 2 → r < r1 →
          isClsnLine false (turnLine (readTurns decAtoi decIsNumeric linesDefault 0) r1) = false ∧
          ReadAnimFrame decAtoi decIsNumeric (turnLine (readTurns decAtoi decIsNumeric linesDefault 0) r1) = none) →
        boxesOf false f = [])) ∧
    animDefault.frames.map AnimFrame.Clsn1 = [[1, 2, 3, 4], [1, 2, 3, 4], [], [1, 2, 3, 4]] ∧
    (readTurns decAtoi decIsNumeric linesDefault 0).map Turn.index = [0, 2, 3, 4, 5, 6] :=
  ⟨by decide, C13_default_boxes decAtoi decIsNumeric linesDefault 0 7 animDefault false 0 2 1
    (by decide) (by decide) (by decide) (by decide) (by decide) (by decide) (by decide)
    (by decide), by decide, by decide⟩

/-! ## The playback invariant -/

/-- In every state on the timeline the current frame exists and `time` is within its
duration. -/
theorem onTrack_frame (s : Animation) (h : s.onTrack) :
    ∃ f, s.frameAt s.current = some f ∧ 0 ≤ s.time ∧ s.time < f.Time ∧
      (if s.sumtime ≥ s.totaltime then s.totaltime - s.looptime else s.sumtime) =
        s.time + sumTime (s.frames.take s.current.toNat) := by
  obtain ⟨hp, hcur, hs0, hs1, hlt, heq⟩ := h
  obtain ⟨hlen, htot, hnz, hlt0, hsum⟩ := positiveTimed_facts s hp
  by_cases hs : s.sumtime ≥ s.totaltime
  · obtain ⟨e1, e2⟩ := heq (by omega)
    obtain ⟨f, hf, _, hm⟩ := frameAt_some s s.current hcur.1 hcur.2
    have hT := hp.2.1 f hm
    refine ⟨f, hf, by omega, by omega, ?_⟩
    rw [if_pos hs, e1, e2, ← hp.2.2.2.2.2.2.1]
    omega
  · obtain ⟨f, hf, t0, t1, hrel⟩ := hlt (by omega)
    exact ⟨f, hf, t0, t1, by rw [if_neg hs]; exact hrel⟩

/-- One call of `Action` in a state on the timeline: it returns a state on the
timeline, in which the position has moved by one tick. -/
theorem Action_onTrack (s : Animation) (h : s.onTrack) :
    ∃ f b, s.frameAt s.current = some f ∧ 0 ≤ s.time ∧ s.time < f.Time ∧
      s.Action = .ok b ∧ b.onTrack ∧
      b.frames = s.frames ∧ b.loopstart = s.loopstart ∧ b.totaltime = s.totaltime ∧
      b.looptime = s.looptime ∧ b.nazotime = s.nazotime ∧
      b.current = (if s.time + 1 ≥ f.Time then
        (if s.current + 1 ≥ (s.frames.length : Int) then s.loopstart else s.current + 1)
        else s.current) ∧
      b.time = (if s.time + 1 ≥ f.Time then 0 else s.time + 1) := by
  obtain ⟨f, hf, t0, t1, hrel⟩ := onTrack_frame s h
  obtain ⟨hp, hcur, hs0, hs1, hlt, heq⟩ := h
  obtain ⟨hlen, htot, hnz, hlt0, hsum⟩ := positiveTimed_facts s hp
  have hp0 := hp
  obtain ⟨hne, hpos, hl0, hl1, htotal, hloopt, hnazo, hfit⟩ := hp
  obtain ⟨g, c, hg, hact, e1, e2, e3, e4, e5, ecur, etime, esum, elp⟩ := Action_pos s hp0 hcur
  have hc0 : (if s.sumtime ≥ s.totaltime then s.loopstart else s.current) = s.current := by
    by_cases hs : s.sumtime ≥ s.totaltime
    · rw [if_pos hs]; exact (heq (by omega)).1.symm
    · rw [if_neg hs]
  have ht0 : (if s.sumtime ≥ s.totaltime then 0 else s.time) = s.time := by
    by_cases hs : s.sumtime ≥ s.totaltime
    · rw [if_pos hs]; exact (heq (by omega)).2.symm
    · rw [if_neg hs]
  rw [hc0] at hg ecur
  rw [ht0] at ecur etime
  rw [hf] at hg
  cases hg
  obtain ⟨_, _, hget, hm⟩ := frameAt_range s _ f hf
  have hS1 := sumTime_take_succ s.frames s.current.toNat f hget
  obtain ⟨bd0, bd1⟩ := sumTime_take_bounds s.frames hpos s.current.toNat
  obtain ⟨_, bd2⟩ := sumTime_take_bounds s.frames hpos (s.current.toNat + 1)
  rw [← htotal] at bd1 bd2
  have hfT : f.Time ≤ s.totaltime := by omega
  have ht32 : int32 (s.time + 1) = s.time + 1 := int32_of_range _ (by omega) (by omega)
  rw [ht32] at ecur etime
  generalize hsig : (if s.sumtime ≥ s.totaltime then s.totaltime - s.looptime
    else s.sumtime) = sig at hrel
  have hsig0 : 0 ≤ sig ∧ sig < s.totaltime := by
    by_cases hs : s.sumtime ≥ s.totaltime
    · rw [if_pos hs] at hsig; omega
    · rw [if_neg hs] at hsig; omega
  have esum1 : c.sumtime = sig + 1 := by
    rw [esum]
    by_cases hs : s.sumtime ≥ s.totaltime
    · rw [if_pos hs] at hsig ⊢
      rw [int32_add_left, hsig]
      exact int32_of_range _ (by omega) (by omega)
    · rw [if_neg hs] at hsig ⊢
      rw [hsig]
      exact int32_of_range _ (by omega) (by omega)
  have hcc : 0 ≤ c.current ∧ c.current < (s.frames.length : Int) := by
    rw [ecur]
    split_ifs <;> omega
  refine ⟨f, c, hf, t0, t1, hact, ?_, e1, e2, e3, e4, e5, ecur, etime⟩
  refine ⟨positiveTimed_congr s c hp0 e1 e2 e3 e4 e5, by rw [e1]; exact hcc,
    by omega, by rw [e3]; omega, ?_, ?_⟩
  · intro hlt1
    rw [esum1, e3] at hlt1
    rw [frameAt_congr s c e1, e1, esum1]
    by_cases hge : s.time + 1 ≥ f.Time
    · rw [if_pos hge] at ecur etime
      have hnext : s.current + 1 < (s.frames.length : Int) := by
        by_contra hcon
        have hlen0 : (s.current.toNat + 1) ≥ s.frames.length := by omega
        have hall : sumTime (s.frames.take (s.current.toNat + 1)) = sumTime s.frames := by
          rw [List.take_of_length_le hlen0]
        omega
      rw [if_neg (by omega)] at ecur
      obtain ⟨f2, hf2, _, hm2⟩ := frameAt_some s (s.current + 1) (by omega) hnext
      have htn : c.current.toNat = s.current.toNat + 1 := by rw [ecur]; omega
      refine ⟨f2, by rw [ecur]; exact hf2, by rw [etime], by rw [etime]; exact hpos f2 hm2, ?_⟩
      rw [htn, etime]
      omega
    · rw [if_neg hge] at ecur etime
      refine ⟨f, by rw [ecur]; exact hf, by rw [etime]; omega, by rw [etime]; omega, ?_⟩
      rw [ecur, etime]
      omega
  · intro heq1
    rw [esum1, e3] at heq1
    have hge : s.time + 1 ≥ f.Time := by omega
    have hend : s.current + 1 ≥ (s.frames.length : Int) := by
      by_contra hcon
      have : s.frames.length - (s.current.toNat + 1) ≥ 1 := by omega
      omega
    rw [if_pos hge] at ecur etime
    rw [if_pos hend] at ecur
    rw [e2]
    exact ⟨ecur, etime⟩

theorem Reset_onTrack (a : Animation) (hp : a.positiveTimed) : a.Reset.onTrack := by
  obtain ⟨hlen, htot, hnz, hlt0, hsum⟩ := positiveTimed_facts a hp
  have hlp : 0 < a.frames.length := List.length_pos.mpr hp.1
  obtain ⟨f, hf, _, hm⟩ := frameAt_some a 0 (le_refl _) (by omega)
  refine ⟨Reset_positiveTimed a hp, ⟨le_refl _, by simp only [Animation.Reset]; omega⟩,
    le_refl _, by simp only [Animation.Reset]; omega, ?_, ?_⟩
  · intro _
    refine ⟨f, hf, le_refl _, hp.2.1 f hm, ?_⟩
    simp [Animation.Reset, sumTime]
  · intro h
    simp only [Animation.Reset] at h
    omega

/-- Every number of calls of `Action` from a state on the timeline returns a state on
the timeline, with the same frame table and timing data. -/
theorem actionN_onTrack (n : Nat) (s : Animation) (h : s.onTrack) :
    ∃ b, actionN n s = .ok b ∧ b.onTrack ∧
      b.frames = s.frames ∧ b.loopstart = s.loopstart ∧ b.totaltime = s.totaltime ∧
      b.looptime = s.looptime ∧ b.nazotime = s.nazotime := by
  induction n with
  | zero => exact ⟨s, rfl, h, rfl, rfl, rfl, rfl, rfl⟩
  | succ n ih =>
    obtain ⟨b, hb, hbt, f1, f2, f3, f4, f5⟩ := ih
    obtain ⟨_, c, _, _, _, hc, hct, e1, e2, e3, e4, e5, _, _⟩ := Action_onTrack b hbt
    refine ⟨c, ?_, hct, by rw [e1, f1], by rw [e2, f2], by rw [e3, f3], by rw [e4, f4],
      by rw [e5, f5]⟩
    simp only [actionN, hb]
    exact hc

/-! ## Claim on the playback invariant -/

/-- C28. For every animation that has frames, all of positive duration, with the timing
data of `ReadAnimation` below `2^31` (`positiveTimed`), every number `n >= 0` of calls
of `Action` from the reset state returns a state with `0 <= sumtime <= totaltime`; if
`sumtime < totaltime` then `0 <= time < frames[current].Time` and `sumtime` is `time`
plus the sum of the durations of the frames before `current`; and if
`sumtime = totaltime` then `current = loopstart` and `time = 0`. -/
theorem C28_playback_invariant (a : Animation) (n : Nat) (hp : a.positiveTimed) :
    ∃ b, actionN n a.Reset = .ok b ∧ 0 ≤ b.sumtime ∧ b.sumtime ≤ a.totaltime ∧
      (b.sumtime < a.totaltime →
        ∃ f, a.frames.get? b.current.toNat = some f ∧ 0 ≤ b.current ∧
          0 ≤ b.time ∧ b.time < f.Time ∧
          b.sumtime = b.time + sumTime (a.frames.take b.current.toNat)) ∧
      (b.sumtime = a.totaltime → b.current = a.loopstart ∧ b.time = 0) := by
  obtain ⟨b, hb, hbt, f1, f2, f3, _, _⟩ := actionN_onTrack n a.Reset (Reset_onTrack a hp)
  obtain ⟨_, hcur, hs0, hs1, hlt, heq⟩ := hbt
  have g1 : b.frames = a.frames := f1
  have g2 : b.loopstart = a.loopstart := f2
  have g3 : b.totaltime = a.totaltime := f3
  refine ⟨b, hb, hs0, by rw [← g3]; exact hs1, ?_, ?_⟩
  · intro hl
    obtain ⟨f, hf, t0, t1, hrel⟩ := hlt (by rw [g3]; exact hl)
    obtain ⟨_, _, hget, _⟩ := frameAt_range b _ f hf
    rw [g1] at hget hrel
    exact ⟨f, hget, hcur.1, t0, t1, hrel⟩
  · intro he
    rw [← g2]
    exact heq (by rw [g3]; exact he)

set_option maxRecDepth 8000 in
/-- C28 (witness): durations `[5, 5, 5]`: after 7 calls the state is `current = 1`,
`time = 2`, `sumtime = 7`; after 15 calls `sumtime = totaltime = 15`, `current = 0`,
`time = 0`; after 22 calls `sumtime = 7` again. -/
theorem C28_playback_invariant_witness :
    animThreeFrames.positiveTimed ∧
    (∃ b, actionN 22 animThreeFrames.Reset = .ok b ∧ 0 ≤ b.sumtime ∧
      b.sumtime ≤ animThreeFrames.totaltime ∧
      (b.sumtime < animThreeFrames.totaltime →
        ∃ f, animThreeFrames.frames.get? b.current.toNat = some f ∧ 0 ≤ b.current ∧
          0 ≤ b.time ∧ b.time < f.Time ∧
          b.sumtime = b.time + sumTime (animThreeFrames.frames.take b.current.toNat)) ∧
      (b.sumtime = animThreeFrames.totaltime →
        b.current = animThreeFrames.loopstart ∧ b.time = 0)) ∧
    Option.map positionOf (actionN 7 animThreeFrames.Reset).val? = some (1, 2, 7, false) ∧
    Option.map positionOf (actionN 15 animThreeFrames.Reset).val? = some (0, 0, 15, true) ∧
    Option.map positionOf (actionN 22 animThreeFrames.Reset).val? = some (1, 2, 7, true) :=
  ⟨by decide, C28_playback_invariant animThreeFrames 22 (by decide), by decide, by decide,
    by decide⟩

/-! ## `AnimElemNo` and the run of `Action` -/

theorem sumTime_drop_cons (fs : List AnimFrame) (c : Nat) (f : AnimFrame)
    (h : fs.get? c = some f) :
    sumTime (fs.drop c) = f.Time + sumTime (fs.drop (c + 1)) := by
  have hlt : c < fs.length := by
    by_contra hc
    rw [List.get?_eq_none.mpr (by omega)] at h
    cases h
  rw [List.get?_eq_getElem?, List.getElem?_eq_getElem hlt] at h
  cases h
  rw [List.drop_eq_getElem_cons hlt, sumTime_cons]

theorem sumTime_mem_le (fs : List AnimFrame) (hpos : ∀ f ∈ fs, 0 < f.Time) (f : AnimFrame)
    (hf : f ∈ fs) : f.Time ≤ sumTime fs := by
  induction fs with
  | nil => cases hf
  | cons g gs ih =>
    rw [sumTime_cons]
    have hg := sumTime_ge_length gs (fun x hx => hpos x (List.mem_cons_of_mem _ hx))
    rcases List.mem_cons.mp hf with h | h
    · rw [h]; omega
    · have := ih (fun x hx => hpos x (List.mem_cons_of_mem _ hx)) h
      have := hpos g (List.mem_cons_self _ _)
      omega

theorem actionN_succ_first (t : Nat) (s : Animation) :
    actionN (t + 1) s =
      match s.Action with
      | .ok b => actionN t b
      | .panic => .panic
      | .fuel => .fuel := by
  rw [Nat.add_comm, actionN_add]
  simp only [actionN]

theorem Max_zero_pos (x : Int) (h : 0 < x) : Max 0 x = x := by
  unfold Max
  rw [if_neg (by omega)]

/-- The forward loop of `AnimElemNo`, when it returns and does not stop on the
`time == oldt` test at its next wrap, returns `1 +` the value of `current` after `t`
calls of `Action`. -/
theorem elemNoFwd_predicts (a : Animation) (t : Nat) :
    ∀ (s : Animation) (k : Nat) (oldt r : Int), s.onTrack →
      s.frames = a.frames → s.loopstart = a.loopstart →
      s.time + t < 2147483648 →
      s.time + t - sumTime (a.frames.drop s.current.toNat) ≠ oldt →
      elemNoFwd a k s.current (s.time + t) oldt = .ok r →
      ∃ b, actionN t s = .ok b ∧ r = 1 + b.current := by
  induction t with
  | zero =>
    intro s k oldt r h g1 g2 hfit hne hr
    obtain ⟨f, c, hf, t0, t1, _⟩ := Action_onTrack s h
    refine ⟨s, rfl, ?_⟩
    cases k with
    | zero => simp only [elemNoFwd] at hr; cases hr
    | succ k =>
      obtain ⟨c0, c1, _, hm⟩ := frameAt_range s _ f hf
      have hlen := (positiveTimed_facts s h.1).1
      have hfit2 := h.1.2.2.2.2.2.2.2
      have hT := h.1.2.1 f hm
      have hfT := sumTime_mem_le s.frames h.1.2.1 f hm
      rw [← h.1.2.2.2.2.1] at hfT
      unfold elemNoFwd at hr
      rw [frameAt_congr s a g1.symm, hf] at hr
      simp only [Nat.cast_zero, add_zero, Max_zero_pos f.Time hT] at hr
      rw [int32_of_range (s.time - f.Time) (by omega) (by omega),
        if_pos (Or.inl (by omega)), int32_of_range _ (by omega) (by omega)] at hr
      cases hr
      omega
  | succ t ih =>
    intro s k oldt r h g1 g2 hfit hne hr
    obtain ⟨f, c, hf, t0, t1, hact, hct, e1, e2, _, _, _, ecur, etime⟩ := Action_onTrack s h
    obtain ⟨c0, c1, hget, hm⟩ := frameAt_range s _ f hf
    have hlen := (positiveTimed_facts s h.1).1
    have hfit2 := h.1.2.2.2.2.2.2.2
    have hT := h.1.2.1 f hm
    have hD := sumTime_drop_cons s.frames s.current.toNat f hget
    rw [g1] at hD
    push_cast at hfit hne hr
    rw [actionN_succ_first, hact]
    simp only []
    by_cases hge : s.time + 1 ≥ f.Time
    · rw [if_pos hge] at ecur etime
      have hteq : s.time + 1 = f.Time := by omega
      cases k with
      | zero => simp only [elemNoFwd] at hr; cases hr
      | succ k =>
        unfold elemNoFwd at hr
        rw [frameAt_congr s a g1.symm, hf] at hr
        simp only [Max_zero_pos f.Time hT] at hr
        have htime : s.time + (↑t + 1) - f.Time = (t : Int) := by omega
        rw [htime, int32_of_range (t : Int) (by omega) (by omega)] at hr
        rw [if_neg (by
          intro hcon
          rcases hcon with hcon | ⟨_, hcon⟩
          · omega
          · omega)] at hr
        rw [int32_of_range (s.current + 1) (by omega) (by omega)] at hr
        by_cases hend : s.current + 1 ≥ (s.frames.length : Int)
        · rw [if_pos hend] at ecur
          have hdrop : sumTime (a.frames.drop (s.current.toNat + 1)) = 0 := by
            rw [List.drop_of_length_le (by rw [← g1]; omega)]
            rfl
          rw [if_pos (by rw [← g1]; exact hend), if_neg (by omega)] at hr
          have hr2 : elemNoFwd a k c.current (c.time + t) t = .ok r := by
            rw [ecur, etime, g2, zero_add]
            exact hr
          refine ih c k t r hct (by rw [e1, g1]) (by rw [e2, g2]) (by rw [etime]; omega) ?_ hr2
          rw [etime, ecur, g2]
          have hlp := (positiveTimed_facts s h.1).2.2.2.1
          rw [h.1.2.2.2.2.2.1, g1, g2] at hlp
          omega
        · rw [if_neg hend] at ecur
          rw [if_neg (by rw [← g1]; exact hend)] at hr
          have hr2 : elemNoFwd a k c.current (c.time + t) oldt = .ok r := by
            rw [ecur, etime, zero_add]
            exact hr
          refine ih c k oldt r hct (by rw [e1, g1]) (by rw [e2, g2]) (by rw [etime]; omega)
            ?_ hr2
          rw [etime, ecur]
          have : (s.current + 1).toNat = s.current.toNat + 1 := by omega
          rw [this]
          omega
    · rw [if_neg hge] at ecur etime
      have hr2 : elemNoFwd a k c.current (c.time + t) oldt = .ok r := by
        rw [ecur, etime]
        have : s.time + 1 + (t : Int) = s.time + (↑t + 1) := by omega
        rw [this]
        exact hr
      refine ih c k oldt r hct (by rw [e1, g1]) (by rw [e2, g2]) (by rw [etime]; omega) ?_ hr2
      rw [etime, ecur]
      omega

/-- The forward loop of `AnimElemNo`, entered with `oldt = 0` at an offset that ends
exactly with the last frame, returns the frame count, while `Action` is back at the loop
start after that many calls. -/
theorem elemNoFwd_exact (a : Animation) (t : Nat) :
    ∀ (s : Animation) (k : Nat) (r : Int), s.onTrack →
      s.frames = a.frames → s.loopstart = a.loopstart →
      s.time + t < 2147483648 →
      s.time + t = sumTime (a.frames.drop s.current.toNat) →
      elemNoFwd a k s.current (s.time + t) 0 = .ok r →
      r = a.frames.length ∧ ∃ b, actionN t s = .ok b ∧ b.current = a.loopstart := by
  induction t with
  | zero =>
    intro s k r h g1 g2 hfit heq hr
    obtain ⟨f, c, hf, t0, t1, _⟩ := Action_onTrack s h
    obtain ⟨c0, c1, hget, hm⟩ := frameAt_range s _ f hf
    have hD := sumTime_drop_cons s.frames s.current.toNat f hget
    have hd := sumTime_ge_length (s.frames.drop (s.current.toNat + 1))
      (fun g hg => h.1.2.1 g (List.mem_of_mem_drop hg))
    rw [g1] at hD hd
    simp only [Nat.cast_zero, add_zero] at heq
    omega
  | succ t ih =>
    intro s k r h g1 g2 hfit heq hr
    obtain ⟨f, c, hf, t0, t1, hact, hct, e1, e2, _, _, _, ecur, etime⟩ := Action_onTrack s h
    obtain ⟨c0, c1, hget, hm⟩ := frameAt_range s _ f hf
    have hlen := (positiveTimed_facts s h.1).1
    have hfit2 := h.1.2.2.2.2.2.2.2
    have hT := h.1.2.1 f hm
    have hD := sumTime_drop_cons s.frames s.current.toNat f hget
    have hd := sumTime_ge_length (s.frames.drop (s.current.toNat + 1))
      (fun g hg => h.1.2.1 g (List.mem_of_mem_drop hg))
    rw [g1] at hD hd
    push_cast at hfit heq hr
    rw [actionN_succ_first, hact]
    simp only []
    by_cases hge : s.time + 1 ≥ f.Time
    · rw [if_pos hge] at ecur etime
      have hteq : s.time + 1 = f.Time := by omega
      cases k with
      | zero => simp only [elemNoFwd] at hr; cases hr
      | succ k =>
        unfold elemNoFwd at hr
        rw [frameAt_congr s a g1.symm, hf] at hr
        simp only [Max_zero_pos f.Time hT] at hr
        have htime : s.time + (↑t + 1) - f.Time = (t : Int) := by omega
        rw [htime, int32_of_range (t : Int) (by omega) (by omega)] at hr
        rw [if_neg (by
          intro hcon
          rcases hcon with hcon | ⟨_, hcon⟩
          · omega
          · omega)] at hr
        rw [int32_of_range (s.current + 1) (by omega) (by omega)] at hr
        by_cases hend : s.current + 1 ≥ (s.frames.length : Int)
        · rw [if_pos hend] at ecur
          have hdrop : sumTime (a.frames.drop (s.current.toNat + 1)) = 0 := by
            rw [List.drop_of_length_le (by rw [← g1]; omega)]
            rfl
          have ht0 : t = 0 := by omega
          subst ht0
          rw [if_pos (by rw [← g1]; exact hend), if_pos (by simp)] at hr
          cases hr
          exact ⟨rfl, c, rfl, by rw [ecur, g2]⟩
        · rw [if_neg hend] at ecur
          rw [if_neg (by rw [← g1]; exact hend)] at hr
          have hr2 : elemNoFwd a k c.current (c.time + t) 0 = .ok r := by
            rw [ecur, etime, zero_add]
            exact hr
          refine ih c k r hct (by rw [e1, g1]) (by rw [e2, g2]) (by rw [etime]; omega) ?_ hr2
          rw [etime, ecur]
          have : (s.current + 1).toNat = s.current.toNat + 1 := by omega
          rw [this]
          omega
    · rw [if_neg hge] at ecur etime
      have hr2 : elemNoFwd a k c.current (c.time + t) 0 = .ok r := by
        rw [ecur, etime]
        have : s.time + 1 + (t : Int) = s.time + (↑t + 1) := by omega
        rw [this]
        exact hr
      refine ih c k r hct (by rw [e1, g1]) (by rw [e2, g2]) (by rw [etime]; omega) ?_ hr2
      rw [etime, ecur]
      omega

/-! ## Claim on `AnimElemNo` and `Action` -/

set_option maxRecDepth 8000 in
/-- C21 (failing input). Durations `[5, 5, 5]` with `loopstart = 0`, reset state,
`t = 15`: `AnimElemNo(15)` returns `3`, while after 15 calls of `Action` `current` is
`0`, so `1 + current = 1`.  The test `time == oldt` of the forward walk meets the
initial `oldt = 0` at the first wrap; one and two loops later, at `t = 30` and
`t = 45`, the same walk wraps and returns `1`, as `Action` does. -/
theorem C21_counterexample :
    animThreeFrames.positiveTimed ∧
    animThreeFrames.Reset.AnimElemNo 15 = .ok 3 ∧
    Option.map positionOf (actionN 15 animThreeFrames.Reset).val? = some (0, 0, 15, true) ∧
    animThreeFrames.Reset.AnimElemNo 30 = .ok 1 ∧
    animThreeFrames.Reset.AnimElemNo 45 = .ok 1 ∧
    Option.map positionOf (actionN 30 animThreeFrames.Reset).val? = some (0, 0, 15, true) := by
  decide

/-- C21 (behaviour of the code). For every animation that has frames, all of positive duration, with
the timing data of `ReadAnimation` below `2^31` (`positiveTimed`), in every state `s`
reached from the reset state by `n` calls of `Action`, and for every `t >= 0` with
`time + t < 2^31`: `t` further calls of `Action` return a state `b`, and
`AnimElemNo(t) = 1 + b.current`, unless `time + t` is exactly the duration left from
the start of the current frame to the end of the last frame; in that case
`AnimElemNo(t)` is the frame count, while `b.current = loopstart`. -/
theorem C21_AnimElemNo_predicts (a : Animation) (n t : Nat) (s : Animation)
    (hp : a.positiveTimed) (hs : actionN n a.Reset = .ok s)
    (hfit : s.time + (t : Int) < 2147483648) :
    ∃ b, actionN t s = .ok b ∧
      (s.time + (t : Int) ≠ sumTime (a.frames.drop s.current.toNat) →
        s.AnimElemNo t = .ok (1 + b.current)) ∧
      (s.time + (t : Int) = sumTime (a.frames.drop s.current.toNat) →
        s.AnimElemNo t = .ok (a.frames.length : Int) ∧ b.current = a.loopstart) := by
  obtain ⟨s1, hs1, htr, g1, g2, _⟩ := actionN_onTrack n a.Reset (Reset_onTrack a hp)
  rw [hs] at hs1
  cases hs1
  have g1a : s.frames = a.frames := g1
  have g2a : s.loopstart = a.loopstart := g2
  obtain ⟨b, hb, _⟩ := actionN_onTrack t s htr
  obtain ⟨f, _, hf, t0, t1, _⟩ := Action_onTrack s htr
  obtain ⟨c0, c1, hget, hm⟩ := frameAt_range s _ f hf
  have hps := htr.1
  have hlen := (positiveTimed_facts s hps).1
  have hfit2 := hps.2.2.2.2.2.2.2
  have hD := sumTime_drop_cons s.frames s.current.toNat f hget
  have hd := sumTime_ge_length (s.frames.drop (s.current.toNat + 1))
    (fun g hg => hps.2.1 g (List.mem_of_mem_drop hg))
  have hlp : s.frames.length > 0 := by omega
  refine ⟨b, hb, ?_⟩
  rw [← g1a, ← g2a]
  cases t with
  | zero =>
    simp only [actionN, Outcome.ok.injEq] at hb
    subst hb
    have h32 : int32 (0 + s.time) = s.time := by
      rw [zero_add]; exact int32_of_range _ (by omega) (by omega)
    have hfu : elemNoFuel s = (elemNoFuel s - 1) + 1 := by unfold elemNoFuel; omega
    have hval : s.AnimElemNo ((0 : Nat) : Int) = .ok (1 + s.current) := by
      unfold Animation.AnimElemNo
      rw [if_pos hlp]
      simp only [Nat.cast_zero, le_refl, if_true, h32]
      rw [hfu]
      unfold elemNoBack
      rw [if_pos t0, int32_of_range _ (by omega) (by omega), add_comm]
    refine ⟨fun _ => hval, ?_⟩
    intro heq
    simp only [Nat.cast_zero, add_zero] at heq
    omega
  | succ t =>
    have hTb : ∀ g ∈ s.frames, g.Time < 2147483648 := by
      intro g hg
      have := sumTime_mem_le s.frames hps.2.1 g hg
      rw [← hps.2.2.2.2.1] at this
      omega
    have h32 : int32 (((t + 1 : Nat) : Int) + s.time) = s.time + ((t + 1 : Nat) : Int) := by
      rw [add_comm]; exact int32_of_range _ (by omega) hfit
    have hmul : (s.time + ((t + 1 : Nat) : Int)) * ((s.frames.length : Int) + 1) ≤
        2147483647 * ((s.frames.length : Int) + 1) :=
      Int.mul_le_mul_of_nonneg_right (by omega) (by omega)
    obtain ⟨r, hr, _, _⟩ := elemNoFwd_returns s (by omega) ⟨hps.2.2.1, hps.2.2.2.1⟩ hTb
      (elemNoFuel s) s.current (s.time + ((t + 1 : Nat) : Int)) 0 c0 c1 (by omega) hfit
      (by
        unfold elemNoFuel
        push_cast at hmul ⊢
        split_ifs <;> omega)
    have hval : s.AnimElemNo ((t + 1 : Nat) : Int) = .ok r := by
      unfold Animation.AnimElemNo
      rw [if_pos hlp, if_neg (by push_cast; omega), h32]
      exact hr
    rw [hval]
    constructor
    · intro hne
      obtain ⟨b1, hb1, hr1⟩ := elemNoFwd_predicts s (t + 1) s (elemNoFuel s) 0 r htr rfl rfl
        hfit (by omega) hr
      rw [hb] at hb1
      cases hb1
      rw [hr1]
    · intro heq
      obtain ⟨hr1, b1, hb1, hc1⟩ := elemNoFwd_exact s (t + 1) s (elemNoFuel s) r htr rfl rfl
        hfit heq hr
      rw [hb] at hb1
      cases hb1
      rw [hr1]
      exact ⟨rfl, hc1⟩

set_option maxRecDepth 8000 in
/-- C21 (witness): durations `[5, 5, 5]`, the state after 7 calls (`current = 1`,
`time = 2`), `t = 5`: `AnimElemNo(5) = 3` and `current = 2` after 5 further calls. -/
theorem C21_AnimElemNo_predicts_witness :
    (animThreeFrames.positiveTimed ∧ actionN 7 animThreeFrames.Reset = .ok animSevenTicks ∧
      animSevenTicks.time + ((5 : Nat) : Int) < 2147483648) ∧
    (∃ b, actionN 5 animSevenTicks = .ok b ∧
      (animSevenTicks.time + ((5 : Nat) : Int) ≠
          sumTime (animThreeFrames.frames.drop animSevenTicks.current.toNat) →
        animSevenTicks.AnimElemNo (5 : Nat) = .ok (1 + b.current)) ∧
      (animSevenTicks.time + ((5 : Nat) : Int) =
          sumTime (animThreeFrames.frames.drop animSevenTicks.current.toNat) →
        animSevenTicks.AnimElemNo (5 : Nat) = .ok (animThreeFrames.frames.length : Int) ∧
        b.current = animThreeFrames.loopstart)) ∧
    animSevenTicks.AnimElemNo 5 = .ok 3 ∧
    Option.map positionOf (actionN 5 animSevenTicks).val? = some (2, 2, 12, false) :=
  ⟨by decide, C21_AnimElemNo_predicts animThreeFrames 7 5 animSevenTicks (by decide)
    (by decide) (by decide), by decide, by decide⟩

/-! ## The value `totaltime - looptime` -/

/-- The totals loop keeps `totaltime - looptime` equal, in `int32` arithmetic, to the
sum `tmp` of the durations of the frames before the loop start, also across the reset
made at a frame of duration `-1`. -/
theorem totalsLoop_diff (L : Int) (fs : List AnimFrame) :
    ∀ (i : Int) (t : Totals), int32 (t.totaltime - t.looptime) = int32 t.tmp →
      int32 ((totalsLoop L fs i t).totaltime - (totalsLoop L fs i t).looptime) =
        int32 (t.tmp + sumTime (fs.take (L - i).toNat)) := by
  induction fs with
  | nil =>
    intro i t h
    simp only [totalsLoop, List.take_nil, sumTime, List.map_nil, List.sum_nil, add_zero]
    exact h
  | cons f fs ih =>
    intro i t h
    unfold totalsLoop
    simp only []
    by_cases hf : f.Time = -1
    · simp only [if_pos hf]
      by_cases hi : i < L
      · simp only [if_pos hi]
        obtain ⟨k, hk⟩ : ∃ k : Nat, (L - i).toNat = k + 1 := ⟨(L - i).toNat - 1, by omega⟩
        have hk2 : (L - (i + 1)).toNat = k := by omega
        rw [ih (i + 1) _ (by simp only []; unfold int32; omega)]
        simp only [hk, hk2, List.take_succ_cons, sumTime_cons]
        unfold int32
        omega
      · simp only [if_neg hi]
        have hk : (L - i).toNat = 0 := by omega
        have hk2 : (L - (i + 1)).toNat = 0 := by omega
        rw [ih (i + 1) _ (by simp only []; unfold int32; omega)]
        simp only [hk, hk2, List.take_zero]
    · simp only [if_neg hf]
      by_cases hi : i < L
      · simp only [if_pos hi]
        obtain ⟨k, hk⟩ : ∃ k : Nat, (L - i).toNat = k + 1 := ⟨(L - i).toNat - 1, by omega⟩
        have hk2 : (L - (i + 1)).toNat = k := by omega
        rw [ih (i + 1) _ (by simp only []; unfold int32 at h ⊢; omega)]
        simp only [hk, hk2, List.take_succ_cons, sumTime_cons]
        unfold int32
        omega
      · simp only [if_neg hi]
        have hk : (L - i).toNat = 0 := by omega
        have hk2 : (L - (i + 1)).toNat = 0 := by omega
        rw [ih (i + 1) _ (by simp only []; unfold int32 at h ⊢; omega)]
        simp only [hk, hk2, List.take_zero]

/-! ## Claim on the value `totaltime - looptime` -/

/-- C30. For every animation with frames that `ReadAnimation` returns and whose last
frame has a duration other than `-1`: `totaltime - looptime` is, in `int32` wrap-around
arithmetic, the sum of `frames[i].Time` over all `i < loopstart`, whatever the
durations of the earlier frames (`-1` included); and in every playback state of the
animation with `totaltime != -1` and `sumtime >= totaltime`, the last statements of
`Action` leave `sumtime` at that sum plus one. -/
theorem C30_totaltime_minus_looptime (Atoi : List Char → Int)
    (IsNumeric : List Char → Bool) (lines : List (List Char)) (i j : Nat) (a : Animation)
    (h : ReadAnimation Atoi IsNumeric lines i = .ok (j, a))
    (hne : a.frames ≠ [])
    (hlast : Option.map AnimFrame.Time a.frames.getLast? ≠ some (-1)) :
    int32 (a.totaltime - a.looptime) = int32 (sumTime (a.frames.take a.loopstart.toNat)) ∧
    ∀ b : Animation, b.totaltime = a.totaltime → b.looptime = a.looptime →
      b.totaltime ≠ -1 → b.sumtime ≥ b.totaltime →
      b.countTick.sumtime = int32 (sumTime (a.frames.take a.loopstart.toNat) + 1) := by
  obtain ⟨s, rfl, _, z1, z2, z3⟩ := ReadAnimation_ok Atoi IsNumeric lines i j a h
  rw [finishAnimation_frames] at hne hlast ⊢
  have hl0 : ¬ s.a.frames.length = 0 := fun h0 => hne (List.length_eq_zero.mp h0)
  obtain ⟨e1, e2, _⟩ := finishAnimation_totals s z1 z2 z3 hl0 hlast
  have hd := totalsLoop_diff (finishAnimation s).loopstart s.a.frames 0
    { totaltime := 0, looptime := 0, nazotime := 0, tmp := 0 } (by decide)
  simp only [sub_zero, zero_add] at hd
  rw [← e1, ← e2] at hd
  refine ⟨hd, ?_⟩
  intro b g1 g2 hb1 hb2
  obtain ⟨_, _, _, _, _, _, _, hs, _⟩ := countTick_spec b hb1
  rw [hs, if_pos hb2, g1, g2, int32_add_left]
  unfold int32 at hd ⊢
  omega

/-- C30 (witness): durations `[3, -1, 4]` with `loopstart = 1`: `totaltime = 3`,
`looptime = 0`, and `totaltime - looptime = 3` is the duration of the frame before the
loop start. -/
theorem C30_totaltime_minus_looptime_witness :
    (ReadAnimation decAtoi decIsNumeric linesMidHold 0 = .ok (4, animMidHold) ∧
      animMidHold.frames ≠ [] ∧
      Option.map AnimFrame.Time animMidHold.frames.getLast? ≠ some (-1)) ∧
    (int32 (animMidHold.totaltime - animMidHold.looptime) =
        int32 (sumTime (animMidHold.frames.take animMidHold.loopstart.toNat)) ∧
      ∀ b : Animation, b.totaltime = animMidHold.totaltime →
        b.looptime = animMidHold.looptime →
        b.totaltime ≠ -1 → b.sumtime ≥ b.totaltime →
        b.countTick.sumtime =
          int32 (sumTime (animMidHold.frames.take animMidHold.loopstart.toNat) + 1)) ∧
    timingOf animMidHold = ([3, -1, 4], 1, 3, 0, 0) :=
  ⟨by decide, C30_totaltime_minus_looptime decAtoi decIsNumeric linesMidHold 0 4 animMidHold
    (by decide) (by decide) (by decide), by decide⟩

/-! ## `Action` keeps the indices in range -/

/-- The loop of the closure `next` of `Action`, started below the frame count with
enough iterations left, returns with `current` moved forward, at most to the frame
count; it changes no other field. -/
theorem nextLoop_ok (k : Nat) :
    ∀ (a : Animation), (a.frames.length : Int) < 2147483648 →
      -1 ≤ a.current → a.current < a.frames.length →
      (a.frames.length : Int) - a.current ≤ k →
      ∃ b, nextLoop k a = .ok b ∧ b.frames = a.frames ∧ b.loopstart = a.loopstart ∧
        b.drawidx = a.drawidx ∧ a.current < b.current ∧ b.current ≤ a.frames.length := by
  induction k with
  | zero => intro a _ _ h1 h2; simp only [Nat.cast_zero] at h2; omega
  | succ k ih =>
    intro a hlen h0 h1 h2
    push_cast at h2
    have h32 : int32 (a.current + 1) = a.current + 1 := int32_of_range _ (by omega) (by omega)
    unfold nextLoop
    simp only [h32]
    by_cases hhold : a.totaltime = -1 ∧ a.current + 1 = (a.frames.length : Int) - 1
    · rw [if_pos hhold]
      exact ⟨_, rfl, rfl, rfl, rfl, by simp only []; omega, by simp only []; omega⟩
    rw [if_neg hhold]
    by_cases hend : a.current + 1 ≥ (a.frames.length : Int)
    · rw [if_pos hend]
      exact ⟨_, rfl, rfl, rfl, rfl, by simp only []; omega, by simp only []; omega⟩
    rw [if_neg hend]
    obtain ⟨f, hf, _⟩ := frameAt_some a (a.current + 1) (by omega) (by omega)
    have hf2 : Animation.frameAt
        { a with
          current := a.current + 1 } (a.current + 1) = some f :=
      (frameAt_congr a _ rfl _).trans hf
    rw [hf2]
    simp only []
    by_cases hT : f.Time > 0
    · rw [if_pos hT]
      exact ⟨_, rfl, rfl, rfl, rfl, by simp only []; omega, by simp only []; omega⟩
    · rw [if_neg hT]
      obtain ⟨b, hb, e1, e2, e3, e4, e5⟩ := ih
        { a with
          current := a.current + 1 } hlen (by simp only []; omega) (by simp only []; omega)
        (by simp only []; omega)
      exact ⟨b, hb, e1, e2, e3, by simp only [] at e4; omega, e5⟩

/-- The closure `next` of `Action`, called with `current` a frame index, returns with
`current` not moved back and at most the frame count. -/
theorem next_ok (a : Animation) (hlen : (a.frames.length : Int) < 2147483648)
    (hcur : 0 ≤ a.current ∧ a.current < a.frames.length) :
    ∃ b, a.next = .ok b ∧ b.frames = a.frames ∧ b.loopstart = a.loopstart ∧
      b.drawidx = a.drawidx ∧ a.current ≤ b.current ∧ b.current ≤ a.frames.length := by
  unfold Animation.next
  by_cases hc : a.totaltime ≠ -1 ∨ a.current < (a.frames.length : Int) - 1
  · rw [if_pos hc]
    obtain ⟨b, hb, e1, e2, e3, e4, e5⟩ := nextLoop_ok
      (((a.frames.length : Int) - a.current).toNat + 1)
      { a with
        time := 0, newframe := true } hlen (by simp only []; omega) hcur.2
      (by simp only []; push_cast; omega)
    exact ⟨b, hb, e1, e2, e3, by simp only [] at e4; omega, e5⟩
  · rw [if_neg hc]
    exact ⟨a, rfl, rfl, rfl, rfl, le_refl _, by omega⟩

/-- The last statements of `Action` change `sumtime` and `loopend` only. -/
theorem countTick_same (b : Animation) :
    b.countTick.frames = b.frames ∧ b.countTick.loopstart = b.loopstart ∧
    b.countTick.current = b.current ∧ b.countTick.drawidx = b.drawidx := by
  unfold Animation.countTick
  simp only []
  split_ifs <;> exact ⟨rfl, rfl, rfl, rfl⟩

/-- The part of `Action` after the first call of `next` returns, with `current` a frame
index. -/
theorem actionTail_ok (a : Animation) (hlen : (a.frames.length : Int) < 2147483648)
    (hloop : 0 ≤ a.loopstart ∧ a.loopstart < a.frames.length)
    (hcur : 0 ≤ a.current ∧ a.current ≤ a.frames.length) :
    ∃ b, a.actionTail = .ok b ∧ b.frames = a.frames ∧ b.loopstart = a.loopstart ∧
      b.drawidx = a.drawidx ∧ 0 ≤ b.current ∧ b.current < a.frames.length := by
  have fin : ∀ r : Animation, r.frames = a.frames → r.loopstart = a.loopstart →
      r.drawidx = a.drawidx → 0 ≤ r.current → r.current < a.frames.length →
      ∃ b, (Outcome.ok r.countTick : Outcome Animation) = .ok b ∧ b.frames = a.frames ∧
        b.loopstart = a.loopstart ∧ b.drawidx = a.drawidx ∧ 0 ≤ b.current ∧
        b.current < a.frames.length := by
    intro r e1 e2 e3 e4 e5
    obtain ⟨g1, g2, g3, g4⟩ := countTick_same r
    exact ⟨_, rfl, by rw [g1, e1], by rw [g2, e2], by rw [g4, e3], by rw [g3]; exact e4,
      by rw [g3]; exact e5⟩
  unfold Animation.actionTail
  by_cases hc : a.current < (a.frames.length : Int)
  · rw [if_pos hc]
    obtain ⟨f, hf, _⟩ := frameAt_some a a.current hcur.1 hc
    have hf2 : Animation.frameAt
        { a with
          time := int32 (a.time + 1) } a.current = some f :=
      (frameAt_congr a _ rfl _).trans hf
    simp only [hf2]
    by_cases hge : int32 (a.time + 1) ≥ f.Time
    · rw [if_pos hge]
      obtain ⟨c, hcn, e1, e2, e3, e4, e5⟩ := next_ok
        { a with
          time := int32 (a.time + 1) } hlen ⟨hcur.1, hc⟩
      rw [hcn]
      simp only []
      simp only [] at e1 e2 e3 e4 e5
      by_cases hend : c.current ≥ (c.frames.length : Int)
      · rw [if_pos hend]
        exact fin _ e1 e2 e3 (by simp only []; rw [e2]; exact hloop.1)
          (by simp only []; rw [e2]; exact hloop.2)
      · rw [if_neg hend]
        rw [e1] at hend
        exact fin _ e1 e2 e3 (by omega) (by omega)
    · rw [if_neg hge]
      exact fin _ rfl rfl rfl hcur.1 hc
  · rw [if_neg hc]
    exact fin _ rfl rfl rfl hloop.1 hloop.2

/-- On a non-empty animation whose `current` and `loopstart` are frame indices,
`Action` returns, and leaves `current` and `drawidx` frame indices. -/
theorem Action_ok (a : Animation) (hne : a.frames ≠ [])
    (hlen : (a.frames.length : Int) < 2147483648)
    (hloop : 0 ≤ a.loopstart ∧ a.loopstart < a.frames.length)
    (hcur : 0 ≤ a.current ∧ a.current < a.frames.length) :
    ∃ b, a.Action = .ok b ∧ b.frames = a.frames ∧ b.loopstart = a.loopstart ∧
      (0 ≤ b.current ∧ b.current < a.frames.length) ∧
      (0 ≤ b.drawidx ∧ b.drawidx < a.frames.length) := by
  have hl : ¬ a.frames.length = 0 := fun h => hne (List.length_eq_zero.mp h)
  have hup := UpdateSprite_ok a hne hlen hloop hcur
  obtain ⟨s1, s2, _⟩ := updateCurrent_same a
  obtain ⟨r0, r1⟩ := updateCurrent_range a hne hlen hcur
  generalize hu : ({ a.updateCurrent with
    newframe := false, drawidx := a.updateCurrent.current } : Animation) = u at hup
  have u1 : u.frames = a.frames := by rw [← hu]; exact s1
  have u2 : u.loopstart = a.loopstart := by rw [← hu]; exact s2
  have u3 : u.current = a.updateCurrent.current := by rw [← hu]
  have u4 : u.drawidx = a.updateCurrent.current := by rw [← hu]
  obtain ⟨f, hf, _⟩ := frameAt_some u u.current (by rw [u3]; exact r0)
    (by rw [u1, u3]; exact r1)
  unfold Animation.Action
  rw [if_neg (fun h => hne h.1), if_neg hl, hup]
  simp only [hf]
  by_cases hT : f.Time ≤ 0
  · rw [if_pos hT]
    obtain ⟨c, hc, e1, e2, e3, e4, e5⟩ := next_ok u (by rw [u1]; exact hlen)
      ⟨by rw [u3]; exact r0, by rw [u1, u3]; exact r1⟩
    rw [hc]
    simp only []
    obtain ⟨b, hb, g1, g2, g3, g4, g5⟩ := actionTail_ok c (by rw [e1, u1]; exact hlen)
      (by rw [e1, e2, u1, u2]; exact hloop) ⟨by rw [u3] at e4; omega, by rw [e1]; exact e5⟩
    refine ⟨b, hb, by rw [g1, e1, u1], by rw [g2, e2, u2], ⟨g4, by rw [← u1, ← e1]; exact g5⟩,
      ?_⟩
    rw [g3, e3, u4]
    exact ⟨r0, r1⟩
  · rw [if_neg hT]
    obtain ⟨b, hb, g1, g2, g3, g4, g5⟩ := actionTail_ok u (by rw [u1]; exact hlen)
      (by rw [u1, u2]; exact hloop) ⟨by rw [u3]; exact r0, by rw [u1, u3]; omega⟩
    refine ⟨b, hb, by rw [g1, u1], by rw [g2, u2], ⟨g4, by rw [← u1]; exact g5⟩, ?_⟩
    rw [g3, u4]
    exact ⟨r0, r1⟩

/-- After `SetAnimElem` on a non-empty animation `drawidx` is `current`. -/
theorem SetAnimElem_drawidx (a : Animation) (N : Int) (b : Animation) (hne : a.frames ≠ [])
    (h : a.SetAnimElem N = .ok b) : b.drawidx = b.current := by
  have hl : ∀ x : Animation, x.frames = a.frames → ¬ x.frames.length = 0 := by
    intro x hx h0
    rw [hx] at h0
    exact hne (List.length_eq_zero.mp h0)
  have hup : ∀ x y : Animation, x.UpdateSprite = .ok y → x.frames = a.frames →
      y.drawidx = y.current := by
    intro x y hy hx
    unfold Animation.UpdateSprite at hy
    rw [if_neg (hl x hx)] at hy
    simp only [] at hy
    cases hfa : x.updateCurrent.frameAt x.updateCurrent.current with
    | none => rw [hfa] at hy; cases hy
    | some f =>
      rw [hfa] at hy
      simp only [] at hy
      split_ifs at hy <;> (cases hy; rfl)
  unfold Animation.SetAnimElem at h
  simp only [] at h
  revert h
  generalize hx : (if Max 0 (int32 (N - 1)) ≥ (a.frames.length : Int) then
    ({ a with current := 0 } : Animation)
    else { a with current := Max 0 (int32 (N - 1)) }) = x
  have hxf : x.frames = a.frames := by
    rw [← hx]; split_ifs <;> rfl
  intro h
  cases hu : Animation.UpdateSprite
      { x with
        drawidx := x.current, time := 0, newframe := true } with
  | panic => rw [hu] at h; cases h
  | fuel => rw [hu] at h; cases h
  | ok y =>
    have hd := hup _ y hu hxf
    rw [hu] at h
    simp only [] at h
    cases ht : Animation.AnimElemTime
        { y with
          loopend := false, sumtime := 0 } (int32 (y.current + 1)) with
    | panic => rw [ht] at h; cases h
    | fuel => rw [ht] at h; cases h
    | ok t =>
      rw [ht] at h
      simp only [Outcome.ok.injEq] at h
      rw [← h]
      exact hd

/-! ## Claim on the index bounds -/

/-- C29. For every non-empty animation with `0 <= loopstart < len(frames)` and
`0 <= current < len(frames)` (the frame count an `int32` value): `Action` returns,
`SetAnimElem(e)` returns for every `e`, and after each of them, and after `animSeek(e)`
for every `e`, `0 <= current < len(frames)`; after `Action` and `SetAnimElem` also
`0 <= drawidx < len(frames)`. -/
theorem C29_indices_stay_in_range (a : Animation) (e : Int) (hne : a.frames ≠ [])
    (hlen : (a.frames.length : Int) < 2147483648)
    (hloop : 0 ≤ a.loopstart ∧ a.loopstart < a.frames.length)
    (hcur : 0 ≤ a.current ∧ a.current < a.frames.length) :
    (∃ b, a.Action = .ok b ∧ b.frames = a.frames ∧
      (0 ≤ b.current ∧ b.current < a.frames.length) ∧
      (0 ≤ b.drawidx ∧ b.drawidx < a.frames.length)) ∧
    (∃ b, a.SetAnimElem e = .ok b ∧ b.frames = a.frames ∧
      (0 ≤ b.current ∧ b.current < a.frames.length) ∧
      (0 ≤ b.drawidx ∧ b.drawidx < a.frames.length)) ∧
    ((a.animSeek e).frames = a.frames ∧
      0 ≤ (a.animSeek e).current ∧ (a.animSeek e).current < a.frames.length) := by
  refine ⟨?_, ?_, ?_⟩
  · obtain ⟨b, hb, e1, _, e3, e4⟩ := Action_ok a hne hlen hloop hcur
    exact ⟨b, hb, e1, e3, e4⟩
  · obtain ⟨b, hb, e1, e2, _⟩ := SetAnimElem_spec a e hne hlen hloop
    have hd := SetAnimElem_drawidx a e b hne hb
    exact ⟨b, hb, e1, e2, by rw [hd]; exact e2⟩
  · obtain ⟨r0, r1⟩ := animSeek_range a e hne hlen
    exact ⟨rfl, r0, r1⟩

set_option maxRecDepth 8000 in
/-- C29 (witness): durations `[10, 5, -1]` with `loopstart = 1`, the state holding on
the last frame, `e = 7`. -/
theorem C29_indices_stay_in_range_witness :
    (animHeld.frames ≠ [] ∧ (animHeld.frames.length : Int) < 2147483648 ∧
      (0 ≤ animHeld.loopstart ∧ animHeld.loopstart < animHeld.frames.length) ∧
      (0 ≤ animHeld.current ∧ animHeld.current < animHeld.frames.length)) ∧
    ((∃ b, animHeld.Action = .ok b ∧ b.frames = animHeld.frames ∧
      (0 ≤ b.current ∧ b.current < animHeld.frames.length) ∧
      (0 ≤ b.drawidx ∧ b.drawidx < animHeld.frames.length)) ∧
    (∃ b, animHeld.SetAnimElem 7 = .ok b ∧ b.frames = animHeld.frames ∧
      (0 ≤ b.current ∧ b.current < animHeld.frames.length) ∧
      (0 ≤ b.drawidx ∧ b.drawidx < animHeld.frames.length)) ∧
    ((animHeld.animSeek 7).frames = animHeld.frames ∧
      0 ≤ (animHeld.animSeek 7).current ∧
      (animHeld.animSeek 7).current < animHeld.frames.length)) ∧
    Option.map positionOf animHeld.Action.val? = some (2, 1, 16, false) ∧
    Option.map positionOf (animHeld.SetAnimElem 7).val? = some (0, 0, 0, false) ∧
    (animHeld.animSeek 7).current = 2 :=
  ⟨by decide, C29_indices_stay_in_range animHeld 7 (by decide) (by decide) (by decide)
    (by decide), by decide, by decide, by decide⟩

/-! ## The `nil` slice of frames -/

theorem scanStep_nilFrames (Atoi : List Char → Int) (IsNumeric : List Char → Bool)
    (lines : List (List Char)) (i : Nat) (s : ScanState) (j : Nat) (s1 : ScanState)
    (hi : i < lines.length) (hp : s.a.frames = [] → s.a.nilFrames = true)
    (h : scanStep Atoi IsNumeric lines i s = .ok (j, s1)) :
    s1.a.frames = [] → s1.a.nilFrames = true := by
  cases hf : ReadAnimFrame Atoi IsNumeric (normLine (lines.getD i [])) with
  | some af =>
    rw [scanStep_frame Atoi IsNumeric lines i s af hf] at h
    simp only [Outcome.ok.injEq, Prod.mk.injEq] at h
    obtain ⟨_, rfl⟩ := h
    obtain ⟨f, hfr, _⟩ := frameCase_boxes false af s
      (ReadAnimFrame_Clsn_nil Atoi IsNumeric _ af hf)
    rw [hfr]
    intro hnil
    exact absurd hnil (List.append_ne_nil_of_right_ne_nil _ (List.cons_ne_nil f []))
  | none =>
    unfold scanStep at h
    simp only [hf] at h
    have here : ∀ (b : ScanState),
        (Outcome.ok (i, b) : Outcome (Nat × ScanState)) = .ok (j, s1) →
        b.a.frames = s.a.frames → b.a.nilFrames = s.a.nilFrames →
        s1.a.frames = [] → s1.a.nilFrames = true := by
      intro b hb hc hd
      cases hb
      rw [hc, hd]
      exact hp
    by_cases p1 : hasPrefix "loopstart".toList (normLine (lines.getD i [])) = true
    · rw [if_pos p1] at h; exact here _ h rfl rfl
    rw [if_neg p1] at h
    by_cases p2 : hasPrefix "interpolate offset".toList (normLine (lines.getD i [])) = true
    · rw [if_pos p2] at h; exact here _ h rfl rfl
    rw [if_neg p2] at h
    by_cases p3 : hasPrefix "interpolate scale".toList (normLine (lines.getD i [])) = true
    · rw [if_pos p3] at h; exact here _ h rfl rfl
    rw [if_neg p3] at h
    by_cases p4 : hasPrefix "interpolate angle".toList (normLine (lines.getD i [])) = true
    · rw [if_pos p4] at h; exact here _ h rfl rfl
    rw [if_neg p4] at h
    by_cases p5 : hasPrefix "interpolate blend".toList (normLine (lines.getD i [])) = true
    · rw [if_pos p5] at h; exact here _ h rfl rfl
    rw [if_neg p5] at h
    by_cases p6 : (normLine (lines.getD i [])).length ≥ 5 ∧
        (normLine (lines.getD i [])).take 4 = ['c', 'l', 's', 'n']
    · rw [if_pos p6] at h
      obtain ⟨q1, _⟩ := clsnCase_spec Atoi lines _ i s j s1 hi h
      rw [q1]
      exact hp
    · rw [if_neg p6] at h
      exact here _ h rfl rfl

theorem finishAnimation_nilFrames (s : ScanState) :
    (finishAnimation s).nilFrames = s.a.nilFrames := by
  unfold finishAnimation
  simp only []
  split_ifs <;> rfl

/-- An animation without frames that `ReadAnimation` returns has the `nil` slice as its
frames: the slice is assigned by `append` only. -/
theorem ReadAnimation_nilFrames (Atoi : List Char → Int) (IsNumeric : List Char → Bool)
    (lines : List (List Char)) (i j : Nat) (a : Animation)
    (h : ReadAnimation Atoi IsNumeric lines i = .ok (j, a)) (hlen : a.frames.length = 0) :
    a.nilFrames = true := by
  obtain ⟨s, hs, ha⟩ := ReadAnimation_scan Atoi IsNumeric lines i j a h
  have hinv := scanLoop_invariant Atoi IsNumeric lines
    (fun s => s.a.frames = [] → s.a.nilFrames = true)
    (fun i s j s1 hi hp hstep => scanStep_nilFrames Atoi IsNumeric lines i s j s1 hi hp hstep)
    (lines.length - i) i initScan j s (fun _ => rfl) hs
  rw [ha, finishAnimation_nilFrames]
  apply hinv
  rw [ha, finishAnimation_frames] at hlen
  exact List.length_eq_zero.mp hlen

/-! ## Claim on the animation without frames -/

/-- C25, the counterexample: the block without lines is read into an animation with
zero frames, the `nil` slice, whose `loopend` is false, and `Action` returns it as it
is, so `loopend` is still false after the call. -/
theorem C25_counterexample :
    ReadAnimation decAtoi decIsNumeric [] 0 = .ok (0, animEmpty) ∧
    animEmpty.frames.length = 0 ∧ animEmpty.loopend = false ∧
    Option.map Animation.loopend animEmpty.Action.val? = some false := by
  decide

/-- C25, amended: for every animation with zero frames, `CurrentFrame` returns `nil`,
and `Action` depends on the slice: when `frames` is the `nil` slice, `Action` returns
the animation with every field as it was, `loopend` included (the guard
`a.frames == nil` returns first); when `frames` is an empty slice that is not `nil`,
`Action` changes no field other than `loopend` and sets `loopend = true`.  Every
animation without frames that `ReadAnimation` returns has the `nil` slice. -/
theorem C25_empty_animation (a : Animation) (hlen : a.frames.length = 0) :
    (a.nilFrames = true → a.Action = .ok a) ∧
    (a.nilFrames = false → a.Action = .ok { a with loopend := true }) ∧
    a.CurrentFrame = .ok none ∧
    ∀ (Atoi : List Char → Int) (IsNumeric : List Char → Bool) (lines : List (List Char))
      (i j : Nat), ReadAnimation Atoi IsNumeric lines i = .ok (j, a) →
        a.nilFrames = true ∧ a.Action = .ok a := by
  have hnil : a.frames = [] := List.length_eq_zero.mp hlen
  have h1 : a.nilFrames = true → a.Action = .ok a := by
    intro hn
    unfold Animation.Action
    rw [if_pos ⟨hnil, hn⟩]
  refine ⟨h1, ?_, ?_, ?_⟩
  · intro hn
    unfold Animation.Action
    have hno : ¬ a.framesNil := by
      intro h
      have h2 : a.nilFrames = true := (show a.frames = [] ∧ a.nilFrames = true from h).2
      rw [hn] at h2
      cases h2
    rw [if_neg hno, if_pos hlen]
  · unfold Animation.CurrentFrame
    rw [if_pos hlen]
  · intro Atoi IsNumeric lines i j h
    have hn := ReadAnimation_nilFrames Atoi IsNumeric lines i j a h hlen
    exact ⟨hn, h1 hn⟩

/-- C25, an instance: the animation read from the block without lines, whose frames are
the `nil` slice, and the same animation with an empty slice that is not `nil`. -/
theorem C25_empty_animation_witness :
    ReadAnimation decAtoi decIsNumeric [] 0 = .ok (0, animEmpty) ∧
    animEmpty.frames.length = 0 ∧ animEmpty.nilFrames = true ∧
    animEmpty.Action = .ok animEmpty ∧
    Animation.Action { animEmpty with nilFrames := false } =
      .ok { animEmpty with nilFrames := false, loopend := true } ∧
    ((animEmpty.nilFrames = true → animEmpty.Action = .ok animEmpty) ∧
    (animEmpty.nilFrames = false → animEmpty.Action = .ok { animEmpty with loopend := true }) ∧
    animEmpty.CurrentFrame = .ok none ∧
    ∀ (Atoi : List Char → Int) (IsNumeric : List Char → Bool) (lines : List (List Char))
      (i j : Nat), ReadAnimation Atoi IsNumeric lines i = .ok (j, animEmpty) →
        animEmpty.nilFrames = true ∧ animEmpty.Action = .ok animEmpty) :=
  ⟨by decide, by decide, by decide, by decide, by decide,
    C25_empty_animation animEmpty (by decide)⟩

/-! ## The packed value of `alpha` -/

theorem byte_of_range (x : Int) (h0 : 0 ≤ x) (h1 : x < 256) : (byte x : Int) = x := by
  unfold byte
  rw [Int.emod_eq_of_lt h0 h1]
  exact Int.toNat_of_nonneg h0

theorem byte_lt (x : Int) : byte x < 256 := by
  unfold byte
  have := Int.emod_nonneg x (by decide : (256 : Int) ≠ 0)
  have := Int.emod_lt_of_pos x (by decide : (0 : Int) < 256)
  omega

theorem alphaBytes_lt (a : Animation) (bs bd : Nat) (hbs : bs < 256) (hbd : bd < 256) :
    (a.alphaBytes bs bd).1 < 256 ∧ (a.alphaBytes bs bd).2 < 256 := by
  unfold Animation.alphaBytes
  have h1 := byte_lt a.srcAlpha
  have h2 := byte_lt a.dstAlpha
  have h3 := byte_lt (int16 (-a.dstAlpha - 1) >>> (1 : Nat))
  simp only []
  split_ifs <;> simp only [] <;> omega

theorem scaled_byte (sa : Nat) (b : Int) (hsa : sa < 256) (hb0 : 0 ≤ b) (hb1 : b ≤ 256) :
    (byte (int32 ((sa : Int) * b) >>> (8 : Nat)) : Int) = (sa : Int) * b / 256 ∧
    0 ≤ (sa : Int) * b / 256 ∧ (sa : Int) * b / 256 ≤ sa := by
  have hp0 : 0 ≤ (sa : Int) * b := mul_nonneg (by omega) hb0
  have hp1 : (sa : Int) * b ≤ (sa : Int) * 256 := Int.mul_le_mul_of_nonneg_left hb1 (by omega)
  have h32 : int32 ((sa : Int) * b) = (sa : Int) * b := int32_of_range _ (by omega) (by omega)
  have hq0 : 0 ≤ (sa : Int) * b / 256 := Int.ediv_nonneg hp0 (by decide)
  have hq1 : (sa : Int) * b / 256 ≤ sa := by
    have : (sa : Int) * b / 256 ≤ (sa : Int) * 256 / 256 := Int.ediv_le_ediv (by decide) hp1
    rwa [Int.mul_ediv_cancel _ (by decide : (256 : Int) ≠ 0)] at this
  have hsh : ((sa : Int) * b) >>> (8 : Nat) = (sa : Int) * b / 256 :=
    Int.shiftRight_eq_div_pow _ 8
  rw [h32, hsh]
  exact ⟨byte_of_range _ hq0 (by omega), hq0, hq1⟩

theorem packed_bits (s d : Nat) (hs : s < 256) :
    s ||| (d <<< 10 ||| 1 <<< 9) = s + 512 + 1024 * d := by
  have h1 : d <<< 10 ||| 1 <<< 9 = 2 ^ 10 * d + 512 := by
    rw [Nat.shiftLeft_eq, Nat.mul_comm d (2 ^ 10)]
    exact (Nat.mul_add_lt_is_or (by decide : 1 <<< 9 < 2 ^ 10) d).symm
  have h2 : 2 ^ 10 * d + 512 = 2 ^ 9 * (2 * d + 1) := by ring
  have hs9 : s < 2 ^ 9 := lt_trans hs (by decide)
  rw [h1, h2, Nat.lor_comm, ← Nat.mul_add_lt_is_or hs9]
  ring

/-! ## Claim on `alpha` -/

/-- C26: for the resolved alpha bytes `(sa, da)` of an animation and a brightness `b`
in `[0, 256]`, with `s = (sa * b) >> 8` (which is at most `sa`, so a byte): `alpha`
returns `-2` when `(sa, da) = (1, 255)`; otherwise `0` when `s < 5` and `da = 255`;
otherwise `-1` when `s = 255` and `da = 255`; otherwise `s`, with the bits
`(da << 10) | (1 << 9)` OR-ed in, which adds `512 + 1024 * da`, exactly when
`s + da < 254` or `s + da > 256`. -/
theorem C26_alpha_value (a : Animation) (bs bd sa da : Nat) (b : Int)
    (hbs : bs < 256) (hbd : bd < 256) (hb : 0 ≤ b ∧ b ≤ 256)
    (hres : a.alphaBytes bs bd = (sa, da)) :
    ∃ s : Nat, (s : Int) = (sa : Int) * b / 256 ∧ s ≤ sa ∧ sa < 256 ∧ da < 256 ∧
      s ||| (da <<< 10 ||| 1 <<< 9) = s + 512 + 1024 * da ∧
      a.alpha bs bd b =
        if sa = 1 ∧ da = 255 then -2
        else if s < 5 ∧ da = 255 then 0
        else if s = 255 ∧ da = 255 then -1
        else if s + da < 254 ∨ s + da > 256 then (s : Int) + 512 + 1024 * da
        else s := by
  obtain ⟨l1, l2⟩ := alphaBytes_lt a bs bd hbs hbd
  rw [hres] at l1 l2
  simp only [] at l1 l2
  obtain ⟨e1, e2, e3⟩ := scaled_byte sa b l1 hb.1 hb.2
  have hpk := packed_bits (byte (int32 ((sa : Int) * b) >>> (8 : Nat))) da (byte_lt _)
  refine ⟨byte (int32 ((sa : Int) * b) >>> (8 : Nat)), e1, by omega, l1, l2, hpk, ?_⟩
  unfold Animation.alpha
  rw [hres]
  simp only []
  rw [hpk]
  by_cases c1 : sa = 1 ∧ da = 255
  · rw [if_pos c1, if_pos c1]
  · rw [if_neg c1, if_neg c1]
    by_cases c2 : byte (int32 ((sa : Int) * b) >>> (8 : Nat)) < 5 ∧ da = 255
    · rw [if_pos c2, if_pos c2]
    · rw [if_neg c2, if_neg c2]
      by_cases c3 : byte (int32 ((sa : Int) * b) >>> (8 : Nat)) = 255 ∧ da = 255
      · rw [if_pos c3, if_pos c3]
      · rw [if_neg c3, if_neg c3]
        by_cases c4 : byte (int32 ((sa : Int) * b) >>> (8 : Nat)) + da < 254 ∨
            256 < byte (int32 ((sa : Int) * b) >>> (8 : Nat)) + da
        · rw [if_pos c4, if_pos (by omega)]
          push_cast
          ring
        · rw [if_neg c4, if_neg (by omega)]

/-- C26, an instance: source alpha 128 and destination alpha 64 at brightness 192 give
`s = 96` and the packed value `96 + 512 + 1024 * 64`. -/
theorem C26_alpha_value_witness :
    (0 : Nat) < 256 ∧ ((0 : Int) ≤ 192 ∧ (192 : Int) ≤ 256) ∧
    animAlpha.alphaBytes 0 0 = (128, 64) ∧ animAlpha.alpha 0 0 192 = 66144 ∧
    ∃ s : Nat, (s : Int) = ((128 : Nat) : Int) * 192 / 256 ∧ s ≤ 128 ∧ 128 < 256 ∧ 64 < 256 ∧
      s ||| (64 <<< 10 ||| 1 <<< 9) = s + 512 + 1024 * 64 ∧
      animAlpha.alpha 0 0 192 =
        if (128 : Nat) = 1 ∧ (64 : Nat) = 255 then -2
        else if s < 5 ∧ (64 : Nat) = 255 then 0
        else if s = 255 ∧ (64 : Nat) = 255 then -1
        else if s + 64 < 254 ∨ s + 64 > 256 then (s : Int) + 512 + 1024 * (64 : Nat)
        else s :=
  ⟨by decide, by decide, by decide, by decide,
    C26_alpha_value animAlpha 0 0 128 64 192 (by decide) (by decide) (by decide) (by decide)⟩

/-! ## The snapshot of `UpdateSprite` -/

theorem UpdateSprite_drawn (a b : Animation) (hne : a.frames ≠ [])
    (h : a.UpdateSprite = .ok b) :
    ∃ d, b.frameAt b.drawidx = some d ∧ b.current = b.drawidx ∧ b.frames = a.frames ∧
      (interpolates b d b.nextDrawidx = true → ∃ nf, b.frameAt b.nextDrawidx = some nf) := by
  have hl0 : ¬ a.frames.length = 0 := fun h0 => hne (List.length_eq_zero.mp h0)
  unfold Animation.UpdateSprite at h
  rw [if_neg hl0] at h
  cases hf : a.updateCurrent.frameAt a.updateCurrent.current with
  | none => simp only [hf] at h; cases h
  | some f =>
    have h2 : ∀ a2 : Animation,
        a2 = { a.updateCurrent with newframe := false, drawidx := a.updateCurrent.current } →
        (if interpolates a2 f a2.nextDrawidx = true ∧ a2.frameAt a2.nextDrawidx = none
          then Outcome.panic else Outcome.ok a2) = Outcome.ok b := by
      intro a2 e
      subst e
      simp only [hf] at h
      exact h
    obtain ⟨a2, e⟩ : ∃ a2 : Animation,
        a2 = { a.updateCurrent with newframe := false, drawidx := a.updateCurrent.current } :=
      ⟨_, rfl⟩
    have h3 := h2 a2 e
    have hf2 : a2.frameAt a2.drawidx = some f := by rw [e]; exact hf
    have hcd : a2.current = a2.drawidx := by rw [e]
    have hfr : a2.frames = a.frames := by rw [e]; exact (updateCurrent_same a).1
    by_cases hc : interpolates a2 f a2.nextDrawidx = true ∧ a2.frameAt a2.nextDrawidx = none
    · rw [if_pos hc] at h3
      cases h3
    · rw [if_neg hc] at h3
      simp only [Outcome.ok.injEq] at h3
      subst h3
      refine ⟨f, hf2, hcd, hfr, fun hi => ?_⟩
      cases hn : a2.frameAt a2.nextDrawidx with
      | none => exact absurd ⟨hi, hn⟩ hc
      | some nf => exact ⟨nf, rfl⟩

theorem interpolates_iff (a : Animation) (f : AnimFrame) (n : Int) :
    interpolates a f n = true ↔
      f.Time ≥ 0 ∧ (n ∈ a.interpolate_offset ∨ n ∈ a.interpolate_scale ∨
        n ∈ a.interpolate_angle ∨
        ((f.SrcAlpha ≠ 1 ∨ f.DstAlpha ≠ 255) ∧ n ∈ a.interpolate_blend)) := by
  unfold interpolates
  simp only [Bool.and_eq_true, Bool.or_eq_true, decide_eq_true_eq]
  tauto

theorem offsetStep_spec (a : Animation) (d : AnimFrame) (n : Int) (s : Snapshot)
    (hc : a.frameAt a.current = some d)
    (hn : n ∈ a.interpolate_offset ∧ d.Time ≥ 0 → ∃ nf, a.frameAt n = some nf) :
    ∃ s1, a.offsetStep d n s = some s1 ∧
      s1.interpolate_blend_srcalpha = s.interpolate_blend_srcalpha ∧
      s1.interpolate_blend_dstalpha = s.interpolate_blend_dstalpha ∧
      (n ∉ a.interpolate_offset → s1 = s) := by
  unfold Animation.offsetStep Animation.perTick
  by_cases c : n ∈ a.interpolate_offset ∧ d.Time ≥ 0
  · obtain ⟨nf, hnf⟩ := hn c
    rw [if_pos c, hnf, hc]
    exact ⟨_, rfl, rfl, rfl, fun h => absurd c.1 h⟩
  · rw [if_neg c]
    exact ⟨s, rfl, rfl, rfl, fun _ => rfl⟩

theorem scaleAngleStep_spec (a : Animation) (d : AnimFrame) (n : Int) (s : Snapshot)
    (hc : a.frameAt a.current = some d)
    (hn : (n ∈ a.interpolate_scale ∨ n ∈ a.interpolate_angle) ∧ d.Time ≥ 0 →
      ∃ nf, a.frameAt n = some nf) :
    a.scaleAngleStep d n s = some s := by
  unfold Animation.scaleAngleStep
  by_cases c : (n ∈ a.interpolate_scale ∨ n ∈ a.interpolate_angle) ∧ d.Time ≥ 0
  · obtain ⟨nf, hnf⟩ := hn c
    rw [if_pos c, hnf, hc]
    rfl
  · rw [if_neg c]

theorem blendStep_spec (toByte : Flt → Nat) (a : Animation) (d : AnimFrame) (n : Int)
    (s : Snapshot) (hc : a.frameAt a.current = some d)
    (hn : (d.SrcAlpha ≠ 1 ∨ d.DstAlpha ≠ 255) ∧ n ∈ a.interpolate_blend ∧ d.Time ≥ 0 →
      ∃ nf, a.frameAt n = some nf) :
    ∃ s1, a.blendStep toByte d n s = some s1 ∧
      s1.interpolate_offset_x = s.interpolate_offset_x ∧
      s1.interpolate_offset_y = s.interpolate_offset_y ∧
      (n ∉ a.interpolate_blend → s1 = s) := by
  unfold Animation.blendStep Animation.perTick
  by_cases c : (d.SrcAlpha ≠ 1 ∨ d.DstAlpha ≠ 255) ∧ n ∈ a.interpolate_blend ∧ d.Time ≥ 0
  · obtain ⟨nf, hnf⟩ := hn c
    rw [if_pos c, hnf, hc]
    exact ⟨_, rfl, rfl, rfl, fun h => absurd c.2.1 h⟩
  · rw [if_neg c]
    exact ⟨s, rfl, rfl, rfl, fun _ => rfl⟩

theorem snapshot_holds (toByte : Flt → Nat) (b : Animation) (d : AnimFrame)
    (hd : b.frameAt b.drawidx = some d) (hcd : b.current = b.drawidx)
    (hn : interpolates b d b.nextDrawidx = true → ∃ nf, b.frameAt b.nextDrawidx = some nf) :
    ∃ s, b.snapshot toByte = .ok s ∧
      (b.nextDrawidx ∉ b.interpolate_offset →
        s.interpolate_offset_x = Flt.ofInt 0 ∧ s.interpolate_offset_y = Flt.ofInt 0) ∧
      (b.nextDrawidx ∉ b.interpolate_blend →
        s.interpolate_blend_srcalpha = Flt.ofInt d.SrcAlpha ∧
        s.interpolate_blend_dstalpha = Flt.ofInt d.DstAlpha) := by
  have hc : b.frameAt b.current = some d := by rw [hcd]; exact hd
  rw [interpolates_iff] at hn
  obtain ⟨s1, e1, b1, b2, k1⟩ := offsetStep_spec b d b.nextDrawidx
    { interpolate_offset_x := Flt.ofInt 0, interpolate_offset_y := Flt.ofInt 0,
      interpolate_blend_srcalpha := Flt.ofInt d.SrcAlpha,
      interpolate_blend_dstalpha := Flt.ofInt d.DstAlpha } hc
    (fun c => hn ⟨c.2, Or.inl c.1⟩)
  have e2 := scaleAngleStep_spec b d b.nextDrawidx s1 hc
    (fun c => hn ⟨c.2, c.1.elim (fun h => Or.inr (Or.inl h)) (fun h => Or.inr (Or.inr (Or.inl h)))⟩)
  obtain ⟨s3, e3, o1, o2, k3⟩ := blendStep_spec toByte b d b.nextDrawidx s1 hc
    (fun c => hn ⟨c.2.2, Or.inr (Or.inr (Or.inr ⟨c.1, c.2.1⟩))⟩)
  refine ⟨s3, ?_, fun h1 => ?_, fun h3 => ?_⟩
  · unfold Animation.snapshot
    simp only [hd, e1, e2, e3, Option.some_bind]
  · rw [o1, o2, k1 h1]
    exact ⟨rfl, rfl⟩
  · rw [k3 h3, b1, b2]
    exact ⟨rfl, rfl⟩

/-! ## Claim on the snapshot of `UpdateSprite` -/

/-- C27: for every non-empty animation, `UpdateSprite` returns when `loopstart` and
`current` are frame indices, and whenever it returns, with next index `n`
(`drawidx + 1`, or `loopstart` when `drawidx` is the last frame): if `n` is not
registered in `interpolate_offset` then `interpolate_offset_x` and
`interpolate_offset_y` are 0, and if `n` is not registered in `interpolate_blend` then
the blend snapshot is the drawn frame's `(SrcAlpha, DstAlpha)`. -/
theorem C27_snapshot_holds (toByte : Flt → Nat) (a : Animation) (old : Snapshot)
    (hne : a.frames ≠ []) (hlen : (a.frames.length : Int) < 2147483648) :
    ((0 ≤ a.loopstart ∧ a.loopstart < a.frames.length) →
      (0 ≤ a.current ∧ a.current < a.frames.length) → ∃ b, a.UpdateSprite = .ok b) ∧
    ∀ b, a.UpdateSprite = .ok b →
      ∃ d s, b.frameAt b.drawidx = some d ∧ a.UpdateSpriteFloats toByte old = .ok (b, s) ∧
        b.nextDrawidx =
          (if b.drawidx = (b.frames.length : Int) - 1 then b.loopstart else b.drawidx + 1) ∧
        (b.nextDrawidx ∉ b.interpolate_offset →
          s.interpolate_offset_x = Flt.ofInt 0 ∧ s.interpolate_offset_y = Flt.ofInt 0) ∧
        (b.nextDrawidx ∉ b.interpolate_blend →
          s.interpolate_blend_srcalpha = Flt.ofInt d.SrcAlpha ∧
          s.interpolate_blend_dstalpha = Flt.ofInt d.DstAlpha) := by
  refine ⟨fun hloop hcur => ⟨_, UpdateSprite_ok a hne hlen hloop hcur⟩, fun b h => ?_⟩
  have hl0 : ¬ a.frames.length = 0 := fun h0 => hne (List.length_eq_zero.mp h0)
  obtain ⟨d, hd, hcd, hfr, hn⟩ := UpdateSprite_drawn a b hne h
  obtain ⟨s, hs, k1, k3⟩ := snapshot_holds toByte b d hd hcd hn
  obtain ⟨r0, r1, _, _⟩ := frameAt_range b b.drawidx d hd
  refine ⟨d, s, hd, ?_, ?_, k1, k3⟩
  · unfold Animation.UpdateSpriteFloats
    rw [if_neg hl0, h]
    simp only [hs]
  · unfold Animation.nextDrawidx
    rw [hfr] at r1 ⊢
    by_cases c : b.drawidx = (a.frames.length : Int) - 1
    · rw [if_pos c, if_pos (by omega)]
    · rw [if_neg c, if_neg (by omega)]
      exact int32_of_range _ (by omega) (by omega)

/-- C27, an instance: in the animation read from `linesOffset` the index 1 is
registered in `interpolate_offset`.  After 7 calls of `Action` frame 1 is drawn and the
next index 2 is registered nowhere: the offsets are 0 and the blend is the frame's
`(255, 0)`.  After 2 calls frame 0 is drawn and the next index 1 is registered: the
offsets are interpolated. -/
theorem C27_snapshot_holds_witness :
    ReadAnimation decAtoi decIsNumeric linesOffset 0 = .ok (4, animOffset) ∧
    (animOffsetTicks.frames ≠ [] ∧ (animOffsetTicks.frames.length : Int) < 2147483648) ∧
    (actionN 7 animOffset.Reset).val? = some animOffsetTicks ∧
    (animOffsetTicks.UpdateSpriteFloats sampleToByte snapshotZero).val? =
      some (animOffsetTicks,
        { interpolate_offset_x := Flt.ofInt 0, interpolate_offset_y := Flt.ofInt 0,
          interpolate_blend_srcalpha := Flt.ofInt 255,
          interpolate_blend_dstalpha := Flt.ofInt 0 }) ∧
    Option.map (fun p => (p.1.drawidx, p.1.nextDrawidx, p.1.time, p.2.interpolate_offset_x))
        (match actionN 2 animOffset.Reset with
          | .ok c => (c.UpdateSpriteFloats sampleToByte snapshotZero).val?
          | _ => none) =
      some (0, 1, 2, Flt.mul (Flt.div (Flt.ofInt 20) (Flt.ofInt 5)) (Flt.ofInt 2)) ∧
    (((0 ≤ animOffsetTicks.loopstart ∧ animOffsetTicks.loopstart < animOffsetTicks.frames.length) →
      (0 ≤ animOffsetTicks.current ∧ animOffsetTicks.current < animOffsetTicks.frames.length) →
        ∃ b, animOffsetTicks.UpdateSprite = .ok b) ∧
    ∀ b, animOffsetTicks.UpdateSprite = .ok b →
      ∃ d s, b.frameAt b.drawidx = some d ∧
        animOffsetTicks.UpdateSpriteFloats sampleToByte snapshotZero = .ok (b, s) ∧
        b.nextDrawidx =
          (if b.drawidx = (b.frames.length : Int) - 1 then b.loopstart else b.drawidx + 1) ∧
        (b.nextDrawidx ∉ b.interpolate_offset →
          s.interpolate_offset_x = Flt.ofInt 0 ∧ s.interpolate_offset_y = Flt.ofInt 0) ∧
        (b.nextDrawidx ∉ b.interpolate_blend →
          s.interpolate_blend_srcalpha = Flt.ofInt d.SrcAlpha ∧
          s.interpolate_blend_dstalpha = Flt.ofInt d.DstAlpha)) :=
  ⟨by decide, by decide, by decide, by decide, by decide,
    C27_snapshot_holds sampleToByte animOffsetTicks snapshotZero (by decide) (by decide)⟩

/-! ## The binary search of `DrawList.add` -/

theorem goInt_of_range (x : Int) (h0 : -9223372036854775808 ≤ x)
    (h1 : x < 9223372036854775808) : goInt x = x := by
  unfold goInt; omega

theorem entryAt_some (dl : List SprData) (i : Int) (h0 : 0 ≤ i) (h1 : i < dl.length) :
    ∃ e, entryAt dl i = some e ∧ dl.get? i.toNat = some e := by
  have hlt : i.toNat < dl.length := by omega
  refine ⟨dl.get ⟨i.toNat, hlt⟩, ?_, List.get?_eq_get hlt⟩
  unfold entryAt
  rw [if_pos ⟨h0, h1⟩]
  exact List.get?_eq_get hlt

theorem sorted_get (dl : List SprData) (hs : sortedByPriority dl) (j k : Nat)
    (x y : SprData) (hjk : j ≤ k) (hx : dl.get? j = some x) (hy : dl.get? k = some y) :
    x.priority ≤ y.priority := by
  rcases Nat.eq_or_lt_of_le hjk with h | h
  · subst h
    rw [hx] at hy
    cases hy
    exact le_refl _
  · rw [List.get?_eq_getElem?] at hx hy
    obtain ⟨hj, ej⟩ := List.getElem?_eq_some.mp hx
    obtain ⟨hk, ek⟩ := List.getElem?_eq_some.mp hy
    have := List.pairwise_iff_getElem.mp hs j k hj hk h
    rw [ej, ek] at this
    exact this

theorem searchLoop_spec (dl : List SprData) (p : Int) (hs : sortedByPriority dl)
    (hlen : (dl.length : Int) < 9223372036854775808) :
    ∀ (fuel : Nat) (i start l : Int), l < (fuel : Int) → 0 ≤ l →
      (l = 0 → splitsAt dl p i) →
      (0 < l → 0 ≤ start ∧ start + l ≤ dl.length ∧
        (∀ (k : Nat) (e : SprData), (k : Int) < start → dl.get? k = some e → e.priority < p) ∧
        (∀ (k : Nat) (e : SprData), start + l ≤ (k : Int) → dl.get? k = some e →
          p ≤ e.priority)) →
      ∃ j, searchLoop dl p fuel i start l = .ok j ∧ splitsAt dl p j := by
  intro fuel
  induction fuel with
  | zero => intro i start l h1 h2; omega
  | succ k ih =>
    intro i start l hf hl0 hz hp
    unfold searchLoop
    by_cases hl : l > 0
    · rw [if_pos hl]
      obtain ⟨s0, s1, hleft, hright⟩ := hp hl
      have hsh : l >>> (1 : Nat) = l / 2 := Int.shiftRight_eq_div_pow l 1
      have hi : goInt (start + (l >>> (1 : Nat))) = start + l / 2 := by
        rw [hsh]; exact goInt_of_range _ (by omega) (by omega)
      simp only [hi]
      obtain ⟨e, he, hg⟩ := entryAt_some dl (start + l / 2) (by omega) (by omega)
      simp only [he]
      by_cases c1 : p ≤ e.priority
      · rw [if_pos c1]
        have e1 : goInt (start + l / 2 - start) = l / 2 := by
          rw [goInt_of_range _ (by omega) (by omega)]; omega
        rw [e1]
        apply ih _ _ _ (by omega) (by omega)
        · intro h0
          refine ⟨⟨by omega, by omega⟩, ?_, ?_⟩
          · intro k x hk hx
            exact hleft k x (by omega) hx
          · intro k x hk hx
            exact le_trans c1 (sorted_get dl hs (start + l / 2).toNat k e x (by omega) hg hx)
        · intro h0
          refine ⟨s0, by omega, hleft, ?_⟩
          intro k x hk hx
          exact le_trans c1 (sorted_get dl hs (start + l / 2).toNat k e x (by omega) hg hx)
      · rw [if_neg c1]
        by_cases c2 : start + l / 2 = start
        · rw [if_pos c2]
          have e2 : goInt (start + l / 2 + 1) = start + 1 := by
            rw [goInt_of_range _ (by omega) (by omega)]; omega
          rw [e2]
          apply ih _ _ _ (by omega) (le_refl _)
          · intro _
            refine ⟨⟨by omega, by omega⟩, ?_, ?_⟩
            · intro k x hk hx
              have := sorted_get dl hs k (start + l / 2).toNat x e (by omega) hx hg
              omega
            · intro k x hk hx
              exact hright k x (by omega) hx
          · intro h
            omega
        · rw [if_neg c2]
          have e3 : goInt (l - goInt (start + l / 2 - start)) = l - l / 2 := by
            rw [goInt_of_range (start + l / 2 - start) (by omega) (by omega),
              goInt_of_range _ (by omega) (by omega)]
            omega
          rw [e3]
          apply ih _ _ _ (by omega) (by omega)
          · intro h
            omega
          · intro _
            refine ⟨by omega, by omega, ?_, ?_⟩
            · intro k x hk hx
              have := sorted_get dl hs k (start + l / 2).toNat x e (by omega) hx hg
              omega
            · intro k x hk hx
              exact hright k x (by omega) hx
    · rw [if_neg hl]
      exact ⟨i, rfl, hz (by omega)⟩

theorem mem_take_get (dl : List SprData) (i : Nat) (a : SprData) (h : a ∈ dl.take i) :
    ∃ k, k < i ∧ dl.get? k = some a := by
  obtain ⟨n, hn⟩ := List.mem_iff_getElem?.mp h
  rw [List.getElem?_take] at hn
  by_cases c : n < i
  · rw [if_pos c] at hn
    exact ⟨n, c, by rw [List.get?_eq_getElem?]; exact hn⟩
  · rw [if_neg c] at hn
    cases hn

theorem mem_drop_get (dl : List SprData) (i : Nat) (a : SprData) (h : a ∈ dl.drop i) :
    ∃ k, i ≤ k ∧ dl.get? k = some a := by
  obtain ⟨n, hn⟩ := List.mem_iff_getElem?.mp h
  rw [List.getElem?_drop] at hn
  exact ⟨i + n, Nat.le_add_right i n, by rw [List.get?_eq_getElem?]; exact hn⟩

theorem applyAscl_priority (nonzero : Flt → Bool) (sd : SprData) :
    (sd.applyAscl nonzero).priority = sd.priority := by
  unfold SprData.applyAscl
  split_ifs <;> rfl

theorem insert_sorted (dl : List SprData) (sd : SprData) (i : Nat)
    (hs : sortedByPriority dl) (hsp : splitsAt dl sd.priority i) :
    sortedByPriority (dl.take i ++ sd :: dl.drop i) := by
  obtain ⟨_, hleft, hright⟩ := hsp
  unfold sortedByPriority at hs ⊢
  rw [List.pairwise_append, List.pairwise_cons]
  have hdrop : ∀ b ∈ dl.drop i, sd.priority ≤ b.priority := by
    intro b hb
    obtain ⟨k, hk, hg⟩ := mem_drop_get dl i b hb
    exact hright k b (by omega) hg
  have htake : ∀ a ∈ dl.take i, a.priority < sd.priority := by
    intro a ha
    obtain ⟨k, hk, hg⟩ := mem_take_get dl i a ha
    exact hleft k a (by omega) hg
  refine ⟨hs.sublist (List.take_sublist i dl), ⟨hdrop, hs.sublist (List.drop_sublist i dl)⟩, ?_⟩
  intro a ha b hb
  have h1 := htake a ha
  rcases List.mem_cons.mp hb with h | h
  · rw [h]; omega
  · have h2 := hdrop b h
    omega

theorem add_spec (frameSkip : Bool) (nonzero : Flt → Bool) (dl : List SprData)
    (sd : SprData) (hs : sortedByPriority dl)
    (hlen : (dl.length : Int) < 9223372036854775808)
    (hskip : frameSkip = false ∧ sd.anim = true ∧ sd.spr = true) :
    ∃ i : Nat, i ≤ dl.length ∧ splitsAt dl sd.priority i ∧
      DrawList.add frameSkip nonzero dl sd =
        .ok (dl.take i ++ sd.applyAscl nonzero :: dl.drop i) := by
  have hp := applyAscl_priority nonzero sd
  obtain ⟨j, hj, hsp⟩ := searchLoop_spec dl sd.priority hs hlen (dl.length + 1) 0 0
    dl.length (by push_cast; omega) (by omega)
    (fun h0 => ⟨⟨le_refl _, by omega⟩, fun k e hk _ => by omega,
      fun k e _ hg => by
        have := List.get?_eq_some.mp hg
        obtain ⟨hk, _⟩ := this
        omega⟩)
    (fun _ => ⟨le_refl _, by omega, fun k e hk _ => by omega,
      fun k e hk hg => by
        have := List.get?_eq_some.mp hg
        obtain ⟨hk2, _⟩ := this
        omega⟩)
  obtain ⟨⟨j0, j1⟩, _, _⟩ := id hsp
  refine ⟨j.toNat, by omega, ?_, ?_⟩
  · rw [Int.toNat_of_nonneg j0]
    exact hsp
  · unfold DrawList.add
    rw [if_neg (by rw [hskip.1, hskip.2.1, hskip.2.2]; decide)]
    simp only [hp, hj]
    rw [if_pos ⟨j0, j1⟩]

theorem insert_get_erase (dl : List SprData) (sd : SprData) (i : Nat) (hi : i ≤ dl.length) :
    (dl.take i ++ sd :: dl.drop i).length = dl.length + 1 ∧
    (dl.take i ++ sd :: dl.drop i).get? i = some sd ∧
    (dl.take i ++ sd :: dl.drop i).eraseIdx i = dl := by
  have hl : (dl.take i).length = i := List.length_take_of_le hi
  refine ⟨?_, ?_, ?_⟩
  · rw [List.length_append, List.length_cons, hl, List.length_drop]
    omega
  · rw [List.get?_eq_getElem?, List.getElem?_append_right (by omega), hl, Nat.sub_self]
    exact List.getElem?_cons_zero
  · rw [List.eraseIdx_append_of_length_le (by omega), hl, Nat.sub_self,
      List.eraseIdx_cons_zero, List.take_append_drop]

/-! ## Claims on `DrawList.add` -/

/-- C22: for every draw list sorted in non-decreasing priority order and every
`SprData` that is not skipped (frame skip off, `anim` and sprite present),
`DrawList.add` returns a list of length one greater that is again sorted in
non-decreasing priority order and holds the new entry at an index `i`; the new entry
has the priority of the request (and is the request itself when it is not rotated),
and the list without its index `i` is the previous list, so all previous entries are
kept in their previous relative order. -/
theorem C22_add_keeps_sorted (frameSkip : Bool) (nonzero : Flt → Bool) (dl : List SprData)
    (sd : SprData) (hs : sortedByPriority dl)
    (hlen : (dl.length : Int) < 9223372036854775808)
    (hskip : frameSkip = false ∧ sd.anim = true ∧ sd.spr = true) :
    ∃ (r : List SprData) (i : Nat), DrawList.add frameSkip nonzero dl sd = .ok r ∧
      r.length = dl.length + 1 ∧ sortedByPriority r ∧
      r.get? i = some (sd.applyAscl nonzero) ∧
      (sd.applyAscl nonzero).priority = sd.priority ∧
      (nonzero sd.angle = false → sd.applyAscl nonzero = sd) ∧
      r.eraseIdx i = dl := by
  obtain ⟨i, hi, hsp, hadd⟩ := add_spec frameSkip nonzero dl sd hs hlen hskip
  have hp := applyAscl_priority nonzero sd
  obtain ⟨h1, h2, h3⟩ := insert_get_erase dl (sd.applyAscl nonzero) i hi
  refine ⟨_, i, hadd, h1, ?_, h2, hp, ?_, h3⟩
  · exact insert_sorted dl (sd.applyAscl nonzero) i hs (by rw [hp]; exact hsp)
  · intro hz
    unfold SprData.applyAscl
    rw [if_neg (by rw [hz]; decide)]

/-- C22, an instance: the request of priority 5 tagged 3 is added to the list of the
requests of priority 1 and 5 tagged 2 and 1. -/
theorem C22_add_keeps_sorted_witness :
    sortedByPriority [sampleSpr 1 2, sampleSpr 5 1] ∧
    (DrawList.add false sampleNonzero [sampleSpr 1 2, sampleSpr 5 1] (sampleSpr 5 3)).val? =
      some [sampleSpr 1 2, sampleSpr 5 3, sampleSpr 5 1] ∧
    ∃ (r : List SprData) (i : Nat),
      DrawList.add false sampleNonzero [sampleSpr 1 2, sampleSpr 5 1] (sampleSpr 5 3) = .ok r ∧
      r.length = [sampleSpr 1 2, sampleSpr 5 1].length + 1 ∧ sortedByPriority r ∧
      r.get? i = some ((sampleSpr 5 3).applyAscl sampleNonzero) ∧
      ((sampleSpr 5 3).applyAscl sampleNonzero).priority = (sampleSpr 5 3).priority ∧
      (sampleNonzero (sampleSpr 5 3).angle = false →
        (sampleSpr 5 3).applyAscl sampleNonzero = sampleSpr 5 3) ∧
      r.eraseIdx i = [sampleSpr 1 2, sampleSpr 5 1] :=
  ⟨by decide, by decide,
    C22_add_keeps_sorted false sampleNonzero [sampleSpr 1 2, sampleSpr 5 1] (sampleSpr 5 3)
      (by decide) (by decide) (by decide)⟩

/-- C23, the counterexample: the requests of priorities 5, 1, 5 and -2, tagged 1 to 4
in arrival order, end in the order -2, 1, 5 (tag 3, the second one added), 5 (tag 1,
the first one added); the third request is stored at index 1 of the list `[1, 5]`,
before the entry of equal priority, although no entry has a greater priority. -/
theorem C23_counterexample :
    Option.map (List.map fun e => (e.priority, e.projection))
        (addAll false sampleNonzero [] sampleRequests).val? =
      some [(-2, 4), (1, 2), (5, 3), (5, 1)] ∧
    (addAll false sampleNonzero [] (sampleRequests.take 2)).val? =
      some [sampleSpr 1 2, sampleSpr 5 1] ∧
    (∀ e ∈ [sampleSpr 1 2, sampleSpr 5 1], ¬ e.priority > (sampleSpr 5 3).priority) ∧
    (DrawList.add false sampleNonzero [sampleSpr 1 2, sampleSpr 5 1] (sampleSpr 5 3)).val? =
      some [sampleSpr 1 2, sampleSpr 5 3, sampleSpr 5 1] := by
  decide

/-- C23, amended: for a sorted draw list and a request that is not skipped,
`DrawList.add` stores the new entry at the index `i` of the first existing entry whose
priority is greater than or equal to the new priority (at the end if there is none):
the entries before `i` have a smaller priority and the entries from `i` on a priority
at least as large, so the new entry goes before the existing entries of equal
priority. -/
theorem C23_add_position (frameSkip : Bool) (nonzero : Flt → Bool) (dl : List SprData)
    (sd : SprData) (hs : sortedByPriority dl)
    (hlen : (dl.length : Int) < 9223372036854775808)
    (hskip : frameSkip = false ∧ sd.anim = true ∧ sd.spr = true) :
    ∃ i : Nat, i ≤ dl.length ∧
      DrawList.add frameSkip nonzero dl sd =
        .ok (dl.take i ++ sd.applyAscl nonzero :: dl.drop i) ∧
      (∀ e ∈ dl.take i, e.priority < sd.priority) ∧
      (∀ e ∈ dl.drop i, sd.priority ≤ e.priority) := by
  obtain ⟨i, hi, ⟨_, hleft, hright⟩, hadd⟩ := add_spec frameSkip nonzero dl sd hs hlen hskip
  refine ⟨i, hi, hadd, ?_, ?_⟩
  · intro e he
    obtain ⟨k, hk, hg⟩ := mem_take_get dl i e he
    exact hleft k e (by omega) hg
  · intro e he
    obtain ⟨k, hk, hg⟩ := mem_drop_get dl i e he
    exact hright k e (by omega) hg

/-- C23, an instance: the four sample requests, added one after the other; the last
call adds the request of priority -2 to the list of the first three. -/
theorem C23_add_position_witness :
    (addAll false sampleNonzero [] (sampleRequests.take 3)).val? =
      some [sampleSpr 1 2, sampleSpr 5 3, sampleSpr 5 1] ∧
    sortedByPriority [sampleSpr 1 2, sampleSpr 5 3, sampleSpr 5 1] ∧
    ∃ i : Nat, i ≤ [sampleSpr 1 2, sampleSpr 5 3, sampleSpr 5 1].length ∧
      DrawList.add false sampleNonzero [sampleSpr 1 2, sampleSpr 5 3, sampleSpr 5 1]
          (sampleSpr (-2) 4) =
        .ok ([sampleSpr 1 2, sampleSpr 5 3, sampleSpr 5 1].take i ++
          (sampleSpr (-2) 4).applyAscl sampleNonzero ::
          [sampleSpr 1 2, sampleSpr 5 3, sampleSpr 5 1].drop i) ∧
      (∀ e ∈ [sampleSpr 1 2, sampleSpr 5 3, sampleSpr 5 1].take i,
        e.priority < (sampleSpr (-2) 4).priority) ∧
      (∀ e ∈ [sampleSpr 1 2, sampleSpr 5 3, sampleSpr 5 1].drop i,
        (sampleSpr (-2) 4).priority ≤ e.priority) :=
  ⟨by decide, by decide,
    C23_add_position false sampleNonzero [sampleSpr 1 2, sampleSpr 5 3, sampleSpr 5 1]
      (sampleSpr (-2) 4) (by decide) (by decide) (by decide)⟩

/-! ## Lemmas on `ReadAction` -/

theorem findSection_index (SectionName : List Char → List Char × List Char) :
    ∀ (ls : List (List Char)) (i : Nat) (cur : List Char × List Char),
      i ≤ (findSection SectionName ls i cur).1 := by
  intro ls
  induction ls with
  | nil => intro i cur; exact le_refl _
  | cons line rest ih =>
    intro i cur
    unfold findSection
    by_cases c : (SectionName line).1.length > 0
    · rw [if_pos c]
    · rw [if_neg c]
      exact le_trans (Nat.le_succ i) (ih (i + 1) _)

theorem scanLoop_index (Atoi : List Char → Int) (IsNumeric : List Char → Bool)
    (lines : List (List Char)) (fuel : Nat) :
    ∀ (i : Nat) (s : ScanState) (j : Nat) (s1 : ScanState),
      scanLoop Atoi IsNumeric lines fuel i s = .ok (j, s1) → i ≤ j := by
  induction fuel with
  | zero =>
    intro i s j s1 h
    unfold scanLoop at h
    by_cases c : i < lines.length
    · rw [if_pos c] at h; cases h
    · rw [if_neg c] at h; cases h; exact le_refl _
  | succ fuel ih =>
    intro i s j s1 h
    unfold scanLoop at h
    by_cases c : i < lines.length
    · rw [if_pos c] at h
      by_cases c2 : sectionStart (lines.getD i []) = true
      · rw [if_pos c2] at h; cases h; exact le_refl _
      · rw [if_neg c2] at h
        cases hs : scanStep Atoi IsNumeric lines i s with
        | panic => rw [hs] at h; cases h
        | fuel => rw [hs] at h; cases h
        | ok r =>
          obtain ⟨j1, s2⟩ := r
          rw [hs] at h
          have h1 := (scanStep_spec Atoi IsNumeric lines i s j1 s2 c hs).2.1
          have h2 := ih (j1 + 1) s2 j s1 h
          omega
    · rw [if_neg c] at h; cases h; exact le_refl _

theorem ReadAnimation_index (Atoi : List Char → Int) (IsNumeric : List Char → Bool)
    (lines : List (List Char)) (i j : Nat) (a : Animation)
    (h : ReadAnimation Atoi IsNumeric lines i = .ok (j, a)) : i ≤ j := by
  obtain ⟨s, hs, _⟩ := ReadAnimation_scan Atoi IsNumeric lines i j a h
  exact scanLoop_index Atoi IsNumeric lines _ i initScan j s hs

theorem ReadAction_index (SectionName : List Char → List Char × List Char)
    (Atoi : List Char → Int) (IsNumeric : List Char → Bool) (lines : List (List Char))
    (i : Nat) :
    ReadAction SectionName Atoi IsNumeric lines i ≠ .fuel ∧
    ∀ i1 r, ReadAction SectionName Atoi IsNumeric lines i = .ok (i1, r) →
      i ≤ i1 ∧ (r ≠ none → i < i1) := by
  have hfs := findSection_index SectionName (lines.drop i) i ([], [])
  unfold ReadAction
  simp only []
  generalize findSection SectionName (lines.drop i) i ([], []) = fs at hfs
  have stop : ∀ (c : Outcome (Nat × Option (Int × Animation))), c = .ok (fs.1, none) →
      c ≠ .fuel ∧ ∀ i1 r, c = .ok (i1, r) → i ≤ i1 ∧ (r ≠ none → i < i1) := by
    intro c hc
    subst hc
    refine ⟨fun h => (by cases h), fun i1 r h => ?_⟩
    simp only [Outcome.ok.injEq, Prod.mk.injEq] at h
    obtain ⟨h1, h2⟩ := h
    subst h1 h2
    exact ⟨hfs, fun hn => absurd rfl hn⟩
  by_cases c1 : fs.2.1 ≠ "begin ".toList
  · rw [if_pos c1]; exact stop _ rfl
  rw [if_neg c1]
  by_cases c2 : Index ' ' fs.2.2 < 0
  · rw [if_pos c2]; exact stop _ rfl
  rw [if_neg c2]
  by_cases c3 : ToLower (fs.2.2.take (Index ' ' fs.2.2 + 1).toNat) ≠ "action ".toList
  · rw [if_pos c3]; exact stop _ rfl
  rw [if_neg c3]
  have hnf := ReadAnimation_ne_fuel Atoi IsNumeric lines (fs.1 + 1)
  cases hr : ReadAnimation Atoi IsNumeric lines (fs.1 + 1) with
  | fuel => exact absurd hr hnf
  | panic =>
    simp only []
    exact ⟨fun h => (by cases h), fun i1 r h => (by cases h)⟩
  | ok p =>
    obtain ⟨j, a⟩ := p
    simp only []
    have hj := ReadAnimation_index Atoi IsNumeric lines (fs.1 + 1) j a hr
    refine ⟨fun h => (by cases h), fun i1 r h => ?_⟩
    simp only [Outcome.ok.injEq, Prod.mk.injEq] at h
    obtain ⟨h1, _⟩ := h
    subst h1
    exact ⟨by omega, fun _ => by omega⟩

/-! ## Lemmas on the animation table -/

theorem entry_append_some (tbl l : AnimationTable) (key : Int)
    (h : (entry tbl key).isSome = true) : entry (tbl ++ l) key = entry tbl key := by
  induction tbl with
  | nil => simp [entry] at h
  | cons p rest ih =>
    rw [List.cons_append]
    unfold entry at h ⊢
    by_cases c : p.1 = key
    · rw [if_pos c]; rw [if_pos c]
    · rw [if_neg c] at h; rw [if_neg c, if_neg c]
      exact ih h

theorem entry_append_none (tbl : AnimationTable) (no : Int) (a : Animation)
    (h : entry tbl no = none) : entry (tbl ++ [(no, a)]) no = some a := by
  induction tbl with
  | nil => simp [entry]
  | cons p rest ih =>
    rw [List.cons_append]
    unfold entry at h ⊢
    by_cases c : p.1 = no
    · rw [if_pos c] at h; cases h
    · rw [if_neg c] at h; rw [if_neg c]
      exact ih h

theorem entry_append_isSome (tbl l : AnimationTable) (key : Int)
    (h : (entry tbl key).isSome = true) : (entry (tbl ++ l) key).isSome = true := by
  rw [entry_append_some tbl l key h]; exact h

theorem entry_storeAt_self (tbl : AnimationTable) (no : Int) (v : Animation)
    (h : (entry tbl no).isSome = true) : entry (storeAt tbl no v) no = some v := by
  induction tbl with
  | nil => simp [entry] at h
  | cons p rest ih =>
    unfold storeAt at ih ⊢
    rw [List.map_cons]
    unfold entry at h ⊢
    by_cases c : p.1 = no
    · rw [if_pos c]; simp
    · rw [if_neg c] at h ⊢
      rw [if_neg c]
      exact ih h

theorem entry_storeAt_other (tbl : AnimationTable) (no key : Int) (v : Animation)
    (h : key ≠ no) : entry (storeAt tbl no v) key = entry tbl key := by
  induction tbl with
  | nil => rfl
  | cons p rest ih =>
    unfold storeAt at ih ⊢
    rw [List.map_cons]
    unfold entry
    by_cases c : p.1 = no
    · rw [if_pos c]
      have c2 : ¬ p.1 = key := fun e => h (e.symm.trans c)
      simp only []
      rw [if_neg (fun e => h e.symm), if_neg c2]
      exact ih
    · rw [if_neg c]
      by_cases c3 : p.1 = key
      · rw [if_pos c3, if_pos c3]
      · rw [if_neg c3, if_neg c3]
        exact ih

theorem entry_storeAt_isSome (tbl : AnimationTable) (no key : Int) (v : Animation)
    (h : (entry tbl key).isSome = true) : (entry (storeAt tbl no v) key).isSome = true := by
  by_cases c : key = no
  · subst c
    rw [entry_storeAt_self tbl key v h]; rfl
  · rw [entry_storeAt_other tbl no key v c]; exact h

/-- The calls of `readAction` and its inner loop return with the fuel of the
definitions; they move `*i` forward, keep the keys of the table, and return a key of
the table. -/
theorem readLoops_spec (SectionName : List Char → List Char × List Char)
    (Atoi : List Char → Int) (IsNumeric : List Char → Bool) (lines : List (List Char)) :
    ∀ k : Nat,
      (∀ (tbl : AnimationTable) (i : Nat), 2 * (lines.length - i) + 1 ≤ k →
        readActionLoop SectionName Atoi IsNumeric lines k tbl i ≠ .fuel ∧
        ∀ r tbl1 i1, readActionLoop SectionName Atoi IsNumeric lines k tbl i = .ok (r, tbl1, i1) →
          i ≤ i1 ∧ (r ≠ none → i < i1) ∧ (r = none → tbl1 = tbl ∧ lines.length ≤ i1) ∧
          (∀ key, (entry tbl key).isSome = true → (entry tbl1 key).isSome = true) ∧
          (∀ k2, r = some k2 → (entry tbl1 k2).isSome = true)) ∧
      (∀ (tbl : AnimationTable) (no : Int) (i : Nat), 2 * (lines.length - i) + 2 ≤ k →
        (entry tbl no).isSome = true →
        forwardLoop SectionName Atoi IsNumeric lines k tbl no i ≠ .fuel ∧
        ∀ r tbl1 i1, forwardLoop SectionName Atoi IsNumeric lines k tbl no i = .ok (r, tbl1, i1) →
          i ≤ i1 ∧ r = some no ∧
          (∀ key, (entry tbl key).isSome = true → (entry tbl1 key).isSome = true)) := by
  intro k
  induction k with
  | zero =>
    exact ⟨fun tbl i h => absurd h (by omega), fun tbl no i h => absurd h (by omega)⟩
  | succ k ih =>
    obtain ⟨ihR, ihF⟩ := ih
    constructor
    · intro tbl i hk
      unfold readActionLoop
      by_cases c : i < lines.length
      · rw [if_pos c]
        obtain ⟨hnf, hidx⟩ := ReadAction_index SectionName Atoi IsNumeric lines i
        cases hra : ReadAction SectionName Atoi IsNumeric lines i with
        | fuel => exact absurd hra hnf
        | panic =>
          simp only []
          exact ⟨fun h => (by cases h), fun r tbl1 i1 h => (by cases h)⟩
        | ok p =>
          obtain ⟨j, q⟩ := p
          obtain ⟨hj, hj2⟩ := hidx j q hra
          cases q with
          | none =>
            simp only []
            obtain ⟨g1, g2⟩ := ihR tbl (j + 1) (by omega)
            refine ⟨g1, fun r tbl1 i1 h => ?_⟩
            obtain ⟨a1, a2, a3, a4, a5⟩ := g2 r tbl1 i1 h
            exact ⟨by omega, fun _ => by omega, a3, a4, a5⟩
          | some na =>
            obtain ⟨no, a⟩ := na
            have hj3 := hj2 (by simp)
            simp only []
            cases he : entry tbl no with
            | some tmp =>
              simp only []
              refine ⟨fun h => (by cases h), fun r tbl1 i1 h => ?_⟩
              simp only [Outcome.ok.injEq, Prod.mk.injEq] at h
              obtain ⟨h1, h2, h3⟩ := h
              subst h1 h2 h3
              refine ⟨by omega, fun _ => hj3, fun h => (by cases h), fun key hkey => hkey, ?_⟩
              intro k2 hk2
              cases hk2
              rw [he]; rfl
            | none =>
              simp only []
              have hin : (entry (tbl ++ [(no, a)]) no).isSome = true := by
                rw [entry_append_none tbl no a he]; rfl
              obtain ⟨g1, g2⟩ := ihF (tbl ++ [(no, a)]) no j (by omega) hin
              refine ⟨g1, fun r tbl1 i1 h => ?_⟩
              obtain ⟨a1, a2, a3⟩ := g2 r tbl1 i1 h
              subst a2
              refine ⟨by omega, fun _ => by omega, fun h => (by cases h), ?_, ?_⟩
              · intro key hkey
                exact a3 key (entry_append_isSome tbl _ key hkey)
              · intro k2 hk2
                cases hk2
                exact a3 no hin
      · rw [if_neg c]
        refine ⟨fun h => (by cases h), fun r tbl1 i1 h => ?_⟩
        simp only [Outcome.ok.injEq, Prod.mk.injEq] at h
        obtain ⟨h1, h2, h3⟩ := h
        subst h1 h2 h3
        exact ⟨le_refl _, fun h => absurd rfl h, fun _ => ⟨rfl, by omega⟩, fun key hkey => hkey,
          fun k2 h => (by cases h)⟩
    · intro tbl no i hk hno
      unfold forwardLoop
      by_cases c : (deref tbl no).frames.length = 0 ∧ i < lines.length
      · rw [if_pos c]
        obtain ⟨g1, g2⟩ := ihR tbl i (by omega)
        cases hr : readActionLoop SectionName Atoi IsNumeric lines k tbl i with
        | fuel => exact absurd hr g1
        | panic =>
          simp only []
          exact ⟨fun h => (by cases h), fun r tbl1 i1 h => (by cases h)⟩
        | ok p =>
          obtain ⟨r2, tbl2, i2⟩ := p
          obtain ⟨a1, a2, a3, a4, a5⟩ := g2 r2 tbl2 i2 hr
          cases r2 with
          | some k2 =>
            simp only []
            refine ⟨fun h => (by cases h), fun r tbl1 i1 h => ?_⟩
            simp only [Outcome.ok.injEq, Prod.mk.injEq] at h
            obtain ⟨h1, h2, h3⟩ := h
            subst h1 h2 h3
            refine ⟨a1, rfl, fun key hkey => ?_⟩
            exact entry_storeAt_isSome tbl2 no key _ (a4 key hkey)
          | none =>
            simp only []
            obtain ⟨b1, b2⟩ := a3 rfl
            obtain ⟨f1, f2⟩ := ihF tbl2 no (i2 + 1) (by omega) (a4 no hno)
            refine ⟨f1, fun r tbl1 i1 h => ?_⟩
            obtain ⟨e1, e2, e3⟩ := f2 r tbl1 i1 h
            exact ⟨by omega, e2, fun key hkey => e3 key (a4 key hkey)⟩
      · rw [if_neg c]
        refine ⟨fun h => (by cases h), fun r tbl1 i1 h => ?_⟩
        simp only [Outcome.ok.injEq, Prod.mk.injEq] at h
        obtain ⟨h1, h2, h3⟩ := h
        subst h1 h2 h3
        exact ⟨le_refl _, rfl, fun key hkey => hkey⟩

/-- More fuel does not change a result of the loops of `readAction`. -/
theorem readLoops_succ (SectionName : List Char → List Char × List Char)
    (Atoi : List Char → Int) (IsNumeric : List Char → Bool) (lines : List (List Char)) :
    ∀ k : Nat,
      (∀ (tbl : AnimationTable) (i : Nat),
        readActionLoop SectionName Atoi IsNumeric lines k tbl i ≠ .fuel →
        readActionLoop SectionName Atoi IsNumeric lines (k + 1) tbl i =
          readActionLoop SectionName Atoi IsNumeric lines k tbl i) ∧
      (∀ (tbl : AnimationTable) (no : Int) (i : Nat),
        forwardLoop SectionName Atoi IsNumeric lines k tbl no i ≠ .fuel →
        forwardLoop SectionName Atoi IsNumeric lines (k + 1) tbl no i =
          forwardLoop SectionName Atoi IsNumeric lines k tbl no i) := by
  intro k
  induction k with
  | zero =>
    constructor
    · intro tbl i h
      unfold readActionLoop at h
      exact absurd rfl h
    · intro tbl no i h
      unfold forwardLoop at h
      exact absurd rfl h
  | succ k ih =>
    obtain ⟨ihR, ihF⟩ := ih
    constructor
    · intro tbl i h
      rw [readActionLoop] at h
      rw [readActionLoop]
      conv => rhs; rw [readActionLoop]
      by_cases c : i < lines.length
      · rw [if_pos c] at h
        rw [if_pos c, if_pos c]
        cases hra : ReadAction SectionName Atoi IsNumeric lines i with
        | fuel => rfl
        | panic => rfl
        | ok p =>
          obtain ⟨j, q⟩ := p
          rw [hra] at h
          cases q with
          | none =>
            simp only [] at h ⊢
            exact ihR tbl (j + 1) h
          | some na =>
            obtain ⟨no, a⟩ := na
            simp only [] at h ⊢
            cases he : entry tbl no with
            | some tmp => rfl
            | none =>
              rw [he] at h
              simp only [] at h ⊢
              exact ihF _ no j h
      · rw [if_neg c, if_neg c]
    · intro tbl no i h
      rw [forwardLoop] at h
      rw [forwardLoop]
      conv => rhs; rw [forwardLoop]
      by_cases c : (deref tbl no).frames.length = 0 ∧ i < lines.length
      · rw [if_pos c] at h
        rw [if_pos c, if_pos c]
        have hr : readActionLoop SectionName Atoi IsNumeric lines k tbl i ≠ .fuel := by
          intro e
          rw [e] at h
          exact h rfl
        rw [ihR tbl i hr]
        cases hra : readActionLoop SectionName Atoi IsNumeric lines k tbl i with
        | fuel => rfl
        | panic => rfl
        | ok p =>
          obtain ⟨r2, tbl2, i2⟩ := p
          rw [hra] at h
          cases r2 with
          | some k2 => rfl
          | none =>
            simp only [] at h ⊢
            exact ihF tbl2 no (i2 + 1) h
      · rw [if_neg c, if_neg c]

theorem readActionLoop_more (SectionName : List Char → List Char × List Char)
    (Atoi : List Char → Int) (IsNumeric : List Char → Bool) (lines : List (List Char))
    (tbl : AnimationTable) (i k : Nat)
    (h : readActionLoop SectionName Atoi IsNumeric lines k tbl i ≠ .fuel) :
    ∀ m : Nat, readActionLoop SectionName Atoi IsNumeric lines (k + m) tbl i =
      readActionLoop SectionName Atoi IsNumeric lines k tbl i := by
  intro m
  induction m with
  | zero => rfl
  | succ m ih =>
    rw [← Nat.add_assoc, (readLoops_succ SectionName Atoi IsNumeric lines (k + m)).1 tbl i
      (by rw [ih]; exact h), ih]

theorem forwardLoop_more (SectionName : List Char → List Char × List Char)
    (Atoi : List Char → Int) (IsNumeric : List Char → Bool) (lines : List (List Char))
    (tbl : AnimationTable) (no : Int) (i k : Nat)
    (h : forwardLoop SectionName Atoi IsNumeric lines k tbl no i ≠ .fuel) :
    ∀ m : Nat, forwardLoop SectionName Atoi IsNumeric lines (k + m) tbl no i =
      forwardLoop SectionName Atoi IsNumeric lines k tbl no i := by
  intro m
  induction m with
  | zero => rfl
  | succ m ih =>
    rw [← Nat.add_assoc, (readLoops_succ SectionName Atoi IsNumeric lines (k + m)).2 tbl no i
      (by rw [ih]; exact h), ih]

theorem tableLoop_ne_fuel (SectionName : List Char → List Char × List Char)
    (Atoi : List Char → Int) (IsNumeric : List Char → Bool) (lines : List (List Char)) :
    ∀ (k : Nat) (tbl : AnimationTable) (i : Nat), lines.length - i + 1 ≤ k →
      tableLoop SectionName Atoi IsNumeric lines k tbl i ≠ .fuel := by
  intro k
  induction k with
  | zero => intro tbl i h; omega
  | succ k ih =>
    intro tbl i hk
    obtain ⟨g1, g2⟩ := (readLoops_spec SectionName Atoi IsNumeric lines
      (2 * (lines.length - i) + 2)).1 tbl i (by omega)
    unfold tableLoop AnimationTable.readAction
    by_cases c : i < lines.length
    swap
    · rw [readActionLoop, if_neg c]
      intro h
      cases h
    cases hr : readActionLoop SectionName Atoi IsNumeric lines
        (2 * (lines.length - i) + 2) tbl i with
    | fuel => exact absurd hr g1
    | panic => intro h; cases h
    | ok p =>
      obtain ⟨r, tbl1, i1⟩ := p
      obtain ⟨a1, a2, _⟩ := g2 r tbl1 i1 hr
      cases r with
      | none => intro h; cases h
      | some k2 =>
        simp only []
        have := a2 (by simp)
        exact ih tbl1 i1 (by omega)

theorem readAction_step (SectionName : List Char → List Char × List Char)
    (Atoi : List Char → Int) (IsNumeric : List Char → Bool) (lines : List (List Char))
    (tbl : AnimationTable) (i i1 : Nat) (no : Int) (a : Animation)
    (hi : i < lines.length)
    (hra : ReadAction SectionName Atoi IsNumeric lines i = .ok (i1, some (no, a))) :
    AnimationTable.readAction SectionName Atoi IsNumeric lines tbl i =
      match entry tbl no with
      | some _ => .ok (some no, tbl, i1)
      | none =>
        forwardLoop SectionName Atoi IsNumeric lines (2 * (lines.length - i) + 1)
          (tbl ++ [(no, a)]) no i1 := by
  unfold AnimationTable.readAction
  rw [readActionLoop, if_pos hi, hra]

theorem forwardLoop_step (SectionName : List Char → List Char × List Char)
    (Atoi : List Char → Int) (IsNumeric : List Char → Bool) (lines : List (List Char))
    (tbl : AnimationTable) (i i1 : Nat) (no : Int) (a : Animation)
    (hi1 : i < i1) (hl : i1 < lines.length) (he : entry tbl no = none)
    (ha : a.frames = []) :
    forwardLoop SectionName Atoi IsNumeric lines (2 * (lines.length - i) + 1)
        (tbl ++ [(no, a)]) no i1 =
      match AnimationTable.readAction SectionName Atoi IsNumeric lines (tbl ++ [(no, a)]) i1 with
      | .panic => .panic
      | .fuel => .fuel
      | .ok (some k2, tbl2, i2) => .ok (some no, storeAt tbl2 no (deref tbl2 k2), i2)
      | .ok (none, tbl2, i2) =>
        forwardLoop SectionName Atoi IsNumeric lines (2 * (lines.length - i)) tbl2 no (i2 + 1) := by
  have hd : deref (tbl ++ [(no, a)]) no = a := by
    unfold deref
    rw [entry_append_none tbl no a he]
    rfl
  have hnf := ((readLoops_spec SectionName Atoi IsNumeric lines
    (2 * (lines.length - i1) + 2)).1 (tbl ++ [(no, a)]) i1 (by omega)).1
  have hm := readActionLoop_more SectionName Atoi IsNumeric lines (tbl ++ [(no, a)]) i1
    (2 * (lines.length - i1) + 2) hnf (2 * (lines.length - i) - (2 * (lines.length - i1) + 2))
  have hk : 2 * (lines.length - i1) + 2 +
      (2 * (lines.length - i) - (2 * (lines.length - i1) + 2)) = 2 * (lines.length - i) := by
    omega
  rw [hk] at hm
  rw [forwardLoop, if_pos ⟨by rw [hd, ha]; rfl, hl⟩, hm]
  rfl

/-! ## Claim on the animation table -/

/-- C24: `readAction` and `ReadAnimationTable` return on every input (a result or the
panic of a `ReadAnimation` call, never the exhaustion of the iteration budget).  For
an action block read at `*i` with number `no`: when the table already has an entry
for `no`, finished or still being built, that entry is returned and the table is left
as it is; a new block with frames is stored as read; and a new block without frame
lines, when the nested call of `readAction` returns the entry of a key `k2`, ends up
in the table with the animation of that entry, and so with its frame sequence. -/
theorem C24_readAction_forwarding (SectionName : List Char → List Char × List Char)
    (Atoi : List Char → Int) (IsNumeric : List Char → Bool) (lines : List (List Char))
    (tbl : AnimationTable) (i : Nat) :
    AnimationTable.readAction SectionName Atoi IsNumeric lines tbl i ≠ .fuel ∧
    ReadAnimationTable SectionName Atoi IsNumeric lines i ≠ .fuel ∧
    ∀ (i1 : Nat) (no : Int) (a : Animation), i < lines.length →
      ReadAction SectionName Atoi IsNumeric lines i = .ok (i1, some (no, a)) →
      (∀ tmp, entry tbl no = some tmp →
        AnimationTable.readAction SectionName Atoi IsNumeric lines tbl i =
          .ok (some no, tbl, i1)) ∧
      (entry tbl no = none → a.frames ≠ [] →
        AnimationTable.readAction SectionName Atoi IsNumeric lines tbl i =
          .ok (some no, tbl ++ [(no, a)], i1)) ∧
      (entry tbl no = none → a.frames = [] → i1 < lines.length →
        ∀ (k2 : Int) (tbl2 : AnimationTable) (i2 : Nat),
          AnimationTable.readAction SectionName Atoi IsNumeric lines (tbl ++ [(no, a)]) i1 =
            .ok (some k2, tbl2, i2) →
          ∃ v, entry tbl2 k2 = some v ∧
            AnimationTable.readAction SectionName Atoi IsNumeric lines tbl i =
              .ok (some no, storeAt tbl2 no v, i2) ∧
            entry (storeAt tbl2 no v) no = some v) := by
  refine ⟨?_, ?_, ?_⟩
  · exact ((readLoops_spec SectionName Atoi IsNumeric lines
      (2 * (lines.length - i) + 2)).1 tbl i (by omega)).1
  · exact tableLoop_ne_fuel SectionName Atoi IsNumeric lines _ [] i (le_refl _)
  · intro i1 no a hi hra
    have hstep := readAction_step SectionName Atoi IsNumeric lines tbl i i1 no a hi hra
    have hi1 : i < i1 :=
      ((ReadAction_index SectionName Atoi IsNumeric lines i).2 i1 _ hra).2 (by simp)
    refine ⟨?_, ?_, ?_⟩
    · intro tmp he
      rw [hstep, he]
    · intro he ha
      rw [hstep, he]
      simp only []
      have hd : deref (tbl ++ [(no, a)]) no = a := by
        unfold deref
        rw [entry_append_none tbl no a he]
        rfl
      rw [forwardLoop, if_neg]
      rw [hd]
      intro hc
      exact ha (List.length_eq_zero.mp hc.1)
    · intro he ha hl k2 tbl2 i2 hin
      have hin2 := hin
      unfold AnimationTable.readAction at hin2
      obtain ⟨_, _, _, keep, ret⟩ := ((readLoops_spec SectionName Atoi IsNumeric lines
        (2 * (lines.length - i1) + 2)).1 (tbl ++ [(no, a)]) i1 (by omega)).2
        (some k2) tbl2 i2 hin2
      have hk2 := ret k2 rfl
      have hno : (entry tbl2 no).isSome = true := by
        apply keep
        rw [entry_append_none tbl no a he]
        rfl
      obtain ⟨v, hv⟩ := Option.isSome_iff_exists.mp hk2
      have hdv : deref tbl2 k2 = v := by
        unfold deref
        rw [hv]
        rfl
      refine ⟨v, hv, ?_, entry_storeAt_self tbl2 no v hno⟩
      rw [hstep, he]
      simp only []
      rw [forwardLoop_step SectionName Atoi IsNumeric lines tbl i i1 no a hi1 hl he ha, hin]
      simp only [hdv]

set_option maxRecDepth 8000 in
/-- C24, an instance: in `linesTable` the block 1 has no frame lines and forwards to
the block 2, whose animation both entries hold at the end, and the second block for
the number 1 is answered with the entry that is there; in `linesRevisit` the block 1
is met again while its entry is being built, and the entry stays as built so far. -/
theorem C24_readAction_forwarding_witness :
    (ReadAnimationTable decSectionName decAtoi decIsNumeric linesTable 0).val? =
      some ([(1, animOneFrame), (2, animOneFrame)], 5) ∧
    (AnimationTable.readAction decSectionName decAtoi decIsNumeric linesTable
        [(1, animOneFrame), (2, animOneFrame)] 3).val? =
      some (some 1, [(1, animOneFrame), (2, animOneFrame)], 5) ∧
    (ReadAnimationTable decSectionName decAtoi decIsNumeric linesRevisit 0).val? =
      some ([(1, animEmpty)], 3) ∧
    (ReadAction decSectionName decAtoi decIsNumeric linesTable 0).val? =
      some (1, some (1, animEmpty)) ∧
    (AnimationTable.readAction decSectionName decAtoi decIsNumeric linesTable
        ([] ++ [(1, animEmpty)]) 1).val? =
      some (some 2, [(1, animEmpty), (2, animOneFrame)], 3) ∧
    ∃ v, entry [(1, animEmpty), (2, animOneFrame)] 2 = some v ∧
      AnimationTable.readAction decSectionName decAtoi decIsNumeric linesTable [] 0 =
        .ok (some 1, storeAt [(1, animEmpty), (2, animOneFrame)] 1 v, 3) ∧
      entry (storeAt [(1, animEmpty), (2, animOneFrame)] 1 v) 1 = some v :=
  ⟨by decide, by decide, by decide, by decide, by decide,
    ((C24_readAction_forwarding decSectionName decAtoi decIsNumeric linesTable [] 0).2.2
      1 1 animEmpty (by decide) (by decide)).2.2 rfl rfl (by decide) 2
      [(1, animEmpty), (2, animOneFrame)] 3 (by decide)⟩

end Ikemen
